import Mathlib

/-!
# bicycletub: B+ tree index, index iterator, ARC replacer, buffer pool and join

A shallow embedding of the C++ sources under `src/` and theorems about it.

Conventions of the embedding.

* `int`, `page_id_t`, `frame_id_t` are `Int`; `size_t` is `Nat` taken modulo `2 ^ 64` where the
  source subtracts.
* A page is the typed view the source takes of the 4096-byte buffer.  The fixed-capacity C arrays
  `key_array_`, `rid_array_`, `page_id_array_` are lists; a slot that was never written reads as
  the zero bytes of a fresh page (`rd`), and a write extends the list up to the slot written
  (`wr`).  A page whose lists are longer than the slot count of its 4096-byte buffer has been
  written past the end of an array: the operation that stores it ends in `Err.buffer_overflow`.
* For the B+ tree, the buffer pool is taken as a reliable page store with enough frames:
  `bpm_->NewPage()` hands out the next page id, `ReadPage` / `WritePage` of an id outside
  `[0, next_page_id_)` throw `std::runtime_error`, and a page keeps what was last written to it.
  Pin counts, dirty bits and latches are not part of the tree state.
* The buffer pool itself (`BufferPoolManager`, with the frames, the page table, the free list,
  the replacer, the disk manager and the guards) is embedded member by member.  The buffer of a
  frame and a page on disk are lists of bytes; the disk scheduler hands each request to the disk
  manager and the caller waits for it, so a request is carried out where it is scheduled.  The
  reader-writer latch of a frame is the number of its shared holders and whether it is held
  exclusively; there is one caller, so the exclusive acquisition of a latch the caller holds
  shared waits for ever and never returns (`Err.deadlock`), and an acquisition of a latch the
  caller holds exclusively throws `std::system_error` (`Err.system_error`), as
  `std::shared_mutex` of libstdc++ does when the lock reports `EDEADLK`.  The mutex of the
  buffer pool is free between operations and is left out.
* The rows of the join are read from the bytes of a page at the offsets of the members of
  `SimpleRow` and `LongRow`, an `int32_t` being four bytes, least significant first.
* A C++ exception is an `Except.error`; so are a failed assertion, a null dereference, a
  division by zero, a write past the end of an array and a second lock of a `std::mutex` by its
  owner.  A loop of the source that
  does not terminate is `Err.diverges`.  An operation that ends in an error has no result
  state; the pool that `ReadPage` or `WritePage` leaves behind when the latch acquisition of the
  guard constructor throws is given apart (`BufferPoolManager.pinnedBeforeLatch`).
-/

namespace bicycletub

/-! ## types.h -/

/-- The constant `INVALID_PAGE_ID` of types.h. -/
def INVALID_PAGE_ID : Int := -1

/-- The struct `RID` of types.h: a page id and a slot number. -/
structure RID where
  page_id : Int
  slot_num : Int
deriving DecidableEq

/-- The value `RID{}`: both members take their default initialisers. -/
def RID.default : RID := ⟨INVALID_PAGE_ID, -1⟩

/-- The bytes of an `RID` slot of a fresh (zeroed) page. -/
def RID.zero : RID := ⟨0, 0⟩

/-- `RID::IsValid`. -/
def RID.IsValid (r : RID) : Bool := r.page_id ≠ INVALID_PAGE_ID ∧ r.slot_num ≠ -1

/-- Exceptions thrown by the sources, and divergence of a loop.  `system_error` is the
`std::system_error` that the latch of a frame throws when the thread that holds it exclusively
locks it again. -/
inductive Err where
  | out_of_range
  | runtime_error
  | system_error
  | logic_error
  | assertion_failed
  | null_dereference
  | division_by_zero
  | buffer_overflow
  | deadlock
  | diverges
deriving DecidableEq

deriving instance DecidableEq for Except

/-- Whether the exception is a `std::runtime_error`, that is, whether
`catch (const std::runtime_error &)` catches it: `std::system_error` is derived from
`std::runtime_error`, while `std::out_of_range` and `std::logic_error` are not. -/
def Err.isRuntimeError : Err → Bool
  | Err.runtime_error => true
  | Err.system_error => true
  | _ => false

/-- The functor `IntegerKeyComparator::operator()` of b_plus_tree_key.h. -/
def comparator (a b : Int) : Int :=
  if a < b then -1 else if a > b then 1 else 0

/-- Value of a 32-bit signed addition or subtraction: the result wraps modulo `2 ^ 32`. -/
def wrapInt32 (x : Int) : Int := (x + 2147483648) % 4294967296 - 2147483648

/-! ## C arrays -/

/-- Read of slot `i` of a C array; `d` is the content of a slot that was never written. -/
def rd {α : Type} (d : α) (a : List α) (i : Int) : α := a.getD i.toNat d

/-- Write of `v` to slot `i` of a C array. -/
def wr {α : Type} (d : α) (a : List α) (i : Int) (v : α) : List α :=
  (a ++ List.replicate (i.toNat + 1 - a.length) d).set i.toNat v

/-! ## b_plus_tree_page.h, b_plus_tree_leaf_page.h, b_plus_tree_internal_page.h -/

/-- The enum `IndexPageType`. -/
inductive IndexPageType where
  | INVALID_INDEX_PAGE
  | LEAF_PAGE
  | INTERNAL_PAGE
deriving DecidableEq

/-- A B+ tree page: the header fields of `BPlusTreePage`, the `next_page_id_`, `key_array_` and
`rid_array_` of a leaf page and the `key_array_` and `page_id_array_` of an internal page. -/
structure Page where
  page_type_ : IndexPageType
  size_ : Int
  max_size_ : Int
  next_page_id_ : Int
  key_array_ : List Int
  rid_array_ : List RID
  page_id_array_ : List Int
deriving DecidableEq

namespace Page

/-- A page of zero bytes, as `WritePage` delivers for a page id fresh from `NewPage`. -/
def zero : Page := ⟨IndexPageType.INVALID_INDEX_PAGE, 0, 0, 0, [], [], []⟩

/-- `BPlusTreePage::IsLeafPage`. -/
def IsLeafPage (p : Page) : Bool := p.page_type_ = IndexPageType.LEAF_PAGE

/-- `BPlusTreePage::GetSize`. -/
def GetSize (p : Page) : Int := p.size_

/-- `BPlusTreePage::ChangeSizeBy`. -/
def ChangeSizeBy (p : Page) (amount : Int) : Page := { p with size_ := p.size_ + amount }

/-- `BPlusTreePage::GetMaxSize`. -/
def GetMaxSize (p : Page) : Int := p.max_size_

/-- `BPlusTreePage::GetMinSize`: `(max_size_ + 1) / 2` in `int` arithmetic. -/
def GetMinSize (p : Page) : Int := Int.tdiv (wrapInt32 (p.max_size_ + 1)) 2

/-- Assignment `key_array_[i] = k`. -/
def setKey (p : Page) (i : Int) (k : Int) : Page := { p with key_array_ := wr 0 p.key_array_ i k }

/-- Assignment `rid_array_[i] = v`. -/
def setRid (p : Page) (i : Int) (v : RID) : Page :=
  { p with rid_array_ := wr RID.zero p.rid_array_ i v }

/-- Assignment `page_id_array_[i] = c`. -/
def setChild (p : Page) (i : Int) (c : Int) : Page :=
  { p with page_id_array_ := wr 0 p.page_id_array_ i c }

/-- Read `key_array_[i]`. -/
def key (p : Page) (i : Int) : Int := rd 0 p.key_array_ i

/-- Read `rid_array_[i]`. -/
def rid (p : Page) (i : Int) : RID := rd RID.zero p.rid_array_ i

/-- Read `page_id_array_[i]`. -/
def child (p : Page) (i : Int) : Int := rd 0 p.page_id_array_ i

/-- The macro `LEAF_PAGE_SLOT_CNT` for `IntegerKey` (4 bytes) and `RID` (8 bytes):
`(4096 - 16) / (4 + 8)`. -/
def LEAF_PAGE_SLOT_CNT : Nat := 340

/-- The macro `INTERNAL_PAGE_SLOT_CNT` for `IntegerKey` (4 bytes) and `page_id_t` (4 bytes):
`(4096 - 12) / (4 + 4)`. -/
def INTERNAL_PAGE_SLOT_CNT : Nat := 510

/-- No slot at or past the end of the arrays of the page has been written. -/
def fitsBuffer (p : Page) : Bool :=
  if p.page_type_ = IndexPageType.LEAF_PAGE then
    decide (p.key_array_.length ≤ LEAF_PAGE_SLOT_CNT ∧ p.rid_array_.length ≤ LEAF_PAGE_SLOT_CNT)
  else
    decide (p.key_array_.length ≤ INTERNAL_PAGE_SLOT_CNT ∧
      p.page_id_array_.length ≤ INTERNAL_PAGE_SLOT_CNT)

end Page

/-- The loop of `KeyIndex` (leaf and internal): binary search over `key_array_[l, r)`.  The first
argument bounds the number of iterations; `r - l` iterations always suffice. -/
def KeyIndexLoop (p : Page) (key : Int) : Nat → Int → Int → Int
  | 0, l, _ => l
  | fuel + 1, l, r =>
    if l < r then
      let mid := l + Int.tdiv (r - l) 2
      let cmp_result := comparator key (p.key mid)
      if cmp_result = 0 then mid
      else if cmp_result < 0 then KeyIndexLoop p key fuel l mid
      else KeyIndexLoop p key fuel (mid + 1) r
    else l

namespace LeafPage

/-- `BPlusTreeLeafPage::Init`. -/
def Init (p : Page) (max_size : Int) : Page :=
  { p with size_ := 0, max_size_ := max_size, page_type_ := IndexPageType.LEAF_PAGE,
           next_page_id_ := INVALID_PAGE_ID }

/-- `BPlusTreeLeafPage::KeyAt`. -/
def KeyAt (p : Page) (index : Int) : Int := p.key index

/-- `BPlusTreeLeafPage::KeyIndex`. -/
def KeyIndex (p : Page) (key : Int) : Int := KeyIndexLoop p key p.GetSize.toNat 0 p.GetSize

end LeafPage

namespace InternalPage

/-- `BPlusTreeInternalPage::Init`. -/
def Init (p : Page) (max_size : Int) : Page :=
  { p with page_type_ := IndexPageType.INTERNAL_PAGE, size_ := 0, max_size_ := max_size }

/-- `BPlusTreeInternalPage::KeyAt`: throws `std::out_of_range` outside `[1, size)`. -/
def KeyAt (p : Page) (index : Int) : Except Err Int :=
  if index < 1 ∨ index ≥ p.GetSize then Except.error Err.out_of_range else Except.ok (p.key index)

/-- `BPlusTreeInternalPage::ValueAt`: throws `std::out_of_range` outside `[0, size)`. -/
def ValueAt (p : Page) (index : Int) : Except Err Int :=
  if index ≥ p.GetSize ∨ index < 0 then Except.error Err.out_of_range
  else Except.ok (p.child index)

/-- `BPlusTreeInternalPage::KeyIndex`. -/
def KeyIndex (p : Page) (key : Int) : Int := KeyIndexLoop p key p.GetSize.toNat 1 p.GetSize

end InternalPage

/-! ## b_plus_tree.h: the tree over the page store -/

/-- State of a `BPlusTree` together with the pages of its buffer pool.  `root_page_id_` is the
content of the header page; `pages` lists the content of every page id handed out so far, so its
length is the pool's `next_page_id_` (the slot at `header_page_id_` stands for the header page). -/
structure BPlusTree where
  leaf_max_size_ : Int
  internal_max_size_ : Int
  header_page_id_ : Int
  root_page_id_ : Int
  pages : List Page
deriving DecidableEq

namespace BPlusTree

/-- A fresh tree as the tests build it: the header page is the first page of a new pool and the
constructor stores `INVALID_PAGE_ID` in it. -/
def fresh (leaf_max_size internal_max_size : Int) : BPlusTree :=
  ⟨leaf_max_size, internal_max_size, 0, INVALID_PAGE_ID, [Page.zero]⟩

/-- Content of a page as `bpm_->ReadPage` / `bpm_->WritePage` make it accessible; an id outside
`[0, next_page_id_)` throws `std::runtime_error`. -/
def page (t : BPlusTree) (page_id : Int) : Except Err Page :=
  if page_id < 0 ∨ page_id ≥ t.pages.length then Except.error Err.runtime_error
  else Except.ok (t.pages.getD page_id.toNat Page.zero)

/-- `bpm_->NewPage()`: the next page id; the new page is zeroed. -/
def NewPage (t : BPlusTree) : Int × BPlusTree :=
  ((t.pages.length : Int), { t with pages := t.pages ++ [Page.zero] })

/-- Store of the content of a page that the operation has modified through its guard.  The
content fits the buffer only if no slot at or past the slot count of the page was written. -/
def setPage (t : BPlusTree) (page_id : Int) (p : Page) : Except Err BPlusTree :=
  if p.fitsBuffer then Except.ok { t with pages := t.pages.set page_id.toNat p }
  else Except.error Err.buffer_overflow

/-- `BPlusTree::IsEmpty`. -/
def IsEmpty (t : BPlusTree) : Bool := t.root_page_id_ = INVALID_PAGE_ID

/-- The index chosen in an internal page by the descent of `FindLeafPage` and `FindAndLock`. -/
def descendIndex (internal_page : Page) (key : Int) : Except Err Int := do
  let index := InternalPage.KeyIndex internal_page key
  let index ←
    if index ≥ internal_page.GetSize then pure (index - 1)
    else do
      let k ← InternalPage.KeyAt internal_page index
      if comparator key k ≠ 0 then pure (index - 1) else pure index
  if index < 0 then pure 0 else pure index

/-- The loop of `BPlusTree::FindLeafPage` from page `page_id`; the result is the page id of the
leaf kept in `read_set_`. -/
def FindLeafPageLoop (t : BPlusTree) (key : Int) : Nat → Int → Except Err Int
  | 0, _ => Except.error Err.diverges
  | fuel + 1, page_id => do
    let page ← t.page page_id
    if page.IsLeafPage then pure page_id
    else do
      let index ← descendIndex page key
      let child ← InternalPage.ValueAt page index
      FindLeafPageLoop t key fuel child

/-- `BPlusTree::FindLeafPage`.  A descent through more pages than the pool holds revisits a page
and never ends. -/
def FindLeafPage (t : BPlusTree) (key : Int) : Except Err Int :=
  FindLeafPageLoop t key (t.pages.length + 1) t.root_page_id_

/-- The loop of `BPlusTree::FindAndLock`; `write_set` holds the page ids of `write_set_` with its
back first. -/
def FindAndLockLoop (t : BPlusTree) (key : Int) : Nat → Int → List Int → Except Err (List Int)
  | 0, _, _ => Except.error Err.diverges
  | fuel + 1, page_id, write_set => do
    let page ← t.page page_id
    if page.IsLeafPage then pure (page_id :: write_set)
    else do
      let index ← descendIndex page key
      let child ← InternalPage.ValueAt page index
      FindAndLockLoop t key fuel child (page_id :: write_set)

/-- `BPlusTree::FindAndLock`: the page ids of `write_set_`, back (the leaf) first. -/
def FindAndLock (t : BPlusTree) (key : Int) : Except Err (List Int) :=
  FindAndLockLoop t key (t.pages.length + 1) t.root_page_id_ []

/-- `BPlusTree::GetValue`: the returned flag and the vector `result` after the call. -/
def GetValue (t : BPlusTree) (key : Int) (result : List RID) : Except Err (Bool × List RID) := do
  if t.root_page_id_ = INVALID_PAGE_ID then pure (false, result)
  else do
    let leaf_id ← t.FindLeafPage key
    let leaf_page ← t.page leaf_id
    let index := LeafPage.KeyIndex leaf_page key
    if index < leaf_page.GetSize ∧ comparator (LeafPage.KeyAt leaf_page index) key = 0 then
      pure (true, result ++ [leaf_page.rid index])
    else pure (false, result)

end BPlusTree

/-! ### Loops of Insert and Remove over the slots of a page

Each function runs the body of a `for` loop of b_plus_tree.cpp the given number of times. -/

/-- Body `dst[i] = src[j]; dst.size++; src[j] = {}` over the key and RID slots of two leaf pages,
with `i` and `j` advancing together (leaf split and leaf merge); returns both pages and the final
`i` and `j`. -/
def moveLeafSlots : Nat → Int → Int → Page → Page → Page × Page × Int × Int
  | 0, i, j, dst, src => (dst, src, i, j)
  | n + 1, i, j, dst, src =>
    let dst := ((dst.setKey i (src.key j)).setRid i (src.rid j)).ChangeSizeBy 1
    let src := (src.setKey j 0).setRid j RID.default
    moveLeafSlots n (i + 1) (j + 1) dst src

/-- Body `dst[i] = src[j]; dst.size++; src[j] = {}` over the key and child slots of two internal
pages (internal split and `Merge`); returns both pages and the final `i` and `j`. -/
def moveInternalSlots : Nat → Int → Int → Page → Page → Page × Page × Int × Int
  | 0, i, j, dst, src => (dst, src, i, j)
  | n + 1, i, j, dst, src =>
    let dst := ((dst.setKey i (src.key j)).setChild i (src.child j)).ChangeSizeBy 1
    let src := (src.setKey j 0).setChild j INVALID_PAGE_ID
    moveInternalSlots n (i + 1) (j + 1) dst src

/-- Loop `for (; i > stop; i--) { key[i] = key[i-1]; rid[i] = rid[i-1]; }` of a leaf page. -/
def shiftRightLeaf : Nat → Int → Page → Page
  | 0, _, p => p
  | n + 1, i, p => shiftRightLeaf n (i - 1) ((p.setKey i (p.key (i - 1))).setRid i (p.rid (i - 1)))

/-- Loop `for (; i > stop; i--) { key[i] = key[i-1]; page_id[i] = page_id[i-1]; }` of an internal
page. -/
def shiftRightInternal : Nat → Int → Page → Page
  | 0, _, p => p
  | n + 1, i, p =>
    shiftRightInternal n (i - 1) ((p.setKey i (p.key (i - 1))).setChild i (p.child (i - 1)))

/-- Loop `for (; i < size - 1; i++) { key[i] = key[i+1]; rid[i] = rid[i+1]; }` of a leaf page. -/
def shiftLeftLeaf : Nat → Int → Page → Page
  | 0, _, p => p
  | n + 1, i, p => shiftLeftLeaf n (i + 1) ((p.setKey i (p.key (i + 1))).setRid i (p.rid (i + 1)))

/-- Loop `for (; i < size - 1; i++) { key[i] = key[i+1]; page_id[i] = page_id[i+1]; }` of an
internal page. -/
def shiftLeftInternal : Nat → Int → Page → Page
  | 0, _, p => p
  | n + 1, i, p =>
    shiftLeftInternal n (i + 1) ((p.setKey i (p.key (i + 1))).setChild i (p.child (i + 1)))

namespace BPlusTree

/-! ### Insert -/

/-- The block "create a new root if need" of `Insert`: a new internal page whose only child is
`l_child_page_id` becomes the root; returns its page id. -/
def newRoot (t : BPlusTree) (l_child_page_id : Int) : Except Err (Int × BPlusTree) := do
  let (new_root_page_id, t) := t.NewPage
  let t := { t with root_page_id_ := new_root_page_id }
  let new_root_page ← t.page new_root_page_id
  let new_root_page := InternalPage.Init new_root_page t.internal_max_size_
  let new_root_page := (new_root_page.setChild 0 l_child_page_id).ChangeSizeBy 1
  let t ← t.setPage new_root_page_id new_root_page
  pure (new_root_page_id, t)

/-- The block "insert into parent" of `Insert` (it occurs twice in the source, for the parent of
the leaf and in the loop over the ancestors): adds `(up_key, new_child_id)` to the internal page
`parent_id`, splitting it when full.  Returns the new values of `up_key` and `new_child_id`, which
the source sets or clears together. -/
def insertIntoParent (t : BPlusTree) (parent_id up_key new_child_id : Int) :
    Except Err (BPlusTree × Option (Int × Int)) := do
  let parent_page ← t.page parent_id
  let key_insert_index := InternalPage.KeyIndex parent_page up_key
  if parent_page.GetSize ≥ parent_page.GetMaxSize then
    let (new_internal_page_id, t) := t.NewPage
    let new_internal_page ← t.page new_internal_page_id
    let new_internal_page := InternalPage.Init new_internal_page t.internal_max_size_
    let mid_index := parent_page.GetMinSize
    if mid_index = key_insert_index then
      let new_internal_page := (new_internal_page.setChild 0 new_child_id).ChangeSizeBy 1
      let (new_internal_page, parent_page, j, _) :=
        moveInternalSlots (parent_page.GetSize - mid_index).toNat 1 mid_index
          new_internal_page parent_page
      let parent_page := parent_page.ChangeSizeBy (-j + 1)
      let t ← t.setPage parent_id parent_page
      let t ← t.setPage new_internal_page_id new_internal_page
      pure (t, some (up_key, new_internal_page_id))
    else if key_insert_index < mid_index then
      let mid_index := mid_index - 1
      let tmp ← InternalPage.KeyAt parent_page mid_index
      let new_internal_page :=
        (new_internal_page.setChild 0 (parent_page.child mid_index)).ChangeSizeBy 1
      let parent_page := (parent_page.setChild mid_index INVALID_PAGE_ID).setKey mid_index 0
      let (new_internal_page, parent_page, j, _) :=
        moveInternalSlots (parent_page.GetSize - (mid_index + 1)).toNat 1 (mid_index + 1)
          new_internal_page parent_page
      let parent_page := parent_page.ChangeSizeBy (-j)
      let parent_page := shiftRightInternal (mid_index - key_insert_index).toNat mid_index parent_page
      let parent_page :=
        ((parent_page.setKey key_insert_index up_key).setChild key_insert_index
          new_child_id).ChangeSizeBy 1
      let t ← t.setPage parent_id parent_page
      let t ← t.setPage new_internal_page_id new_internal_page
      pure (t, some (tmp, new_internal_page_id))
    else
      let tmp ← InternalPage.KeyAt parent_page mid_index
      let new_internal_page :=
        (new_internal_page.setChild 0 (parent_page.child mid_index)).ChangeSizeBy 1
      let parent_page := (parent_page.setChild mid_index INVALID_PAGE_ID).setKey mid_index 0
      let (new_internal_page, parent_page, j, i) :=
        moveInternalSlots (key_insert_index - (mid_index + 1)).toNat 1 (mid_index + 1)
          new_internal_page parent_page
      let new_internal_page :=
        ((new_internal_page.setKey j up_key).setChild j new_child_id).ChangeSizeBy 1
      let j := j + 1
      let (new_internal_page, parent_page, _, _) :=
        moveInternalSlots (parent_page.GetSize - i).toNat j i new_internal_page parent_page
      let moved_out := parent_page.GetSize - mid_index
      let parent_page := parent_page.ChangeSizeBy (-moved_out)
      let t ← t.setPage parent_id parent_page
      let t ← t.setPage new_internal_page_id new_internal_page
      pure (t, some (tmp, new_internal_page_id))
  else
    let parent_page :=
      shiftRightInternal (parent_page.GetSize - key_insert_index).toNat parent_page.GetSize
        parent_page
    let parent_page :=
      ((parent_page.setKey key_insert_index up_key).setChild key_insert_index
        new_child_id).ChangeSizeBy 1
    let t ← t.setPage parent_id parent_page
    pure (t, none)

/-- The part of `Insert` from "create a new root if need" to the end of "insert into parent", for
the child `l_child_page_id` whose parent is the back of `write_set` (none when the child is the
root).  Returns the tree, the pending `(up_key, new_child_id)`, the parent and the rest of
`write_set`. -/
def insertStep (t : BPlusTree) (l_child_page_id up_key new_child_id : Int) (parent : Option Int) :
    Except Err (BPlusTree × Option (Int × Int) × Int) := do
  let (parent, t) ←
    match parent with
    | some parent => pure (parent, t)
    | none => t.newRoot l_child_page_id
  let (t, up) ← t.insertIntoParent parent up_key new_child_id
  pure (t, up, parent)

/-- The loop "insert into internal if need" of `Insert`: `while (up_key.has_value() &&
current.has_value())`. -/
def insertLoop : Nat → BPlusTree → Option (Int × Int) → Int → List Int → Except Err BPlusTree
  | _, t, none, _, _ => pure t
  | 0, _, some _, _, _ => Except.error Err.diverges
  | fuel + 1, t, some (up_key, new_child_id), current, write_set => do
    let l_child_page_id := current
    let (t, up, parent) ← t.insertStep l_child_page_id up_key new_child_id write_set.head?
    insertLoop fuel t up parent write_set.tail

/-- `BPlusTree::Insert`: the returned flag and the tree afterwards. -/
def Insert (t : BPlusTree) (key : Int) (value : RID) : Except Err (Bool × BPlusTree) := do
  if t.IsEmpty then
    let (new_root_page_id, t) := t.NewPage
    let t := { t with root_page_id_ := new_root_page_id }
    let new_root_page ← t.page new_root_page_id
    let new_root_page := LeafPage.Init new_root_page t.leaf_max_size_
    let new_root_page := ((new_root_page.setKey 0 key).setRid 0 value).ChangeSizeBy 1
    let t ← t.setPage new_root_page_id new_root_page
    pure (true, t)
  else
    let write_set ← t.FindAndLock key
    match write_set with
    | [] => Except.error Err.diverges
    | leaf_page_id :: write_set =>
      let leaf_page ← t.page leaf_page_id
      let parent := write_set.head?
      let write_set := write_set.tail
      let index := LeafPage.KeyIndex leaf_page key
      if index < leaf_page.GetSize ∧ comparator (LeafPage.KeyAt leaf_page index) key = 0 then
        pure (false, t)
      else
        let l_child_page_id := leaf_page_id
        if leaf_page.GetSize ≥ leaf_page.GetMaxSize then
          -- split leaf before insert
          let (new_leaf_page_id, t) := t.NewPage
          let new_leaf_page ← t.page new_leaf_page_id
          let new_leaf_page := LeafPage.Init new_leaf_page t.leaf_max_size_
          let (new_leaf_page, leaf_page, i, _) :=
            moveLeafSlots (leaf_page.GetSize - leaf_page.GetMinSize).toNat 0 leaf_page.GetMinSize
              new_leaf_page leaf_page
          let leaf_page := leaf_page.ChangeSizeBy (-i)
          let new_leaf_page := { new_leaf_page with next_page_id_ := leaf_page.next_page_id_ }
          let leaf_page := { leaf_page with next_page_id_ := new_leaf_page_id }
          if index ≥ leaf_page.GetMinSize then
            -- the new key goes to the new leaf
            let index := index - leaf_page.GetMinSize
            let new_leaf_page :=
              shiftRightLeaf (new_leaf_page.GetSize - index).toNat new_leaf_page.GetSize
                new_leaf_page
            let new_leaf_page := ((new_leaf_page.setKey index key).setRid index value).ChangeSizeBy 1
            let up_key := LeafPage.KeyAt new_leaf_page 0
            let t ← t.setPage leaf_page_id leaf_page
            let t ← t.setPage new_leaf_page_id new_leaf_page
            let (t, up, parent) ← t.insertStep l_child_page_id up_key new_leaf_page_id parent
            let t ← insertLoop (write_set.length + 2) t up parent write_set
            pure (true, t)
          else
            let up_key := LeafPage.KeyAt new_leaf_page 0
            let leaf_page :=
              shiftRightLeaf (leaf_page.GetSize - index).toNat leaf_page.GetSize leaf_page
            let leaf_page := ((leaf_page.setKey index key).setRid index value).ChangeSizeBy 1
            let t ← t.setPage leaf_page_id leaf_page
            let t ← t.setPage new_leaf_page_id new_leaf_page
            let (t, up, parent) ← t.insertStep l_child_page_id up_key new_leaf_page_id parent
            let t ← insertLoop (write_set.length + 2) t up parent write_set
            pure (true, t)
        else
          let leaf_page :=
            shiftRightLeaf (leaf_page.GetSize - index).toNat leaf_page.GetSize leaf_page
          let leaf_page := ((leaf_page.setKey index key).setRid index value).ChangeSizeBy 1
          let t ← t.setPage leaf_page_id leaf_page
          pure (true, t)

/-! ### Remove -/

/-- The index of the child in its parent as `Remove` computes it: `KeyIndex(key)`, decremented
unless the key at that index equals `key`. -/
def parentIndex (parent_page : Page) (key : Int) : Except Err Int := do
  let parent_index := InternalPage.KeyIndex parent_page key
  if parent_index ≥ parent_page.GetSize then pure (parent_index - 1)
  else do
    let k ← InternalPage.KeyAt parent_page parent_index
    if comparator k key ≠ 0 then pure (parent_index - 1) else pure parent_index

/-- The deletion of slot `parent_index` from an internal page ("delete parent key & value"), at
the end of the leaf merge and of `Merge`. -/
def deleteParentSlot (parent_page : Page) (parent_index : Int) : Page :=
  let parent_page :=
    shiftLeftInternal (parent_page.GetSize - 1 - parent_index).toNat parent_index parent_page
  let parent_page :=
    (parent_page.setKey (parent_page.GetSize - 1) 0).setChild (parent_page.GetSize - 1)
      INVALID_PAGE_ID
  parent_page.ChangeSizeBy (-1)

/-- `BPlusTree::Merge` on the contents of the three pages: returns the parent, the left and the
right page. -/
def Merge (parent_page l_page r_page : Page) (parent_index : Int) : Page × Page × Page :=
  let l_page :=
    ((l_page.setKey l_page.GetSize (parent_page.key parent_index)).setChild l_page.GetSize
      (r_page.child 0)).ChangeSizeBy 1
  let (l_page, r_page, _, j) :=
    moveInternalSlots (r_page.GetSize - 1).toNat l_page.GetSize 1 l_page r_page
  let r_page := r_page.ChangeSizeBy (-j)
  (deleteParentSlot parent_page parent_index, l_page, r_page)

/-- The part of `Remove` that rebalances the underfull leaf `leaf_page_id` under `parent_id`:
redistribute from the left sibling, else from the right sibling, else merge.  Returns the tree
and the values of `key_update`, `old_key` and `new_key` on entry to the loop over the internal
pages. -/
def removeLeafRebalance (t : BPlusTree) (leaf_page_id parent_id key : Int) :
    Except Err (BPlusTree × Bool × Int × Int) := do
  let leaf_page ← t.page leaf_page_id
  let parent_page ← t.page parent_id
  let parent_index ← parentIndex parent_page key
  let l_parent_index := parent_index - 1
  let r_parent_index := parent_index + 1
  -- left
  let l_page ←
    if l_parent_index ≥ 0 then do
      let l_page_id ← InternalPage.ValueAt parent_page l_parent_index
      let l_page ← t.page l_page_id
      pure (some (l_page_id, l_page))
    else pure none
  match l_page.filter (fun l => l.2.GetSize > l.2.GetMinSize) with
  | some (l_page_id, l_page) =>
    -- redistribute from left
    let leaf_page := shiftRightLeaf leaf_page.GetSize.toNat leaf_page.GetSize leaf_page
    let leaf_page :=
      ((leaf_page.setKey 0 (l_page.key (l_page.GetSize - 1))).setRid 0
        (l_page.rid (l_page.GetSize - 1))).ChangeSizeBy 1
    let l_page :=
      ((l_page.setKey (l_page.GetSize - 1) 0).setRid (l_page.GetSize - 1)
        RID.default).ChangeSizeBy (-1)
    let old_key := parent_page.key parent_index
    let new_key := LeafPage.KeyAt leaf_page 0
    let parent_page := parent_page.setKey parent_index (LeafPage.KeyAt leaf_page 0)
    let key_update := decide (parent_index = 1)
    let t ← t.setPage l_page_id l_page
    let t ← t.setPage leaf_page_id leaf_page
    let t ← t.setPage parent_id parent_page
    pure (t, key_update, old_key, new_key)
  | none =>
    let r_page ←
      if r_parent_index < parent_page.GetSize then do
        let r_page_id ← InternalPage.ValueAt parent_page r_parent_index
        let r_page ← t.page r_page_id
        pure (some (r_page_id, r_page))
      else pure none
    match r_page.filter (fun r => r.2.GetSize > r.2.GetMinSize) with
    | some (r_page_id, r_page) =>
      -- redistribute from right
      let leaf_page :=
        ((leaf_page.setKey leaf_page.GetSize (r_page.key 0)).setRid leaf_page.GetSize
          (r_page.rid 0)).ChangeSizeBy 1
      let r_page := shiftLeftLeaf (r_page.GetSize - 1).toNat 0 r_page
      let r_page :=
        ((r_page.setKey (r_page.GetSize - 1) 0).setRid (r_page.GetSize - 1)
          RID.default).ChangeSizeBy (-1)
      let old_key := parent_page.key (parent_index + 1)
      let new_key := LeafPage.KeyAt r_page 0
      let parent_page := parent_page.setKey (parent_index + 1) (LeafPage.KeyAt r_page 0)
      let key_update := decide (parent_index = 0)
      let t ← t.setPage r_page_id r_page
      let t ← t.setPage leaf_page_id leaf_page
      let t ← t.setPage parent_id parent_page
      pure (t, key_update, old_key, new_key)
    | none =>
      -- merge
      let (m_l_page_id, m_r_page_id, parent_index) ←
        if l_parent_index ≥ 0 then do
          let m_l_page ← InternalPage.ValueAt parent_page l_parent_index
          let _ ← InternalPage.ValueAt parent_page parent_index
          pure (m_l_page, leaf_page_id, parent_index)
        else do
          let _ ← InternalPage.ValueAt parent_page parent_index
          let m_r_page ← InternalPage.ValueAt parent_page r_parent_index
          pure (leaf_page_id, m_r_page, r_parent_index)
      let l_page ← t.page m_l_page_id
      let r_page ← t.page m_r_page_id
      let (l_page, r_page, _, j) :=
        moveLeafSlots r_page.GetSize.toNat l_page.GetSize 0 l_page r_page
      let r_page := r_page.ChangeSizeBy (-j)
      let l_page := { l_page with next_page_id_ := r_page.next_page_id_ }
      let old_key := parent_page.key parent_index
      let parent_page := deleteParentSlot parent_page parent_index
      let new_key := parent_page.key parent_index
      let key_update := decide (parent_index = 1)
      let t ← t.setPage m_r_page_id r_page
      let t ← t.setPage m_l_page_id l_page
      let t ← t.setPage parent_id parent_page
      pure (t, key_update, old_key, new_key)

/-- One pass of the loop "process internal page" of `Remove` for the internal page `current`
that is not the root and whose parent is `parent_id`, from the computation of `parent_index` to
`current_page = std::move(parent)`.  Returns none when the pass leaves the loop by `break`. -/
def removeInternalPass (t : BPlusTree) (key : Int) (key_update : Bool) (old_key new_key : Int)
    (current parent_id : Int) : Except Err (Option (BPlusTree × Bool × Int × Int)) := do
  let child_page ← t.page current
  let parent_page ← t.page parent_id
  let parent_index ← parentIndex parent_page key
  let l_parent_index := parent_index - 1
  let r_parent_index := parent_index + 1
  -- the block "if (key_update) ... else if (size >= min_size) break"; every branch below
  -- assigns key_update, old_key and new_key anew
  let upd ←
    if key_update then do
      let idx := InternalPage.KeyIndex parent_page old_key
      let found ←
        if idx < parent_page.GetSize then do
          let k ← InternalPage.KeyAt parent_page idx
          pure (decide (comparator k old_key = 0))
        else pure false
      if found then pure (some (parent_page.setKey idx new_key)) else pure (some parent_page)
    else if child_page.GetSize ≥ child_page.GetMinSize then pure none
    else pure (some parent_page)
  match upd with
  | none => pure none
  | some parent_page =>
    -- left
    let l_page ←
      if l_parent_index ≥ 0 then do
        let l_page_id ← InternalPage.ValueAt parent_page l_parent_index
        let l_page ← t.page l_page_id
        pure (some (l_page_id, l_page))
      else pure none
    match l_page.filter (fun l => l.2.GetSize > l.2.GetMinSize) with
    | some (l_page_id, l_page) =>
      -- redistribute from left
      let child_page := shiftRightInternal child_page.GetSize.toNat child_page.GetSize child_page
      let child_page := child_page.setKey 1 (parent_page.key parent_index)
      let child_page := (child_page.setChild 0 (l_page.child (l_page.GetSize - 1))).ChangeSizeBy 1
      let old_key := parent_page.key parent_index
      let new_key := l_page.key (l_page.GetSize - 1)
      let key_update := decide (parent_index = 1)
      let parent_page := parent_page.setKey parent_index (l_page.key (l_page.GetSize - 1))
      let l_page :=
        ((l_page.setKey (l_page.GetSize - 1) 0).setChild (l_page.GetSize - 1)
          INVALID_PAGE_ID).ChangeSizeBy (-1)
      let t ← t.setPage l_page_id l_page
      let t ← t.setPage current child_page
      let t ← t.setPage parent_id parent_page
      pure (some (t, key_update, old_key, new_key))
    | none =>
      let r_page ←
        if r_parent_index < parent_page.GetSize then do
          let r_page_id ← InternalPage.ValueAt parent_page r_parent_index
          let r_page ← t.page r_page_id
          pure (some (r_page_id, r_page))
        else pure none
      match r_page.filter (fun r => r.2.GetSize > r.2.GetMinSize) with
      | some (r_page_id, r_page) =>
        -- redistribute from right
        let old_key := parent_page.key (parent_index + 1)
        let new_key := r_page.key 1
        let key_update := decide (parent_index = 0)
        let child_page :=
          ((child_page.setKey child_page.GetSize (parent_page.key (parent_index + 1))).setChild
            child_page.GetSize (r_page.child 0)).ChangeSizeBy 1
        let parent_page := parent_page.setKey (parent_index + 1) (r_page.key 1)
        let r_page := shiftLeftInternal (r_page.GetSize - 1).toNat 0 r_page
        let r_page := r_page.setKey 0 0
        let r_page :=
          ((r_page.setKey (r_page.GetSize - 1) 0).setChild (r_page.GetSize - 1)
            INVALID_PAGE_ID).ChangeSizeBy (-1)
        let t ← t.setPage r_page_id r_page
        let t ← t.setPage current child_page
        let t ← t.setPage parent_id parent_page
        pure (some (t, key_update, old_key, new_key))
      | none =>
        -- merge
        let (m_l_page_id, m_r_page_id, parent_index) ←
          if l_parent_index ≥ 0 then do
            let m_l_page ← InternalPage.ValueAt parent_page l_parent_index
            let _ ← InternalPage.ValueAt parent_page parent_index
            pure (m_l_page, current, parent_index)
          else do
            let _ ← InternalPage.ValueAt parent_page parent_index
            let m_r_page ← InternalPage.ValueAt parent_page r_parent_index
            pure (current, m_r_page, r_parent_index)
        let l_page ← t.page m_l_page_id
        let r_page ← t.page m_r_page_id
        let old_key := parent_page.key parent_index
        let (parent_page, l_page, r_page) := Merge parent_page l_page r_page parent_index
        let new_key := parent_page.key parent_index
        let key_update := decide (parent_index = 1)
        let t ← t.setPage m_r_page_id r_page
        let t ← t.setPage m_l_page_id l_page
        let t ← t.setPage parent_id parent_page
        pure (some (t, key_update, old_key, new_key))

/-- The loop "process internal page" of `Remove`: `while (key_update ||
current_page.has_value())`, where `current_page` always holds a page.  `write_set` lists the
pages of `write_set_` above `current`, back first. -/
def removeLoop (key : Int) :
    List Int → BPlusTree → Bool → Int → Int → Int → Except Err BPlusTree
  | write_set, t, key_update, old_key, new_key, current => do
    let current_internal_page ← t.page current
    if current = t.root_page_id_ then
      if current_internal_page.GetSize = 1 then
        pure { t with root_page_id_ := current_internal_page.child 0 }
      else if current_internal_page.GetSize = 0 then
        pure { t with root_page_id_ := INVALID_PAGE_ID }
      else pure t
    else
      match write_set with
      | [] => Except.error Err.assertion_failed
      | parent :: write_set => do
        let r ← t.removeInternalPass key key_update old_key new_key current parent
        match r with
        | none => pure t
        | some (t, key_update, old_key, new_key) =>
          removeLoop key write_set t key_update old_key new_key parent

/-- `BPlusTree::Remove`: the tree afterwards. -/
def Remove (t : BPlusTree) (key : Int) : Except Err BPlusTree := do
  if t.IsEmpty then pure t
  else
    let write_set ← t.FindAndLock key
    match write_set with
    | [] => Except.error Err.diverges
    | leaf_page_id :: write_set =>
      let leaf_page ← t.page leaf_page_id
      let index := LeafPage.KeyIndex leaf_page key
      if index ≥ leaf_page.GetSize ∨ comparator (LeafPage.KeyAt leaf_page index) key ≠ 0 then
        pure t
      else
        -- delete key & value in leaf page
        let leaf_page := shiftLeftLeaf (leaf_page.GetSize - 1 - index).toNat index leaf_page
        let leaf_page :=
          ((leaf_page.setKey (leaf_page.GetSize - 1) 0).setRid (leaf_page.GetSize - 1)
            RID.default).ChangeSizeBy (-1)
        let t ← t.setPage leaf_page_id leaf_page
        -- check underflow
        if leaf_page.GetSize ≥ leaf_page.GetMinSize then pure t
        else
          match write_set with
          | [] =>
            -- if root
            if leaf_page.GetSize = 0 then pure { t with root_page_id_ := INVALID_PAGE_ID }
            else pure t
          | parent :: write_set =>
            let (t, key_update, old_key, new_key) ← t.removeLeafRebalance leaf_page_id parent key
            removeLoop key write_set t key_update old_key new_key parent

end BPlusTree

/-! ### Sequences of calls -/

/-- A call of `Insert(key, value)` or of `Remove(key)`. -/
inductive Op where
  | insert (key : Int) (value : RID)
  | remove (key : Int)
deriving DecidableEq

/-- The tree after a sequence of `Insert` and `Remove` calls made one after the other. -/
def run (t : BPlusTree) : List Op → Except Err BPlusTree
  | [] => pure t
  | Op.insert key value :: ops => do
    let r ← t.Insert key value
    run r.2 ops
  | Op.remove key :: ops => do
    let t ← t.Remove key
    run t ops

/-- The tree built from a fresh one by a sequence of calls (the fresh tree itself when a call
ends in an error); used to name concrete trees. -/
def built (leaf_max_size internal_max_size : Int) (ops : List Op) : BPlusTree :=
  match run (BPlusTree.fresh leaf_max_size internal_max_size) ops with
  | Except.ok t => t
  | Except.error _ => BPlusTree.fresh leaf_max_size internal_max_size

/-- The calls `Insert(k, RID(k, 0))` for `k` from `first` up, `count` of them, as the tests make
them. -/
def insertRange (first : Int) : Nat → List Op
  | 0 => []
  | count + 1 => Op.insert first ⟨first, 0⟩ :: insertRange (first + 1) count

/-! ## index_iterator.h, index_iterator.cpp -/

/-- The members `page_id_` and `index_` of an `IndexIterator`. -/
structure IndexIterator where
  page_id_ : Int
  index_ : Int
deriving DecidableEq

namespace IndexIterator

/-- The default-constructed iterator. -/
def default : IndexIterator := ⟨INVALID_PAGE_ID, 0⟩

/-- `IndexIterator::IsEnd`. -/
def IsEnd (t : BPlusTree) (it : IndexIterator) : Except Err Bool := do
  let leaf_page ← t.page it.page_id_
  pure (decide (leaf_page.next_page_id_ = INVALID_PAGE_ID ∧ it.index_ = leaf_page.GetSize))

/-- `IndexIterator::operator*`: the key and the value at the position of the iterator. -/
def deref (t : BPlusTree) (it : IndexIterator) : Except Err (Int × RID) := do
  if (← IsEnd t it) then Except.error Err.out_of_range
  else
    let leaf_page ← t.page it.page_id_
    if it.index_ < 0 ∨ it.index_ ≥ leaf_page.GetSize then Except.error Err.out_of_range
    else pure (leaf_page.key it.index_, leaf_page.rid it.index_)

/-- `IndexIterator::operator++`: the members of the iterator after the call, and whether the
call returned or threw.  Both `throw` statements of the source precede the first assignment to a
member. -/
def increment (t : BPlusTree) (it : IndexIterator) : IndexIterator × Except Err Unit :=
  match IsEnd t it with
  | Except.error e => (it, Except.error e)
  | Except.ok true => (it, Except.error Err.out_of_range)
  | Except.ok false =>
    match t.page it.page_id_ with
    | Except.error e => (it, Except.error e)
    | Except.ok leaf_page =>
      if it.index_ < 0 ∨ it.index_ > leaf_page.GetSize then (it, Except.error Err.out_of_range)
      else
        let it : IndexIterator := { it with index_ := it.index_ + 1 }
        if it.index_ = leaf_page.GetSize ∧ leaf_page.next_page_id_ ≠ INVALID_PAGE_ID then
          (⟨leaf_page.next_page_id_, 0⟩, Except.ok ())
        else (it, Except.ok ())

end IndexIterator

namespace BPlusTree

/-- The loop of `BPlusTree::Begin()`: follow child 0 down to a leaf. -/
def BeginLoop (t : BPlusTree) : Nat → Int → Except Err Int
  | 0, _ => Except.error Err.diverges
  | fuel + 1, page_id => do
    let current_page ← t.page page_id
    if current_page.IsLeafPage then pure page_id
    else do
      let child_page_id ← InternalPage.ValueAt current_page 0
      BeginLoop t fuel child_page_id

/-- `BPlusTree::Begin()`. -/
def Begin (t : BPlusTree) : Except Err IndexIterator := do
  if t.IsEmpty then pure IndexIterator.default
  else
    let leaf_id ← t.BeginLoop (t.pages.length + 1) t.root_page_id_
    pure ⟨leaf_id, 0⟩

/-- `BPlusTree::Begin(const KeyType &)`. -/
def BeginAt (t : BPlusTree) (key : Int) : Except Err IndexIterator := do
  let leaf_id ← t.FindLeafPage key
  let leaf_page ← t.page leaf_id
  let index := LeafPage.KeyIndex leaf_page key
  pure ⟨leaf_id, index⟩

/-- The loop of `BPlusTree::End()`: follow the last child down to a leaf. -/
def EndLoop (t : BPlusTree) : Nat → Int → Except Err Int
  | 0, _ => Except.error Err.diverges
  | fuel + 1, page_id => do
    let current_page ← t.page page_id
    if current_page.IsLeafPage then pure page_id
    else do
      let child_page_id ← InternalPage.ValueAt current_page (current_page.GetSize - 1)
      EndLoop t fuel child_page_id

/-- `BPlusTree::End()`. -/
def End (t : BPlusTree) : Except Err IndexIterator := do
  if t.IsEmpty then pure IndexIterator.default
  else
    let leaf_id ← t.EndLoop (t.pages.length + 1) t.root_page_id_
    let leaf_page ← t.page leaf_id
    pure ⟨leaf_id, leaf_page.GetSize⟩

/-- The loop `for (; it != end; ++it) out.push_back(*it)` of the tests, at most `fuel` times. -/
def iterateLoop (t : BPlusTree) (last : IndexIterator) :
    Nat → IndexIterator → List (Int × RID) → Except Err (List (Int × RID))
  | 0, _, _ => Except.error Err.diverges
  | fuel + 1, it, out =>
    if it = last then pure out
    else do
      let kv ← IndexIterator.deref t it
      let (it, r) := IndexIterator.increment t it
      r
      iterateLoop t last fuel it (out ++ [kv])

end BPlusTree

/-! ## arc_replacer.h, arc_replacer.cpp -/

/-- The enum `ArcStatus`. -/
inductive ArcStatus where
  | MRU
  | MFU
  | MRU_GHOST
  | MFU_GHOST
deriving DecidableEq

/-- The struct `FrameStatus`. -/
structure FrameStatus where
  page_id_ : Int
  frame_id_ : Int
  evictable_ : Bool
  arc_status_ : ArcStatus
deriving DecidableEq

/-- Number of values of `size_t`; arithmetic on `size_t` is modulo this number. -/
def SIZE_T_MODULUS : Nat := 18446744073709551616

/-- Subtraction of two `size_t` values. -/
def subSizeT (a b : Nat) : Nat := (a + (SIZE_T_MODULUS - b % SIZE_T_MODULUS)) % SIZE_T_MODULUS

/-- Addition of two `size_t` values. -/
def addSizeT (a b : Nat) : Nat := (a + b) % SIZE_T_MODULUS

/-- A `std::unordered_map` from ids to `FrameStatus`, as the list of its entries; every key
occurs at most once. -/
abbrev StatusMap := List (Int × FrameStatus)

namespace StatusMap

/-- `m.find(k)`, the entry under key `k` if there is one. -/
def find (m : StatusMap) (k : Int) : Option FrameStatus :=
  match m with
  | [] => none
  | e :: m => if e.1 = k then some e.2 else find m k

/-- `m.erase(k)`. -/
def erase (m : StatusMap) (k : Int) : StatusMap := m.filter (fun e => decide (e.1 ≠ k))

/-- `m[k] = v`. -/
def assign (m : StatusMap) (k : Int) (v : FrameStatus) : StatusMap := (k, v) :: erase m k

end StatusMap

/-- The members of an `ArcReplacer` (the latch apart). -/
structure ArcReplacer where
  mru_ : List Int
  mfu_ : List Int
  mru_ghost_ : List Int
  mfu_ghost_ : List Int
  alive_map_ : StatusMap
  ghost_map_ : StatusMap
  curr_size_ : Nat
  mru_target_size_ : Nat
  replacer_size_ : Nat
deriving DecidableEq

namespace ArcReplacer

/-- The constructor `ArcReplacer(num_frames)`. -/
def new (num_frames : Nat) : ArcReplacer := ⟨[], [], [], [], [], [], 0, 0, num_frames⟩

/-- `ArcReplacer::Size`. -/
def Size (s : ArcReplacer) : Nat := s.curr_size_

/-- `ArcReplacer::SetEvictable`: the members after the call, and whether the call returned or
threw.  The `throw` of the source precedes every assignment. -/
def SetEvictable (s : ArcReplacer) (frame_id : Int) (set_evictable : Bool) :
    ArcReplacer × Except Err Unit :=
  match s.alive_map_.find frame_id with
  | none => (s, Except.error Err.logic_error)
  | some frame_status =>
    if frame_status.evictable_ ≠ set_evictable then
      let s :=
        { s with alive_map_ :=
            s.alive_map_.assign frame_id { frame_status with evictable_ := set_evictable } }
      if set_evictable then ({ s with curr_size_ := addSizeT s.curr_size_ 1 }, Except.ok ())
      else ({ s with curr_size_ := subSizeT s.curr_size_ 1 }, Except.ok ())
    else (s, Except.ok ())

/-- The scan of the lambda `try_evict` of `Evict` over the frames of a list from its tail
(`tail_first` is the list reversed): the first frame whose status is evictable. -/
def scanEvictable (alive_map : StatusMap) : List Int → Except Err (Option (Int × FrameStatus))
  | [] => pure none
  | frame_id :: tail_first =>
    match alive_map.find frame_id with
    | none => Except.error Err.null_dereference
    | some frame_status =>
      if frame_status.evictable_ then pure (some (frame_id, frame_status))
      else scanEvictable alive_map tail_first

/-- Removal of the element of a list that is nearest to its tail among those equal to `x`, as
`list->erase(std::next(it).base())` does for the reverse iterator `it` of the scan. -/
def eraseFromTail (l : List Int) (x : Int) : List Int := (l.reverse.erase x).reverse

/-- The lambda `try_evict` of `Evict`. -/
def try_evict (s : ArcReplacer) (stat : ArcStatus) : Except Err (Option Int × ArcReplacer) := do
  let list := if stat = ArcStatus.MFU then s.mfu_ else s.mru_
  match (← scanEvictable s.alive_map_ list.reverse) with
  | none => pure (none, s)
  | some (frame_id, frame_status) =>
    -- move to ghost
    let ghost_status :=
      { frame_status with arc_status_ :=
          if stat = ArcStatus.MRU then ArcStatus.MRU_GHOST else ArcStatus.MFU_GHOST }
    let s := { s with ghost_map_ := s.ghost_map_.assign frame_status.page_id_ ghost_status }
    let s :=
      if stat = ArcStatus.MFU then { s with mfu_ghost_ := frame_status.page_id_ :: s.mfu_ghost_ }
      else { s with mru_ghost_ := frame_status.page_id_ :: s.mru_ghost_ }
    -- remove from alive
    let s := { s with alive_map_ := s.alive_map_.erase frame_id }
    let s :=
      if stat = ArcStatus.MFU then { s with mfu_ := eraseFromTail s.mfu_ frame_id }
      else { s with mru_ := eraseFromTail s.mru_ frame_id }
    pure (some frame_id, { s with curr_size_ := subSizeT s.curr_size_ 1 })

/-- Two calls of `try_evict` in a row: the second is made when the first finds no frame. -/
def try_evict_pair (s : ArcReplacer) (first second : ArcStatus) :
    Except Err (Option Int × ArcReplacer) := do
  let r ← s.try_evict first
  match r.1 with
  | some _ => pure r
  | none => r.2.try_evict second

/-- `ArcReplacer::Evict`, called with the latch free. -/
def Evict (s : ArcReplacer) : Except Err (Option Int × ArcReplacer) := do
  if s.curr_size_ = 0 then pure (none, s)
  else
    let r ←
      if s.mru_.length > s.mru_target_size_ then s.try_evict_pair ArcStatus.MRU ArcStatus.MFU
      else pure (none, s)
    match r.1 with
    | some _ => pure r
    | none =>
      let s := r.2
      let r ←
        if s.mfu_.length ≥ subSizeT s.replacer_size_ s.mru_target_size_ then
          s.try_evict_pair ArcStatus.MFU ArcStatus.MRU
        else pure (none, s)
      match r.1 with
      | some _ => pure r
      | none => r.2.try_evict_pair ArcStatus.MRU ArcStatus.MFU

/-- `ArcReplacer::RecordAccess`.  Where the source calls `Evict()` it still holds `latch_`, a
`std::mutex`, which `Evict` locks again: the call never returns. -/
def RecordAccess (s : ArcReplacer) (frame_id page_id : Int) : Except Err ArcReplacer :=
  match s.alive_map_.find frame_id with
  | some frame_status =>
    if frame_status.arc_status_ = ArcStatus.MRU then
      -- move to mfu
      pure { s with
        mru_ := s.mru_.filter (fun f => decide (f ≠ frame_id)),
        mfu_ := frame_id :: s.mfu_,
        alive_map_ :=
          s.alive_map_.assign frame_id { frame_status with arc_status_ := ArcStatus.MFU } }
    else if frame_status.arc_status_ = ArcStatus.MFU then
      -- move to front of mfu
      pure { s with mfu_ := frame_id :: s.mfu_.filter (fun f => decide (f ≠ frame_id)) }
    else Except.error Err.logic_error
  | none =>
    match s.ghost_map_.find page_id with
    | some frame_status => do
      let s ←
        if frame_status.arc_status_ = ArcStatus.MRU_GHOST then
          if s.mru_ghost_.length = 0 then Except.error Err.division_by_zero
          else
            pure { s with
              mru_target_size_ :=
                min (addSizeT s.mru_target_size_ (max (s.mfu_ghost_.length / s.mru_ghost_.length) 1))
                  s.replacer_size_,
              mru_ghost_ := s.mru_ghost_.filter (fun pg => decide (pg ≠ page_id)) }
        else if frame_status.arc_status_ = ArcStatus.MFU_GHOST then
          if s.mfu_ghost_.length = 0 then Except.error Err.division_by_zero
          else
            pure { s with
              mru_target_size_ :=
                max (subSizeT s.mru_target_size_ (max (s.mru_ghost_.length / s.mfu_ghost_.length) 1))
                  0,
              mfu_ghost_ := s.mfu_ghost_.filter (fun pg => decide (pg ≠ page_id)) }
        else Except.error Err.logic_error
      let s := { s with ghost_map_ := s.ghost_map_.erase page_id }
      -- move to mfu
      let frame_status :=
        { frame_status with
          arc_status_ := ArcStatus.MFU, frame_id_ := frame_id, evictable_ := false }
      let s := { s with alive_map_ := s.alive_map_.assign frame_id frame_status,
                        mfu_ := frame_id :: s.mfu_ }
      if s.alive_map_.length > s.replacer_size_ then Except.error Err.deadlock else pure s
    | none =>
      -- new entry, add to mru
      let frame_status : FrameStatus := ⟨page_id, frame_id, false, ArcStatus.MRU⟩
      let s := { s with alive_map_ := s.alive_map_.assign frame_id frame_status,
                        mru_ := frame_id :: s.mru_ }
      if s.alive_map_.length > s.replacer_size_ then Except.error Err.deadlock else pure s

end ArcReplacer

/-! # frame_header.h, disk_manager_memory.cpp, disk_scheduler.cpp, buffer_pool_manager.cpp, page_guard.cpp -/

/-- The macro `PAGE_SIZE`. -/
def PAGE_SIZE : Nat := 4096

/-- The bytes of a page or of the buffer of a frame. -/
abbrev PageData := List Nat

/-- A buffer of `PAGE_SIZE` zero bytes. -/
def PageData.zero : PageData := List.replicate PAGE_SIZE 0

/-- A `std::unordered_map` with `int` keys, as an association list with at most one entry per
key. -/
abbrev IntMap (α : Type) := List (Int × α)

namespace IntMap

variable {α : Type}

/-- `m.find(k)`, the value under key `k` if there is one. -/
def find (m : IntMap α) (k : Int) : Option α :=
  match m with
  | [] => none
  | e :: m => if e.1 = k then some e.2 else find m k

/-- `m.erase(k)`. -/
def erase (m : IntMap α) (k : Int) : IntMap α := m.filter (fun e => decide (e.1 ≠ k))

/-- `m[k] = v`. -/
def assign (m : IntMap α) (k : Int) (v : α) : IntMap α := (k, v) :: erase m k

end IntMap

/-- The member `pages_` of a `DiskManagerMemory`. -/
structure DiskManagerMemory where
  pages_ : IntMap PageData
deriving DecidableEq

namespace DiskManagerMemory

/-- A disk manager that holds no page. -/
def new : DiskManagerMemory := ⟨[]⟩

/-- `DiskManagerMemory::AllocatePage`: the new page is value-initialised (zero bytes). -/
def AllocatePage (d : DiskManagerMemory) (page_id : Int) : Except Err DiskManagerMemory :=
  match d.pages_.find page_id with
  | some _ => Except.error Err.runtime_error
  | none => pure ⟨d.pages_.assign page_id PageData.zero⟩

/-- `DiskManagerMemory::ReadPage`: the bytes copied to `out_buf`, and the disk manager, which
allocates a page it does not hold. -/
def ReadPage (d : DiskManagerMemory) (page_id : Int) :
    Except Err (PageData × DiskManagerMemory) :=
  match d.pages_.find page_id with
  | some data => pure (data, d)
  | none => do
    let d ← d.AllocatePage page_id
    match d.pages_.find page_id with
    | some data => pure (data, d)
    | none => Except.error Err.null_dereference

/-- `DiskManagerMemory::WritePage`. -/
def WritePage (d : DiskManagerMemory) (page_id : Int) (buf : PageData) :
    Except Err DiskManagerMemory := do
  let d ←
    match d.pages_.find page_id with
    | some _ => pure d
    | none => d.AllocatePage page_id
  pure ⟨d.pages_.assign page_id buf⟩

end DiskManagerMemory

/-- The members of a `FrameHeader`.  `readers_` and `writer_` are the state of `rwlatch_`: the
number of shared holders and whether it is held exclusively.  `frame_id_` is the position of the
frame in `frames_`. -/
structure FrameHeader where
  readers_ : Nat
  writer_ : Bool
  pin_count_ : Nat
  is_dirty_ : Bool
  data_ : PageData
deriving DecidableEq

namespace FrameHeader

/-- The constructor `FrameHeader(frame_id)`. -/
def new : FrameHeader := ⟨0, false, 0, false, PageData.zero⟩

/-- `FrameHeader::Reset`. -/
def Reset (f : FrameHeader) : FrameHeader :=
  { f with data_ := PageData.zero, pin_count_ := 0, is_dirty_ := false }

/-- `rwlatch_.lock_shared()` by the only thread.  While the thread holds the latch exclusively,
the lock reports `EDEADLK` and `std::shared_mutex::lock_shared` throws `std::system_error`. -/
def lock_shared (f : FrameHeader) : Except Err FrameHeader :=
  if f.writer_ then Except.error Err.system_error else pure { f with readers_ := f.readers_ + 1 }

/-- `rwlatch_.lock()` by the only thread.  While the thread holds the latch exclusively, the
lock reports `EDEADLK` and `std::shared_mutex::lock` throws `std::system_error`; while the
thread holds the latch shared, the call waits for a release no other thread can make and never
returns. -/
def lock (f : FrameHeader) : Except Err FrameHeader :=
  if f.writer_ then Except.error Err.system_error
  else if f.readers_ ≠ 0 then Except.error Err.deadlock
  else pure { f with writer_ := true }

/-- `rwlatch_.unlock_shared()`. -/
def unlock_shared (f : FrameHeader) : FrameHeader := { f with readers_ := f.readers_ - 1 }

/-- `rwlatch_.unlock()`. -/
def unlock (f : FrameHeader) : FrameHeader := { f with writer_ := false }

end FrameHeader

/-- The members of a `BufferPoolManager` (the latch apart).  `disk_` is the disk manager behind
`disk_scheduler_`: the scheduler hands each request to it and the caller waits for the
callback. -/
structure BufferPoolManager where
  num_frames_ : Nat
  next_page_id_ : Int
  frames_ : List FrameHeader
  page_table_ : IntMap Int
  free_frames_ : List Int
  replacer_ : ArcReplacer
  disk_ : DiskManagerMemory
  disk_reads_ : Nat
  disk_writes_ : Nat
  cache_hits_ : Nat
  cache_misses_ : Nat
deriving DecidableEq

/-- The members of a `ReadPageGuard`; `frame_` is the id of the frame the pointer refers to. -/
structure ReadPageGuard where
  page_id_ : Int
  frame_ : Int
  is_valid_ : Bool
deriving DecidableEq

/-- The members of a `WritePageGuard`; `frame_` is the id of the frame the pointer refers
to. -/
structure WritePageGuard where
  page_id_ : Int
  frame_ : Int
  is_valid_ : Bool
deriving DecidableEq

/-- The move constructor of `ReadPageGuard`: the new guard and the moved-from guard. -/
def ReadPageGuard.move (that : ReadPageGuard) : ReadPageGuard × ReadPageGuard :=
  (⟨that.page_id_, that.frame_, that.is_valid_⟩, { that with is_valid_ := false })

/-- The move constructor of `WritePageGuard`: the new guard and the moved-from guard. -/
def WritePageGuard.move (that : WritePageGuard) : WritePageGuard × WritePageGuard :=
  (⟨that.page_id_, that.frame_, that.is_valid_⟩, { that with is_valid_ := false })

namespace BufferPoolManager

/-- The constructor `BufferPoolManager(num_frames, disk_manager)`. -/
def new (num_frames : Nat) (disk_manager : DiskManagerMemory) : BufferPoolManager :=
  { num_frames_ := num_frames
    next_page_id_ := 0
    frames_ := List.replicate num_frames FrameHeader.new
    page_table_ := []
    free_frames_ := (List.range num_frames).map (fun i : Nat => wrapInt32 (i : Int))
    replacer_ := ArcReplacer.new num_frames
    disk_ := disk_manager
    disk_reads_ := 0
    disk_writes_ := 0
    cache_hits_ := 0
    cache_misses_ := 0 }

/-- `BufferPoolManager::NewPage`. -/
def NewPage (s : BufferPoolManager) : Int × BufferPoolManager :=
  (s.next_page_id_, { s with next_page_id_ := wrapInt32 (s.next_page_id_ + 1) })

/-- The frame `frames_[frame_id]`. -/
def frame (s : BufferPoolManager) (frame_id : Int) : Except Err FrameHeader :=
  if 0 ≤ frame_id then
    match s.frames_.get? frame_id.toNat with
    | some f => pure f
    | none => Except.error Err.out_of_range
  else Except.error Err.out_of_range

/-- Assignment to the members of `frames_[frame_id]`. -/
def setFrame (s : BufferPoolManager) (frame_id : Int) (f : FrameHeader) :
    Except Err BufferPoolManager :=
  if 0 ≤ frame_id ∧ frame_id.toNat < s.frames_.length then
    pure { s with frames_ := s.frames_.set frame_id.toNat f }
  else Except.error Err.out_of_range

/-- `BufferPoolManager::PageSwitch`: the request is carried out on the disk manager and
counted; it always returns true. -/
def PageSwitch (s : BufferPoolManager) (is_write : Bool) (page_id frame_id : Int) :
    Except Err BufferPoolManager := do
  let f ← s.frame frame_id
  if is_write then
    let disk ← s.disk_.WritePage page_id f.data_
    pure { s with disk_ := disk, disk_writes_ := addSizeT s.disk_writes_ 1 }
  else
    let (data, disk) ← s.disk_.ReadPage page_id
    let s ← s.setFrame frame_id { f with data_ := data }
    pure { s with disk_ := disk, disk_reads_ := addSizeT s.disk_reads_ 1 }

/-- The first entry of the page table that maps to `frame_id`, in the loop of the eviction
branch. -/
def pageOfFrame (s : BufferPoolManager) (frame_id : Int) : Option (Int × Int) :=
  s.page_table_.find? (fun e => decide (e.2 = frame_id))

/-- The block under the latch of `CheckedReadPage` and of `CheckedWritePage` (the same text in
both): the frame the page is brought into, or none where the source returns `std::nullopt`. -/
def bringIn (s : BufferPoolManager) (page_id : Int) :
    Except Err (Option Int × BufferPoolManager) :=
  if page_id < 0 ∨ page_id ≥ s.next_page_id_ then pure (none, s)
  else
    match s.page_table_.find page_id with
    | some frame_id => pure (some frame_id, { s with cache_hits_ := addSizeT s.cache_hits_ 1 })
    | none =>
      match s.free_frames_ with
      | frame_id :: free_frames => do
        let s := { s with free_frames_ := free_frames,
                          page_table_ := s.page_table_.assign page_id frame_id }
        let s ← s.setFrame frame_id (← s.frame frame_id).Reset
        let s ← s.PageSwitch false page_id frame_id
        pure (some frame_id, { s with cache_misses_ := addSizeT s.cache_misses_ 1 })
      | [] => do
        let (evicted_frame_id, replacer) ← s.replacer_.Evict
        let s := { s with replacer_ := replacer }
        match evicted_frame_id with
        | none => pure (none, s)
        | some frame_id =>
          let s ←
            match s.pageOfFrame frame_id with
            | some (loop_page_id, _) => do
              let s ←
                if (← s.frame frame_id).is_dirty_ then s.PageSwitch true loop_page_id frame_id
                else pure s
              pure { s with page_table_ := s.page_table_.erase loop_page_id }
            | none => pure s
          let s ← s.setFrame frame_id (← s.frame frame_id).Reset
          let s ← s.PageSwitch false page_id frame_id
          let s := { s with page_table_ := s.page_table_.assign page_id frame_id }
          pure (some frame_id, { s with cache_misses_ := addSizeT s.cache_misses_ 1 })

/-- The block under the latch of the constructors of `ReadPageGuard` and `WritePageGuard`: the
frame is pinned and made non-evictable. -/
def pin (s : BufferPoolManager) (frame_id : Int) : Except Err BufferPoolManager := do
  let f ← s.frame frame_id
  let s ← s.setFrame frame_id { f with pin_count_ := addSizeT f.pin_count_ 1 }
  let (replacer, r) := s.replacer_.SetEvictable frame_id false
  let s := { s with replacer_ := replacer }
  let _ ← r
  pure s

/-- The block under the latch of `ReadPageGuard::Drop` and `WritePageGuard::Drop`: the pin is
released and the frame made evictable when no pin is left. -/
def unpin (s : BufferPoolManager) (frame_id : Int) : Except Err BufferPoolManager := do
  let f ← s.frame frame_id
  let f := { f with pin_count_ := subSizeT f.pin_count_ 1 }
  let s ← s.setFrame frame_id f
  if f.pin_count_ = 0 then
    let (replacer, r) := s.replacer_.SetEvictable frame_id true
    let s := { s with replacer_ := replacer }
    let _ ← r
    pure s
  else pure s

/-- The constructor of `ReadPageGuard`. -/
def newReadPageGuard (s : BufferPoolManager) (page_id frame_id : Int) :
    Except Err (ReadPageGuard × BufferPoolManager) := do
  let s ← s.pin frame_id
  let s ← s.setFrame frame_id (← (← s.frame frame_id).lock_shared)
  pure (⟨page_id, frame_id, true⟩, s)

/-- The constructor of `WritePageGuard`. -/
def newWritePageGuard (s : BufferPoolManager) (page_id frame_id : Int) :
    Except Err (WritePageGuard × BufferPoolManager) := do
  let s ← s.pin frame_id
  let s ← s.setFrame frame_id (← (← s.frame frame_id).lock)
  pure (⟨page_id, frame_id, true⟩, s)

/-- `BufferPoolManager::CheckedReadPage`. -/
def CheckedReadPage (s : BufferPoolManager) (page_id : Int) :
    Except Err (Option ReadPageGuard × BufferPoolManager) := do
  match (← s.bringIn page_id) with
  | (none, s) => pure (none, s)
  | (some frame_id, s) =>
    let _ ← s.frame frame_id
    let replacer ← s.replacer_.RecordAccess frame_id page_id
    let s := { s with replacer_ := replacer }
    let (g, s) ← s.newReadPageGuard page_id frame_id
    pure (some g, s)

/-- `BufferPoolManager::CheckedWritePage`. -/
def CheckedWritePage (s : BufferPoolManager) (page_id : Int) :
    Except Err (Option WritePageGuard × BufferPoolManager) := do
  match (← s.bringIn page_id) with
  | (none, s) => pure (none, s)
  | (some frame_id, s) =>
    let _ ← s.frame frame_id
    let replacer ← s.replacer_.RecordAccess frame_id page_id
    let s := { s with replacer_ := replacer }
    let (g, s) ← s.newWritePageGuard page_id frame_id
    pure (some g, s)

/-- `BufferPoolManager::ReadPage`. -/
def ReadPage (s : BufferPoolManager) (page_id : Int) :
    Except Err (ReadPageGuard × BufferPoolManager) := do
  match (← s.CheckedReadPage page_id) with
  | (none, _) => Except.error Err.runtime_error
  | (some g, s) => pure (g, s)

/-- `BufferPoolManager::WritePage`. -/
def WritePage (s : BufferPoolManager) (page_id : Int) :
    Except Err (WritePageGuard × BufferPoolManager) := do
  match (← s.CheckedWritePage page_id) with
  | (none, _) => Except.error Err.runtime_error
  | (some g, s) => pure (g, s)

/-- The statements of `CheckedReadPage` and `CheckedWritePage` (the same text) and of the guard
constructor that precede the acquisition of the latch of the frame: the frame of the page is
found or filled, then come `RecordAccess` and, in the constructor, `pin_count_.fetch_add(1)`
and `SetEvictable(frame_id, false)`.  When `rwlatch_.lock_shared()` or `rwlatch_.lock()` then
throws, the exception leaves the constructor, `CheckedReadPage` / `CheckedWritePage` and
`ReadPage` / `WritePage`, none of which catches it, and this is the pool that the caller is left
with: the guard was not constructed, so that no destructor and no `Drop` takes the pin back.
Returns the frame with the pool, and no frame where the call ends before the constructor. -/
def pinnedBeforeLatch (s : BufferPoolManager) (page_id : Int) :
    Except Err (Option Int × BufferPoolManager) := do
  match (← s.bringIn page_id) with
  | (none, s) => pure (none, s)
  | (some frame_id, s) =>
    let _ ← s.frame frame_id
    let replacer ← s.replacer_.RecordAccess frame_id page_id
    let s := { s with replacer_ := replacer }
    let s ← s.pin frame_id
    pure (some frame_id, s)

/-- `ReadPageGuard::Drop`, on the buffer pool the guard points into. -/
def Drop (s : BufferPoolManager) (g : ReadPageGuard) :
    Except Err (ReadPageGuard × BufferPoolManager) :=
  if g.is_valid_ then do
    let g := { g with is_valid_ := false }
    let s ← s.setFrame g.frame_ (← s.frame g.frame_).unlock_shared
    let s ← s.unpin g.frame_
    pure (g, s)
  else pure (g, s)

/-- `WritePageGuard::Drop`, on the buffer pool the guard points into. -/
def DropWrite (s : BufferPoolManager) (g : WritePageGuard) :
    Except Err (WritePageGuard × BufferPoolManager) :=
  if g.is_valid_ then do
    let g := { g with is_valid_ := false }
    let s ← s.setFrame g.frame_ (← s.frame g.frame_).unlock
    let s ← s.unpin g.frame_
    pure (g, s)
  else pure (g, s)

/-- `ReadPageGuard::GetData`: the bytes of the frame; the frame pointer of a guard that is not
valid is null. -/
def GetData (s : BufferPoolManager) (g : ReadPageGuard) : Except Err PageData :=
  if g.is_valid_ then do pure (← s.frame g.frame_).data_
  else Except.error Err.null_dereference

/-- `WritePageGuard::GetDataMut` followed by a store of `data` to the buffer it returns. -/
def store (s : BufferPoolManager) (g : WritePageGuard) (data : PageData) :
    Except Err BufferPoolManager :=
  if g.is_valid_ then do
    let f ← s.frame g.frame_
    s.setFrame g.frame_ { f with is_dirty_ := true, data_ := data }
  else Except.error Err.null_dereference

/-- `ReadPageGuard::Flush` and `WritePageGuard::Flush` (the same text), for the page id and
frame of the guard. -/
def Flush (s : BufferPoolManager) (page_id frame_id : Int) : Except Err BufferPoolManager := do
  let f ← s.frame frame_id
  let disk ← s.disk_.WritePage page_id f.data_
  let s := { s with disk_ := disk }
  s.setFrame frame_id { f with is_dirty_ := false }

/-- The block of `FlushPage` and of the loop of `FlushAllPages` under the latch of the frame:
a dirty frame is written back. -/
def flushFrame (s : BufferPoolManager) (page_id frame_id : Int) :
    Except Err BufferPoolManager := do
  let f ← s.frame frame_id
  -- std::lock_guard<std::shared_mutex>: lock() and, at the end of the block, unlock()
  let _ ← f.lock
  if !f.is_dirty_ then pure s
  else
    let s ← s.PageSwitch true page_id frame_id
    let f ← s.frame frame_id
    s.setFrame frame_id { f with is_dirty_ := false }

/-- `BufferPoolManager::FlushPage`. -/
def FlushPage (s : BufferPoolManager) (page_id : Int) : Except Err (Bool × BufferPoolManager) :=
  if page_id < 0 ∨ page_id ≥ s.next_page_id_ then pure (false, s)
  else
    match s.page_table_.find page_id with
    | none => pure (false, s)
    | some frame_id => do
      let s ← s.flushFrame page_id frame_id
      pure (true, s)

/-- The loop of `FlushAllPages` over the entries of the page table. -/
def flushEntries (s : BufferPoolManager) : List (Int × Int) → Except Err BufferPoolManager
  | [] => pure s
  | (page_id, frame_id) :: entries => do
    let s ← s.flushFrame page_id frame_id
    flushEntries s entries

/-- `BufferPoolManager::FlushAllPages`. -/
def FlushAllPages (s : BufferPoolManager) : Except Err BufferPoolManager :=
  s.flushEntries s.page_table_

/-- `BufferPoolManager::GetPinCount`. -/
def GetPinCount (s : BufferPoolManager) (page_id : Int) : Except Err (Option Nat) :=
  if page_id < 0 ∨ page_id ≥ s.next_page_id_ then pure none
  else
    match s.page_table_.find page_id with
    | none => pure none
    | some frame_id => do pure (some (← s.frame frame_id).pin_count_)

end BufferPoolManager

/-! # page.h, page.cpp, bnlj.h, bnlj.cpp -/

/-- `sizeof(SimpleRow)`: a `RID` and two `int32_t`. -/
def SIMPLE_ROW_SIZE : Nat := 16

/-- `sizeof(LongRow)`: a `RID`, two `int32_t` and 64 `char`. -/
def LONG_ROW_SIZE : Nat := 80

/-- The `int32_t` whose object representation is the four bytes of `data` from `offset` on
(two's complement, least significant byte first); a byte past the end of `data` reads as 0. -/
def int32At (data : PageData) (offset : Nat) : Int :=
  wrapInt32 ((data.getD offset 0 : Nat) + 256 * (data.getD (offset + 1) 0 : Nat) +
    65536 * (data.getD (offset + 2) 0 : Nat) + 16777216 * (data.getD (offset + 3) 0 : Nat))

/-- The conversion of an `int32_t` to `size_t`. -/
def toSizeT (x : Int) : Nat := (x % (SIZE_T_MODULUS : Int)).toNat

/-- `Page<RowType>::GetRow(index)` for the `int32_t` `slot_num` as the index, and the read of
the members `next_rid` and `col1` through the pointer it returns, which is null for an index
past the rows of a page.  `row_size` is `sizeof(RowType)`; `next_rid` is the first member of a
row and `col1` the second. -/
def getRow (row_size : Nat) (data : PageData) (slot_num : Int) : Except Err (RID × Int) :=
  if toSizeT slot_num ≥ PAGE_SIZE / row_size then Except.error Err.null_dereference
  else
    pure (⟨int32At data (toSizeT slot_num * row_size),
        int32At data (toSizeT slot_num * row_size + 4)⟩,
      int32At data (toSizeT slot_num * row_size + 8))

/-- The struct `item` of bnlj.h. -/
structure item where
  col1 : Int
  left_rid : RID
deriving DecidableEq

/-- The move assignment `this = std::move(that)` of two different `ReadPageGuard`s: `this` is
dropped and takes the members of `that`; the result is `this`, `that` and the buffer pool. -/
def BufferPoolManager.moveAssign (s : BufferPoolManager) (this that : ReadPageGuard) :
    Except Err (ReadPageGuard × ReadPageGuard × BufferPoolManager) := do
  let (_, s) ← s.Drop this
  pure (⟨that.page_id_, that.frame_, that.is_valid_⟩, { that with is_valid_ := false }, s)

/-- The destructors of a sequence of `ReadPageGuard`s, in order. -/
def BufferPoolManager.dropAll (s : BufferPoolManager) :
    List ReadPageGuard → Except Err BufferPoolManager
  | [] => pure s
  | g :: gs => do
    let (_, s) ← s.Drop g
    dropAll s gs

namespace BlockNestedLoopJoinExecutor

/-- The for loop of `ExecuteJoin` over `block_items`: a pair is appended to `results_` for
each item whose `col1` is that of the right row. -/
def matchLoop (right_col1 : Int) (right_curr_rid : RID) :
    List item → List (RID × RID) → List (RID × RID)
  | [], results_ => results_
  | it :: block_items, results_ =>
    matchLoop right_col1 right_curr_rid block_items
      (if it.col1 = right_col1 then results_ ++ [(it.left_rid, right_curr_rid)] else results_)

/-- The if statement at the head of the body of the loop over the rows of a block: when the
row is on another page, the guard of the page that was current is moved to `left_page_guards`
and the page of the row is read. -/
def leftSwitch (s : BufferPoolManager) (left_curr_rid : RID) (left_curr_guard : ReadPageGuard)
    (left_page_guards : List ReadPageGuard) (left_block_count : Nat) :
    Except Err (BufferPoolManager × ReadPageGuard × List ReadPageGuard × Nat) :=
  if left_curr_guard.page_id_ ≠ left_curr_rid.page_id then do
    let (moved, left_curr_guard) := left_curr_guard.move
    let left_page_guards := left_page_guards ++ [moved]
    let (temporary, s) ← s.ReadPage left_curr_rid.page_id
    let (left_curr_guard, temporary, s) ← s.moveAssign left_curr_guard temporary
    let (_, s) ← s.Drop temporary
    pure (s, left_curr_guard, left_page_guards, addSizeT left_block_count 1)
  else pure (s, left_curr_guard, left_page_guards, left_block_count)

/-- The loop of `ExecuteJoin` over the rows of a block of the left chain; it ends in
`Err.diverges` when the fuel runs out. -/
def leftLoop (row_size block_size : Nat) :
    Nat → BufferPoolManager → RID → ReadPageGuard → List ReadPageGuard → Nat → List item →
      Except Err (BufferPoolManager × RID × ReadPageGuard × List ReadPageGuard × List item)
  | 0, _, _, _, _, _, _ => Except.error Err.diverges
  | fuel + 1, s, left_curr_rid, left_curr_guard, left_page_guards, left_block_count,
      block_items =>
    if left_block_count ≤ block_size ∧ left_curr_rid.IsValid = true then do
      let (s, left_curr_guard, left_page_guards, left_block_count) ←
        leftSwitch s left_curr_rid left_curr_guard left_page_guards left_block_count
      let data ← s.GetData left_curr_guard
      let (next_rid, col1) ← getRow row_size data left_curr_rid.slot_num
      leftLoop row_size block_size fuel s next_rid left_curr_guard left_page_guards
        left_block_count (block_items ++ [⟨col1, left_curr_rid⟩])
    else pure (s, left_curr_rid, left_curr_guard, left_page_guards, block_items)

/-- The if statement at the head of the body of the loop over the right chain: when the row is
on another page, that page is read and its guard assigned to `right_page_guard`. -/
def rightSwitch (s : BufferPoolManager) (right_curr_rid : RID)
    (right_page_guard : ReadPageGuard) : Except Err (BufferPoolManager × ReadPageGuard) :=
  if right_page_guard.page_id_ ≠ right_curr_rid.page_id then do
    let (temporary, s) ← s.ReadPage right_curr_rid.page_id
    let (right_page_guard, temporary, s) ← s.moveAssign right_page_guard temporary
    let (_, s) ← s.Drop temporary
    pure (s, right_page_guard)
  else pure (s, right_page_guard)

/-- The loop of `ExecuteJoin` over the rows of the right chain; it ends in `Err.diverges` when
the fuel runs out. -/
def rightLoop (row_size : Nat) (block_items : List item) :
    Nat → BufferPoolManager → RID → ReadPageGuard → List (RID × RID) →
      Except Err (BufferPoolManager × ReadPageGuard × List (RID × RID))
  | 0, _, _, _, _ => Except.error Err.diverges
  | fuel + 1, s, right_curr_rid, right_page_guard, results_ =>
    if right_curr_rid.IsValid = true then do
      let (s, right_page_guard) ← rightSwitch s right_curr_rid right_page_guard
      let data ← s.GetData right_page_guard
      let (next_rid, col1) ← getRow row_size data right_curr_rid.slot_num
      rightLoop row_size block_items fuel s next_rid right_page_guard
        (matchLoop col1 right_curr_rid block_items results_)
    else pure (s, right_page_guard, results_)

/-- The loop of `ExecuteJoin` over the blocks of the left chain.  `fuel` is the fuel of the
loops inside; the loop itself ends in `Err.diverges` when its own fuel runs out.  At the end of
the body, and at the break, the guards are destroyed: `right_page_guard`, `left_curr_guard` and
the elements of `left_page_guards`. -/
def blockLoop (left_row_size right_row_size : Nat) (right_start : RID) (block_size fuel : Nat) :
    Nat → BufferPoolManager → RID → List (RID × RID) →
      Except Err (BufferPoolManager × List (RID × RID))
  | 0, _, _, _ => Except.error Err.diverges
  | n + 1, s, left_curr_rid, results_ =>
    if left_curr_rid.IsValid = true then do
      let (left_curr_guard, s) ← s.ReadPage left_curr_rid.page_id
      let (s, left_curr_rid, left_curr_guard, left_page_guards, block_items) ←
        leftLoop left_row_size block_size fuel s left_curr_rid left_curr_guard [] 1 []
      if block_items.isEmpty then do
        let s ← s.dropAll (left_curr_guard :: left_page_guards)
        pure (s, results_)
      else do
        let (right_page_guard, s) ← s.ReadPage right_start.page_id
        let (s, right_page_guard, results_) ←
          rightLoop right_row_size block_items fuel s right_start right_page_guard results_
        let s ← s.dropAll (right_page_guard :: left_curr_guard :: left_page_guards)
        blockLoop left_row_size right_row_size right_start block_size fuel n s left_curr_rid
          results_
    else pure (s, results_)

/-- `BlockNestedLoopJoinExecutor<LeftRowType, RightRowType>::ExecuteJoin`: the buffer pool and
`results_` after the call.  `left_row_size` and `right_row_size` are `sizeof(LeftRowType)` and
`sizeof(RightRowType)`; the loops run on `fuel`. -/
def ExecuteJoin (left_row_size right_row_size : Nat) (fuel : Nat) (bpm : BufferPoolManager)
    (left_start right_start : RID) (block_size : Nat) :
    Except Err (BufferPoolManager × List (RID × RID)) :=
  blockLoop left_row_size right_row_size right_start block_size fuel fuel bpm left_start []

end BlockNestedLoopJoinExecutor

/-- `BPlusTreeLeafPage::GetNextPageId`. -/
def LeafPage.GetNextPageId (p : Page) : Int := p.next_page_id_

/-- `BPlusTreeLeafPage::SetNextPageId`. -/
def LeafPage.SetNextPageId (p : Page) (next_page_id : Int) : Page :=
  { p with next_page_id_ := next_page_id }

/-- The blocks "split leaf before insert" and "insert key & value into leaf page" of `Insert`
for a full leaf `leaf_page` (the page `leaf_page_id`), as they follow each other in the source:
the upper slots move to a new leaf, the entry is put in the leaf it belongs to and both pages are
stored.  Returns the tree with `up_key` and `new_child_id`. -/
def BPlusTree.splitLeafAndInsert (t : BPlusTree) (leaf_page_id : Int) (leaf_page : Page)
    (key : Int) (value : RID) : Except Err (BPlusTree × Int × Int) := do
  let index := LeafPage.KeyIndex leaf_page key
  let (new_leaf_page_id, t) := t.NewPage
  let new_leaf_page ← t.page new_leaf_page_id
  let new_leaf_page := LeafPage.Init new_leaf_page t.leaf_max_size_
  let (new_leaf_page, leaf_page, i, _) :=
    moveLeafSlots (leaf_page.GetSize - leaf_page.GetMinSize).toNat 0 leaf_page.GetMinSize
      new_leaf_page leaf_page
  let leaf_page := leaf_page.ChangeSizeBy (-i)
  let new_leaf_page := LeafPage.SetNextPageId new_leaf_page (LeafPage.GetNextPageId leaf_page)
  let leaf_page := LeafPage.SetNextPageId leaf_page new_leaf_page_id
  if index ≥ leaf_page.GetMinSize then
    -- the new key goes to the new leaf
    let index := index - leaf_page.GetMinSize
    let new_leaf_page :=
      shiftRightLeaf (new_leaf_page.GetSize - index).toNat new_leaf_page.GetSize new_leaf_page
    let new_leaf_page := ((new_leaf_page.setKey index key).setRid index value).ChangeSizeBy 1
    let up_key := LeafPage.KeyAt new_leaf_page 0
    let t ← t.setPage leaf_page_id leaf_page
    let t ← t.setPage new_leaf_page_id new_leaf_page
    pure (t, up_key, new_leaf_page_id)
  else
    let up_key := LeafPage.KeyAt new_leaf_page 0
    let leaf_page := shiftRightLeaf (leaf_page.GetSize - index).toNat leaf_page.GetSize leaf_page
    let leaf_page := ((leaf_page.setKey index key).setRid index value).ChangeSizeBy 1
    let t ← t.setPage leaf_page_id leaf_page
    let t ← t.setPage new_leaf_page_id new_leaf_page
    pure (t, up_key, new_leaf_page_id)

/-! # Notions of the specification -/

/-- The ceiling of `(max_size + 1) / 2` over the rationals, as the specification words the
minimum size. -/
def ceilHalfOfSucc (max_size : Int) : Int := ⌈((max_size : ℚ) + 1) / 2⌉

/-- The ceiling of `max_size / 2` over the rationals. -/
def ceilHalf (max_size : Int) : Int := ⌈(max_size : ℚ) / 2⌉

/-! ## Calls of the replacer and the states they reach -/

/-- A call of `RecordAccess`, `SetEvictable` or `Evict`. -/
inductive ArcCall where
  | record_access (frame_id page_id : Int)
  | set_evictable (frame_id : Int) (set_evictable : Bool)
  | evict
deriving DecidableEq

namespace ArcReplacer

/-- The replacer after a call.  A `SetEvictable` that throws leaves the replacer as it was, in
use; a `RecordAccess` or `Evict` that ends in an error has no state after it. -/
def call (s : ArcReplacer) : ArcCall → Except Err ArcReplacer
  | ArcCall.record_access frame_id page_id => s.RecordAccess frame_id page_id
  | ArcCall.set_evictable frame_id set_evictable =>
    Except.ok (s.SetEvictable frame_id set_evictable).1
  | ArcCall.evict => Except.map Prod.snd s.Evict

/-- The replacer after a sequence of calls, each allowed by `allowed` in the state it is made
in; none when a call is not allowed or ends in an error. -/
def callsFrom (allowed : ArcReplacer → ArcCall → Bool) (s : ArcReplacer) :
    List ArcCall → Option ArcReplacer
  | [] => some s
  | cl :: cls =>
    if allowed s cl then
      match s.call cl with
      | Except.ok s' => callsFrom allowed s' cls
      | Except.error _ => none
    else none

/-- The states reachable from a fresh replacer of capacity `c` (a `size_t`) by calls that
`allowed` admits in the state they are made in. -/
inductive Reachable (c : Nat) (allowed : ArcReplacer → ArcCall → Bool) : ArcReplacer → Prop where
  | fresh : c < SIZE_T_MODULUS → Reachable c allowed (ArcReplacer.new c)
  | step {s s' : ArcReplacer} (cl : ArcCall) :
      Reachable c allowed s → allowed s cl = true → s.call cl = Except.ok s' →
      Reachable c allowed s'

/-- No restriction on the calls. -/
def anyCall (_ : ArcReplacer) (_ : ArcCall) : Bool := true

/-- The frame id of the call lies in `[0, c)`, where `c` is `replacer_size_`. -/
def frameInRange (s : ArcReplacer) : ArcCall → Bool
  | ArcCall.record_access frame_id _ => decide (0 ≤ frame_id ∧ frame_id < s.replacer_size_)
  | ArcCall.set_evictable frame_id _ => decide (0 ≤ frame_id ∧ frame_id < s.replacer_size_)
  | ArcCall.evict => true

/-- Some alive frame holds the page id (it is the `page_id_` of its status). -/
def holdsPage (s : ArcReplacer) (page_id : Int) : Bool :=
  s.alive_map_.any (fun e => decide (e.2.page_id_ = page_id))

/-- A `RecordAccess` for a frame that is not alive is not given a page id that an alive frame
holds, as the buffer pool guarantees. -/
def pageNotHeld (s : ArcReplacer) : ArcCall → Bool
  | ArcCall.record_access frame_id page_id =>
    (s.alive_map_.find frame_id).isSome || !(s.holdsPage page_id)
  | _ => true

/-- Both restrictions: frame ids in `[0, c)` and each page id held by at most one alive
frame. -/
def frameInRangePageNotHeld (s : ArcReplacer) (cl : ArcCall) : Bool :=
  s.frameInRange cl && s.pageNotHeld cl

/-- The number of alive entries whose evictable flag is true. -/
def evictableCount (s : ArcReplacer) : Nat := s.alive_map_.countP (fun e => e.2.evictable_)

/-- The evictable entry of a list (of T1 or of T2) closest to its tail, the least recently used
one. -/
def lruEvictable (s : ArcReplacer) (list : List Int) : Option Int :=
  list.reverse.find? (fun f => (s.alive_map_.find f).any (fun st => st.evictable_))

/-- Well-formedness of the maps and lists of resident frames: the keys of the alive map are
distinct, `curr_size_` counts the evictable alive entries, the alive map holds at most
`replacer_size_` entries, T1 (`mru_`) holds exactly the alive frames tagged `MRU` and T2 (`mfu_`)
those tagged `MFU`, each once, and an alive frame carries no other tag. -/
structure WellFormed (s : ArcReplacer) : Prop where
  keys_nodup : (s.alive_map_.map Prod.fst).Nodup
  size_eq : s.curr_size_ = s.evictableCount
  room : s.alive_map_.length ≤ s.replacer_size_
  size_bound : s.replacer_size_ < SIZE_T_MODULUS
  mru_nodup : s.mru_.Nodup
  mfu_nodup : s.mfu_.Nodup
  mem_mru : ∀ f, f ∈ s.mru_ ↔
    ∃ st, s.alive_map_.find f = some st ∧ st.arc_status_ = ArcStatus.MRU
  mem_mfu : ∀ f, f ∈ s.mfu_ ↔
    ∃ st, s.alive_map_.find f = some st ∧ st.arc_status_ = ArcStatus.MFU
  status : ∀ f st, s.alive_map_.find f = some st →
    st.arc_status_ = ArcStatus.MRU ∨ st.arc_status_ = ArcStatus.MFU

end ArcReplacer

namespace ArcReplacer

/-- The list of resident frames with the given tag: T2 (`mfu_`) for `MFU`, else T1 (`mru_`), as
the lambda `try_evict` chooses it. -/
def residentList (s : ArcReplacer) (stat : ArcStatus) : List Int :=
  if stat = ArcStatus.MFU then s.mfu_ else s.mru_

/-- The replacer after `try_evict(stat)` has moved the frame `frame_id`, of status
`frame_status`, to the ghost list of its list. -/
def evictedState (s : ArcReplacer) (stat : ArcStatus) (frame_id : Int)
    (frame_status : FrameStatus) : ArcReplacer :=
  { mru_ := if stat = ArcStatus.MFU then s.mru_ else eraseFromTail s.mru_ frame_id
    mfu_ := if stat = ArcStatus.MFU then eraseFromTail s.mfu_ frame_id else s.mfu_
    mru_ghost_ :=
      if stat = ArcStatus.MFU then s.mru_ghost_ else frame_status.page_id_ :: s.mru_ghost_
    mfu_ghost_ :=
      if stat = ArcStatus.MFU then frame_status.page_id_ :: s.mfu_ghost_ else s.mfu_ghost_
    alive_map_ := s.alive_map_.erase frame_id
    ghost_map_ := s.ghost_map_.assign frame_status.page_id_
      { frame_status with arc_status_ :=
          if stat = ArcStatus.MRU then ArcStatus.MRU_GHOST else ArcStatus.MFU_GHOST }
    curr_size_ := subSizeT s.curr_size_ 1
    mru_target_size_ := s.mru_target_size_
    replacer_size_ := s.replacer_size_ }

/-- The list the specification prefers for the eviction: T1 if `|T1| > p`, otherwise T2 if
`|T2| ≥ c - p`, otherwise T1. -/
def preferredList (s : ArcReplacer) : ArcStatus :=
  if s.mru_.length > s.mru_target_size_ then ArcStatus.MRU
  else if s.mfu_.length ≥ s.replacer_size_ - s.mru_target_size_ then ArcStatus.MFU
  else ArcStatus.MRU

/-- The other list of resident frames. -/
def otherList (stat : ArcStatus) : ArcStatus :=
  if stat = ArcStatus.MFU then ArcStatus.MRU else ArcStatus.MFU

/-- The victim the specification names: the evictable entry closest to the tail of the
preferred list, and when that list has none, the one closest to the tail of the other list. -/
def specVictim (s : ArcReplacer) : Option Int :=
  match s.lruEvictable (s.residentList s.preferredList) with
  | some f => some f
  | none => s.lruEvictable (s.residentList (otherList s.preferredList))

end ArcReplacer

namespace ArcReplacer

/-- The replacer reached from a fresh one of capacity `c` by a sequence of allowed calls (the
fresh one itself when a call is not allowed or ends in an error); used to name concrete
states. -/
def reached (c : Nat) (allowed : ArcReplacer → ArcCall → Bool) (cls : List ArcCall) :
    ArcReplacer :=
  (callsFrom allowed (ArcReplacer.new c) cls).getD (ArcReplacer.new c)

end ArcReplacer

/-- Well-formedness of the ghost lists against the maps: a ghost status carries the page id it
is stored under; B1 and B2 hold, each once, exactly the page ids the ghost map tags `MRU_GHOST`
and `MFU_GHOST`; the alive frames hold distinct page ids, none of them in the ghost map. -/
structure GhostOk (alive ghost : StatusMap) (b1 b2 : List Int) : Prop where
  ghost_key : ∀ pg st, ghost.find pg = some st → st.page_id_ = pg
  b1_nodup : b1.Nodup
  b2_nodup : b2.Nodup
  mem_b1 : ∀ pg, pg ∈ b1 ↔ ∃ st, ghost.find pg = some st ∧ st.arc_status_ = ArcStatus.MRU_GHOST
  mem_b2 : ∀ pg, pg ∈ b2 ↔ ∃ st, ghost.find pg = some st ∧ st.arc_status_ = ArcStatus.MFU_GHOST
  pages_nodup : (alive.map (fun e => e.2.page_id_)).Nodup
  alive_not_ghost : ∀ e ∈ alive, ghost.find e.2.page_id_ = none
  ghost_tag : ∀ pg st, ghost.find pg = some st →
    st.arc_status_ = ArcStatus.MRU_GHOST ∨ st.arc_status_ = ArcStatus.MFU_GHOST

/-- Well-formedness of the ghost lists of a replacer. -/
def ArcReplacer.GhostWellFormed (s : ArcReplacer) : Prop :=
  GhostOk s.alive_map_ s.ghost_map_ s.mru_ghost_ s.mfu_ghost_

namespace BufferPoolManager

/-- A page is accessed and released: `ReadPage(page_id)` and the `Drop` of the guard. -/
def access (s : BufferPoolManager) (page_id : Int) : Except Err BufferPoolManager := do
  let (g, s) ← s.ReadPage page_id
  let (_, s) ← s.Drop g
  pure s

/-- The pages of a list are accessed and released, one after the other. -/
def accessAll (s : BufferPoolManager) : List Int → Except Err BufferPoolManager
  | [] => pure s
  | page_id :: page_ids => do
    let s ← s.access page_id
    accessAll s page_ids

/-- The buffer pool after `n` calls of `NewPage`. -/
def allocate (s : BufferPoolManager) : Nat → BufferPoolManager
  | 0 => s
  | n + 1 => allocate s.NewPage.2 n

end BufferPoolManager

/-- The ARC pressure scenario before the access to K: a pool of capacity 10 with the pages
`0..11` allocated, in which the pages A..J (page ids `1..10`) and then A again have been accessed
and released. -/
def arcPressureBeforeK : Except Err BufferPoolManager :=
  ((BufferPoolManager.new 10 DiskManagerMemory.new).allocate 12).accessAll [1, 2, 3, 4, 5, 6, 7, 8, 9, 10, 1]

/-- The ARC pressure scenario after the access to K (page id 11): the guard of K and the
buffer pool. -/
def arcPressureAfterK : Except Err (ReadPageGuard × BufferPoolManager) := do
  let s ← arcPressureBeforeK
  s.ReadPage 11

/-! ## The buffer pool and the guards of its caller -/

/-- The disk manager after `ReadPage(page_id)` or the allocation step of `WritePage(page_id)`:
a page it does not hold is allocated. -/
def DiskManagerMemory.allocated (d : DiskManagerMemory) (page_id : Int) : DiskManagerMemory :=
  match d.pages_.find page_id with
  | some _ => d
  | none => ⟨d.pages_.assign page_id PageData.zero⟩

/-- The bytes the disk manager delivers for a page: those it holds, or zero bytes for a page it
has yet to allocate. -/
def DiskManagerMemory.read (d : DiskManagerMemory) (page_id : Int) : PageData :=
  (d.pages_.find page_id).getD PageData.zero

/-- The disk manager after `WritePage(page_id, buf)`. -/
def DiskManagerMemory.written (d : DiskManagerMemory) (page_id : Int) (buf : PageData) :
    DiskManagerMemory :=
  ⟨(d.allocated page_id).pages_.assign page_id buf⟩

/-- The element of a vector of frames at a frame id in range (a fresh frame header stands for
the others). -/
def frameOf (frames : List FrameHeader) (frame_id : Int) : FrameHeader :=
  if 0 ≤ frame_id then frames.getD frame_id.toNat FrameHeader.new else FrameHeader.new

/-- The frame `frames_[frame_id]` of a frame id in range. -/
def BufferPoolManager.frameAt (s : BufferPoolManager) (frame_id : Int) : FrameHeader :=
  frameOf s.frames_ frame_id

/-- The buffer pool with `frames_[frame_id]` replaced. -/
def BufferPoolManager.withFrame (s : BufferPoolManager) (frame_id : Int) (f : FrameHeader) :
    BufferPoolManager :=
  { s with frames_ := s.frames_.set frame_id.toNat f }

/-- A guard the caller holds. -/
inductive Guard where
  | read (g : ReadPageGuard)
  | write (g : WritePageGuard)
deriving DecidableEq

namespace Guard

/-- The member `page_id_` of the guard. -/
def page_id_ : Guard → Int
  | read g => g.page_id_
  | write g => g.page_id_

/-- The frame the member `frame_` of the guard points to. -/
def frame_ : Guard → Int
  | read g => g.frame_
  | write g => g.frame_

/-- The member `is_valid_` of the guard. -/
def is_valid_ : Guard → Bool
  | read g => g.is_valid_
  | write g => g.is_valid_

/-- The guard is a `WritePageGuard`. -/
def isWrite : Guard → Bool
  | read _ => false
  | write _ => true

end Guard

/-- The buffer pool together with the valid guards its caller holds. -/
structure Pool where
  bpm : BufferPoolManager
  guards : List Guard

/-- An operation of the single caller of the buffer pool. -/
inductive PoolCall where
  | new_page
  | read_page (page_id : Int)
  | write_page (page_id : Int)
  | store (g : WritePageGuard) (data : PageData)
  | flush_guard (g : Guard)
  | drop (g : Guard)
  | flush_page (page_id : Int)
  | flush_all_pages

namespace Pool

/-- The guard a call goes through is one the caller holds. -/
def holds (P : Pool) : PoolCall → Bool
  | PoolCall.store g _ => decide (Guard.write g ∈ P.guards)
  | PoolCall.flush_guard g => decide (g ∈ P.guards)
  | PoolCall.drop g => decide (g ∈ P.guards)
  | _ => true

/-- The pool after an operation of the caller. -/
def call (P : Pool) : PoolCall → Except Err Pool
  | PoolCall.new_page => pure { P with bpm := P.bpm.NewPage.2 }
  | PoolCall.read_page page_id => do
    let (g, b) ← P.bpm.ReadPage page_id
    pure ⟨b, Guard.read g :: P.guards⟩
  | PoolCall.write_page page_id => do
    let (g, b) ← P.bpm.WritePage page_id
    pure ⟨b, Guard.write g :: P.guards⟩
  | PoolCall.store g data => do
    let b ← P.bpm.store g data
    pure { P with bpm := b }
  | PoolCall.flush_guard g => do
    let b ← P.bpm.Flush g.page_id_ g.frame_
    pure { P with bpm := b }
  | PoolCall.drop (Guard.read g) => do
    let (_, b) ← P.bpm.Drop g
    pure ⟨b, P.guards.erase (Guard.read g)⟩
  | PoolCall.drop (Guard.write g) => do
    let (_, b) ← P.bpm.DropWrite g
    pure ⟨b, P.guards.erase (Guard.write g)⟩
  | PoolCall.flush_page page_id => do
    let (_, b) ← P.bpm.FlushPage page_id
    pure { P with bpm := b }
  | PoolCall.flush_all_pages => do
    let b ← P.bpm.FlushAllPages
    pure { P with bpm := b }

/-- The pools reachable from a fresh buffer pool of `N` frames over the disk manager `d` by
operations of a single caller, who holds fewer than `2 ^ 64 - 1` guards at a time. -/
inductive Reachable (N : Nat) (d : DiskManagerMemory) : Pool → Prop where
  | fresh : N < 2147483648 → Reachable N d ⟨BufferPoolManager.new N d, []⟩
  | step {P P' : Pool} (cl : PoolCall) :
      Reachable N d P → P.holds cl = true → P.guards.length + 1 < SIZE_T_MODULUS →
      P.call cl = Except.ok P' → Reachable N d P'

end Pool

/-- What the buffer pool relies on in the status of an alive frame: its page id and its
evictable flag. -/
def ArcReplacer.view (r : ArcReplacer) (frame_id : Int) : Option (Int × Bool) :=
  (r.alive_map_.find frame_id).map (fun st => (st.page_id_, st.evictable_))

/-- The invariant of the page table, the free list and the replacer of a pool of `N` frames: the
frame ids `[0, N)` are shared out between the free list and the values of the page table, and the
alive frames of the replacer are the values of the page table, each with the page id it is the
value of. -/
structure TableInv (N : Nat) (table : IntMap Int) (free : List Int) (r : ArcReplacer) :
    Prop where
  bound : N < 2147483648
  replacer_size : r.replacer_size_ = N
  replacer_wf : r.WellFormed
  replacer_ghost : r.GhostWellFormed
  table_keys : (table.map Prod.fst).Nodup
  partition : (free ++ table.map Prod.snd).Perm ((List.range N).map (fun i : Nat => (i : Int)))
  alive_table : ∀ f p e, r.view f = some (p, e) → table.find p = some f
  table_alive : ∀ p f, table.find p = some f → ∃ e, r.view f = some (p, e)

/-- The invariant of the pin counts `pin` against the guards `G` the caller holds: a guard is
valid and on the frame of its page, the pin count of a frame is the number of guards on it, and
an alive frame is evictable exactly when its pin count is 0.  The frame `x`, if any, is one that
is being acquired: it may be alive and not evictable before it is pinned. -/
structure PinInv (N : Nat) (x : Option Int) (table : IntMap Int) (r : ArcReplacer)
    (pin : Int → Nat) (G : List Guard) : Prop where
  guards_valid : ∀ g ∈ G, g.is_valid_ = true ∧ table.find g.page_id_ = some g.frame_
  guards_bound : G.length < SIZE_T_MODULUS
  pins : ∀ f : Int, 0 ≤ f → f < N → pin f = G.countP (fun g => decide (g.frame_ = f))
  evictable_pin : ∀ f p, r.view f = some (p, true) → pin f = 0
  pin_evictable : ∀ f p, some f ≠ x → r.view f = some (p, false) → pin f ≠ 0

/-- The invariant of the latches of the frames against the guards `G` the caller holds:
`readers` counts the read guards on a frame, `writer` tells whether there is a write guard on
it, and a write guard is the only guard on its frame. -/
structure LatchInv (N : Nat) (readers : Int → Nat) (writer : Int → Bool) (G : List Guard) :
    Prop where
  readers_eq : ∀ f : Int, 0 ≤ f → f < N →
    readers f = G.countP (fun g => decide (g.frame_ = f) && !g.isWrite)
  writer_iff : ∀ f : Int, 0 ≤ f → f < N →
    (writer f = true ↔ ∃ g ∈ G, g.frame_ = f ∧ g.isWrite = true)
  exclusive : ∀ g ∈ G, g.isWrite = true →
    G.countP (fun g' => decide (g'.frame_ = g.frame_)) = 1

/-- The invariant of the bytes: a resident page whose frame is not dirty has the bytes of the
frame on disk. -/
structure DataInv (table : IntMap Int) (disk : DiskManagerMemory) (dirty : Int → Bool)
    (data : Int → PageData) : Prop where
  clean : ∀ p f, table.find p = some f → dirty f = false → disk.read p = data f

/-- The invariant of the buffer pool `b` of `N` frames and the guards `G` its caller holds; `x`
is the frame being acquired, if any. -/
structure PoolInv (N : Nat) (x : Option Int) (b : BufferPoolManager) (G : List Guard) :
    Prop where
  frames_length : b.frames_.length = N
  table : TableInv N b.page_table_ b.free_frames_ b.replacer_
  pin : PinInv N x b.page_table_ b.replacer_ (fun f => (b.frameAt f).pin_count_) G
  latch : LatchInv N (fun f => (b.frameAt f).readers_) (fun f => (b.frameAt f).writer_) G
  data : DataInv b.page_table_ b.disk_ (fun f => (b.frameAt f).is_dirty_)
    (fun f => (b.frameAt f).data_)

namespace BufferPoolManager

/-- The disk manager after the write-back of the eviction branch: a dirty frame is written to
the page it held. -/
def diskAfterWriteBack (s : BufferPoolManager) (page_id frame_id : Int) : DiskManagerMemory :=
  if (s.frameAt frame_id).is_dirty_ then s.disk_.written page_id (s.frameAt frame_id).data_
  else s.disk_

/-- The bytes a reader of the page finds: those of its frame if the page is resident, those on
disk otherwise. -/
def content (s : BufferPoolManager) (page_id : Int) : PageData :=
  match s.page_table_.find page_id with
  | some f => (s.frameAt f).data_
  | none => s.disk_.read page_id

end BufferPoolManager

namespace Pool

/-- The pool after a sequence of operations of the caller, each through a guard the caller holds
and with fewer than `2 ^ 64 - 1` guards held; none when an operation is not of that kind or ends
in an error. -/
def calls (P : Pool) : List PoolCall → Option Pool
  | [] => some P
  | cl :: cls =>
    if P.holds cl = true ∧ P.guards.length + 1 < SIZE_T_MODULUS then
      match P.call cl with
      | Except.ok P' => calls P' cls
      | Except.error _ => none
    else none

/-- The pool reached from a fresh buffer pool of `N` frames over the disk manager `d` by a
sequence of operations (the fresh pool itself when `calls` gives none); used to name concrete
pools. -/
def after (N : Nat) (d : DiskManagerMemory) (cls : List PoolCall) : Pool :=
  ((Pool.mk (BufferPoolManager.new N d) []).calls cls).getD ⟨BufferPoolManager.new N d, []⟩

end Pool

/-- A pool of one frame after two calls of `NewPage` and `WritePage(0)`: the caller holds the
write guard on page 0, which is in frame 0. -/
def Pool.oneFramePinned : Pool :=
  Pool.after 1 DiskManagerMemory.new
    [PoolCall.new_page, PoolCall.new_page, PoolCall.write_page 0]

/-- A pool of two frames after two calls of `NewPage`, `ReadPage(0)` twice and `WritePage(1)`:
the caller holds two read guards on page 0 and the write guard on page 1. -/
def Pool.twoFramesPinned : Pool :=
  Pool.after 2 DiskManagerMemory.new
    [PoolCall.new_page, PoolCall.new_page, PoolCall.read_page 0, PoolCall.read_page 0,
      PoolCall.write_page 1]

/-- A pool of two frames in which page 0 was written through a guard that was dropped, and page
1 was read through a guard that was dropped: no guard is held, the frame of page 0 is dirty. -/
def Pool.twoFramesDirty : Pool :=
  Pool.after 2 DiskManagerMemory.new
    [PoolCall.new_page, PoolCall.new_page, PoolCall.write_page 0,
      PoolCall.store ⟨0, 0, true⟩ (List.replicate PAGE_SIZE 7),
      PoolCall.drop (Guard.write ⟨0, 0, true⟩), PoolCall.read_page 1,
      PoolCall.drop (Guard.read ⟨1, 1, true⟩)]

/-! ## Accesses to pages through guards -/

/-- An access of the caller to a page through a guard that is dropped before the next page is
requested: a write of `data`, or a read. -/
inductive PageAccess where
  | write (page_id : Int) (data : PageData)
  | read (page_id : Int)

/-- The page an access is to. -/
def PageAccess.page_id : PageAccess → Int
  | PageAccess.write page_id _ => page_id
  | PageAccess.read page_id => page_id

namespace BufferPoolManager

/-- `WritePage(page_id)`, a store of `data` to the buffer `GetDataMut()` returns, and the drop
of the guard. -/
def writeThrough (s : BufferPoolManager) (page_id : Int) (data : PageData) :
    Except Err BufferPoolManager := do
  let (g, s) ← s.WritePage page_id
  let s ← s.store g data
  let (_, s) ← s.DropWrite g
  pure s

/-- `ReadPage(page_id)`, the bytes `GetData()` returns, and the drop of the guard. -/
def readThrough (s : BufferPoolManager) (page_id : Int) :
    Except Err (PageData × BufferPoolManager) := do
  let (g, s) ← s.ReadPage page_id
  let data ← s.GetData g
  let (_, s) ← s.Drop g
  pure (data, s)

/-- A sequence of accesses, one after the other: the bytes the reads returned, in order, and
the buffer pool. -/
def accesses (s : BufferPoolManager) :
    List PageAccess → Except Err (List PageData × BufferPoolManager)
  | [] => pure ([], s)
  | PageAccess.write page_id data :: rest => do
    let s ← s.writeThrough page_id data
    accesses s rest
  | PageAccess.read page_id :: rest => do
    let (data, s) ← s.readThrough page_id
    let (reads, s) ← accesses s rest
    pure (data :: reads, s)

end BufferPoolManager

/-- Modelled from the spec: what the reads of a sequence of accesses return when each page
holds the bytes most recently written to it; `bytes` gives the bytes of the pages before the
sequence. -/
def lastWrittenReads (bytes : Int → PageData) : List PageAccess → List PageData
  | [] => []
  | PageAccess.write page_id data :: rest =>
    lastWrittenReads (fun q => if q = page_id then data else bytes q) rest
  | PageAccess.read page_id :: rest => bytes page_id :: lastWrittenReads bytes rest

/-! ## Rows stored in pages -/

/-- The object representation of an `int32_t`: four bytes, least significant first. -/
def int32Bytes (x : Int) : List Nat :=
  [(x % 256).toNat, (x / 256 % 256).toNat, (x / 65536 % 256).toNat, (x / 16777216 % 256).toNat]

/-- The bytes of a `SimpleRow` with the members `next_rid`, `col1` and `col2`. -/
def simpleRowBytes (next_rid : RID) (col1 col2 : Int) : List Nat :=
  int32Bytes next_rid.page_id ++ int32Bytes next_rid.slot_num ++ int32Bytes col1 ++
    int32Bytes col2

/-- The bytes of a page that starts with the given bytes; the other bytes are 0. -/
def pageOfBytes (bytes : List Nat) : PageData :=
  bytes ++ List.replicate (PAGE_SIZE - bytes.length) 0

/-- The rows of the chain that starts at `start`, each as its RID and its `col1`, in pages whose
bytes `bytes` gives: the chain follows the member `next_rid` of each row to the first RID that
is not valid.  `row_size` is the size of a row. -/
inductive RowChain (bytes : Int → PageData) (row_size : Nat) : RID → List (RID × Int) → Prop where
  | nil {start : RID} : start.IsValid = false → RowChain bytes row_size start []
  | cons {start next_rid : RID} {col1 : Int} {rows : List (RID × Int)} :
      start.IsValid = true →
      getRow row_size (bytes start.page_id) start.slot_num = Except.ok (next_rid, col1) →
      RowChain bytes row_size next_rid rows →
      RowChain bytes row_size start ((start, col1) :: rows)

/-- Modelled from the spec: the pairs of the join of two chains of rows, one pair
`(left RID, right RID)` for each combination of a left row and a right row with equal `col1`. -/
def joinPairs (left right : List (RID × Int)) : List (RID × RID) :=
  left.flatMap (fun l => (right.filter (fun r => decide (l.2 = r.2))).map (fun r => (l.1, r.1)))

/-- A pool of one frame and two pages, no guard held: page 0 holds one `SimpleRow` with
`col1 = 5` that ends its chain, and so does page 1. -/
def Pool.joinOneFrame : Pool :=
  Pool.after 1 DiskManagerMemory.new
    [PoolCall.new_page, PoolCall.new_page,
      PoolCall.write_page 0,
      PoolCall.store ⟨0, 0, true⟩ (pageOfBytes (simpleRowBytes ⟨-1, -1⟩ 5 0)),
      PoolCall.drop (Guard.write ⟨0, 0, true⟩),
      PoolCall.write_page 1,
      PoolCall.store ⟨1, 0, true⟩ (pageOfBytes (simpleRowBytes ⟨-1, -1⟩ 5 0)),
      PoolCall.drop (Guard.write ⟨1, 0, true⟩)]

/-- A pool of four frames and three pages, no guard held: the left chain is the `SimpleRow`s
`(0, 0)`, `(0, 1)` and `(1, 0)` with `col1` 5, 6 and 5, the right chain the `SimpleRow`s
`(2, 0)` and `(2, 1)` with `col1` 5 and 6. -/
def Pool.joinFourFrames : Pool :=
  Pool.after 4 DiskManagerMemory.new
    [PoolCall.new_page, PoolCall.new_page, PoolCall.new_page,
      PoolCall.write_page 0,
      PoolCall.store ⟨0, 0, true⟩
        (pageOfBytes (simpleRowBytes ⟨0, 1⟩ 5 0 ++ simpleRowBytes ⟨1, 0⟩ 6 0)),
      PoolCall.drop (Guard.write ⟨0, 0, true⟩),
      PoolCall.write_page 1,
      PoolCall.store ⟨1, 1, true⟩ (pageOfBytes (simpleRowBytes ⟨-1, -1⟩ 5 0)),
      PoolCall.drop (Guard.write ⟨1, 1, true⟩),
      PoolCall.write_page 2,
      PoolCall.store ⟨2, 2, true⟩
        (pageOfBytes (simpleRowBytes ⟨2, 1⟩ 5 0 ++ simpleRowBytes ⟨-1, -1⟩ 6 0)),
      PoolCall.drop (Guard.write ⟨2, 2, true⟩)]

/-- The part of the agreement between the ghost map and the ghost lists that no sequence of
calls breaks: a page id the ghost map tags `MRU_GHOST` is in B1, one it tags `MFU_GHOST` is in
B2, and the ghost map holds no other tag. -/
def ArcReplacer.GhostListed (s : ArcReplacer) : Prop :=
  ∀ pg st, s.ghost_map_.find pg = some st →
    (st.arc_status_ = ArcStatus.MRU_GHOST ∧ pg ∈ s.mru_ghost_) ∨
    (st.arc_status_ = ArcStatus.MFU_GHOST ∧ pg ∈ s.mfu_ghost_)

/-- A leaf page that holds the keys 10, 20 and 30. -/
def Page.threeKeyLeaf : Page :=
  ⟨IndexPageType.LEAF_PAGE, 3, 3, INVALID_PAGE_ID, [10, 20, 30], [⟨10, 0⟩, ⟨20, 0⟩, ⟨30, 0⟩], []⟩

/-- An internal page of three children, with the keys 20 and 30 in its slots 1 and 2. -/
def Page.threeChildInternal : Page :=
  ⟨IndexPageType.INTERNAL_PAGE, 3, 3, 0, [0, 20, 30], [], [1, 2, 3]⟩

/-- The child pointer in slot `x` of the internal page `p` once `new_child_id` is put in slot `i`
and the slots from `i` on are moved one place up, as in a page with room. -/
def Page.childWith (p : Page) (i new_child_id x : Int) : Int :=
  if x < i then p.child x else if x = i then new_child_id else p.child (x - 1)

/-- The key in slot `x` of the page `p` once `up_key` is put in slot `i` and the slots from `i`
on are moved one place up. -/
def Page.keyWith (p : Page) (i up_key x : Int) : Int :=
  if x < i then p.key x else if x = i then up_key else p.key (x - 1)

/-- The tree `t2` holds the two halves of the internal page `p` of `t` (page `parent_id`) with
`(up_key, new_child_id)` added in slot `i`: the page `parent_id` holds the slots below
`GetMinSize()`, the page allocated last holds the slots from `GetMinSize()` on, and `promoted`
is the key of slot `GetMinSize()`. -/
def BPlusTree.IsSplitOf (t t2 : BPlusTree) (parent_id : Int) (p : Page)
    (i up_key new_child_id promoted : Int) : Prop :=
  ∃ L R, t2.page parent_id = Except.ok L ∧ t2.page (t.pages.length : Int) = Except.ok R ∧
    L.GetSize = p.GetMinSize ∧ R.GetSize = p.GetSize + 1 - p.GetMinSize ∧
    (∀ x, 0 ≤ x → x < p.GetMinSize → L.child x = p.childWith i new_child_id x) ∧
    (∀ x, 1 ≤ x → x < p.GetMinSize → L.key x = p.keyWith i up_key x) ∧
    promoted = p.keyWith i up_key p.GetMinSize ∧
    (∀ y, 0 ≤ y → y < p.GetSize + 1 - p.GetMinSize →
      R.child y = p.childWith i new_child_id (p.GetMinSize + y)) ∧
    (∀ y, 1 ≤ y → y < p.GetSize + 1 - p.GetMinSize →
      R.key y = p.keyWith i up_key (p.GetMinSize + y))

/-- The child pointers of an internal page, those of its slots `[0, size)`. -/
def Page.children (p : Page) : List Int :=
  (List.range p.GetSize.toNat).map (fun x : Nat => p.child (x : Int))

/-- The keys of an internal page, those of its slots `[1, size)`. -/
def Page.separators (p : Page) : List Int :=
  (List.range (p.GetSize.toNat - 1)).map (fun x : Nat => p.key ((x : Int) + 1))

/-- The tree with `leaf_max_size = 2` and `internal_max_size = 3` after `Insert` of 50, 40, 30
and 20: its root, page 3, is an internal page with the three children 1, 4, 2 and the keys 40
and 50, and the next page id is 5. -/
def BPlusTree.fullInternalRoot : BPlusTree :=
  built 2 3 (insertRange 50 1 ++ insertRange 40 1 ++ insertRange 30 1 ++ insertRange 20 1)

/-- The entries (key and RID) of a leaf page, those of its slots `[0, size)`. -/
def Page.entries (p : Page) : List (Int × RID) :=
  (List.range p.GetSize.toNat).map (fun x : Nat => (p.key (x : Int), p.rid (x : Int)))

/-- The RID in slot `x` of the leaf page `p` once `value` is put in slot `i` and the slots from
`i` on are moved one place up. -/
def Page.ridWith (p : Page) (i : Int) (value : RID) (x : Int) : RID :=
  if x < i then p.rid x else if x = i then value else p.rid (x - 1)

/-- The tree `t2` holds the two halves of the leaf page `p` of `t` (page `leaf_page_id`) with
`(key, value)` added in slot `i`: the page `leaf_page_id` holds the first `n` slots and points
to the page allocated last, which holds the other slots and points to the leaf `p` pointed to;
`up_key` is the key in slot 0 of the page allocated last. -/
def BPlusTree.IsLeafSplitOf (t t2 : BPlusTree) (leaf_page_id : Int) (p : Page)
    (i key : Int) (value : RID) (n up_key : Int) : Prop :=
  ∃ L R, t2.page leaf_page_id = Except.ok L ∧ t2.page (t.pages.length : Int) = Except.ok R ∧
    L.GetSize = n ∧ R.GetSize = p.GetSize + 1 - n ∧
    (∀ x, 0 ≤ x → x < n → L.key x = p.keyWith i key x ∧ L.rid x = p.ridWith i value x) ∧
    (∀ y, 0 ≤ y → y < p.GetSize + 1 - n →
      R.key y = p.keyWith i key (n + y) ∧ R.rid y = p.ridWith i value (n + y)) ∧
    L.next_page_id_ = (t.pages.length : Int) ∧ R.next_page_id_ = p.next_page_id_ ∧
    up_key = R.key 0

/-- The tree with `leaf_max_size = 2` after `Insert` of 10 and 20: its root, page 1, is a full
leaf. -/
def BPlusTree.fullLeafRoot : BPlusTree := built 2 3 (insertRange 10 1 ++ insertRange 20 1)

/-- The tree with `leaf_max_size = 2` and `internal_max_size = 3` after `Insert` of 10, 20, 30,
40 and 50: the root (page 7) has the two internal children 3 and 6, each with two leaves (1, 2
and 4, 5); every page that is not the root has at least `GetMinSize()` entries. -/
def BPlusTree.threeLevels : BPlusTree :=
  built 2 3 (insertRange 10 1 ++ insertRange 20 1 ++ insertRange 30 1 ++ insertRange 40 1 ++
    insertRange 50 1)

/-- The tree with `leaf_max_size = 2` and `internal_max_size = 3` after `Insert` of 20, 50, 10,
30 and 40: the root (page 7) has the two internal children 3 (leaves 1, 4) and 6 (leaves 5, 2);
the leaf 5 holds 30 and 40, the leaf 2 holds 50. -/
def BPlusTree.threeLevelsLeft : BPlusTree :=
  built 2 3 (insertRange 20 1 ++ insertRange 50 1 ++ insertRange 10 1 ++ insertRange 30 1 ++
    insertRange 40 1)

/-! ## The depth of the leaves -/

/-- The page was initialised as a leaf page or as an internal page. -/
def Page.IsTreePage (p : Page) : Prop :=
  p.page_type_ = IndexPageType.LEAF_PAGE ∨ p.page_type_ = IndexPageType.INTERNAL_PAGE

namespace BPlusTree

/-- Every page of `t` is a page of `t2` with the same height, and a leaf or internal page of `t`
is a page of the same type in `t2`. -/
def Keeps (t t2 : BPlusTree) (h h2 : Int → Nat) : Prop :=
  ∀ c q, t.page c = Except.ok q →
    ∃ q2, t2.page c = Except.ok q2 ∧ h2 c = h c ∧ (q.IsTreePage → q2.page_type_ = q.page_type_)

end BPlusTree

theorem wrapInt32_of_bounds (x : Int) (h0 : -2147483648 ≤ x) (h1 : x < 2147483648) :
    wrapInt32 x = x := by
  unfold wrapInt32
  rw [Int.emod_eq_of_lt (by omega) (by omega)]
  omega

/-- C7, counterexample: for `max_size = 2` the code returns `GetMinSize() = 1`, while the ceiling
of `(2 + 1) / 2` is `2`. -/
theorem C7_GetMinSize_not_ceil_of_succ :
    ¬ (({ Page.zero with max_size_ := 2 } : Page).GetMinSize =
        ceilHalfOfSucc ({ Page.zero with max_size_ := 2 } : Page).max_size_) := by
  have h1 : ({ Page.zero with max_size_ := 2 } : Page).GetMinSize = 1 := by decide
  have h2 : ceilHalfOfSucc ({ Page.zero with max_size_ := 2 } : Page).max_size_ = 2 := by
    show ⌈(((2 : Int) : ℚ) + 1) / 2⌉ = 2
    rw [Int.ceil_eq_iff]
    constructor <;> norm_num
  rw [h1, h2]
  decide

/-- C7, amended: for every page whose `max_size_` is at least 0 and below `INT_MAX` (so that
`max_size_ + 1` does not overflow), `GetMinSize()` is the floor of `(max_size + 1) / 2`, which
is the ceiling of `max_size / 2`. -/
theorem C7_GetMinSize_floor (p : Page) (h0 : 0 ≤ p.max_size_) (h1 : p.max_size_ < 2147483647) :
    p.GetMinSize = (p.max_size_ + 1) / 2 ∧ p.GetMinSize = ceilHalf p.max_size_ := by
  have hmin : p.GetMinSize = (p.max_size_ + 1) / 2 := by
    unfold Page.GetMinSize
    rw [wrapInt32_of_bounds _ (by omega) (by omega)]
    exact Int.tdiv_eq_ediv (by omega) (by decide)
  refine ⟨hmin, ?_⟩
  rw [hmin]
  unfold ceilHalf
  symm
  rw [Int.ceil_eq_iff]
  have hq : ((p.max_size_ : ℚ)) = 2 * (((p.max_size_ + 1) / 2 : Int) : ℚ) - 1 ∨
      ((p.max_size_ : ℚ)) = 2 * (((p.max_size_ + 1) / 2 : Int) : ℚ) := by
    rcases Int.emod_two_eq_zero_or_one p.max_size_ with h | h
    · right
      have : p.max_size_ = 2 * ((p.max_size_ + 1) / 2) := by omega
      exact_mod_cast this
    · left
      have : p.max_size_ = 2 * ((p.max_size_ + 1) / 2) - 1 := by omega
      exact_mod_cast this
  rcases hq with h | h <;> rw [h] <;> constructor <;> linarith

/-- C7, witness of the amended statement at `max_size = 4`. -/
theorem C7_GetMinSize_floor_witness :
    ({ Page.zero with max_size_ := 4 } : Page).GetMinSize
        = (({ Page.zero with max_size_ := 4 } : Page).max_size_ + 1) / 2 ∧
      ({ Page.zero with max_size_ := 4 } : Page).GetMinSize
        = ceilHalf ({ Page.zero with max_size_ := 4 } : Page).max_size_ :=
  C7_GetMinSize_floor { Page.zero with max_size_ := 4 } (by decide) (by decide)

/-! ## Duplicate insert -/

theorem FindAndLockLoop_of_FindLeafPageLoop (t : BPlusTree) (key : Int) :
    ∀ (fuel : Nat) (page_id leaf_id : Int) (write_set : List Int),
      t.FindLeafPageLoop key fuel page_id = Except.ok leaf_id →
      ∃ ws, t.FindAndLockLoop key fuel page_id write_set = Except.ok (leaf_id :: ws) := by
  intro fuel
  induction fuel with
  | zero => intro page_id leaf_id write_set h; simp [BPlusTree.FindLeafPageLoop] at h
  | succ n ih =>
    intro page_id leaf_id write_set h
    unfold BPlusTree.FindLeafPageLoop at h
    unfold BPlusTree.FindAndLockLoop
    cases hp : t.page page_id with
    | error e => simp [hp, bind, Except.bind] at h
    | ok page =>
      simp only [hp, bind, Except.bind] at h ⊢
      by_cases hl : page.IsLeafPage = true
      · simp only [hl, if_true, pure, Except.pure] at h ⊢
        cases h
        exact ⟨write_set, rfl⟩
      · simp only [hl] at h ⊢
        cases hd : BPlusTree.descendIndex page key with
        | error e => simp [hd] at h
        | ok index =>
          simp only [hd] at h ⊢
          cases hv : InternalPage.ValueAt page index with
          | error e => simp [hv] at h
          | ok child =>
            simp only [hv] at h ⊢
            exact ih child leaf_id (page_id :: write_set) h

/-- For every tree and every key that `GetValue` finds, with stored value `v`,
`Insert(key, value)` returns false and leaves the header page (the root page id) and the content
of every page as they were; `GetValue(key)` still appends exactly `v`. -/
theorem duplicate_insert_of_found (t : BPlusTree) (key : Int) (value v : RID)
    (h : t.GetValue key [] = Except.ok (true, [v])) :
    ∃ t', t.Insert key value = Except.ok (false, t') ∧ t' = t ∧
      ∀ result, t'.GetValue key result = Except.ok (true, result ++ [v]) := by
  refine ⟨t, ?_, rfl, ?_⟩
  · unfold BPlusTree.GetValue at h
    unfold BPlusTree.Insert
    by_cases hr : t.root_page_id_ = INVALID_PAGE_ID
    · simp [hr, pure, Except.pure] at h
    · have he : t.IsEmpty = false := by simp [BPlusTree.IsEmpty, hr]
      simp only [hr, if_false] at h
      simp only [he]
      cases hf : t.FindLeafPage key with
      | error e => simp [hf, bind, Except.bind] at h
      | ok leaf_id =>
        obtain ⟨ws, hws⟩ := FindAndLockLoop_of_FindLeafPageLoop t key _ _ leaf_id [] hf
        have hws2 : t.FindAndLock key = Except.ok (leaf_id :: ws) := hws
        simp only [hf, bind, Except.bind] at h
        simp only [hws2, bind, Except.bind]
        cases hp : t.page leaf_id with
        | error e => simp [hp] at h
        | ok leaf_page =>
          simp only [hp] at h ⊢
          by_cases hc : LeafPage.KeyIndex leaf_page key < leaf_page.GetSize ∧
              comparator (LeafPage.KeyAt leaf_page (LeafPage.KeyIndex leaf_page key)) key = 0
          · simp [hc, pure, Except.pure]
          · simp [hc, pure, Except.pure] at h
  · intro result
    unfold BPlusTree.GetValue at h ⊢
    by_cases hr : t.root_page_id_ = INVALID_PAGE_ID
    · simp [hr, pure, Except.pure] at h
    · simp only [hr, if_false] at h ⊢
      cases hf : t.FindLeafPage key with
      | error e => simp [hf, bind, Except.bind] at h
      | ok leaf_id =>
        simp only [hf, bind, Except.bind] at h ⊢
        cases hp : t.page leaf_id with
        | error e => simp [hp] at h
        | ok leaf_page =>
          simp only [hp] at h ⊢
          by_cases hc : LeafPage.KeyIndex leaf_page key < leaf_page.GetSize ∧
              comparator (LeafPage.KeyAt leaf_page (LeafPage.KeyIndex leaf_page key)) key = 0
          · simp only [hc, and_self, if_true, pure, Except.pure] at h ⊢
            simp at h
            simp [h]
          · simp [hc, pure, Except.pure] at h

/-- An instance: the tree after `Insert(1, RID(1, 0))`, as in the test `DuplicateInsert`. -/
theorem duplicate_insert_of_found_instance :
    run (BPlusTree.fresh 32 32) [Op.insert 1 ⟨1, 0⟩]
        = Except.ok (built 32 32 [Op.insert 1 ⟨1, 0⟩]) ∧
      (built 32 32 [Op.insert 1 ⟨1, 0⟩]).GetValue 1 [] = Except.ok (true, [⟨1, 0⟩]) ∧
      ∃ t', (built 32 32 [Op.insert 1 ⟨1, 0⟩]).Insert 1 ⟨1, 1⟩ = Except.ok (false, t') ∧
        t' = built 32 32 [Op.insert 1 ⟨1, 0⟩] ∧
        ∀ result, t'.GetValue 1 result = Except.ok (true, result ++ [⟨1, 0⟩]) :=
  ⟨by decide, by decide, duplicate_insert_of_found _ 1 ⟨1, 1⟩ ⟨1, 0⟩ (by decide)⟩

/-! ## The iterator at the end -/

/-- In a non-empty tree, for the iterator `End()` returns (last leaf of the descent, slot equal
to its size) when that leaf ends the leaf chain (`next_page_id_` is `INVALID_PAGE_ID`): both
`operator*` and `operator++` throw `std::out_of_range`, and `operator++` leaves `page_id_` and
`index_` as they were. -/
theorem end_iterator_throws_at_chain_end (t : BPlusTree) (it : IndexIterator)
    (hne : t.IsEmpty = false) (hend : t.End = Except.ok it)
    (hlast : ∀ p, t.page it.page_id_ = Except.ok p → p.next_page_id_ = INVALID_PAGE_ID) :
    IndexIterator.deref t it = Except.error Err.out_of_range ∧
      IndexIterator.increment t it = (it, Except.error Err.out_of_range) := by
  unfold BPlusTree.End at hend
  simp only [hne] at hend
  cases hl : t.EndLoop (t.pages.length + 1) t.root_page_id_ with
  | error e => simp [hl, bind, Except.bind] at hend
  | ok leaf_id =>
    simp only [hl, bind, Except.bind] at hend
    cases hp : t.page leaf_id with
    | error e => simp [hp] at hend
    | ok leaf_page =>
      simp only [hp, pure, Except.pure] at hend
      cases hend
      have hn := hlast leaf_page hp
      have hE : IndexIterator.IsEnd t ⟨leaf_id, leaf_page.GetSize⟩ = Except.ok true := by
        simp [IndexIterator.IsEnd, hp, hn, bind, Except.bind, pure, Except.pure]
      constructor
      · simp [IndexIterator.deref, hE, bind, Except.bind]
      · simp [IndexIterator.increment, hE]

/-- An instance: the tree after `Insert` of 10, 20 and 30 with `leaf_max_size = 2`; `End()` is
slot 2 of the second leaf (page 2). -/
theorem end_iterator_throws_at_chain_end_instance :
    (built 2 3 (insertRange 10 1 ++ insertRange 20 1 ++ insertRange 30 1)).End
        = Except.ok ⟨2, 2⟩ ∧
      IndexIterator.deref (built 2 3 (insertRange 10 1 ++ insertRange 20 1 ++ insertRange 30 1))
        ⟨2, 2⟩ = Except.error Err.out_of_range ∧
      IndexIterator.increment (built 2 3 (insertRange 10 1 ++ insertRange 20 1 ++ insertRange 30 1))
        ⟨2, 2⟩ = (⟨2, 2⟩, Except.error Err.out_of_range) :=
  ⟨by decide,
    end_iterator_throws_at_chain_end (built 2 3 (insertRange 10 1 ++ insertRange 20 1 ++ insertRange 30 1))
      ⟨2, 2⟩ (by decide) (by decide) (by
        intro p hp
        have h2 : Except.map Page.next_page_id_
            ((built 2 3 (insertRange 10 1 ++ insertRange 20 1 ++ insertRange 30 1)).page 2)
              = Except.ok INVALID_PAGE_ID := by decide
        rw [show (2 : Int) = (⟨2, 2⟩ : IndexIterator).page_id_ from rfl, hp] at h2
        simpa [Except.map] using h2)⟩

/-! ## Occupancy after a leaf split -/

/-- C5, the code at the failing input: with `leaf_max_size = 3`, after `Insert` of 10, 20, 30 and
5 the root is the internal page 3 with the two children 1 and 2, and the leaf page 2, which is
not the root, has size 1 while its `GetMinSize()` is 2. -/
theorem C5_leaf_below_min_size :
    run (BPlusTree.fresh 3 3)
        (insertRange 10 1 ++ insertRange 20 1 ++ insertRange 30 1 ++ insertRange 5 1)
      = Except.ok (built 3 3
          (insertRange 10 1 ++ insertRange 20 1 ++ insertRange 30 1 ++ insertRange 5 1)) ∧
    (built 3 3 (insertRange 10 1 ++ insertRange 20 1 ++ insertRange 30 1 ++
        insertRange 5 1)).root_page_id_ = 3 ∧
    Except.map (fun p => (p.IsLeafPage, p.GetSize, p.child 0, p.child 1))
        ((built 3 3 (insertRange 10 1 ++ insertRange 20 1 ++ insertRange 30 1 ++
          insertRange 5 1)).page 3) = Except.ok (false, 2, 1, 2) ∧
    Except.map (fun p => (p.IsLeafPage, p.GetSize, p.GetMinSize, p.GetMaxSize))
        ((built 3 3 (insertRange 10 1 ++ insertRange 20 1 ++ insertRange 30 1 ++
          insertRange 5 1)).page 2) = Except.ok (true, 1, 2, 3) := by
  decide

/-! ## Begin at a key between two leaves -/

/-- C8, the code at the failing input: with `leaf_max_size = 2`, after `Insert` of 10, 20 and 30
the stored keys 20 and 30 are at least 15, `Begin(15)` returns slot 1 of the first leaf (page 1,
which holds only the key 10), an iterator different from `End()` (slot 2 of page 2), and
dereferencing it throws `std::out_of_range` instead of yielding the key 20. -/
theorem C8_begin_at_key_throws :
    run (BPlusTree.fresh 2 3) (insertRange 10 1 ++ insertRange 20 1 ++ insertRange 30 1)
      = Except.ok (built 2 3 (insertRange 10 1 ++ insertRange 20 1 ++ insertRange 30 1)) ∧
    (built 2 3 (insertRange 10 1 ++ insertRange 20 1 ++ insertRange 30 1)).GetValue 20 []
      = Except.ok (true, [⟨20, 0⟩]) ∧
    (built 2 3 (insertRange 10 1 ++ insertRange 20 1 ++ insertRange 30 1)).BeginAt 15
      = Except.ok ⟨1, 1⟩ ∧
    (built 2 3 (insertRange 10 1 ++ insertRange 20 1 ++ insertRange 30 1)).End
      = Except.ok ⟨2, 2⟩ ∧
    IndexIterator.deref (built 2 3 (insertRange 10 1 ++ insertRange 20 1 ++ insertRange 30 1))
      ⟨1, 1⟩ = Except.error Err.out_of_range := by
  decide

/-! ## The maps of the replacer -/

namespace StatusMap

theorem find_cons_eq {e : Int × FrameStatus} (m : StatusMap) {k : Int} (h : e.1 = k) :
    find (e :: m) k = some e.2 := by
  show (if e.1 = k then some e.2 else find m k) = some e.2
  rw [if_pos h]

theorem find_cons_ne {e : Int × FrameStatus} (m : StatusMap) {k : Int} (h : e.1 ≠ k) :
    find (e :: m) k = find m k := by
  show (if e.1 = k then some e.2 else find m k) = find m k
  rw [if_neg h]

theorem erase_cons_eq {e : Int × FrameStatus} (m : StatusMap) {k : Int} (h : e.1 = k) :
    erase (e :: m) k = erase m k := by
  unfold erase
  rw [List.filter_cons_of_neg]
  simp [h]

theorem erase_cons_ne {e : Int × FrameStatus} (m : StatusMap) {k : Int} (h : e.1 ≠ k) :
    erase (e :: m) k = e :: erase m k := by
  unfold erase
  rw [List.filter_cons_of_pos]
  simp [h]

theorem find_erase_self (m : StatusMap) (k : Int) : find (erase m k) k = none := by
  induction m with
  | nil => rfl
  | cons e m ih =>
    by_cases h : e.1 = k
    · rw [erase_cons_eq m h]; exact ih
    · rw [erase_cons_ne m h, find_cons_ne _ h]; exact ih

theorem find_erase_ne (m : StatusMap) {k k' : Int} (h : k' ≠ k) :
    find (erase m k) k' = find m k' := by
  induction m with
  | nil => rfl
  | cons e m ih =>
    by_cases h1 : e.1 = k
    · have h2 : e.1 ≠ k' := by rw [h1]; exact fun h3 => h h3.symm
      rw [erase_cons_eq m h1, find_cons_ne m h2]; exact ih
    · rw [erase_cons_ne m h1]
      by_cases h2 : e.1 = k'
      · rw [find_cons_eq _ h2, find_cons_eq _ h2]
      · rw [find_cons_ne _ h2, find_cons_ne _ h2]; exact ih

theorem find_assign_self (m : StatusMap) (k : Int) (v : FrameStatus) :
    find (assign m k v) k = some v :=
  find_cons_eq (e := (k, v)) _ rfl

theorem find_assign_ne (m : StatusMap) {k k' : Int} (v : FrameStatus) (h : k' ≠ k) :
    find (assign m k v) k' = find m k' := by
  have h2 : ((k, v) : Int × FrameStatus).1 ≠ k' := fun h3 => h h3.symm
  unfold assign
  rw [find_cons_ne _ h2, find_erase_ne m h]

theorem find_eq_none_iff (m : StatusMap) (k : Int) :
    find m k = none ↔ k ∉ m.map Prod.fst := by
  induction m with
  | nil => simp [find]
  | cons e m ih =>
    by_cases h : e.1 = k
    · rw [find_cons_eq m h]
      simp [h]
    · have h2 : k ≠ e.1 := fun h3 => h h3.symm
      rw [find_cons_ne m h, ih]
      simp [h2]

theorem mem_of_find {m : StatusMap} {k : Int} {v : FrameStatus} (h : find m k = some v) :
    (k, v) ∈ m := by
  induction m with
  | nil => simp [find] at h
  | cons e m ih =>
    by_cases h1 : e.1 = k
    · rw [find_cons_eq m h1] at h
      have h2 : e = (k, v) := by
        cases e
        simp only [Option.some.injEq] at h
        simp only at h1
        rw [h, h1]
      rw [h2]
      exact List.mem_cons_self _ _
    · rw [find_cons_ne m h1] at h
      exact List.mem_cons_of_mem _ (ih h)

theorem find_of_mem {m : StatusMap} (hn : (m.map Prod.fst).Nodup) {e : Int × FrameStatus}
    (h : e ∈ m) : find m e.1 = some e.2 := by
  induction m with
  | nil => simp at h
  | cons e' m ih =>
    rw [List.map_cons, List.nodup_cons] at hn
    rcases List.mem_cons.mp h with h1 | h1
    · subst h1
      exact find_cons_eq m rfl
    · have h2 : e'.1 ≠ e.1 := by
        intro h3
        apply hn.1
        rw [h3]
        exact List.mem_map_of_mem _ h1
      rw [find_cons_ne m h2]
      exact ih hn.2 h1

theorem erase_of_find_none {m : StatusMap} {k : Int} (h : find m k = none) : erase m k = m := by
  induction m with
  | nil => rfl
  | cons e m ih =>
    by_cases h1 : e.1 = k
    · rw [find_cons_eq m h1] at h
      cases h
    · rw [find_cons_ne m h1] at h
      rw [erase_cons_ne m h1, ih h]

theorem keys_erase (m : StatusMap) (k : Int) :
    (erase m k).map Prod.fst = (m.map Prod.fst).filter (fun x => decide (x ≠ k)) := by
  induction m with
  | nil => rfl
  | cons e m ih =>
    by_cases h1 : e.1 = k
    · rw [erase_cons_eq m h1, ih, List.map_cons, List.filter_cons_of_neg]
      simp [h1]
    · rw [erase_cons_ne m h1, List.map_cons, ih, List.map_cons, List.filter_cons_of_pos]
      simp [h1]

theorem nodup_erase {m : StatusMap} (hn : (m.map Prod.fst).Nodup) (k : Int) :
    ((erase m k).map Prod.fst).Nodup := by
  rw [keys_erase]
  exact hn.filter _

theorem nodup_assign {m : StatusMap} (hn : (m.map Prod.fst).Nodup) (k : Int) (v : FrameStatus) :
    ((assign m k v).map Prod.fst).Nodup := by
  unfold assign
  rw [List.map_cons, List.nodup_cons]
  refine ⟨?_, nodup_erase hn k⟩
  rw [← find_eq_none_iff]
  exact find_erase_self m k

theorem length_erase {m : StatusMap} (hn : (m.map Prod.fst).Nodup) {k : Int} {v : FrameStatus}
    (h : find m k = some v) : (erase m k).length + 1 = m.length := by
  induction m with
  | nil => simp [find] at h
  | cons e m ih =>
    rw [List.map_cons, List.nodup_cons] at hn
    by_cases h1 : e.1 = k
    · have h2 : find m k = none := by
        rw [find_eq_none_iff, ← h1]
        exact hn.1
      rw [erase_cons_eq m h1, erase_of_find_none h2, List.length_cons]
    · rw [find_cons_ne m h1] at h
      rw [erase_cons_ne m h1, List.length_cons, List.length_cons, ih hn.2 h]

theorem length_erase_le (m : StatusMap) (k : Int) : (erase m k).length ≤ m.length :=
  List.length_filter_le _ _

theorem countP_erase {m : StatusMap} (hn : (m.map Prod.fst).Nodup) {k : Int} {v : FrameStatus}
    (h : find m k = some v) :
    m.countP (fun e => e.2.evictable_)
      = (if v.evictable_ = true then 1 else 0)
        + (erase m k).countP (fun e => e.2.evictable_) := by
  induction m with
  | nil => simp [find] at h
  | cons e m ih =>
    rw [List.map_cons, List.nodup_cons] at hn
    by_cases h1 : e.1 = k
    · have h2 : find m k = none := by
        rw [find_eq_none_iff, ← h1]
        exact hn.1
      rw [find_cons_eq m h1] at h
      simp only [Option.some.injEq] at h
      rw [erase_cons_eq m h1, erase_of_find_none h2, List.countP_cons, h]
      omega
    · rw [find_cons_ne m h1] at h
      rw [erase_cons_ne m h1, List.countP_cons, List.countP_cons, ih hn.2 h]
      omega

theorem countP_eq_zero_iff (m : StatusMap) :
    m.countP (fun e => e.2.evictable_) = 0 ↔ ∀ e ∈ m, e.2.evictable_ = false := by
  rw [List.countP_eq_zero]
  constructor
  · intro h e he
    simpa using h e he
  · intro h e he
    simp [h e he]

end StatusMap

/-! ## Well-formedness of the replacer is kept by every call -/

theorem addSizeT_one {n : Nat} (h : n + 1 < SIZE_T_MODULUS) : addSizeT n 1 = n + 1 := by
  unfold addSizeT
  exact Nat.mod_eq_of_lt h

theorem subSizeT_one {n : Nat} (h0 : 0 < n) (h : n < SIZE_T_MODULUS) : subSizeT n 1 = n - 1 := by
  unfold subSizeT SIZE_T_MODULUS at *
  omega

theorem subSizeT_of_le {a b : Nat} (hb : b ≤ a) (h : a < SIZE_T_MODULUS) :
    subSizeT a b = a - b := by
  unfold subSizeT SIZE_T_MODULUS at *
  omega

namespace ArcReplacer

theorem evictableCount_le (s : ArcReplacer) : s.evictableCount ≤ s.alive_map_.length :=
  List.countP_le_length _

theorem mem_eraseFromTail {l : List Int} (hn : l.Nodup) (x y : Int) :
    y ∈ eraseFromTail l x ↔ y ∈ l ∧ y ≠ x := by
  unfold eraseFromTail
  rw [List.mem_reverse, (List.nodup_reverse.mpr hn).mem_erase_iff, List.mem_reverse]
  exact And.comm

theorem nodup_eraseFromTail {l : List Int} (hn : l.Nodup) (x : Int) :
    (eraseFromTail l x).Nodup := by
  unfold eraseFromTail
  exact List.nodup_reverse.mpr ((List.nodup_reverse.mpr hn).erase x)

theorem wellFormed_new {c : Nat} (hc : c < SIZE_T_MODULUS) : (ArcReplacer.new c).WellFormed where
  keys_nodup := List.nodup_nil
  size_eq := rfl
  room := Nat.zero_le _
  size_bound := hc
  mru_nodup := List.nodup_nil
  mfu_nodup := List.nodup_nil
  mem_mru := by intro f; simp [ArcReplacer.new, StatusMap.find]
  mem_mfu := by intro f; simp [ArcReplacer.new, StatusMap.find]
  status := by intro f st h; simp [ArcReplacer.new, StatusMap.find] at h

/-- Replacing the status of an alive frame by one with the same tag keeps the tags of all
frames. -/
theorem find_assign_tag {m : StatusMap} {f : Int} {st v : FrameStatus}
    (h : m.find f = some st) (hv : v.arc_status_ = st.arc_status_) (g : Int) (tag : ArcStatus) :
    (∃ st', (m.assign f v).find g = some st' ∧ st'.arc_status_ = tag) ↔
      ∃ st', m.find g = some st' ∧ st'.arc_status_ = tag := by
  by_cases hg : g = f
  · subst hg
    rw [StatusMap.find_assign_self, h]
    constructor
    · rintro ⟨st', h1, h2⟩
      cases h1
      exact ⟨st, rfl, by rw [← hv]; exact h2⟩
    · rintro ⟨st', h1, h2⟩
      cases h1
      exact ⟨v, rfl, by rw [hv]; exact h2⟩
  · rw [StatusMap.find_assign_ne m v hg]

theorem WellFormed.setEvictable {s : ArcReplacer} (hw : s.WellFormed) (f : Int) (b : Bool) :
    (s.SetEvictable f b).1.WellFormed := by
  unfold SetEvictable
  cases hf : s.alive_map_.find f with
  | none => exact hw
  | some st =>
    by_cases hb : st.evictable_ = b
    · simp only [hb, ne_eq, not_true_eq_false, if_false]
      exact hw
    · have hlen : (s.alive_map_.assign f { st with evictable_ := b }).length
          = s.alive_map_.length := by
        unfold StatusMap.assign
        rw [List.length_cons, StatusMap.length_erase hw.keys_nodup hf]
      have hcount := StatusMap.countP_erase hw.keys_nodup hf
      have hsz := hw.size_eq
      have hroom := hw.room
      have hbound := hw.size_bound
      unfold evictableCount at hsz
      have hcount' : (s.alive_map_.assign f { st with evictable_ := b }).countP
            (fun e => e.2.evictable_)
          = (if b = true then 1 else 0)
            + (s.alive_map_.erase f).countP (fun e => e.2.evictable_) := by
        unfold StatusMap.assign
        rw [List.countP_cons]
        simp only
        omega
      have hle' : (s.alive_map_.erase f).countP (fun e => e.2.evictable_) + 1
          ≤ s.alive_map_.length := by
        have := List.countP_le_length (fun e => e.2.evictable_) (l := s.alive_map_.erase f)
        have := StatusMap.length_erase hw.keys_nodup hf
        omega
      have hta := fun g tag =>
        find_assign_tag (v := { st with evictable_ := b }) hf rfl g tag
      have hstatus : ∀ g st', (s.alive_map_.assign f { st with evictable_ := b }).find g
          = some st' → st'.arc_status_ = ArcStatus.MRU ∨ st'.arc_status_ = ArcStatus.MFU := by
        intro g st' hg
        obtain ⟨st'', h2, h3⟩ := (hta g st'.arc_status_).mp ⟨st', hg, rfl⟩
        rw [← h3]
        exact hw.status g st'' h2
      simp only [ne_eq, hb, not_false_eq_true, if_true]
      cases b with
      | true =>
        have hst : st.evictable_ = false := by
          cases h : st.evictable_ with
          | true => exact absurd h hb
          | false => rfl
        simp only [if_true]
        refine ⟨StatusMap.nodup_assign hw.keys_nodup _ _, ?_, ?_, hw.size_bound, hw.mru_nodup,
          hw.mfu_nodup, ?_, ?_, hstatus⟩
        · show addSizeT s.curr_size_ 1 = _
          unfold evictableCount
          simp only
          rw [hcount', hsz, hcount, hst]
          simp only [if_true, Bool.false_eq_true, if_false, Nat.zero_add]
          rw [addSizeT_one (by omega)]
          omega
        · show (s.alive_map_.assign f _).length ≤ _
          rw [hlen]; exact hroom
        · intro g
          show g ∈ s.mru_ ↔ _
          rw [hw.mem_mru g]
          exact (hta g _).symm
        · intro g
          show g ∈ s.mfu_ ↔ _
          rw [hw.mem_mfu g]
          exact (hta g _).symm
      | false =>
        have hst : st.evictable_ = true := by
          cases h : st.evictable_ with
          | true => rfl
          | false => exact absurd h hb
        simp only [Bool.false_eq_true, if_false]
        refine ⟨StatusMap.nodup_assign hw.keys_nodup _ _, ?_, ?_, hw.size_bound, hw.mru_nodup,
          hw.mfu_nodup, ?_, ?_, hstatus⟩
        · show subSizeT s.curr_size_ 1 = _
          unfold evictableCount
          simp only
          rw [hcount', hsz, hcount, hst]
          simp only [if_true, Bool.false_eq_true, if_false, Nat.zero_add]
          rw [subSizeT_one (by omega) (by omega)]
          omega
        · show (s.alive_map_.assign f _).length ≤ _
          rw [hlen]; exact hroom
        · intro g
          show g ∈ s.mru_ ↔ _
          rw [hw.mem_mru g]
          exact (hta g _).symm
        · intro g
          show g ∈ s.mfu_ ↔ _
          rw [hw.mem_mfu g]
          exact (hta g _).symm

end ArcReplacer

namespace ArcReplacer

/-- Well-formedness looks at the alive map, the two lists of resident frames, `curr_size_` and
`replacer_size_` only. -/
theorem WellFormed.of_eq {s s' : ArcReplacer} (hw : s.WellFormed)
    (h1 : s'.alive_map_ = s.alive_map_) (h2 : s'.mru_ = s.mru_) (h3 : s'.mfu_ = s.mfu_)
    (h4 : s'.curr_size_ = s.curr_size_) (h5 : s'.replacer_size_ = s.replacer_size_) :
    s'.WellFormed := by
  refine ⟨?_, ?_, ?_, ?_, ?_, ?_, ?_, ?_, ?_⟩
  · rw [h1]; exact hw.keys_nodup
  · rw [h4, hw.size_eq]; unfold evictableCount; rw [h1]
  · rw [h1, h5]; exact hw.room
  · rw [h5]; exact hw.size_bound
  · rw [h2]; exact hw.mru_nodup
  · rw [h3]; exact hw.mfu_nodup
  · intro f; rw [h1, h2]; exact hw.mem_mru f
  · intro f; rw [h1, h3]; exact hw.mem_mfu f
  · intro f st; rw [h1]; exact hw.status f st

theorem mem_filter_ne (l : List Int) (f g : Int) :
    g ∈ l.filter (fun x => decide (x ≠ f)) ↔ g ∈ l ∧ g ≠ f := by
  simp [List.mem_filter]

/-- A frame that is not alive enters the alive map, not evictable, and the head of T2. -/
theorem WellFormed.admit_mfu {s : ArcReplacer} (hw : s.WellFormed) {f : Int}
    (hf : s.alive_map_.find f = none) (st : FrameStatus) (hev : st.evictable_ = false)
    (htag : st.arc_status_ = ArcStatus.MFU)
    (hroom : (s.alive_map_.assign f st).length ≤ s.replacer_size_) :
    ({ s with alive_map_ := s.alive_map_.assign f st, mfu_ := f :: s.mfu_ } :
      ArcReplacer).WellFormed := by
  have he : s.alive_map_.erase f = s.alive_map_ := StatusMap.erase_of_find_none hf
  refine ⟨StatusMap.nodup_assign hw.keys_nodup _ _, ?_, hroom, hw.size_bound, hw.mru_nodup, ?_,
    ?_, ?_, ?_⟩
  · show s.curr_size_ = _
    unfold evictableCount StatusMap.assign
    simp only
    rw [List.countP_cons, he, hev]
    simpa using hw.size_eq
  · show (f :: s.mfu_).Nodup
    rw [List.nodup_cons]
    refine ⟨?_, hw.mfu_nodup⟩
    intro hmem
    obtain ⟨st', h1, _⟩ := (hw.mem_mfu f).mp hmem
    rw [hf] at h1
    cases h1
  · intro g
    show g ∈ s.mru_ ↔ ∃ st', (s.alive_map_.assign f st).find g = some st' ∧ _
    by_cases hg : g = f
    · subst hg
      rw [StatusMap.find_assign_self]
      constructor
      · intro hmem
        obtain ⟨st', h1, _⟩ := (hw.mem_mru g).mp hmem
        rw [hf] at h1
        cases h1
      · rintro ⟨st', h1, h2⟩
        cases h1
        rw [htag] at h2
        cases h2
    · rw [StatusMap.find_assign_ne _ _ hg]
      exact hw.mem_mru g
  · intro g
    show g ∈ f :: s.mfu_ ↔ ∃ st', (s.alive_map_.assign f st).find g = some st' ∧ _
    by_cases hg : g = f
    · subst hg
      rw [StatusMap.find_assign_self]
      simp [htag]
    · rw [StatusMap.find_assign_ne _ _ hg, List.mem_cons]
      simp only [hg, false_or]
      exact hw.mem_mfu g
  · intro g st'
    show (s.alive_map_.assign f st).find g = some st' → _
    by_cases hg : g = f
    · subst hg
      rw [StatusMap.find_assign_self]
      intro h1
      cases h1
      exact Or.inr htag
    · rw [StatusMap.find_assign_ne _ _ hg]
      exact hw.status g st'

/-- A frame that is not alive enters the alive map, not evictable, and the head of T1. -/
theorem WellFormed.admit_mru {s : ArcReplacer} (hw : s.WellFormed) {f : Int}
    (hf : s.alive_map_.find f = none) (st : FrameStatus) (hev : st.evictable_ = false)
    (htag : st.arc_status_ = ArcStatus.MRU)
    (hroom : (s.alive_map_.assign f st).length ≤ s.replacer_size_) :
    ({ s with alive_map_ := s.alive_map_.assign f st, mru_ := f :: s.mru_ } :
      ArcReplacer).WellFormed := by
  have he : s.alive_map_.erase f = s.alive_map_ := StatusMap.erase_of_find_none hf
  refine ⟨StatusMap.nodup_assign hw.keys_nodup _ _, ?_, hroom, hw.size_bound, ?_, hw.mfu_nodup,
    ?_, ?_, ?_⟩
  · show s.curr_size_ = _
    unfold evictableCount StatusMap.assign
    simp only
    rw [List.countP_cons, he, hev]
    simpa using hw.size_eq
  · show (f :: s.mru_).Nodup
    rw [List.nodup_cons]
    refine ⟨?_, hw.mru_nodup⟩
    intro hmem
    obtain ⟨st', h1, _⟩ := (hw.mem_mru f).mp hmem
    rw [hf] at h1
    cases h1
  · intro g
    show g ∈ f :: s.mru_ ↔ ∃ st', (s.alive_map_.assign f st).find g = some st' ∧ _
    by_cases hg : g = f
    · subst hg
      rw [StatusMap.find_assign_self]
      simp [htag]
    · rw [StatusMap.find_assign_ne _ _ hg, List.mem_cons]
      simp only [hg, false_or]
      exact hw.mem_mru g
  · intro g
    show g ∈ s.mfu_ ↔ ∃ st', (s.alive_map_.assign f st).find g = some st' ∧ _
    by_cases hg : g = f
    · subst hg
      rw [StatusMap.find_assign_self]
      constructor
      · intro hmem
        obtain ⟨st', h1, _⟩ := (hw.mem_mfu g).mp hmem
        rw [hf] at h1
        cases h1
      · rintro ⟨st', h1, h2⟩
        cases h1
        rw [htag] at h2
        cases h2
    · rw [StatusMap.find_assign_ne _ _ hg]
      exact hw.mem_mfu g
  · intro g st'
    show (s.alive_map_.assign f st).find g = some st' → _
    by_cases hg : g = f
    · subst hg
      rw [StatusMap.find_assign_self]
      intro h1
      cases h1
      exact Or.inl htag
    · rw [StatusMap.find_assign_ne _ _ hg]
      exact hw.status g st'

/-- An alive frame of T1 moves to the head of T2. -/
theorem WellFormed.promote {s : ArcReplacer} (hw : s.WellFormed) {f : Int} {st : FrameStatus}
    (hf : s.alive_map_.find f = some st) (htag : st.arc_status_ = ArcStatus.MRU) :
    ({ s with
        mru_ := s.mru_.filter (fun x => decide (x ≠ f)),
        mfu_ := f :: s.mfu_,
        alive_map_ := s.alive_map_.assign f { st with arc_status_ := ArcStatus.MFU } } :
      ArcReplacer).WellFormed := by
  have hnot : f ∉ s.mfu_ := by
    intro hmem
    obtain ⟨st', h1, h2⟩ := (hw.mem_mfu f).mp hmem
    rw [hf] at h1
    cases h1
    rw [htag] at h2
    cases h2
  refine ⟨StatusMap.nodup_assign hw.keys_nodup _ _, ?_, ?_, hw.size_bound, hw.mru_nodup.filter _,
    ?_, ?_, ?_, ?_⟩
  · show s.curr_size_ = _
    unfold evictableCount StatusMap.assign
    simp only
    rw [List.countP_cons, hw.size_eq]
    unfold evictableCount
    rw [StatusMap.countP_erase hw.keys_nodup hf]
    simp only
    omega
  · show (s.alive_map_.assign f _).length ≤ _
    unfold StatusMap.assign
    rw [List.length_cons, StatusMap.length_erase hw.keys_nodup hf]
    exact hw.room
  · show (f :: s.mfu_).Nodup
    exact List.nodup_cons.mpr ⟨hnot, hw.mfu_nodup⟩
  · intro g
    show g ∈ s.mru_.filter _ ↔ ∃ st', (s.alive_map_.assign f _).find g = some st' ∧ _
    rw [mem_filter_ne]
    by_cases hg : g = f
    · subst hg
      rw [StatusMap.find_assign_self]
      simp
    · rw [StatusMap.find_assign_ne _ _ hg]
      simp only [hg, ne_eq, not_false_eq_true, and_true]
      exact hw.mem_mru g
  · intro g
    show g ∈ f :: s.mfu_ ↔ ∃ st', (s.alive_map_.assign f _).find g = some st' ∧ _
    by_cases hg : g = f
    · subst hg
      rw [StatusMap.find_assign_self]
      simp
    · rw [StatusMap.find_assign_ne _ _ hg, List.mem_cons]
      simp only [hg, false_or]
      exact hw.mem_mfu g
  · intro g st'
    show (s.alive_map_.assign f _).find g = some st' → _
    by_cases hg : g = f
    · subst hg
      rw [StatusMap.find_assign_self]
      intro h1
      cases h1
      exact Or.inr rfl
    · rw [StatusMap.find_assign_ne _ _ hg]
      exact hw.status g st'

/-- An alive frame of T2 moves to the head of T2. -/
theorem WellFormed.refresh {s : ArcReplacer} (hw : s.WellFormed) {f : Int} {st : FrameStatus}
    (hf : s.alive_map_.find f = some st) (htag : st.arc_status_ = ArcStatus.MFU) :
    ({ s with mfu_ := f :: s.mfu_.filter (fun x => decide (x ≠ f)) } : ArcReplacer).WellFormed := by
  have hmem : f ∈ s.mfu_ := (hw.mem_mfu f).mpr ⟨st, hf, htag⟩
  refine ⟨hw.keys_nodup, hw.size_eq, hw.room, hw.size_bound, hw.mru_nodup, ?_, hw.mem_mru, ?_,
    hw.status⟩
  · show (f :: s.mfu_.filter _).Nodup
    rw [List.nodup_cons]
    refine ⟨?_, hw.mfu_nodup.filter _⟩
    rw [mem_filter_ne]
    exact fun h => h.2 rfl
  · intro g
    show g ∈ f :: s.mfu_.filter _ ↔ _
    rw [List.mem_cons, mem_filter_ne, ← hw.mem_mfu g]
    by_cases hg : g = f
    · subst hg
      simp [hmem]
    · simp [hg]

end ArcReplacer

namespace ArcReplacer

theorem recordAccess_alive_mru {s : ArcReplacer} {f : Int} {st : FrameStatus} (pg : Int)
    (hf : s.alive_map_.find f = some st) (htag : st.arc_status_ = ArcStatus.MRU) :
    s.RecordAccess f pg = Except.ok { s with
        mru_ := s.mru_.filter (fun x => decide (x ≠ f)),
        mfu_ := f :: s.mfu_,
        alive_map_ := s.alive_map_.assign f { st with arc_status_ := ArcStatus.MFU } } := by
  unfold RecordAccess
  simp only [hf, htag, if_true]
  rfl

theorem recordAccess_alive_mfu {s : ArcReplacer} {f : Int} {st : FrameStatus} (pg : Int)
    (hf : s.alive_map_.find f = some st) (htag : st.arc_status_ = ArcStatus.MFU) :
    s.RecordAccess f pg
      = Except.ok { s with mfu_ := f :: s.mfu_.filter (fun x => decide (x ≠ f)) } := by
  unfold RecordAccess
  simp only [hf, htag]
  rfl

theorem recordAccess_alive_ghost_tag {s : ArcReplacer} {f : Int} {st : FrameStatus} (pg : Int)
    (hf : s.alive_map_.find f = some st) (h1 : st.arc_status_ ≠ ArcStatus.MRU)
    (h2 : st.arc_status_ ≠ ArcStatus.MFU) :
    s.RecordAccess f pg = Except.error Err.logic_error := by
  unfold RecordAccess
  simp only [hf, h1, h2, if_false]

theorem recordAccess_new {s : ArcReplacer} {f pg : Int}
    (hf : s.alive_map_.find f = none) (hg : s.ghost_map_.find pg = none) :
    s.RecordAccess f pg =
      if (s.alive_map_.assign f ⟨pg, f, false, ArcStatus.MRU⟩).length > s.replacer_size_ then
        Except.error Err.deadlock
      else Except.ok { s with
        alive_map_ := s.alive_map_.assign f ⟨pg, f, false, ArcStatus.MRU⟩,
        mru_ := f :: s.mru_ } := by
  unfold RecordAccess
  simp only [hf, hg]
  rfl

theorem recordAccess_ghost_mru {s : ArcReplacer} {f pg : Int} {gst : FrameStatus}
    (hf : s.alive_map_.find f = none) (hg : s.ghost_map_.find pg = some gst)
    (htag : gst.arc_status_ = ArcStatus.MRU_GHOST) :
    s.RecordAccess f pg =
      if s.mru_ghost_.length = 0 then Except.error Err.division_by_zero
      else if (s.alive_map_.assign f
          { gst with arc_status_ := ArcStatus.MFU, frame_id_ := f, evictable_ := false }).length
            > s.replacer_size_ then
        Except.error Err.deadlock
      else Except.ok { s with
        mru_target_size_ :=
          min (addSizeT s.mru_target_size_ (max (s.mfu_ghost_.length / s.mru_ghost_.length) 1))
            s.replacer_size_,
        mru_ghost_ := s.mru_ghost_.filter (fun x => decide (x ≠ pg)),
        ghost_map_ := s.ghost_map_.erase pg,
        alive_map_ := s.alive_map_.assign f
          { gst with arc_status_ := ArcStatus.MFU, frame_id_ := f, evictable_ := false },
        mfu_ := f :: s.mfu_ } := by
  unfold RecordAccess
  simp only [hf, hg, htag, if_true]
  by_cases h0 : s.mru_ghost_.length = 0
  · simp only [h0, if_true]
    rfl
  · simp only [h0, if_false]
    rfl

theorem recordAccess_ghost_mfu {s : ArcReplacer} {f pg : Int} {gst : FrameStatus}
    (hf : s.alive_map_.find f = none) (hg : s.ghost_map_.find pg = some gst)
    (htag : gst.arc_status_ = ArcStatus.MFU_GHOST) :
    s.RecordAccess f pg =
      if s.mfu_ghost_.length = 0 then Except.error Err.division_by_zero
      else if (s.alive_map_.assign f
          { gst with arc_status_ := ArcStatus.MFU, frame_id_ := f, evictable_ := false }).length
            > s.replacer_size_ then
        Except.error Err.deadlock
      else Except.ok { s with
        mru_target_size_ :=
          max (subSizeT s.mru_target_size_ (max (s.mru_ghost_.length / s.mfu_ghost_.length) 1)) 0,
        mfu_ghost_ := s.mfu_ghost_.filter (fun x => decide (x ≠ pg)),
        ghost_map_ := s.ghost_map_.erase pg,
        alive_map_ := s.alive_map_.assign f
          { gst with arc_status_ := ArcStatus.MFU, frame_id_ := f, evictable_ := false },
        mfu_ := f :: s.mfu_ } := by
  unfold RecordAccess
  simp only [hf, hg, htag]
  by_cases h0 : s.mfu_ghost_.length = 0
  · simp only [h0, if_true]
    rfl
  · simp only [h0, if_false]
    rfl

theorem recordAccess_ghost_alive_tag {s : ArcReplacer} {f pg : Int} {gst : FrameStatus}
    (hf : s.alive_map_.find f = none) (hg : s.ghost_map_.find pg = some gst)
    (h1 : gst.arc_status_ ≠ ArcStatus.MRU_GHOST) (h2 : gst.arc_status_ ≠ ArcStatus.MFU_GHOST) :
    s.RecordAccess f pg = Except.error Err.logic_error := by
  unfold RecordAccess
  simp only [hf, hg, h1, h2, if_false]
  rfl

theorem WellFormed.recordAccess {s s' : ArcReplacer} (hw : s.WellFormed) {f pg : Int}
    (h : s.RecordAccess f pg = Except.ok s') : s'.WellFormed := by
  cases hf : s.alive_map_.find f with
  | some st =>
    rcases hw.status f st hf with htag | htag
    · rw [recordAccess_alive_mru pg hf htag] at h
      cases h
      exact hw.promote hf htag
    · rw [recordAccess_alive_mfu pg hf htag] at h
      cases h
      exact hw.refresh hf htag
  | none =>
    cases hg : s.ghost_map_.find pg with
    | none =>
      rw [recordAccess_new hf hg] at h
      split at h
      · cases h
      · rename_i hlen
        cases h
        exact hw.admit_mru hf _ rfl rfl (Nat.le_of_not_gt hlen)
    | some gst =>
      by_cases h1 : gst.arc_status_ = ArcStatus.MRU_GHOST
      · rw [recordAccess_ghost_mru hf hg h1] at h
        split at h
        · cases h
        · split at h
          · cases h
          · rename_i hlen
            cases h
            exact (hw.admit_mfu hf _ rfl rfl (Nat.le_of_not_gt hlen)).of_eq rfl rfl rfl rfl rfl
      · by_cases h2 : gst.arc_status_ = ArcStatus.MFU_GHOST
        · rw [recordAccess_ghost_mfu hf hg h2] at h
          split at h
          · cases h
          · split at h
            · cases h
            · rename_i hlen
              cases h
              exact (hw.admit_mfu hf _ rfl rfl (Nat.le_of_not_gt hlen)).of_eq rfl rfl rfl rfl rfl
        · rw [recordAccess_ghost_alive_tag hf hg h1 h2] at h
          cases h

end ArcReplacer

namespace ArcReplacer

theorem try_evict_eq (s : ArcReplacer) (stat : ArcStatus) :
    s.try_evict stat =
      match scanEvictable s.alive_map_ (s.residentList stat).reverse with
      | Except.error e => Except.error e
      | Except.ok none => Except.ok (none, s)
      | Except.ok (some (f, st)) => Except.ok (some f, s.evictedState stat f st) := by
  unfold try_evict residentList
  simp only [bind, Except.bind, pure, Except.pure]
  generalize scanEvictable s.alive_map_ (if stat = ArcStatus.MFU then s.mfu_ else s.mru_).reverse
    = r
  cases r with
  | error e => rfl
  | ok r =>
    cases r with
    | none => rfl
    | some p =>
      obtain ⟨f, st⟩ := p
      by_cases hs : stat = ArcStatus.MFU
      · subst hs
        rfl
      · simp only [evictedState, hs, if_false]

theorem scanEvictable_spec (alive : StatusMap) (l : List Int)
    (hl : ∀ f ∈ l, ∃ st, alive.find f = some st) :
    ∃ r, scanEvictable alive l = Except.ok r ∧
      r.map Prod.fst = l.find? (fun f => (alive.find f).any (fun st => st.evictable_)) ∧
      ∀ f st, r = some (f, st) → f ∈ l ∧ alive.find f = some st ∧ st.evictable_ = true := by
  induction l with
  | nil => exact ⟨none, rfl, rfl, by intro f st h; cases h⟩
  | cons f l ih =>
    obtain ⟨st, hst⟩ := hl f (List.mem_cons_self _ _)
    unfold scanEvictable
    simp only [hst]
    by_cases hev : st.evictable_ = true
    · refine ⟨some (f, st), by simp [hev, pure, Except.pure], ?_, ?_⟩
      · simp [List.find?, hst, hev]
      · intro f' st' h
        cases h
        exact ⟨List.mem_cons_self _ _, hst, hev⟩
    · obtain ⟨r, h1, h2, h3⟩ := ih (fun g hg => hl g (List.mem_cons_of_mem _ hg))
      refine ⟨r, by simp [hev, h1], ?_, ?_⟩
      · simp [List.find?, hst, hev, h2]
      · intro f' st' h
        obtain ⟨h4, h5, h6⟩ := h3 f' st' h
        exact ⟨List.mem_cons_of_mem _ h4, h5, h6⟩

theorem WellFormed.mem_residentList {s : ArcReplacer} (hw : s.WellFormed) {stat : ArcStatus}
    (hstat : stat = ArcStatus.MRU ∨ stat = ArcStatus.MFU) (f : Int) :
    f ∈ s.residentList stat ↔ ∃ st, s.alive_map_.find f = some st ∧ st.arc_status_ = stat := by
  rcases hstat with h | h <;> subst h
  · exact hw.mem_mru f
  · exact hw.mem_mfu f

theorem WellFormed.try_evict_none {s : ArcReplacer} (hw : s.WellFormed) {stat : ArcStatus}
    (hstat : stat = ArcStatus.MRU ∨ stat = ArcStatus.MFU)
    (h : s.lruEvictable (s.residentList stat) = none) :
    s.try_evict stat = Except.ok (none, s) := by
  have hl : ∀ f ∈ (s.residentList stat).reverse, ∃ st, s.alive_map_.find f = some st := by
    intro f hf
    obtain ⟨st, h1, _⟩ := (hw.mem_residentList hstat f).mp (List.mem_reverse.mp hf)
    exact ⟨st, h1⟩
  obtain ⟨r, h1, h2, _⟩ := scanEvictable_spec s.alive_map_ _ hl
  unfold lruEvictable at h
  rw [h] at h2
  rw [try_evict_eq, h1]
  cases r with
  | none => rfl
  | some p => simp at h2

theorem WellFormed.try_evict_some {s : ArcReplacer} (hw : s.WellFormed) {stat : ArcStatus}
    (hstat : stat = ArcStatus.MRU ∨ stat = ArcStatus.MFU) {f : Int}
    (h : s.lruEvictable (s.residentList stat) = some f) :
    ∃ st, s.alive_map_.find f = some st ∧ st.evictable_ = true ∧ st.arc_status_ = stat ∧
      s.try_evict stat = Except.ok (some f, s.evictedState stat f st) := by
  have hl : ∀ f ∈ (s.residentList stat).reverse, ∃ st, s.alive_map_.find f = some st := by
    intro f hf
    obtain ⟨st, h1, _⟩ := (hw.mem_residentList hstat f).mp (List.mem_reverse.mp hf)
    exact ⟨st, h1⟩
  obtain ⟨r, h1, h2, h3⟩ := scanEvictable_spec s.alive_map_ _ hl
  unfold lruEvictable at h
  rw [h] at h2
  cases r with
  | none => simp at h2
  | some p =>
    obtain ⟨f', st⟩ := p
    simp only [Option.map_some', Option.some.injEq] at h2
    subst h2
    obtain ⟨h4, h5, h6⟩ := h3 f' st rfl
    obtain ⟨st', h7, h8⟩ := (hw.mem_residentList hstat f').mp (List.mem_reverse.mp h4)
    rw [h5] at h7
    cases h7
    refine ⟨st, h5, h6, h8, ?_⟩
    rw [try_evict_eq, h1]

end ArcReplacer

namespace ArcReplacer

theorem WellFormed.evicted {s : ArcReplacer} (hw : s.WellFormed) {stat : ArcStatus}
    (hstat : stat = ArcStatus.MRU ∨ stat = ArcStatus.MFU) {f : Int} {st : FrameStatus}
    (hf : s.alive_map_.find f = some st) (hev : st.evictable_ = true)
    (htag : st.arc_status_ = stat) : (s.evictedState stat f st).WellFormed := by
  have hcount := StatusMap.countP_erase hw.keys_nodup hf
  have hlen := StatusMap.length_erase hw.keys_nodup hf
  have hsz := hw.size_eq
  have hle := s.evictableCount_le
  have hroom := hw.room
  have hbound := hw.size_bound
  unfold evictableCount at hsz hle
  rw [hev] at hcount
  simp only [if_true] at hcount
  have hfind : ∀ g tag, (∃ st', (s.alive_map_.erase f).find g = some st' ∧ st'.arc_status_ = tag)
      ↔ (∃ st', s.alive_map_.find g = some st' ∧ st'.arc_status_ = tag) ∧ g ≠ f := by
    intro g tag
    by_cases hg : g = f
    · subst hg
      rw [StatusMap.find_erase_self]
      simp
    · rw [StatusMap.find_erase_ne _ hg]
      simp [hg]
  have hother : ∀ g tag, tag ≠ stat →
      ((∃ st', s.alive_map_.find g = some st' ∧ st'.arc_status_ = tag) ∧ g ≠ f
        ↔ ∃ st', s.alive_map_.find g = some st' ∧ st'.arc_status_ = tag) := by
    intro g tag htg
    constructor
    · exact fun h => h.1
    · rintro ⟨st', h1, h2⟩
      refine ⟨⟨st', h1, h2⟩, ?_⟩
      intro hg
      subst hg
      rw [hf] at h1
      cases h1
      exact htg (h2.symm.trans htag)
  have hstatus : ∀ g st', (s.alive_map_.erase f).find g = some st' →
      st'.arc_status_ = ArcStatus.MRU ∨ st'.arc_status_ = ArcStatus.MFU := by
    intro g st' hg
    by_cases hgf : g = f
    · subst hgf
      rw [StatusMap.find_erase_self] at hg
      cases hg
    · rw [StatusMap.find_erase_ne _ hgf] at hg
      exact hw.status g st' hg
  have hsize : subSizeT s.curr_size_ 1
      = (s.alive_map_.erase f).countP (fun e => e.2.evictable_) := by
    rw [subSizeT_one (by omega) (by omega)]
    omega
  have hroom' : (s.alive_map_.erase f).length ≤ s.replacer_size_ := by omega
  rcases hstat with h | h <;> subst h
  · refine ⟨StatusMap.nodup_erase hw.keys_nodup f, hsize, hroom', hw.size_bound,
      nodup_eraseFromTail hw.mru_nodup f, hw.mfu_nodup, ?_, ?_, hstatus⟩
    · intro g
      show g ∈ eraseFromTail s.mru_ f ↔ _
      rw [mem_eraseFromTail hw.mru_nodup, hw.mem_mru g]
      exact (hfind g _).symm
    · intro g
      show g ∈ s.mfu_ ↔ _
      rw [hw.mem_mfu g]
      exact ((hfind g _).trans (hother g _ (by decide))).symm
  · refine ⟨StatusMap.nodup_erase hw.keys_nodup f, hsize, hroom', hw.size_bound,
      hw.mru_nodup, nodup_eraseFromTail hw.mfu_nodup f, ?_, ?_, hstatus⟩
    · intro g
      show g ∈ s.mru_ ↔ _
      rw [hw.mem_mru g]
      exact ((hfind g _).trans (hother g _ (by decide))).symm
    · intro g
      show g ∈ eraseFromTail s.mfu_ f ↔ _
      rw [mem_eraseFromTail hw.mfu_nodup, hw.mem_mfu g]
      exact (hfind g _).symm

/-- The victim of two `try_evict` calls in a row: the least recently used evictable frame of
the first list, or else of the second. -/
theorem WellFormed.try_evict_pair_some {s : ArcReplacer} (hw : s.WellFormed) {a b : ArcStatus}
    (ha : a = ArcStatus.MRU ∨ a = ArcStatus.MFU) (hb : b = ArcStatus.MRU ∨ b = ArcStatus.MFU)
    (hex : s.lruEvictable (s.residentList a) ≠ none ∨ s.lruEvictable (s.residentList b) ≠ none) :
    ∃ f st stat, (stat = ArcStatus.MRU ∨ stat = ArcStatus.MFU) ∧
      s.alive_map_.find f = some st ∧ st.evictable_ = true ∧ st.arc_status_ = stat ∧
      s.try_evict_pair a b = Except.ok (some f, s.evictedState stat f st) ∧
      some f = (match s.lruEvictable (s.residentList a) with
        | some f => some f
        | none => s.lruEvictable (s.residentList b)) := by
  unfold try_evict_pair
  cases h1 : s.lruEvictable (s.residentList a) with
  | some f =>
    obtain ⟨st, h2, h3, h4, h5⟩ := hw.try_evict_some ha h1
    exact ⟨f, st, a, ha, h2, h3, h4, by simp [h5, bind, Except.bind, pure, Except.pure], rfl⟩
  | none =>
    have h2 := hw.try_evict_none ha h1
    cases h3 : s.lruEvictable (s.residentList b) with
    | none => rw [h1, h3] at hex; simp at hex
    | some f =>
      obtain ⟨st, h4, h5, h6, h7⟩ := hw.try_evict_some hb h3
      exact ⟨f, st, b, hb, h4, h5, h6, by simp [h2, h7, bind, Except.bind], rfl⟩

theorem WellFormed.lru_ne_none {s : ArcReplacer} (hw : s.WellFormed)
    (h : ∃ e ∈ s.alive_map_, e.2.evictable_ = true) :
    s.lruEvictable (s.residentList ArcStatus.MRU) ≠ none ∨
      s.lruEvictable (s.residentList ArcStatus.MFU) ≠ none := by
  obtain ⟨e, he, hev⟩ := h
  have hf := StatusMap.find_of_mem hw.keys_nodup he
  have key : ∀ stat, (stat = ArcStatus.MRU ∨ stat = ArcStatus.MFU) → e.2.arc_status_ = stat →
      s.lruEvictable (s.residentList stat) ≠ none := by
    intro stat hstat htag hnone
    unfold lruEvictable at hnone
    rw [List.find?_eq_none] at hnone
    have hmem : e.1 ∈ (s.residentList stat).reverse :=
      List.mem_reverse.mpr ((hw.mem_residentList hstat e.1).mpr ⟨e.2, hf, htag⟩)
    have := hnone e.1 hmem
    simp [hf, hev] at this
  rcases hw.status e.1 e.2 hf with h1 | h1
  · exact Or.inl (key _ (Or.inl rfl) h1)
  · exact Or.inr (key _ (Or.inr rfl) h1)

theorem WellFormed.evict_none {s : ArcReplacer} (hw : s.WellFormed)
    (h : ∀ e ∈ s.alive_map_, e.2.evictable_ = false) : s.Evict = Except.ok (none, s) := by
  have h0 : s.curr_size_ = 0 := by
    rw [hw.size_eq]
    exact (StatusMap.countP_eq_zero_iff _).mpr h
  unfold Evict
  simp [h0, pure, Except.pure]

/-- The result of `Evict` when some alive entry is evictable: the least recently used evictable
frame of the list the code tries first, or else of the other list. -/
theorem WellFormed.evict_some {s : ArcReplacer} (hw : s.WellFormed)
    (h : ∃ e ∈ s.alive_map_, e.2.evictable_ = true) :
    ∃ f st stat, (stat = ArcStatus.MRU ∨ stat = ArcStatus.MFU) ∧
      s.alive_map_.find f = some st ∧ st.evictable_ = true ∧ st.arc_status_ = stat ∧
      s.Evict = Except.ok (some f, s.evictedState stat f st) ∧
      some f =
        (if s.mru_.length > s.mru_target_size_ ∨
            ¬ s.mfu_.length ≥ subSizeT s.replacer_size_ s.mru_target_size_ then
          (match s.lruEvictable (s.residentList ArcStatus.MRU) with
            | some f => some f
            | none => s.lruEvictable (s.residentList ArcStatus.MFU))
        else
          (match s.lruEvictable (s.residentList ArcStatus.MFU) with
            | some f => some f
            | none => s.lruEvictable (s.residentList ArcStatus.MRU))) := by
  have hex := hw.lru_ne_none h
  have h0 : s.curr_size_ ≠ 0 := by
    rw [hw.size_eq]
    intro h1
    obtain ⟨e, he, hev⟩ := h
    have := (StatusMap.countP_eq_zero_iff _).mp h1 e he
    rw [this] at hev
    cases hev
  obtain ⟨f1, st1, stat1, p1, p2, p3, p4, p5, p6⟩ :=
    hw.try_evict_pair_some (Or.inl rfl) (Or.inr rfl) hex
  obtain ⟨f2, st2, stat2, q1, q2, q3, q4, q5, q6⟩ :=
    hw.try_evict_pair_some (Or.inr rfl) (Or.inl rfl) hex.symm
  unfold Evict
  simp only [h0, if_false]
  by_cases c1 : s.mru_.length > s.mru_target_size_
  · refine ⟨f1, st1, stat1, p1, p2, p3, p4, ?_, ?_⟩
    · simp [c1, p5, bind, Except.bind, pure, Except.pure]
    · simp only [c1, true_or, if_true]
      exact p6
  · by_cases c2 : s.mfu_.length ≥ subSizeT s.replacer_size_ s.mru_target_size_
    · refine ⟨f2, st2, stat2, q1, q2, q3, q4, ?_, ?_⟩
      · simp [c1, c2, q5, bind, Except.bind, pure, Except.pure]
      · simp only [c1, c2, not_true_eq_false, or_self, if_false]
        exact q6
    · refine ⟨f1, st1, stat1, p1, p2, p3, p4, ?_, ?_⟩
      · simp [c1, c2, p5, bind, Except.bind, pure, Except.pure]
      · simp only [c1, c2, not_false_eq_true, or_true, if_true]
        exact p6

theorem WellFormed.evict {s s' : ArcReplacer} (hw : s.WellFormed) {r : Option Int}
    (h : s.Evict = Except.ok (r, s')) : s'.WellFormed := by
  by_cases hex : ∃ e ∈ s.alive_map_, e.2.evictable_ = true
  · obtain ⟨f, st, stat, h1, h2, h3, h4, h5, _⟩ := hw.evict_some hex
    rw [h5] at h
    cases h
    exact hw.evicted h1 h2 h3 h4
  · have hall : ∀ e ∈ s.alive_map_, e.2.evictable_ = false := by
      intro e he
      cases hev : e.2.evictable_ with
      | false => rfl
      | true => exact absurd ⟨e, he, hev⟩ hex
    rw [hw.evict_none hall] at h
    cases h
    exact hw

theorem WellFormed.call {s s' : ArcReplacer} (hw : s.WellFormed) {cl : ArcCall}
    (h : s.call cl = Except.ok s') : s'.WellFormed := by
  cases cl with
  | record_access f pg => exact hw.recordAccess h
  | set_evictable f b =>
    simp only [ArcReplacer.call, Except.ok.injEq] at h
    rw [← h]
    exact hw.setEvictable f b
  | evict =>
    simp only [ArcReplacer.call] at h
    cases h1 : s.Evict with
    | error e => simp [h1, Except.map] at h
    | ok r =>
      obtain ⟨r1, r2⟩ := r
      simp only [h1, Except.map, Except.ok.injEq] at h
      subst h
      exact hw.evict h1

theorem Reachable.wellFormed {c : Nat} {allowed : ArcReplacer → ArcCall → Bool}
    {s : ArcReplacer} (h : Reachable c allowed s) : s.WellFormed := by
  induction h with
  | fresh hc => exact wellFormed_new hc
  | step cl _ _ hcall ih => exact ih.call hcall

theorem Reachable.of_callsFrom {c : Nat} {allowed : ArcReplacer → ArcCall → Bool} :
    ∀ (cls : List ArcCall) {s s' : ArcReplacer}, Reachable c allowed s →
      callsFrom allowed s cls = some s' → Reachable c allowed s' := by
  intro cls
  induction cls with
  | nil =>
    intro s s' hr h
    simp only [callsFrom, Option.some.injEq] at h
    rw [← h]
    exact hr
  | cons cl cls ih =>
    intro s s' hr h
    unfold callsFrom at h
    by_cases ha : allowed s cl = true
    · simp only [ha, if_true] at h
      cases hc : s.call cl with
      | error e => simp [hc] at h
      | ok s1 =>
        simp only [hc] at h
        exact ih (Reachable.step cl hr ha hc) h
    · simp [ha] at h

end ArcReplacer

namespace ArcReplacer

theorem Reachable.replacer_size {c : Nat} {allowed : ArcReplacer → ArcCall → Bool}
    {s : ArcReplacer} (h : Reachable c allowed s) : s.replacer_size_ = c := by
  induction h with
  | fresh hc => rfl
  | @step s s' cl hr _ hcall ih =>
    have hw := hr.wellFormed
    cases cl with
    | set_evictable f b =>
      simp only [ArcReplacer.call, Except.ok.injEq] at hcall
      rw [← hcall, ← ih]
      unfold SetEvictable
      cases s.alive_map_.find f with
      | none => rfl
      | some st =>
        simp only
        split
        · split <;> rfl
        · rfl
    | evict =>
      simp only [ArcReplacer.call] at hcall
      cases h1 : s.Evict with
      | error e => simp [h1, Except.map] at hcall
      | ok r =>
        obtain ⟨r1, r2⟩ := r
        simp only [h1, Except.map, Except.ok.injEq] at hcall
        subst hcall
        by_cases hex : ∃ e ∈ s.alive_map_, e.2.evictable_ = true
        · obtain ⟨f, st, stat, _, _, _, _, h5, _⟩ := hw.evict_some hex
          rw [h5] at h1
          cases h1
          exact ih
        · have hall : ∀ e ∈ s.alive_map_, e.2.evictable_ = false := by
            intro e he
            cases hev : e.2.evictable_ with
            | false => rfl
            | true => exact absurd ⟨e, he, hev⟩ hex
          rw [hw.evict_none hall] at h1
          cases h1
          exact ih
    | record_access f pg =>
      simp only [ArcReplacer.call] at hcall
      cases hf : s.alive_map_.find f with
      | some st =>
        rcases hw.status f st hf with htag | htag
        · rw [recordAccess_alive_mru pg hf htag] at hcall
          cases hcall
          exact ih
        · rw [recordAccess_alive_mfu pg hf htag] at hcall
          cases hcall
          exact ih
      | none =>
        cases hg : s.ghost_map_.find pg with
        | none =>
          rw [recordAccess_new hf hg] at hcall
          split at hcall
          · cases hcall
          · cases hcall
            exact ih
        | some gst =>
          by_cases h1 : gst.arc_status_ = ArcStatus.MRU_GHOST
          · rw [recordAccess_ghost_mru hf hg h1] at hcall
            split at hcall
            · cases hcall
            · split at hcall
              · cases hcall
              · cases hcall
                exact ih
          · by_cases h2 : gst.arc_status_ = ArcStatus.MFU_GHOST
            · rw [recordAccess_ghost_mfu hf hg h2] at hcall
              split at hcall
              · cases hcall
              · split at hcall
                · cases hcall
                · cases hcall
                  exact ih
            · rw [recordAccess_ghost_alive_tag hf hg h1 h2] at hcall
              cases hcall

theorem reachable_reached {c : Nat} (hc : c < SIZE_T_MODULUS)
    {allowed : ArcReplacer → ArcCall → Bool} {cls : List ArcCall}
    (h : (callsFrom allowed (ArcReplacer.new c) cls).isSome = true) :
    Reachable c allowed (reached c allowed cls) := by
  unfold reached
  cases h1 : callsFrom allowed (ArcReplacer.new c) cls with
  | none => rw [h1] at h; cases h
  | some s => exact Reachable.of_callsFrom cls (Reachable.fresh hc) h1

end ArcReplacer

/-! ## Evict returns none exactly when nothing is evictable -/

/-- C10: in every state reachable from a fresh replacer by `RecordAccess`, `SetEvictable` and
`Evict` calls, `Evict()` returns; it returns none if and only if no alive entry has its
evictable flag set, and a frame id it returns is that of an alive entry whose flag was set. -/
theorem C10_evict_none_iff_nothing_evictable (c : Nat) (s : ArcReplacer)
    (h : ArcReplacer.Reachable c ArcReplacer.anyCall s) :
    ∃ r s', s.Evict = Except.ok (r, s') ∧
      (r = none ↔ ∀ e ∈ s.alive_map_, e.2.evictable_ = false) ∧
      ∀ f, r = some f → ∃ st, s.alive_map_.find f = some st ∧ st.evictable_ = true := by
  have hw := h.wellFormed
  by_cases hex : ∃ e ∈ s.alive_map_, e.2.evictable_ = true
  · obtain ⟨f, st, stat, _, h2, h3, _, h5, _⟩ := hw.evict_some hex
    refine ⟨some f, _, h5, ?_, ?_⟩
    · constructor
      · intro h6; cases h6
      · intro hall
        obtain ⟨e, he, hev⟩ := hex
        rw [hall e he] at hev
        cases hev
    · intro f' hf'
      cases hf'
      exact ⟨st, h2, h3⟩
  · have hall : ∀ e ∈ s.alive_map_, e.2.evictable_ = false := by
      intro e he
      cases hev : e.2.evictable_ with
      | false => rfl
      | true => exact absurd ⟨e, he, hev⟩ hex
    refine ⟨none, s, hw.evict_none hall, ?_, ?_⟩
    · exact ⟨fun _ => hall, fun _ => rfl⟩
    · intro f hf
      cases hf

/-- C10, witness: a replacer of capacity 2 after `RecordAccess(0, 5)` and
`SetEvictable(0, true)`. -/
theorem C10_evict_none_iff_nothing_evictable_witness :
    ∃ r s', (ArcReplacer.reached 2 ArcReplacer.anyCall
        [ArcCall.record_access 0 5, ArcCall.set_evictable 0 true]).Evict = Except.ok (r, s') ∧
      (r = none ↔ ∀ e ∈ (ArcReplacer.reached 2 ArcReplacer.anyCall
        [ArcCall.record_access 0 5, ArcCall.set_evictable 0 true]).alive_map_,
          e.2.evictable_ = false) ∧
      ∀ f, r = some f → ∃ st, (ArcReplacer.reached 2 ArcReplacer.anyCall
        [ArcCall.record_access 0 5, ArcCall.set_evictable 0 true]).alive_map_.find f = some st ∧
          st.evictable_ = true :=
  C10_evict_none_iff_nothing_evictable 2 _
    (ArcReplacer.reachable_reached (by decide) (by decide))

/-! ## SetEvictable on a frame that is not alive, and applied twice -/

/-- C19: for every replacer state and either value of the flag, `SetEvictable` on a frame id
that is not in the alive map throws `std::logic_error` and leaves every member of the replacer
as it was; on a frame id that is in the alive map it returns without throwing. -/
theorem C19_set_evictable_unknown_frame (s : ArcReplacer) (frame_id : Int) (b : Bool) :
    (s.alive_map_.find frame_id = none →
      s.SetEvictable frame_id b = (s, Except.error Err.logic_error)) ∧
    (s.alive_map_.find frame_id ≠ none → (s.SetEvictable frame_id b).2 = Except.ok ()) := by
  constructor
  · intro h
    unfold ArcReplacer.SetEvictable
    rw [h]
  · intro h
    unfold ArcReplacer.SetEvictable
    cases hf : s.alive_map_.find frame_id with
    | none => exact absurd hf h
    | some st =>
      simp only
      split
      · split <;> rfl
      · rfl

/-- C19, witness: in a replacer of capacity 2 after `RecordAccess(0, 5)` the frame 1 is not
alive and the frame 0 is. -/
theorem C19_set_evictable_unknown_frame_witness :
    (ArcReplacer.reached 2 ArcReplacer.anyCall [ArcCall.record_access 0 5]).SetEvictable 1 true
      = (ArcReplacer.reached 2 ArcReplacer.anyCall [ArcCall.record_access 0 5],
          Except.error Err.logic_error) ∧
    ((ArcReplacer.reached 2 ArcReplacer.anyCall [ArcCall.record_access 0 5]).SetEvictable 0
      true).2 = Except.ok () :=
  ⟨(C19_set_evictable_unknown_frame _ 1 true).1 (by decide),
    (C19_set_evictable_unknown_frame _ 0 true).2 (by decide)⟩

theorem ArcReplacer.setEvictable_twice (s : ArcReplacer) (f : Int) (b : Bool) :
    (s.SetEvictable f b).1.SetEvictable f b = s.SetEvictable f b := by
  unfold ArcReplacer.SetEvictable
  cases hf : s.alive_map_.find f with
  | none => simp only [hf]
  | some st =>
    by_cases hb : st.evictable_ = b
    · simp only [hb, ne_eq, not_true_eq_false, if_false, hf]
    · simp only [ne_eq, hb, not_false_eq_true, if_true]
      cases b with
      | true => simp only [if_true, StatusMap.find_assign_self, ne_eq, not_true_eq_false, if_false]
      | false =>
        simp only [Bool.false_eq_true, if_false, StatusMap.find_assign_self, ne_eq,
          not_true_eq_false]

/-- C20: in every state reachable from a fresh replacer by `RecordAccess`, `SetEvictable` and
`Evict` calls, `Size()` is the number of alive entries whose evictable flag is true; and a second
`SetEvictable(f, b)` right after the first changes no member of the replacer and ends as the
first did. -/
theorem C20_size_counts_evictable (c : Nat) (s : ArcReplacer)
    (h : ArcReplacer.Reachable c ArcReplacer.anyCall s) :
    s.Size = s.evictableCount ∧
      ∀ f b, (s.SetEvictable f b).1.SetEvictable f b = s.SetEvictable f b :=
  ⟨h.wellFormed.size_eq, fun f b => s.setEvictable_twice f b⟩

/-- C20, witness: a replacer of capacity 2 after `RecordAccess(0, 5)`, `RecordAccess(1, 6)` and
`SetEvictable(0, true)`. -/
theorem C20_size_counts_evictable_witness :
    (ArcReplacer.reached 2 ArcReplacer.anyCall [ArcCall.record_access 0 5,
        ArcCall.record_access 1 6, ArcCall.set_evictable 0 true]).Size
      = (ArcReplacer.reached 2 ArcReplacer.anyCall [ArcCall.record_access 0 5,
        ArcCall.record_access 1 6, ArcCall.set_evictable 0 true]).evictableCount ∧
    ∀ f b, ((ArcReplacer.reached 2 ArcReplacer.anyCall [ArcCall.record_access 0 5,
        ArcCall.record_access 1 6, ArcCall.set_evictable 0 true]).SetEvictable f b).1.SetEvictable
          f b
      = (ArcReplacer.reached 2 ArcReplacer.anyCall [ArcCall.record_access 0 5,
        ArcCall.record_access 1 6, ArcCall.set_evictable 0 true]).SetEvictable f b :=
  C20_size_counts_evictable 2 _ (ArcReplacer.reachable_reached (by decide) (by decide))

/-! ## The lists of resident frames -/

theorem ArcReplacer.WellFormed.resident_length_le {s : ArcReplacer} (hw : s.WellFormed) :
    s.mru_.length + s.mfu_.length ≤ s.replacer_size_ := by
  have hdisj : ∀ f, f ∈ s.mru_ → f ∉ s.mfu_ := by
    intro f h1 h2
    obtain ⟨st, h3, h4⟩ := (hw.mem_mru f).mp h1
    obtain ⟨st', h5, h6⟩ := (hw.mem_mfu f).mp h2
    rw [h3] at h5
    cases h5
    rw [h4] at h6
    cases h6
  have hnd : (s.mru_ ++ s.mfu_).Nodup :=
    List.Nodup.append hw.mru_nodup hw.mfu_nodup (fun f h1 h2 => hdisj f h1 h2)
  have hsub : s.mru_ ++ s.mfu_ ⊆ s.alive_map_.map Prod.fst := by
    intro f hf
    have hne : s.alive_map_.find f ≠ none := by
      rcases List.mem_append.mp hf with h1 | h1
      · obtain ⟨st, h3, _⟩ := (hw.mem_mru f).mp h1
        rw [h3]; simp
      · obtain ⟨st, h3, _⟩ := (hw.mem_mfu f).mp h1
        rw [h3]; simp
    by_contra hcon
    exact hne ((StatusMap.find_eq_none_iff _ _).mpr hcon)
  have hlen := (List.subperm_of_subset hnd hsub).length_le
  rw [List.length_append, List.length_map] at hlen
  exact le_trans hlen hw.room

/-- C14: in every state reachable from a fresh replacer of capacity `c` by calls whose frame ids
lie in `[0, c)`: every alive frame occurs exactly once in the list of its tag (T1 for `MRU`, T2
for `MFU`) and not in the other list, every frame of T1 or T2 is alive, no frame is in both, and
`|T1| + |T2| ≤ c`. -/
theorem C14_resident_lists (c : Nat) (s : ArcReplacer)
    (h : ArcReplacer.Reachable c ArcReplacer.frameInRange s) :
    (∀ f st, s.alive_map_.find f = some st →
      (st.arc_status_ = ArcStatus.MRU ∧ s.mru_.count f = 1 ∧ f ∉ s.mfu_) ∨
      (st.arc_status_ = ArcStatus.MFU ∧ s.mfu_.count f = 1 ∧ f ∉ s.mru_)) ∧
    (∀ f, f ∈ s.mru_ ∨ f ∈ s.mfu_ → s.alive_map_.find f ≠ none) ∧
    (∀ f, ¬ (f ∈ s.mru_ ∧ f ∈ s.mfu_)) ∧
    s.mru_.length + s.mfu_.length ≤ c := by
  have hw := h.wellFormed
  have hdisj : ∀ f, ¬ (f ∈ s.mru_ ∧ f ∈ s.mfu_) := by
    rintro f ⟨h1, h2⟩
    obtain ⟨st, h3, h4⟩ := (hw.mem_mru f).mp h1
    obtain ⟨st', h5, h6⟩ := (hw.mem_mfu f).mp h2
    rw [h3] at h5
    cases h5
    rw [h4] at h6
    cases h6
  refine ⟨?_, ?_, hdisj, ?_⟩
  · intro f st hf
    rcases hw.status f st hf with htag | htag
    · have hmem : f ∈ s.mru_ := (hw.mem_mru f).mpr ⟨st, hf, htag⟩
      exact Or.inl ⟨htag, List.count_eq_one_of_mem hw.mru_nodup hmem,
        fun h2 => hdisj f ⟨hmem, h2⟩⟩
    · have hmem : f ∈ s.mfu_ := (hw.mem_mfu f).mpr ⟨st, hf, htag⟩
      exact Or.inr ⟨htag, List.count_eq_one_of_mem hw.mfu_nodup hmem,
        fun h2 => hdisj f ⟨h2, hmem⟩⟩
  · intro f hf
    rcases hf with h1 | h1
    · obtain ⟨st, h3, _⟩ := (hw.mem_mru f).mp h1
      rw [h3]; simp
    · obtain ⟨st, h3, _⟩ := (hw.mem_mfu f).mp h1
      rw [h3]; simp
  · rw [← h.replacer_size]
    exact hw.resident_length_le

/-- C14, witness: a replacer of capacity 2 after `RecordAccess(0, 5)`, `RecordAccess(1, 6)` and
`RecordAccess(0, 5)`: frame 1 is in T1 and frame 0 in T2. -/
theorem C14_resident_lists_witness :
    (ArcReplacer.reached 2 ArcReplacer.frameInRange [ArcCall.record_access 0 5,
        ArcCall.record_access 1 6, ArcCall.record_access 0 5]).mru_ = [1] ∧
    (ArcReplacer.reached 2 ArcReplacer.frameInRange [ArcCall.record_access 0 5,
        ArcCall.record_access 1 6, ArcCall.record_access 0 5]).mfu_ = [0] ∧
    (ArcReplacer.reached 2 ArcReplacer.frameInRange [ArcCall.record_access 0 5,
        ArcCall.record_access 1 6, ArcCall.record_access 0 5]).mru_.length +
      (ArcReplacer.reached 2 ArcReplacer.frameInRange [ArcCall.record_access 0 5,
        ArcCall.record_access 1 6, ArcCall.record_access 0 5]).mfu_.length ≤ 2 :=
  ⟨by decide, by decide,
    (C14_resident_lists 2 _ (ArcReplacer.reachable_reached (by decide) (by decide))).2.2.2⟩

/-! ## The victim of Evict -/

/-- C17: in every reachable state of the replacer with `p ≤ c` and an alive entry whose
evictable flag is set, `Evict()` returns the victim the specification names: the evictable frame
closest to the tail of the preferred list (T1 if `|T1| > p`, otherwise T2 if `|T2| ≥ c - p`,
otherwise T1), and when that list has no evictable frame, the one closest to the tail of the
other list. -/
theorem C17_evict_victim (c : Nat) (s : ArcReplacer)
    (h : ArcReplacer.Reachable c ArcReplacer.anyCall s)
    (hp : s.mru_target_size_ ≤ s.replacer_size_)
    (hex : ∃ e ∈ s.alive_map_, e.2.evictable_ = true) :
    ∃ f s', s.Evict = Except.ok (some f, s') ∧ s.specVictim = some f := by
  have hw := h.wellFormed
  obtain ⟨f, st, stat, _, _, _, _, h5, h6⟩ := hw.evict_some hex
  refine ⟨f, _, h5, ?_⟩
  rw [h6, subSizeT_of_le hp hw.size_bound]
  unfold ArcReplacer.specVictim ArcReplacer.preferredList ArcReplacer.otherList
  by_cases c1 : s.mru_.length > s.mru_target_size_
  · simp only [c1, true_or, if_true]
    rfl
  · by_cases c2 : s.mfu_.length ≥ s.replacer_size_ - s.mru_target_size_
    · simp only [c1, c2, not_true_eq_false, or_self, if_false, if_true]
    · simp only [c1, c2, not_false_eq_true, or_true, if_true, if_false]
      rfl

/-- C17, witness: capacity 3, frames 0, 1, 2 hold pages 5, 6, 7, frame 0 was accessed twice (it
is in T2), frames 0 and 2 are evictable; `p = 0 < |T1| = 2`, so the victim is frame 2, the
evictable frame of T1. -/
theorem C17_evict_victim_witness :
    (ArcReplacer.reached 3 ArcReplacer.anyCall [ArcCall.record_access 0 5,
        ArcCall.record_access 1 6, ArcCall.record_access 2 7, ArcCall.record_access 0 5,
        ArcCall.set_evictable 0 true, ArcCall.set_evictable 2 true]).specVictim = some 2 ∧
    ∃ f s', (ArcReplacer.reached 3 ArcReplacer.anyCall [ArcCall.record_access 0 5,
        ArcCall.record_access 1 6, ArcCall.record_access 2 7, ArcCall.record_access 0 5,
        ArcCall.set_evictable 0 true, ArcCall.set_evictable 2 true]).Evict
          = Except.ok (some f, s') ∧
      (ArcReplacer.reached 3 ArcReplacer.anyCall [ArcCall.record_access 0 5,
        ArcCall.record_access 1 6, ArcCall.record_access 2 7, ArcCall.record_access 0 5,
        ArcCall.set_evictable 0 true, ArcCall.set_evictable 2 true]).specVictim = some f :=
  ⟨by decide,
    C17_evict_victim 3 _ (ArcReplacer.reachable_reached (by decide) (by decide)) (by decide)
      ⟨(2, ⟨7, 2, true, ArcStatus.MRU⟩), by decide, rfl⟩⟩

/-! ## The target size after a hit in B1 -/

/-- For every replacer state with `p ≤ c` (with `c + |B2| + 1` within the range of
`size_t`, as the sizes of lists in memory are), and every `RecordAccess` of a frame that is not
alive, for which the alive map has room, with a page id that the ghost map tags `MRU_GHOST` and
that is in B1: the call returns and the new target is `min(p + max(|B2| / |B1|, 1), c)`, with
`|B1|` and `|B2|` taken before the page leaves B1; so `p ≤ p' ≤ c`. -/
theorem target_after_b1_hit (s : ArcReplacer) (frame_id page_id : Int) (gst : FrameStatus)
    (hf : s.alive_map_.find frame_id = none)
    (hg : s.ghost_map_.find page_id = some gst) (htag : gst.arc_status_ = ArcStatus.MRU_GHOST)
    (hmem : page_id ∈ s.mru_ghost_)
    (hp : s.mru_target_size_ ≤ s.replacer_size_)
    (hsum : s.replacer_size_ + s.mfu_ghost_.length + 1 < SIZE_T_MODULUS)
    (hroom : s.alive_map_.length < s.replacer_size_) :
    ∃ s', s.RecordAccess frame_id page_id = Except.ok s' ∧
      s'.mru_target_size_
        = min (s.mru_target_size_ + max (s.mfu_ghost_.length / s.mru_ghost_.length) 1)
            s.replacer_size_ ∧
      s.mru_target_size_ ≤ s'.mru_target_size_ ∧ s'.mru_target_size_ ≤ s.replacer_size_ := by
  have hlen : s.mru_ghost_.length ≠ 0 := by
    intro h0
    rw [List.length_eq_zero] at h0
    rw [h0] at hmem
    cases hmem
  have hroom' : ¬ (s.alive_map_.assign frame_id
      { gst with arc_status_ := ArcStatus.MFU, frame_id_ := frame_id, evictable_ := false }).length
        > s.replacer_size_ := by
    unfold StatusMap.assign
    rw [List.length_cons, StatusMap.erase_of_find_none hf]
    omega
  have hdiv : s.mfu_ghost_.length / s.mru_ghost_.length ≤ s.mfu_ghost_.length :=
    Nat.div_le_self _ _
  have hadd : addSizeT s.mru_target_size_ (max (s.mfu_ghost_.length / s.mru_ghost_.length) 1)
      = s.mru_target_size_ + max (s.mfu_ghost_.length / s.mru_ghost_.length) 1 := by
    unfold addSizeT
    apply Nat.mod_eq_of_lt
    have : max (s.mfu_ghost_.length / s.mru_ghost_.length) 1 ≤ s.mfu_ghost_.length ∨
        max (s.mfu_ghost_.length / s.mru_ghost_.length) 1 = 1 := by
      rcases le_total (s.mfu_ghost_.length / s.mru_ghost_.length) 1 with h1 | h1
      · right; exact max_eq_right h1
      · left; rw [max_eq_left h1]; exact hdiv
    unfold SIZE_T_MODULUS at *
    omega
  rw [ArcReplacer.recordAccess_ghost_mru hf hg htag]
  simp only [hlen, if_false, hroom']
  refine ⟨_, rfl, ?_, ?_, ?_⟩
  · show min (addSizeT _ _) _ = _
    rw [hadd]
  · show _ ≤ min (addSizeT _ _) _
    rw [hadd]
    exact le_min (Nat.le_add_right _ _) hp
  · show min (addSizeT _ _) _ ≤ _
    exact min_le_right _ _

/-- An instance: capacity 2; page 5 is evicted from T1 into B1 and then accessed again for
frame 0: the target goes from 0 to `min(0 + max(0 / 1, 1), 2) = 1`. -/
theorem target_after_b1_hit_instance :
    ∃ s', (ArcReplacer.reached 2 ArcReplacer.anyCall [ArcCall.record_access 0 5,
        ArcCall.set_evictable 0 true, ArcCall.evict]).RecordAccess 0 5 = Except.ok s' ∧
      s'.mru_target_size_ = min ((ArcReplacer.reached 2 ArcReplacer.anyCall
          [ArcCall.record_access 0 5, ArcCall.set_evictable 0 true,
            ArcCall.evict]).mru_target_size_ +
        max ((ArcReplacer.reached 2 ArcReplacer.anyCall [ArcCall.record_access 0 5,
            ArcCall.set_evictable 0 true, ArcCall.evict]).mfu_ghost_.length /
          (ArcReplacer.reached 2 ArcReplacer.anyCall [ArcCall.record_access 0 5,
            ArcCall.set_evictable 0 true, ArcCall.evict]).mru_ghost_.length) 1)
        (ArcReplacer.reached 2 ArcReplacer.anyCall [ArcCall.record_access 0 5,
          ArcCall.set_evictable 0 true, ArcCall.evict]).replacer_size_ ∧
      (ArcReplacer.reached 2 ArcReplacer.anyCall [ArcCall.record_access 0 5,
        ArcCall.set_evictable 0 true, ArcCall.evict]).mru_target_size_ ≤ s'.mru_target_size_ ∧
      s'.mru_target_size_ ≤ (ArcReplacer.reached 2 ArcReplacer.anyCall
        [ArcCall.record_access 0 5, ArcCall.set_evictable 0 true, ArcCall.evict]).replacer_size_ :=
  target_after_b1_hit _ 0 5 ⟨5, 0, true, ArcStatus.MRU_GHOST⟩ (by decide) (by decide) rfl
    (by decide) (by decide) (by decide) (by decide)

/-! ## The target size after a hit in B2 -/

/-- C11, the code at the failing input: capacity 1, frame ids in `[0, 1)`, one page id; after
`RecordAccess(0, 7)` twice, `SetEvictable(0, true)`, `Evict()` and `RecordAccess(0, 7)` (a hit
in B2 with `p = 0`) the state is reachable and `mru_target_size_` is `2 ^ 64 - 1`, not in
`[0, 1]`. -/
theorem C11_target_exceeds_capacity :
    ArcReplacer.Reachable 1 ArcReplacer.frameInRangePageNotHeld
        (ArcReplacer.reached 1 ArcReplacer.frameInRangePageNotHeld
          [ArcCall.record_access 0 7, ArcCall.record_access 0 7, ArcCall.set_evictable 0 true,
            ArcCall.evict, ArcCall.record_access 0 7]) ∧
      (ArcReplacer.reached 1 ArcReplacer.frameInRangePageNotHeld
          [ArcCall.record_access 0 7, ArcCall.record_access 0 7, ArcCall.set_evictable 0 true,
            ArcCall.evict, ArcCall.record_access 0 7]).mru_target_size_
        = 18446744073709551615 ∧
      ¬ ((ArcReplacer.reached 1 ArcReplacer.frameInRangePageNotHeld
          [ArcCall.record_access 0 7, ArcCall.record_access 0 7, ArcCall.set_evictable 0 true,
            ArcCall.evict, ArcCall.record_access 0 7]).mru_target_size_ ≤ 1) :=
  ⟨ArcReplacer.reachable_reached (by decide) (by decide), by decide, by decide⟩

/-- C12, the code at the failing input: in the replacer of capacity 1 after `RecordAccess(0, 7)`
twice, `SetEvictable(0, true)` and `Evict()`, frame 0 is not alive, page 7 is in B2, `p = 0`,
`|B1| = 0` and `|B2| = 1`; `RecordAccess(0, 7)` sets the target to `2 ^ 64 - 1`, while
`max(p - max(|B1| / |B2|, 1), 0)` over the integers is 0. -/
theorem C12_target_after_b2_hit_wraps :
    (ArcReplacer.reached 1 ArcReplacer.anyCall [ArcCall.record_access 0 7,
        ArcCall.record_access 0 7, ArcCall.set_evictable 0 true,
        ArcCall.evict]).alive_map_.find 0 = none ∧
      (ArcReplacer.reached 1 ArcReplacer.anyCall [ArcCall.record_access 0 7,
        ArcCall.record_access 0 7, ArcCall.set_evictable 0 true, ArcCall.evict]).mfu_ghost_
          = [7] ∧
      (ArcReplacer.reached 1 ArcReplacer.anyCall [ArcCall.record_access 0 7,
        ArcCall.record_access 0 7, ArcCall.set_evictable 0 true, ArcCall.evict]).mru_ghost_
          = [] ∧
      (ArcReplacer.reached 1 ArcReplacer.anyCall [ArcCall.record_access 0 7,
        ArcCall.record_access 0 7, ArcCall.set_evictable 0 true, ArcCall.evict]).mru_target_size_
          = 0 ∧
      Except.map ArcReplacer.mru_target_size_
        ((ArcReplacer.reached 1 ArcReplacer.anyCall [ArcCall.record_access 0 7,
          ArcCall.record_access 0 7, ArcCall.set_evictable 0 true,
          ArcCall.evict]).RecordAccess 0 7) = Except.ok 18446744073709551615 ∧
      max ((0 : Int) - max ((0 : Int) / 1) 1) 0 = 0 := by
  decide

/-! ## The sizes of the four lists -/

/-- C16, counterexample: capacity 1, frame ids in `[0, 1)`, each page id held by at most one
alive frame; after three rounds of `RecordAccess(0, page)`, `SetEvictable(0, true)`, `Evict()`
for the pages 1, 2 and 3 the state is reachable, B1 holds the three page ids, and
`|T1| + |T2| + |B1| + |B2| = 3 > 2 * 1`. -/
theorem C16_ghost_lists_unbounded :
    ArcReplacer.Reachable 1 ArcReplacer.frameInRangePageNotHeld
        (ArcReplacer.reached 1 ArcReplacer.frameInRangePageNotHeld
          [ArcCall.record_access 0 1, ArcCall.set_evictable 0 true, ArcCall.evict,
            ArcCall.record_access 0 2, ArcCall.set_evictable 0 true, ArcCall.evict,
            ArcCall.record_access 0 3, ArcCall.set_evictable 0 true, ArcCall.evict]) ∧
      (ArcReplacer.reached 1 ArcReplacer.frameInRangePageNotHeld
          [ArcCall.record_access 0 1, ArcCall.set_evictable 0 true, ArcCall.evict,
            ArcCall.record_access 0 2, ArcCall.set_evictable 0 true, ArcCall.evict,
            ArcCall.record_access 0 3, ArcCall.set_evictable 0 true, ArcCall.evict]).mru_ghost_
        = [3, 2, 1] ∧
      ¬ ((ArcReplacer.reached 1 ArcReplacer.frameInRangePageNotHeld
          [ArcCall.record_access 0 1, ArcCall.set_evictable 0 true, ArcCall.evict,
            ArcCall.record_access 0 2, ArcCall.set_evictable 0 true, ArcCall.evict,
            ArcCall.record_access 0 3, ArcCall.set_evictable 0 true, ArcCall.evict]).mru_.length
        + (ArcReplacer.reached 1 ArcReplacer.frameInRangePageNotHeld
          [ArcCall.record_access 0 1, ArcCall.set_evictable 0 true, ArcCall.evict,
            ArcCall.record_access 0 2, ArcCall.set_evictable 0 true, ArcCall.evict,
            ArcCall.record_access 0 3, ArcCall.set_evictable 0 true, ArcCall.evict]).mfu_.length
        + (ArcReplacer.reached 1 ArcReplacer.frameInRangePageNotHeld
          [ArcCall.record_access 0 1, ArcCall.set_evictable 0 true, ArcCall.evict,
            ArcCall.record_access 0 2, ArcCall.set_evictable 0 true, ArcCall.evict,
            ArcCall.record_access 0 3, ArcCall.set_evictable 0 true,
            ArcCall.evict]).mru_ghost_.length
        + (ArcReplacer.reached 1 ArcReplacer.frameInRangePageNotHeld
          [ArcCall.record_access 0 1, ArcCall.set_evictable 0 true, ArcCall.evict,
            ArcCall.record_access 0 2, ArcCall.set_evictable 0 true, ArcCall.evict,
            ArcCall.record_access 0 3, ArcCall.set_evictable 0 true,
            ArcCall.evict]).mfu_ghost_.length ≤ 2 * 1) :=
  ⟨ArcReplacer.reachable_reached (by decide) (by decide), by decide, by decide⟩

/-- C16, amended: in every state reachable from a fresh replacer of capacity `c` by calls with
frame ids in `[0, c)` and each page id held by at most one alive frame, the two lists of resident
frames together hold at most `c` entries, `|T1| + |T2| ≤ c`; the ghost lists are never trimmed
and are not bounded in terms of `c`. -/
theorem C16_resident_lists_bounded (c : Nat) (s : ArcReplacer)
    (h : ArcReplacer.Reachable c ArcReplacer.frameInRangePageNotHeld s) :
    s.mru_.length + s.mfu_.length ≤ c := by
  rw [← h.replacer_size]
  exact h.wellFormed.resident_length_le

/-- C16, witness of the amended statement: the state of the counterexample. -/
theorem C16_resident_lists_bounded_witness :
    (ArcReplacer.reached 1 ArcReplacer.frameInRangePageNotHeld
        [ArcCall.record_access 0 1, ArcCall.set_evictable 0 true, ArcCall.evict,
          ArcCall.record_access 0 2, ArcCall.set_evictable 0 true, ArcCall.evict,
          ArcCall.record_access 0 3, ArcCall.set_evictable 0 true, ArcCall.evict]).mru_.length
      + (ArcReplacer.reached 1 ArcReplacer.frameInRangePageNotHeld
        [ArcCall.record_access 0 1, ArcCall.set_evictable 0 true, ArcCall.evict,
          ArcCall.record_access 0 2, ArcCall.set_evictable 0 true, ArcCall.evict,
          ArcCall.record_access 0 3, ArcCall.set_evictable 0 true, ArcCall.evict]).mfu_.length
      ≤ 1 :=
  C16_resident_lists_bounded 1 _ (ArcReplacer.reachable_reached (by decide) (by decide))

/-! ## The ghost lists -/

namespace StatusMap

theorem mem_erase (m : StatusMap) (k : Int) (e : Int × FrameStatus) :
    e ∈ erase m k ↔ e ∈ m ∧ e.1 ≠ k := by
  unfold erase
  rw [List.mem_filter]
  simp

theorem pages_perm {m : StatusMap} (hn : (m.map Prod.fst).Nodup) {k : Int} {v : FrameStatus}
    (h : find m k = some v) :
    (v.page_id_ :: (erase m k).map (fun e => e.2.page_id_)).Perm
      (m.map (fun e => e.2.page_id_)) := by
  induction m with
  | nil => simp [find] at h
  | cons e m ih =>
    rw [List.map_cons, List.nodup_cons] at hn
    by_cases h1 : e.1 = k
    · have h2 : find m k = none := by
        rw [find_eq_none_iff, ← h1]
        exact hn.1
      rw [find_cons_eq m h1] at h
      simp only [Option.some.injEq] at h
      rw [erase_cons_eq m h1, erase_of_find_none h2, List.map_cons, h]
    · rw [find_cons_ne m h1] at h
      rw [erase_cons_ne m h1, List.map_cons, List.map_cons]
      exact (List.Perm.swap _ _ _).trans ((ih hn.2 h).cons _)

end StatusMap

namespace GhostOk

variable {alive ghost : StatusMap} {b1 b2 : List Int}

theorem not_mem_b1 (hg : GhostOk alive ghost b1 b2) {pg : Int} (h : ghost.find pg = none) :
    pg ∉ b1 := by
  intro hm
  obtain ⟨st, h1, _⟩ := (hg.mem_b1 pg).mp hm
  rw [h] at h1
  cases h1

theorem not_mem_b2 (hg : GhostOk alive ghost b1 b2) {pg : Int} (h : ghost.find pg = none) :
    pg ∉ b2 := by
  intro hm
  obtain ⟨st, h1, _⟩ := (hg.mem_b2 pg).mp hm
  rw [h] at h1
  cases h1

/-- The status of an alive frame is replaced by one with the same page id. -/
theorem reassign (hg : GhostOk alive ghost b1 b2) (hn : (alive.map Prod.fst).Nodup) {f : Int}
    {st : FrameStatus} (hf : alive.find f = some st) (v : FrameStatus)
    (hv : v.page_id_ = st.page_id_) : GhostOk (alive.assign f v) ghost b1 b2 := by
  refine ⟨hg.ghost_key, hg.b1_nodup, hg.b2_nodup, hg.mem_b1, hg.mem_b2, ?_, ?_, hg.ghost_tag⟩
  · unfold StatusMap.assign
    rw [List.map_cons]
    simp only
    rw [hv]
    exact (StatusMap.pages_perm hn hf).nodup_iff.mpr hg.pages_nodup
  · intro e he
    unfold StatusMap.assign at he
    rcases List.mem_cons.mp he with h1 | h1
    · rw [h1]
      simp only
      rw [hv]
      exact hg.alive_not_ghost (f, st) (StatusMap.mem_of_find hf)
    · exact hg.alive_not_ghost e ((StatusMap.mem_erase _ _ _).mp h1).1

/-- A frame that is not alive enters the alive map with a page id that is neither held by an
alive frame nor in the ghost map. -/
theorem enter (hg : GhostOk alive ghost b1 b2) {f pg : Int} (hf : alive.find f = none)
    (hpg : pg ∉ alive.map (fun e => e.2.page_id_)) (hgh : ghost.find pg = none)
    (v : FrameStatus) (hv : v.page_id_ = pg) : GhostOk (alive.assign f v) ghost b1 b2 := by
  refine ⟨hg.ghost_key, hg.b1_nodup, hg.b2_nodup, hg.mem_b1, hg.mem_b2, ?_, ?_, hg.ghost_tag⟩
  · unfold StatusMap.assign
    rw [StatusMap.erase_of_find_none hf, List.map_cons, List.nodup_cons]
    simp only
    rw [hv]
    exact ⟨hpg, hg.pages_nodup⟩
  · intro e he
    unfold StatusMap.assign at he
    rw [StatusMap.erase_of_find_none hf] at he
    rcases List.mem_cons.mp he with h1 | h1
    · rw [h1]
      simp only
      rw [hv]
      exact hgh
    · exact hg.alive_not_ghost e h1

/-- The page id of a ghost hit leaves the ghost map. -/
theorem erase_ghost_alive (hg : GhostOk alive ghost b1 b2) (pg : Int) :
    ∀ e ∈ alive, (ghost.erase pg).find e.2.page_id_ = none := by
  intro e he
  by_cases h1 : e.2.page_id_ = pg
  · rw [h1]
    exact StatusMap.find_erase_self _ _
  · rw [StatusMap.find_erase_ne _ h1]
    exact hg.alive_not_ghost e he

theorem erase_ghost_key (hg : GhostOk alive ghost b1 b2) (pg : Int) :
    ∀ pg' st, (ghost.erase pg).find pg' = some st → st.page_id_ = pg' := by
  intro pg' st h
  by_cases h1 : pg' = pg
  · rw [h1, StatusMap.find_erase_self] at h
    cases h
  · rw [StatusMap.find_erase_ne _ h1] at h
    exact hg.ghost_key pg' st h

theorem erase_ghost_tag (hg : GhostOk alive ghost b1 b2) (pg : Int) :
    ∀ pg' st, (ghost.erase pg).find pg' = some st →
      st.arc_status_ = ArcStatus.MRU_GHOST ∨ st.arc_status_ = ArcStatus.MFU_GHOST := by
  intro pg' st h
  by_cases h1 : pg' = pg
  · rw [h1, StatusMap.find_erase_self] at h
    cases h
  · rw [StatusMap.find_erase_ne _ h1] at h
    exact hg.ghost_tag pg' st h

theorem erase_ghost_mem (ghost : StatusMap) (pg : Int) (tag : ArcStatus)
    (pg' : Int) :
    (∃ st, (ghost.erase pg).find pg' = some st ∧ st.arc_status_ = tag) ↔
      (∃ st, ghost.find pg' = some st ∧ st.arc_status_ = tag) ∧ pg' ≠ pg := by
  by_cases h1 : pg' = pg
  · rw [h1, StatusMap.find_erase_self]
    simp
  · rw [StatusMap.find_erase_ne _ h1]
    simp [h1]

/-- A hit in B1: the page id leaves the ghost map and B1, and the frame enters the alive map
with it. -/
theorem hit_b1 (hg : GhostOk alive ghost b1 b2) {f pg : Int} (hf : alive.find f = none)
    (hpg : pg ∉ alive.map (fun e => e.2.page_id_)) {gst : FrameStatus}
    (hgh : ghost.find pg = some gst) (htag : gst.arc_status_ = ArcStatus.MRU_GHOST)
    (v : FrameStatus) (hv : v.page_id_ = pg) :
    GhostOk (alive.assign f v) (ghost.erase pg) (b1.filter (fun x => decide (x ≠ pg))) b2 := by
  have hbase : GhostOk alive (ghost.erase pg) (b1.filter (fun x => decide (x ≠ pg))) b2 := by
    refine ⟨hg.erase_ghost_key pg, hg.b1_nodup.filter _, hg.b2_nodup, ?_, ?_, hg.pages_nodup,
      hg.erase_ghost_alive pg, hg.erase_ghost_tag pg⟩
    · intro pg'
      rw [ArcReplacer.mem_filter_ne, hg.mem_b1 pg']
      exact (erase_ghost_mem ghost pg _ pg').symm
    · intro pg'
      rw [erase_ghost_mem ghost pg _ pg', hg.mem_b2 pg']
      constructor
      · rintro ⟨st, h1, h2⟩
        refine ⟨⟨st, h1, h2⟩, ?_⟩
        intro h3
        rw [h3, hgh] at h1
        cases h1
        rw [htag] at h2
        cases h2
      · exact fun h => h.1
  exact hbase.enter hf hpg (StatusMap.find_erase_self _ _) v hv

/-- A hit in B2: the page id leaves the ghost map and B2, and the frame enters the alive map
with it. -/
theorem hit_b2 (hg : GhostOk alive ghost b1 b2) {f pg : Int} (hf : alive.find f = none)
    (hpg : pg ∉ alive.map (fun e => e.2.page_id_)) {gst : FrameStatus}
    (hgh : ghost.find pg = some gst) (htag : gst.arc_status_ = ArcStatus.MFU_GHOST)
    (v : FrameStatus) (hv : v.page_id_ = pg) :
    GhostOk (alive.assign f v) (ghost.erase pg) b1 (b2.filter (fun x => decide (x ≠ pg))) := by
  have hbase : GhostOk alive (ghost.erase pg) b1 (b2.filter (fun x => decide (x ≠ pg))) := by
    refine ⟨hg.erase_ghost_key pg, hg.b1_nodup, hg.b2_nodup.filter _, ?_, ?_, hg.pages_nodup,
      hg.erase_ghost_alive pg, hg.erase_ghost_tag pg⟩
    · intro pg'
      rw [erase_ghost_mem ghost pg _ pg', hg.mem_b1 pg']
      constructor
      · rintro ⟨st, h1, h2⟩
        refine ⟨⟨st, h1, h2⟩, ?_⟩
        intro h3
        rw [h3, hgh] at h1
        cases h1
        rw [htag] at h2
        cases h2
      · exact fun h => h.1
    · intro pg'
      rw [ArcReplacer.mem_filter_ne, hg.mem_b2 pg']
      exact (erase_ghost_mem ghost pg _ pg').symm
  exact hbase.enter hf hpg (StatusMap.find_erase_self _ _) v hv

theorem evict_alive (hg : GhostOk alive ghost b1 b2) {f : Int} {st : FrameStatus}
    (hf : alive.find f = some st) (v : FrameStatus) :
    (∀ e ∈ alive.erase f, (ghost.assign st.page_id_ v).find e.2.page_id_ = none) ∧
      ((alive.erase f).map (fun e => e.2.page_id_)).Nodup := by
  constructor
  · intro e he
    obtain ⟨h1, h2⟩ := (StatusMap.mem_erase _ _ _).mp he
    have hne : e.2.page_id_ ≠ st.page_id_ := by
      intro h3
      have h4 := List.inj_on_of_nodup_map hg.pages_nodup h1 (StatusMap.mem_of_find hf) h3
      rw [h4] at h2
      exact h2 rfl
    rw [StatusMap.find_assign_ne _ _ hne]
    exact hg.alive_not_ghost e h1
  · exact hg.pages_nodup.sublist ((List.filter_sublist _).map _)

theorem assign_ghost_key (hg : GhostOk alive ghost b1 b2) {pg : Int} {v : FrameStatus}
    (hv : v.page_id_ = pg) :
    ∀ pg' st, (ghost.assign pg v).find pg' = some st → st.page_id_ = pg' := by
  intro pg' st h
  by_cases h1 : pg' = pg
  · rw [h1, StatusMap.find_assign_self] at h
    cases h
    rw [h1]
    exact hv
  · rw [StatusMap.find_assign_ne _ _ h1] at h
    exact hg.ghost_key pg' st h

theorem assign_ghost_tag (hg : GhostOk alive ghost b1 b2) {pg : Int} {v : FrameStatus}
    (hv : v.arc_status_ = ArcStatus.MRU_GHOST ∨ v.arc_status_ = ArcStatus.MFU_GHOST) :
    ∀ pg' st, (ghost.assign pg v).find pg' = some st →
      st.arc_status_ = ArcStatus.MRU_GHOST ∨ st.arc_status_ = ArcStatus.MFU_GHOST := by
  intro pg' st h
  by_cases h1 : pg' = pg
  · rw [h1, StatusMap.find_assign_self] at h
    cases h
    exact hv
  · rw [StatusMap.find_assign_ne _ _ h1] at h
    exact hg.ghost_tag pg' st h

theorem assign_ghost_mem_same (ghost : StatusMap) (pg : Int) (v : FrameStatus) (pg' : Int) :
    (∃ st, (ghost.assign pg v).find pg' = some st ∧ st.arc_status_ = v.arc_status_) ↔
      pg' = pg ∨ ∃ st, ghost.find pg' = some st ∧ st.arc_status_ = v.arc_status_ := by
  by_cases h1 : pg' = pg
  · rw [h1, StatusMap.find_assign_self]
    simp
  · rw [StatusMap.find_assign_ne _ _ h1]
    simp [h1]

theorem assign_ghost_mem_other {ghost : StatusMap} {pg : Int} (hnone : ghost.find pg = none)
    (v : FrameStatus) {tag : ArcStatus} (htag : v.arc_status_ ≠ tag) (pg' : Int) :
    (∃ st, (ghost.assign pg v).find pg' = some st ∧ st.arc_status_ = tag) ↔
      ∃ st, ghost.find pg' = some st ∧ st.arc_status_ = tag := by
  by_cases h1 : pg' = pg
  · rw [h1, StatusMap.find_assign_self, hnone]
    simp [htag]
  · rw [StatusMap.find_assign_ne _ _ h1]

/-- An alive frame is evicted from T1: its page id enters the ghost map and the head of B1. -/
theorem evict_b1 (hg : GhostOk alive ghost b1 b2) {f : Int} {st : FrameStatus}
    (hf : alive.find f = some st) (v : FrameStatus) (hv : v.page_id_ = st.page_id_)
    (htag : v.arc_status_ = ArcStatus.MRU_GHOST) :
    GhostOk (alive.erase f) (ghost.assign st.page_id_ v) (st.page_id_ :: b1) b2 := by
  have hnone : ghost.find st.page_id_ = none :=
    hg.alive_not_ghost (f, st) (StatusMap.mem_of_find hf)
  refine ⟨hg.assign_ghost_key hv, List.nodup_cons.mpr ⟨hg.not_mem_b1 hnone, hg.b1_nodup⟩,
    hg.b2_nodup, ?_, ?_, (hg.evict_alive hf v).2, (hg.evict_alive hf v).1,
    hg.assign_ghost_tag (Or.inl htag)⟩
  · intro pg'
    rw [List.mem_cons, hg.mem_b1 pg', ← htag]
    exact (assign_ghost_mem_same ghost _ v pg').symm
  · intro pg'
    rw [hg.mem_b2 pg']
    exact (assign_ghost_mem_other hnone v (by rw [htag]; decide) pg').symm

/-- An alive frame is evicted from T2: its page id enters the ghost map and the head of B2. -/
theorem evict_b2 (hg : GhostOk alive ghost b1 b2) {f : Int} {st : FrameStatus}
    (hf : alive.find f = some st) (v : FrameStatus) (hv : v.page_id_ = st.page_id_)
    (htag : v.arc_status_ = ArcStatus.MFU_GHOST) :
    GhostOk (alive.erase f) (ghost.assign st.page_id_ v) b1 (st.page_id_ :: b2) := by
  have hnone : ghost.find st.page_id_ = none :=
    hg.alive_not_ghost (f, st) (StatusMap.mem_of_find hf)
  refine ⟨hg.assign_ghost_key hv, hg.b1_nodup,
    List.nodup_cons.mpr ⟨hg.not_mem_b2 hnone, hg.b2_nodup⟩, ?_, ?_, (hg.evict_alive hf v).2,
    (hg.evict_alive hf v).1, hg.assign_ghost_tag (Or.inr htag)⟩
  · intro pg'
    rw [hg.mem_b1 pg']
    exact (assign_ghost_mem_other hnone v (by rw [htag]; decide) pg').symm
  · intro pg'
    rw [List.mem_cons, hg.mem_b2 pg', ← htag]
    exact (assign_ghost_mem_same ghost _ v pg').symm

end GhostOk

namespace ArcReplacer

theorem ghostWellFormed_new (c : Nat) : (ArcReplacer.new c).GhostWellFormed := by
  refine ⟨?_, List.nodup_nil, List.nodup_nil, ?_, ?_, List.nodup_nil, ?_, ?_⟩
  · intro pg st h
    cases h
  · intro pg
    constructor
    · intro h
      cases h
    · rintro ⟨st, h, _⟩
      cases h
  · intro pg
    constructor
    · intro h
      cases h
    · rintro ⟨st, h, _⟩
      cases h
  · intro e he
    cases he
  · intro pg st h
    cases h

theorem not_mem_pages_of_not_holdsPage {s : ArcReplacer} {pg : Int}
    (h : s.holdsPage pg = false) : pg ∉ s.alive_map_.map (fun e => e.2.page_id_) := by
  intro hm
  obtain ⟨e, he, hpg⟩ := List.mem_map.mp hm
  have : s.holdsPage pg = true := by
    unfold holdsPage
    rw [List.any_eq_true]
    exact ⟨e, he, decide_eq_true hpg⟩
  rw [h] at this
  cases this

theorem ghostWellFormed_setEvictable {s : ArcReplacer} (hw : s.WellFormed)
    (hg : s.GhostWellFormed) (f : Int) (b : Bool) : (s.SetEvictable f b).1.GhostWellFormed := by
  unfold SetEvictable
  cases hf : s.alive_map_.find f with
  | none => exact hg
  | some st =>
    by_cases hb : st.evictable_ = b
    · simp only [hb, ne_eq, not_true_eq_false, if_false]
      exact hg
    · simp only [hb, ne_eq, not_false_eq_true, if_true]
      cases b
      · exact GhostOk.reassign hg hw.keys_nodup hf _ rfl
      · exact GhostOk.reassign hg hw.keys_nodup hf _ rfl

theorem ghostWellFormed_recordAccess {s s' : ArcReplacer} (hw : s.WellFormed)
    (hg : s.GhostWellFormed) {f pg : Int}
    (hnh : s.pageNotHeld (ArcCall.record_access f pg) = true)
    (h : s.RecordAccess f pg = Except.ok s') : s'.GhostWellFormed := by
  cases hf : s.alive_map_.find f with
  | some st =>
    rcases hw.status f st hf with htag | htag
    · rw [recordAccess_alive_mru pg hf htag] at h
      cases h
      exact GhostOk.reassign hg hw.keys_nodup hf _ rfl
    · rw [recordAccess_alive_mfu pg hf htag] at h
      cases h
      exact hg
  | none =>
    have hpg : pg ∉ s.alive_map_.map (fun e => e.2.page_id_) := by
      apply not_mem_pages_of_not_holdsPage
      simp only [pageNotHeld, hf, Option.isSome_none, Bool.false_or, Bool.not_eq_true'] at hnh
      exact hnh
    cases hgh : s.ghost_map_.find pg with
    | none =>
      rw [recordAccess_new hf hgh] at h
      split at h
      · cases h
      · cases h
        exact GhostOk.enter hg hf hpg hgh _ rfl
    | some gst =>
      have hkey : gst.page_id_ = pg := hg.ghost_key pg gst hgh
      by_cases h1 : gst.arc_status_ = ArcStatus.MRU_GHOST
      · rw [recordAccess_ghost_mru hf hgh h1] at h
        split at h
        · cases h
        · split at h
          · cases h
          · cases h
            exact GhostOk.hit_b1 hg hf hpg hgh h1 _ hkey
      · by_cases h2 : gst.arc_status_ = ArcStatus.MFU_GHOST
        · rw [recordAccess_ghost_mfu hf hgh h2] at h
          split at h
          · cases h
          · split at h
            · cases h
            · cases h
              exact GhostOk.hit_b2 hg hf hpg hgh h2 _ hkey
        · rw [recordAccess_ghost_alive_tag hf hgh h1 h2] at h
          cases h

theorem ghostWellFormed_evict {s s' : ArcReplacer} (hw : s.WellFormed)
    (hg : s.GhostWellFormed) {r : Option Int} (h : s.Evict = Except.ok (r, s')) :
    s'.GhostWellFormed := by
  by_cases hex : ∃ e ∈ s.alive_map_, e.2.evictable_ = true
  · obtain ⟨f, st, stat, h1, h2, _, _, h5, _⟩ := hw.evict_some hex
    rw [h5] at h
    cases h
    rcases h1 with h1 | h1
    · subst h1
      exact GhostOk.evict_b1 hg h2 _ rfl rfl
    · subst h1
      exact GhostOk.evict_b2 hg h2 _ rfl rfl
  · have hall : ∀ e ∈ s.alive_map_, e.2.evictable_ = false := by
      intro e he
      cases hev : e.2.evictable_ with
      | false => rfl
      | true => exact absurd ⟨e, he, hev⟩ hex
    rw [hw.evict_none hall] at h
    cases h
    exact hg

theorem ghostWellFormed_call {s s' : ArcReplacer} (hw : s.WellFormed) (hg : s.GhostWellFormed)
    {cl : ArcCall} (hnh : s.pageNotHeld cl = true) (h : s.call cl = Except.ok s') :
    s'.GhostWellFormed := by
  cases cl with
  | record_access f pg => exact ghostWellFormed_recordAccess hw hg hnh h
  | set_evictable f b =>
    simp only [ArcReplacer.call, Except.ok.injEq] at h
    rw [← h]
    exact ghostWellFormed_setEvictable hw hg f b
  | evict =>
    simp only [ArcReplacer.call] at h
    cases h1 : s.Evict with
    | error e => simp [h1, Except.map] at h
    | ok r =>
      obtain ⟨r1, r2⟩ := r
      simp only [h1, Except.map, Except.ok.injEq] at h
      rw [← h]
      exact ghostWellFormed_evict hw hg h1

theorem Reachable.ghostWellFormed {c : Nat} {s : ArcReplacer}
    (h : Reachable c pageNotHeld s) : s.GhostWellFormed := by
  induction h with
  | fresh _ => exact ghostWellFormed_new c
  | step cl hr hallow hcall ih => exact ghostWellFormed_call hr.wellFormed ih hallow hcall

end ArcReplacer

/-! ## The ghost lists share no page id with each other or with the alive frames -/

/-- C15: in every state reachable from a fresh replacer by `RecordAccess`, `SetEvictable` and
`Evict` calls in which `RecordAccess` is never given, for a frame that is not alive, a page id
held by an alive frame: no page id is in both B1 and B2, no page id occurs twice in B1 or in B2,
and no alive frame's page id is in B1 or in B2. -/
theorem C15_ghost_lists (c : Nat) (s : ArcReplacer)
    (h : ArcReplacer.Reachable c ArcReplacer.pageNotHeld s) :
    (∀ pg, ¬ (pg ∈ s.mru_ghost_ ∧ pg ∈ s.mfu_ghost_)) ∧
    (∀ pg, s.mru_ghost_.count pg ≤ 1 ∧ s.mfu_ghost_.count pg ≤ 1) ∧
    (∀ e ∈ s.alive_map_, e.2.page_id_ ∉ s.mru_ghost_ ∧ e.2.page_id_ ∉ s.mfu_ghost_) := by
  have hg := h.ghostWellFormed
  refine ⟨?_, ?_, ?_⟩
  · rintro pg ⟨h1, h2⟩
    obtain ⟨st, h3, h4⟩ := (hg.mem_b1 pg).mp h1
    obtain ⟨st', h5, h6⟩ := (hg.mem_b2 pg).mp h2
    rw [h3] at h5
    cases h5
    rw [h4] at h6
    cases h6
  · intro pg
    exact ⟨List.nodup_iff_count_le_one.mp hg.b1_nodup pg,
      List.nodup_iff_count_le_one.mp hg.b2_nodup pg⟩
  · intro e he
    exact ⟨hg.not_mem_b1 (hg.alive_not_ghost e he), hg.not_mem_b2 (hg.alive_not_ghost e he)⟩

/-- C15, witness: a replacer of capacity 2 after page 5 was accessed in frame 0, released and
evicted, and page 6 was accessed in frame 0: B1 is `[5]`, B2 is empty and the page 6 of the
alive frame is in neither. -/
theorem C15_ghost_lists_witness :
    (ArcReplacer.reached 2 ArcReplacer.pageNotHeld [ArcCall.record_access 0 5,
        ArcCall.set_evictable 0 true, ArcCall.evict, ArcCall.record_access 0 6]).mru_ghost_
      = [5] ∧
    (ArcReplacer.reached 2 ArcReplacer.pageNotHeld [ArcCall.record_access 0 5,
        ArcCall.set_evictable 0 true, ArcCall.evict, ArcCall.record_access 0 6]).alive_map_
      = [(0, ⟨6, 0, false, ArcStatus.MRU⟩)] ∧
    ∀ e ∈ (ArcReplacer.reached 2 ArcReplacer.pageNotHeld [ArcCall.record_access 0 5,
        ArcCall.set_evictable 0 true, ArcCall.evict, ArcCall.record_access 0 6]).alive_map_,
      e.2.page_id_ ∉ (ArcReplacer.reached 2 ArcReplacer.pageNotHeld [ArcCall.record_access 0 5,
        ArcCall.set_evictable 0 true, ArcCall.evict, ArcCall.record_access 0 6]).mru_ghost_ ∧
      e.2.page_id_ ∉ (ArcReplacer.reached 2 ArcReplacer.pageNotHeld [ArcCall.record_access 0 5,
        ArcCall.set_evictable 0 true, ArcCall.evict, ArcCall.record_access 0 6]).mfu_ghost_ :=
  ⟨by decide, by decide,
    (C15_ghost_lists 2 _ (ArcReplacer.reachable_reached (by decide) (by decide))).2.2⟩

/-! ## The ARC pressure scenario -/

/-- C18: pool of capacity 10, the pages A..J (page ids 1..10) accessed and released in that
order, A accessed and released again, then K (page id 11) accessed.  Before the access to K the
page B (page id 2) is in frame 1, the tail of T1.  After it, A is still in the page table, in
frame 0, which is alive, tagged `MFU` and the only frame of T2; K is in frame 1, the frame that
held B; B is no longer in the page table, and its page id is the head (the only element) of B1,
while B2 is empty. -/
theorem C18_arc_pressure :
    Except.map (fun s => (s.page_table_.find 2, s.replacer_.mru_.getLast?, s.replacer_.mfu_,
        s.free_frames_)) arcPressureBeforeK
      = Except.ok (some 1, some 1, [0], []) ∧
    Except.map (fun r => (r.1.frame_, r.2.page_table_.find 1, r.2.page_table_.find 11,
        r.2.page_table_.find 2)) arcPressureAfterK
      = Except.ok (1, some 0, some 1, none) ∧
    Except.map (fun r => ((r.2.replacer_.alive_map_.find 0).map FrameStatus.arc_status_,
        (r.2.replacer_.alive_map_.find 0).map FrameStatus.page_id_)) arcPressureAfterK
      = Except.ok (some ArcStatus.MFU, some 1) ∧
    Except.map (fun r => (r.2.replacer_.mfu_, r.2.replacer_.mru_, r.2.replacer_.mru_ghost_,
        r.2.replacer_.mfu_ghost_)) arcPressureAfterK
      = Except.ok ([0], [1, 9, 8, 7, 6, 5, 4, 3, 2], [2], []) := by
  refine ⟨?_, ?_, ?_, ?_⟩ <;> decide

/-! ## RID::IsValid -/

/-- C28, counterexample: the RID `(0, -2)` has a page id other than `INVALID_PAGE_ID` and a
negative slot number, and `IsValid()` is true for it. -/
theorem C28_negative_slot_is_valid :
    (RID.mk 0 (-2)).IsValid = true ∧
      ¬ ((RID.mk 0 (-2)).page_id ≠ INVALID_PAGE_ID ∧ (RID.mk 0 (-2)).slot_num ≥ 0) := by
  decide

/-- C28, amended: for every RID, `IsValid()` is true exactly when the page id is not
`INVALID_PAGE_ID` and the slot number is not `-1`. -/
theorem C28_IsValid (r : RID) :
    r.IsValid = true ↔ r.page_id ≠ INVALID_PAGE_ID ∧ r.slot_num ≠ -1 := by
  unfold RID.IsValid
  simp

/-! ## RecordAccess -/

namespace StatusMap

theorem mem_assign {m : StatusMap} {k : Int} {v : FrameStatus} {e : Int × FrameStatus}
    (h : e ∈ assign m k v) : e.1 = k ∨ e ∈ m := by
  unfold assign at h
  rcases List.mem_cons.mp h with h1 | h1
  · left
    rw [h1]
  · right
    exact ((mem_erase _ _ _).mp h1).1

theorem length_assign_of_find_none {m : StatusMap} {k : Int} (h : find m k = none)
    (v : FrameStatus) : (assign m k v).length = m.length + 1 := by
  unfold assign
  rw [erase_of_find_none h, List.length_cons]

end StatusMap

namespace ArcReplacer

theorem Reachable.mono {c : Nat} {a b : ArcReplacer → ArcCall → Bool}
    (hab : ∀ s cl, a s cl = true → b s cl = true) {s : ArcReplacer} (h : Reachable c a s) :
    Reachable c b s := by
  induction h with
  | fresh hc => exact Reachable.fresh hc
  | step cl _ hallow hcall ih => exact Reachable.step cl ih (hab _ _ hallow) hcall

/-- The frame ids of the alive entries stay in `[0, c)` under a call with its frame id in
`[0, c)`. -/
theorem keysInRange_call {s s' : ArcReplacer} (hw : s.WellFormed) {c : Int}
    (hk : ∀ e ∈ s.alive_map_, 0 ≤ e.1 ∧ e.1 < c) {cl : ArcCall}
    (hcl : ∀ f, (∃ pg, cl = ArcCall.record_access f pg) ∨ (∃ b, cl = ArcCall.set_evictable f b) →
      0 ≤ f ∧ f < c)
    (h : s.call cl = Except.ok s') : ∀ e ∈ s'.alive_map_, 0 ≤ e.1 ∧ e.1 < c := by
  have hassign : ∀ (f : Int) (v : FrameStatus), (0 ≤ f ∧ f < c) →
      ∀ e ∈ s.alive_map_.assign f v, 0 ≤ e.1 ∧ e.1 < c := by
    intro f v hf e he
    rcases StatusMap.mem_assign he with h1 | h1
    · rw [h1]
      exact hf
    · exact hk e h1
  cases cl with
  | record_access f pg =>
    have hf := hcl f (Or.inl ⟨pg, rfl⟩)
    simp only [ArcReplacer.call] at h
    cases hfind : s.alive_map_.find f with
    | some st =>
      rcases hw.status f st hfind with htag | htag
      · rw [recordAccess_alive_mru pg hfind htag] at h
        cases h
        exact hassign f _ hf
      · rw [recordAccess_alive_mfu pg hfind htag] at h
        cases h
        exact hk
    | none =>
      cases hgh : s.ghost_map_.find pg with
      | none =>
        rw [recordAccess_new hfind hgh] at h
        split at h
        · cases h
        · cases h
          exact hassign f _ hf
      | some gst =>
        by_cases h1 : gst.arc_status_ = ArcStatus.MRU_GHOST
        · rw [recordAccess_ghost_mru hfind hgh h1] at h
          split at h
          · cases h
          · split at h
            · cases h
            · cases h
              exact hassign f _ hf
        · by_cases h2 : gst.arc_status_ = ArcStatus.MFU_GHOST
          · rw [recordAccess_ghost_mfu hfind hgh h2] at h
            split at h
            · cases h
            · split at h
              · cases h
              · cases h
                exact hassign f _ hf
          · rw [recordAccess_ghost_alive_tag hfind hgh h1 h2] at h
            cases h
  | set_evictable f b =>
    have hf := hcl f (Or.inr ⟨b, rfl⟩)
    simp only [ArcReplacer.call, Except.ok.injEq] at h
    rw [← h]
    unfold SetEvictable
    cases hfind : s.alive_map_.find f with
    | none => exact hk
    | some st =>
      by_cases hb : st.evictable_ = b
      · simp only [hb, ne_eq, not_true_eq_false, if_false]
        exact hk
      · simp only [hb, ne_eq, not_false_eq_true, if_true]
        cases b
        · exact hassign f _ hf
        · exact hassign f _ hf
  | evict =>
    simp only [ArcReplacer.call] at h
    cases h1 : s.Evict with
    | error e => simp [h1, Except.map] at h
    | ok r =>
      obtain ⟨r1, r2⟩ := r
      simp only [h1, Except.map, Except.ok.injEq] at h
      rw [← h]
      by_cases hex : ∃ e ∈ s.alive_map_, e.2.evictable_ = true
      · obtain ⟨f, st, stat, _, _, _, _, h5, _⟩ := hw.evict_some hex
        rw [h5] at h1
        cases h1
        intro e he
        exact hk e ((StatusMap.mem_erase _ _ _).mp he).1
      · have hall : ∀ e ∈ s.alive_map_, e.2.evictable_ = false := by
          intro e he
          cases hev : e.2.evictable_ with
          | false => rfl
          | true => exact absurd ⟨e, he, hev⟩ hex
        rw [hw.evict_none hall] at h1
        cases h1
        exact hk

theorem Reachable.keysInRange {c : Nat} {s : ArcReplacer}
    (h : Reachable c frameInRange s) : ∀ e ∈ s.alive_map_, 0 ≤ e.1 ∧ e.1 < (c : Int) := by
  induction h with
  | fresh _ =>
    intro e he
    cases he
  | @step s s' cl hr hallow hcall ih =>
    refine keysInRange_call hr.wellFormed ih ?_ hcall
    have hsz := hr.replacer_size
    intro f hf
    rcases hf with ⟨pg, h1⟩ | ⟨b, h1⟩
    · rw [h1] at hallow
      simp only [frameInRange, decide_eq_true_eq] at hallow
      rw [hsz] at hallow
      exact hallow
    · rw [h1] at hallow
      simp only [frameInRange, decide_eq_true_eq] at hallow
      rw [hsz] at hallow
      exact hallow

/-- A frame id of `[0, c)` that is not alive finds room in an alive map whose keys are distinct
frame ids of `[0, c)`. -/
theorem room_of_keysInRange {m : StatusMap} {c : Nat} (hn : (m.map Prod.fst).Nodup)
    (hk : ∀ e ∈ m, 0 ≤ e.1 ∧ e.1 < (c : Int)) {f : Int} (hf : m.find f = none)
    (hfr : 0 ≤ f ∧ f < (c : Int)) : m.length + 1 ≤ c := by
  have hnd : (f :: m.map Prod.fst).Nodup :=
    List.nodup_cons.mpr ⟨(StatusMap.find_eq_none_iff m f).mp hf, hn⟩
  have hsub : (f :: m.map Prod.fst).toFinset ⊆ Finset.Ico (0 : Int) c := by
    intro x hx
    rw [List.mem_toFinset, List.mem_cons] at hx
    rw [Finset.mem_Ico]
    rcases hx with h1 | h1
    · rw [h1]
      exact hfr
    · obtain ⟨e, he, h2⟩ := List.mem_map.mp h1
      rw [← h2]
      exact hk e he
  have hcard := Finset.card_le_card hsub
  rw [List.toFinset_card_of_nodup hnd, Int.card_Ico] at hcard
  simp only [List.length_cons, List.length_map, sub_zero, Int.toNat_ofNat] at hcard
  exact hcard

theorem filter_ne_of_not_mem {l : List Int} {x : Int} (h : x ∉ l) :
    l.filter (fun y => decide (y ≠ x)) = l := by
  rw [List.filter_eq_self]
  intro y hy
  simp only [ne_eq, decide_eq_true_eq]
  intro hxy
  rw [hxy] at hy
  exact h hy

end ArcReplacer

/-- In every state reachable from a fresh replacer of capacity `c` (frame ids in `[0, c)`,
no page id given to a second frame while an alive frame holds it) and for every
`RecordAccess(f, pg)` with `f` in `[0, c)`, the call returns and: if `f` was alive, it is at the
head of T2, is in T1 no more, and its status keeps its page id and evictable flag; if `f` was not
alive and `pg` was in B1 or B2, `pg` is in neither ghost list nor in the ghost map and `f` is
alive, not evictable, tagged `MFU`, at the head of T2; if `f` was not alive and `pg` was in no
ghost list, `f` is alive, not evictable, tagged `MRU`, at the head of T1.  The other entries of
T1, T2, B1 and B2 keep their order and the other alive entries their status. -/
theorem record_access_outcomes (c : Nat) (s : ArcReplacer)
    (h : ArcReplacer.Reachable c ArcReplacer.frameInRangePageNotHeld s) (f pg : Int)
    (hf : 0 ≤ f ∧ f < (c : Int)) :
    (∀ st, s.alive_map_.find f = some st →
      ∃ s', s.RecordAccess f pg = Except.ok s' ∧
        s'.mfu_ = f :: s.mfu_.filter (fun x => decide (x ≠ f)) ∧
        s'.mru_ = s.mru_.filter (fun x => decide (x ≠ f)) ∧
        s'.alive_map_.find f = some { st with arc_status_ := ArcStatus.MFU } ∧
        (∀ g, g ≠ f → s'.alive_map_.find g = s.alive_map_.find g) ∧
        s'.mru_ghost_ = s.mru_ghost_ ∧ s'.mfu_ghost_ = s.mfu_ghost_ ∧
        s'.ghost_map_ = s.ghost_map_) ∧
    (s.alive_map_.find f = none → pg ∈ s.mru_ghost_ ∨ pg ∈ s.mfu_ghost_ →
      ∃ s', s.RecordAccess f pg = Except.ok s' ∧
        s'.mfu_ = f :: s.mfu_ ∧ s'.mru_ = s.mru_ ∧
        s'.mru_ghost_ = s.mru_ghost_.filter (fun x => decide (x ≠ pg)) ∧
        s'.mfu_ghost_ = s.mfu_ghost_.filter (fun x => decide (x ≠ pg)) ∧
        s'.ghost_map_.find pg = none ∧
        (∃ st', s'.alive_map_.find f = some st' ∧ st'.page_id_ = pg ∧
          st'.evictable_ = false ∧ st'.arc_status_ = ArcStatus.MFU) ∧
        (∀ g, g ≠ f → s'.alive_map_.find g = s.alive_map_.find g)) ∧
    (s.alive_map_.find f = none → pg ∉ s.mru_ghost_ → pg ∉ s.mfu_ghost_ →
      ∃ s', s.RecordAccess f pg = Except.ok s' ∧
        s'.mru_ = f :: s.mru_ ∧ s'.mfu_ = s.mfu_ ∧
        s'.alive_map_.find f = some ⟨pg, f, false, ArcStatus.MRU⟩ ∧
        (∀ g, g ≠ f → s'.alive_map_.find g = s.alive_map_.find g) ∧
        s'.mru_ghost_ = s.mru_ghost_ ∧ s'.mfu_ghost_ = s.mfu_ghost_ ∧
        s'.ghost_map_ = s.ghost_map_) := by
  have hw := h.wellFormed
  have hg : s.GhostWellFormed :=
    (h.mono (fun s cl hcl => (Bool.and_eq_true _ _ ▸ hcl).2)).ghostWellFormed
  have hk := (h.mono (fun s cl hcl => (Bool.and_eq_true _ _ ▸ hcl).1)).keysInRange
  have hsz := h.replacer_size
  have hroom : s.alive_map_.find f = none → ∀ v,
      ¬ (s.alive_map_.assign f v).length > s.replacer_size_ := by
    intro hfind v
    rw [StatusMap.length_assign_of_find_none hfind, hsz]
    have := ArcReplacer.room_of_keysInRange hw.keys_nodup hk hfind hf
    omega
  refine ⟨?_, ?_, ?_⟩
  · intro st hfind
    rcases hw.status f st hfind with htag | htag
    · have hnot : f ∉ s.mfu_ := by
        intro hm
        obtain ⟨st', h1, h2⟩ := (hw.mem_mfu f).mp hm
        rw [hfind] at h1
        cases h1
        rw [htag] at h2
        cases h2
      rw [ArcReplacer.recordAccess_alive_mru pg hfind htag]
      refine ⟨_, rfl, ?_, rfl, ?_, ?_, rfl, rfl, rfl⟩
      · show f :: s.mfu_ = _
        rw [ArcReplacer.filter_ne_of_not_mem hnot]
      · exact StatusMap.find_assign_self _ _ _
      · intro g hg'
        exact StatusMap.find_assign_ne _ _ hg'
    · have hnot : f ∉ s.mru_ := by
        intro hm
        obtain ⟨st', h1, h2⟩ := (hw.mem_mru f).mp hm
        rw [hfind] at h1
        cases h1
        rw [htag] at h2
        cases h2
      rw [ArcReplacer.recordAccess_alive_mfu pg hfind htag]
      refine ⟨_, rfl, rfl, ?_, ?_, ?_, rfl, rfl, rfl⟩
      · show s.mru_ = _
        rw [ArcReplacer.filter_ne_of_not_mem hnot]
      · show s.alive_map_.find f = _
        rw [hfind, ← htag]
      · intro g _
        rfl
  · intro hfind hmem
    rcases hmem with hmem | hmem
    · obtain ⟨gst, h1, h2⟩ := (hg.mem_b1 pg).mp hmem
      have hnot : pg ∉ s.mfu_ghost_ := by
        intro hm
        obtain ⟨gst', h3, h4⟩ := (hg.mem_b2 pg).mp hm
        rw [h1] at h3
        cases h3
        rw [h2] at h4
        cases h4
      have hlen : ¬ s.mru_ghost_.length = 0 := by
        intro h0
        rw [List.length_eq_zero] at h0
        rw [h0] at hmem
        cases hmem
      rw [ArcReplacer.recordAccess_ghost_mru hfind h1 h2, if_neg hlen, if_neg (hroom hfind _)]
      refine ⟨_, rfl, rfl, rfl, rfl, ?_, ?_, ?_, ?_⟩
      · show s.mfu_ghost_ = _
        rw [ArcReplacer.filter_ne_of_not_mem hnot]
      · exact StatusMap.find_erase_self _ _
      · exact ⟨_, StatusMap.find_assign_self _ _ _, hg.ghost_key pg gst h1, rfl, rfl⟩
      · intro g hg'
        exact StatusMap.find_assign_ne _ _ hg'
    · obtain ⟨gst, h1, h2⟩ := (hg.mem_b2 pg).mp hmem
      have hnot : pg ∉ s.mru_ghost_ := by
        intro hm
        obtain ⟨gst', h3, h4⟩ := (hg.mem_b1 pg).mp hm
        rw [h1] at h3
        cases h3
        rw [h2] at h4
        cases h4
      have hlen : ¬ s.mfu_ghost_.length = 0 := by
        intro h0
        rw [List.length_eq_zero] at h0
        rw [h0] at hmem
        cases hmem
      rw [ArcReplacer.recordAccess_ghost_mfu hfind h1 h2, if_neg hlen, if_neg (hroom hfind _)]
      refine ⟨_, rfl, rfl, rfl, ?_, rfl, ?_, ?_, ?_⟩
      · show s.mru_ghost_ = _
        rw [ArcReplacer.filter_ne_of_not_mem hnot]
      · exact StatusMap.find_erase_self _ _
      · exact ⟨_, StatusMap.find_assign_self _ _ _, hg.ghost_key pg gst h1, rfl, rfl⟩
      · intro g hg'
        exact StatusMap.find_assign_ne _ _ hg'
  · intro hfind hb1 hb2
    have hgh : s.ghost_map_.find pg = none := by
      cases hgh : s.ghost_map_.find pg with
      | none => rfl
      | some gst =>
        exfalso
        by_cases h1 : gst.arc_status_ = ArcStatus.MRU_GHOST
        · exact hb1 ((hg.mem_b1 pg).mpr ⟨gst, hgh, h1⟩)
        · by_cases h2 : gst.arc_status_ = ArcStatus.MFU_GHOST
          · exact hb2 ((hg.mem_b2 pg).mpr ⟨gst, hgh, h2⟩)
          · rcases hg.ghost_tag pg gst hgh with h3 | h3
            · exact h1 h3
            · exact h2 h3
    rw [ArcReplacer.recordAccess_new hfind hgh, if_neg (hroom hfind _)]
    refine ⟨_, rfl, rfl, rfl, ?_, ?_, rfl, rfl, rfl⟩
    · exact StatusMap.find_assign_self _ _ _
    · intro g hg'
      exact StatusMap.find_assign_ne _ _ hg'


/-- An instance: in a replacer of capacity 2 after `RecordAccess(0, 5)`, the frame 1, not
alive, is given the page 6, which is in no ghost list: it becomes alive, not evictable, at the
head of T1. -/
theorem record_access_outcomes_instance :
    ∃ s', (ArcReplacer.reached 2 ArcReplacer.frameInRangePageNotHeld
          [ArcCall.record_access 0 5]).RecordAccess 1 6 = Except.ok s' ∧
      s'.mru_ = 1 :: (ArcReplacer.reached 2 ArcReplacer.frameInRangePageNotHeld
          [ArcCall.record_access 0 5]).mru_ ∧
      s'.mfu_ = (ArcReplacer.reached 2 ArcReplacer.frameInRangePageNotHeld
          [ArcCall.record_access 0 5]).mfu_ ∧
      s'.alive_map_.find 1 = some ⟨6, 1, false, ArcStatus.MRU⟩ ∧
      (∀ g, g ≠ 1 → s'.alive_map_.find g =
        (ArcReplacer.reached 2 ArcReplacer.frameInRangePageNotHeld
          [ArcCall.record_access 0 5]).alive_map_.find g) ∧
      s'.mru_ghost_ = (ArcReplacer.reached 2 ArcReplacer.frameInRangePageNotHeld
          [ArcCall.record_access 0 5]).mru_ghost_ ∧
      s'.mfu_ghost_ = (ArcReplacer.reached 2 ArcReplacer.frameInRangePageNotHeld
          [ArcCall.record_access 0 5]).mfu_ghost_ ∧
      s'.ghost_map_ = (ArcReplacer.reached 2 ArcReplacer.frameInRangePageNotHeld
          [ArcCall.record_access 0 5]).ghost_map_ :=
  (record_access_outcomes 2 _ (ArcReplacer.reachable_reached (by decide) (by decide)) 1 6
    (by decide)).2.2 (by decide) (by decide) (by decide)

/-! ## Association lists with integer keys -/

section IntMapLemmas

open IntMap

variable {α : Type}

theorem intMap_find_cons_eq {e : Int × α} (m : IntMap α) {k : Int} (h : e.1 = k) :
    find (e :: m) k = some e.2 := by
  show (if e.1 = k then some e.2 else find m k) = some e.2
  rw [if_pos h]

theorem intMap_find_cons_ne {e : Int × α} (m : IntMap α) {k : Int} (h : e.1 ≠ k) :
    find (e :: m) k = find m k := by
  show (if e.1 = k then some e.2 else find m k) = find m k
  rw [if_neg h]

theorem intMap_erase_cons_eq {e : Int × α} (m : IntMap α) {k : Int} (h : e.1 = k) :
    erase (e :: m) k = erase m k := by
  unfold erase
  rw [List.filter_cons_of_neg]
  simp [h]

theorem intMap_erase_cons_ne {e : Int × α} (m : IntMap α) {k : Int} (h : e.1 ≠ k) :
    erase (e :: m) k = e :: erase m k := by
  unfold erase
  rw [List.filter_cons_of_pos]
  simp [h]

theorem intMap_mem_erase (m : IntMap α) (k : Int) (e : Int × α) :
    e ∈ erase m k ↔ e ∈ m ∧ e.1 ≠ k := by
  unfold erase
  rw [List.mem_filter]
  simp

theorem intMap_find_erase_self (m : IntMap α) (k : Int) : find (erase m k) k = none := by
  induction m with
  | nil => rfl
  | cons e m ih =>
    by_cases h : e.1 = k
    · rw [intMap_erase_cons_eq m h]
      exact ih
    · rw [intMap_erase_cons_ne m h, intMap_find_cons_ne _ h]
      exact ih

theorem intMap_find_erase_ne (m : IntMap α) {k k' : Int} (h : k' ≠ k) :
    find (erase m k) k' = find m k' := by
  induction m with
  | nil => rfl
  | cons e m ih =>
    by_cases h1 : e.1 = k
    · rw [intMap_erase_cons_eq m h1, ih]
      have h2 : e.1 ≠ k' := by
        rw [h1]
        exact fun h3 => h h3.symm
      rw [intMap_find_cons_ne m h2]
    · rw [intMap_erase_cons_ne m h1]
      by_cases h2 : e.1 = k'
      · rw [intMap_find_cons_eq _ h2, intMap_find_cons_eq _ h2]
      · rw [intMap_find_cons_ne _ h2, intMap_find_cons_ne _ h2, ih]

theorem intMap_find_assign_self (m : IntMap α) (k : Int) (v : α) : find (assign m k v) k = some v := by
  unfold assign
  exact intMap_find_cons_eq _ rfl

theorem intMap_find_assign_ne (m : IntMap α) {k k' : Int} (v : α) (h : k' ≠ k) :
    find (assign m k v) k' = find m k' := by
  unfold assign
  rw [intMap_find_cons_ne _ (fun h1 => h h1.symm), intMap_find_erase_ne m h]

theorem intMap_find_eq_none_iff (m : IntMap α) (k : Int) : find m k = none ↔ k ∉ m.map Prod.fst := by
  induction m with
  | nil => simp [find]
  | cons e m ih =>
    by_cases h : e.1 = k
    · rw [intMap_find_cons_eq m h]
      simp [h]
    · rw [intMap_find_cons_ne m h, ih]
      simp only [List.map_cons, List.mem_cons, not_or]
      constructor
      · intro h1
        exact ⟨fun h2 => h h2.symm, h1⟩
      · intro h1
        exact h1.2

theorem intMap_mem_of_find {m : IntMap α} {k : Int} {v : α} (h : find m k = some v) : (k, v) ∈ m := by
  induction m with
  | nil => simp [find] at h
  | cons e m ih =>
    by_cases h1 : e.1 = k
    · rw [intMap_find_cons_eq m h1] at h
      simp only [Option.some.injEq] at h
      rw [← h1, ← h]
      exact List.mem_cons_self _ _
    · rw [intMap_find_cons_ne m h1] at h
      exact List.mem_cons_of_mem _ (ih h)

theorem intMap_find_of_mem {m : IntMap α} (hn : (m.map Prod.fst).Nodup) {e : Int × α}
    (h : e ∈ m) : find m e.1 = some e.2 := by
  induction m with
  | nil => simp at h
  | cons e' m ih =>
    rw [List.map_cons, List.nodup_cons] at hn
    rcases List.mem_cons.mp h with h1 | h1
    · subst h1
      exact intMap_find_cons_eq m rfl
    · have h2 : e'.1 ≠ e.1 := by
        intro h3
        apply hn.1
        rw [h3]
        exact List.mem_map_of_mem _ h1
      rw [intMap_find_cons_ne m h2]
      exact ih hn.2 h1

theorem intMap_erase_of_find_none {m : IntMap α} {k : Int} (h : find m k = none) : erase m k = m := by
  induction m with
  | nil => rfl
  | cons e m ih =>
    by_cases h1 : e.1 = k
    · rw [intMap_find_cons_eq m h1] at h
      cases h
    · rw [intMap_find_cons_ne m h1] at h
      rw [intMap_erase_cons_ne m h1, ih h]

theorem intMap_keys_erase (m : IntMap α) (k : Int) :
    (erase m k).map Prod.fst = (m.map Prod.fst).filter (fun x => decide (x ≠ k)) := by
  induction m with
  | nil => rfl
  | cons e m ih =>
    by_cases h1 : e.1 = k
    · rw [intMap_erase_cons_eq m h1, ih, List.map_cons, List.filter_cons_of_neg]
      simp [h1]
    · rw [intMap_erase_cons_ne m h1, List.map_cons, ih, List.map_cons, List.filter_cons_of_pos]
      simp [h1]

theorem intMap_nodup_erase {m : IntMap α} (hn : (m.map Prod.fst).Nodup) (k : Int) :
    ((erase m k).map Prod.fst).Nodup := by
  rw [intMap_keys_erase]
  exact hn.filter _

theorem intMap_nodup_assign {m : IntMap α} (hn : (m.map Prod.fst).Nodup) (k : Int) (v : α) :
    ((assign m k v).map Prod.fst).Nodup := by
  unfold assign
  rw [List.map_cons, List.nodup_cons]
  refine ⟨?_, intMap_nodup_erase hn k⟩
  rw [← intMap_find_eq_none_iff]
  exact intMap_find_erase_self m k

/-- The values of a map: the value under a key and those under the other keys. -/
theorem intMap_values_perm {m : IntMap α} (hn : (m.map Prod.fst).Nodup) {k : Int} {v : α}
    (h : find m k = some v) : (v :: (erase m k).map Prod.snd).Perm (m.map Prod.snd) := by
  induction m with
  | nil => simp [find] at h
  | cons e m ih =>
    rw [List.map_cons, List.nodup_cons] at hn
    by_cases h1 : e.1 = k
    · have h2 : find m k = none := by
        rw [intMap_find_eq_none_iff, ← h1]
        exact hn.1
      rw [intMap_find_cons_eq m h1] at h
      simp only [Option.some.injEq] at h
      rw [intMap_erase_cons_eq m h1, intMap_erase_of_find_none h2, List.map_cons, h]
    · rw [intMap_find_cons_ne m h1] at h
      rw [intMap_erase_cons_ne m h1, List.map_cons, List.map_cons]
      exact (List.Perm.swap _ _ _).trans ((ih hn.2 h).cons _)

end IntMapLemmas

/-! ## The disk manager -/

namespace DiskManagerMemory

theorem disk_ReadPage_eq (d : DiskManagerMemory) (page_id : Int) :
    d.ReadPage page_id = Except.ok (d.read page_id, d.allocated page_id) := by
  unfold ReadPage read allocated AllocatePage
  cases h : d.pages_.find page_id with
  | some data => rfl
  | none =>
    simp only [h, bind, Except.bind, pure, Except.pure, intMap_find_assign_self, Option.getD_none]

theorem disk_WritePage_eq (d : DiskManagerMemory) (page_id : Int) (buf : PageData) :
    d.WritePage page_id buf = Except.ok (d.written page_id buf) := by
  unfold WritePage written allocated AllocatePage
  cases h : d.pages_.find page_id with
  | some data => rfl
  | none => rfl

theorem read_allocated (d : DiskManagerMemory) (page_id q : Int) :
    (d.allocated page_id).read q = d.read q := by
  unfold allocated read
  cases h : d.pages_.find page_id with
  | some data => rfl
  | none =>
    simp only
    by_cases hq : q = page_id
    · rw [hq, intMap_find_assign_self, h]
      rfl
    · rw [intMap_find_assign_ne _ _ hq]

theorem read_written_self (d : DiskManagerMemory) (page_id : Int) (buf : PageData) :
    (d.written page_id buf).read page_id = buf := by
  unfold written read
  simp only [intMap_find_assign_self, Option.getD_some]

theorem read_written_ne (d : DiskManagerMemory) {page_id q : Int} (buf : PageData)
    (h : q ≠ page_id) : (d.written page_id buf).read q = d.read q := by
  rw [← read_allocated d page_id q]
  unfold written read
  simp only
  rw [intMap_find_assign_ne _ _ h]

end DiskManagerMemory

/-! ## The operations of the buffer pool on frames in range -/

namespace BufferPoolManager

theorem frameOf_set {frames : List FrameHeader} {f : Int} (h0 : 0 ≤ f)
    (h1 : f < (frames.length : Int)) (fr : FrameHeader) (g : Int) :
    frameOf (frames.set f.toNat fr) g = if g = f then fr else frameOf frames g := by
  have h2 : f.toNat < frames.length := by omega
  unfold frameOf
  by_cases hg : 0 ≤ g
  · rw [if_pos hg, if_pos hg]
    by_cases hgf : g = f
    · rw [if_pos hgf, hgf, List.getD_eq_getElem?_getD, List.getElem?_set_self h2]
      rfl
    · have h3 : f.toNat ≠ g.toNat := by omega
      rw [if_neg hgf, List.getD_eq_getElem?_getD, List.getD_eq_getElem?_getD,
        List.getElem?_set_ne h3]
  · rw [if_neg hg, if_neg hg]
    have hgf : g ≠ f := by omega
    rw [if_neg hgf]

theorem frame_eq {s : BufferPoolManager} {f : Int} (h0 : 0 ≤ f)
    (h1 : f < (s.frames_.length : Int)) : s.frame f = Except.ok (s.frameAt f) := by
  have h2 : f.toNat < s.frames_.length := by omega
  unfold frame frameAt frameOf
  rw [if_pos h0, if_pos h0, List.get?_eq_getElem?, List.getD_eq_getElem?_getD,
    List.getElem?_eq_getElem h2]
  rfl

theorem setFrame_eq {s : BufferPoolManager} {f : Int} (h0 : 0 ≤ f)
    (h1 : f < (s.frames_.length : Int)) (fr : FrameHeader) :
    s.setFrame f fr = Except.ok (s.withFrame f fr) := by
  have h2 : f.toNat < s.frames_.length := by omega
  unfold setFrame withFrame
  rw [if_pos ⟨h0, h2⟩]
  rfl

theorem frameAt_withFrame {s : BufferPoolManager} {f : Int} (h0 : 0 ≤ f)
    (h1 : f < (s.frames_.length : Int)) (fr : FrameHeader) (g : Int) :
    (s.withFrame f fr).frameAt g = if g = f then fr else s.frameAt g :=
  frameOf_set h0 h1 fr g

theorem withFrame_withFrame (s : BufferPoolManager) (f : Int) (fr fr' : FrameHeader) :
    (s.withFrame f fr).withFrame f fr' = s.withFrame f fr' := by
  unfold withFrame
  simp only [List.set_set]

theorem PageSwitch_read {s : BufferPoolManager} {f : Int} (h0 : 0 ≤ f)
    (h1 : f < (s.frames_.length : Int)) (page_id : Int) :
    s.PageSwitch false page_id f = Except.ok
      { s with
        frames_ := s.frames_.set f.toNat { s.frameAt f with data_ := s.disk_.read page_id }
        disk_ := s.disk_.allocated page_id
        disk_reads_ := addSizeT s.disk_reads_ 1 } := by
  unfold PageSwitch
  simp only [frame_eq h0 h1, DiskManagerMemory.disk_ReadPage_eq, setFrame_eq h0 h1, bind,
    Except.bind, pure, Except.pure]
  rfl

theorem PageSwitch_write {s : BufferPoolManager} {f : Int} (h0 : 0 ≤ f)
    (h1 : f < (s.frames_.length : Int)) (page_id : Int) :
    s.PageSwitch true page_id f = Except.ok
      { s with
        disk_ := s.disk_.written page_id (s.frameAt f).data_
        disk_writes_ := addSizeT s.disk_writes_ 1 } := by
  unfold PageSwitch
  simp only [frame_eq h0 h1, DiskManagerMemory.disk_WritePage_eq, bind, Except.bind, pure,
    Except.pure]
  rfl

theorem bringIn_out_of_range {s : BufferPoolManager} {page_id : Int}
    (h : page_id < 0 ∨ page_id ≥ s.next_page_id_) : s.bringIn page_id = Except.ok (none, s) := by
  unfold bringIn
  rw [if_pos h]
  rfl

theorem bringIn_hit {s : BufferPoolManager} {page_id f : Int}
    (h : ¬ (page_id < 0 ∨ page_id ≥ s.next_page_id_)) (hf : s.page_table_.find page_id = some f) :
    s.bringIn page_id
      = Except.ok (some f, { s with cache_hits_ := addSizeT s.cache_hits_ 1 }) := by
  unfold bringIn
  rw [if_neg h]
  simp only [hf]
  rfl

theorem bringIn_free {s : BufferPoolManager} {page_id f : Int} {free_frames : List Int}
    (h : ¬ (page_id < 0 ∨ page_id ≥ s.next_page_id_)) (hf : s.page_table_.find page_id = none)
    (hfree : s.free_frames_ = f :: free_frames) (h0 : 0 ≤ f)
    (h1 : f < (s.frames_.length : Int)) :
    s.bringIn page_id = Except.ok (some f,
      { s with
        free_frames_ := free_frames
        page_table_ := s.page_table_.assign page_id f
        frames_ := s.frames_.set f.toNat
          { s.frameAt f with
            data_ := s.disk_.read page_id, pin_count_ := 0, is_dirty_ := false }
        disk_ := s.disk_.allocated page_id
        disk_reads_ := addSizeT s.disk_reads_ 1
        cache_misses_ := addSizeT s.cache_misses_ 1 }) := by
  unfold bringIn
  rw [if_neg h]
  simp only [hf, hfree, bind, Except.bind]
  rw [frame_eq h0]; swap; exact h1
  simp only []
  rw [setFrame_eq h0]; swap; exact h1
  simp only []
  rw [PageSwitch_read h0]; swap
  · simpa [withFrame] using h1
  simp only [pure, Except.pure, withFrame, FrameHeader.Reset, frameAt, List.set_set,
    frameOf_set h0 h1]
  rfl

theorem bringIn_evict_none {s : BufferPoolManager} {page_id : Int} {r : ArcReplacer}
    (h : ¬ (page_id < 0 ∨ page_id ≥ s.next_page_id_)) (hf : s.page_table_.find page_id = none)
    (hfree : s.free_frames_ = []) (hev : s.replacer_.Evict = Except.ok (none, r)) :
    s.bringIn page_id = Except.ok (none, { s with replacer_ := r }) := by
  unfold bringIn
  rw [if_neg h]
  simp only [hf, hfree, hev, bind, Except.bind]
  rfl

theorem bringIn_evict {s : BufferPoolManager} {page_id f q f' : Int} {r : ArcReplacer}
    (h : ¬ (page_id < 0 ∨ page_id ≥ s.next_page_id_)) (hf : s.page_table_.find page_id = none)
    (hfree : s.free_frames_ = []) (hev : s.replacer_.Evict = Except.ok (some f, r))
    (hq : s.pageOfFrame f = some (q, f')) (h0 : 0 ≤ f) (h1 : f < (s.frames_.length : Int)) :
    s.bringIn page_id = Except.ok (some f,
      { s with
        replacer_ := r
        page_table_ := (s.page_table_.erase q).assign page_id f
        frames_ := s.frames_.set f.toNat
          { s.frameAt f with
            data_ := (s.diskAfterWriteBack q f).read page_id, pin_count_ := 0,
            is_dirty_ := false }
        disk_ := (s.diskAfterWriteBack q f).allocated page_id
        disk_reads_ := addSizeT s.disk_reads_ 1
        disk_writes_ :=
          if (s.frameAt f).is_dirty_ then addSizeT s.disk_writes_ 1 else s.disk_writes_
        cache_misses_ := addSizeT s.cache_misses_ 1 }) := by
  obtain ⟨nf, np, frames, table, free, rep, disk, dr, dw, ch, cm⟩ := s
  simp only at hf hfree hev h1 h
  subst hfree
  unfold pageOfFrame at hq
  simp only at hq
  unfold bringIn
  simp only [if_neg h, hf, hev, bind, Except.bind, pageOfFrame, hq]
  rw [frame_eq h0]; swap; exact h1
  simp only []
  by_cases hd : (frameOf frames f).is_dirty_ = true
  · simp only [frameAt, hd, if_true]
    rw [PageSwitch_write h0]; swap; exact h1
    simp only [pure, Except.pure]
    rw [frame_eq h0]; swap; exact h1
    simp only [pure, Except.pure]
    rw [setFrame_eq h0]; swap; exact h1
    simp only [pure, Except.pure]
    rw [PageSwitch_read h0]; swap
    · simpa [withFrame] using h1
    simp only [pure, Except.pure, diskAfterWriteBack, hd, if_true, withFrame, FrameHeader.Reset,
      frameAt, List.set_set, frameOf_set h0 h1]
  · simp only [frameAt, hd]
    simp only [pure, Except.pure]
    rw [frame_eq h0]; swap; exact h1
    simp only [pure, Except.pure]
    rw [setFrame_eq h0]; swap; exact h1
    simp only [pure, Except.pure]
    rw [PageSwitch_read h0]; swap
    · simpa [withFrame] using h1
    simp only [pure, Except.pure, diskAfterWriteBack, hd, withFrame, FrameHeader.Reset,
      frameAt, List.set_set, frameOf_set h0 h1]
    rfl

end BufferPoolManager

/-! ## The replacer as the buffer pool sees it -/

namespace ArcReplacer

theorem view_assign (m : StatusMap) (f : Int) (v : FrameStatus) (g : Int) :
    ((m.assign f v).find g).map (fun st => (st.page_id_, st.evictable_))
      = if g = f then some (v.page_id_, v.evictable_)
        else (m.find g).map (fun st => (st.page_id_, st.evictable_)) := by
  by_cases h : g = f
  · rw [if_pos h, h, StatusMap.find_assign_self]
    rfl
  · rw [if_neg h, StatusMap.find_assign_ne _ _ h]

theorem view_erase (m : StatusMap) (f : Int) (g : Int) :
    ((m.erase f).find g).map (fun st => (st.page_id_, st.evictable_))
      = if g = f then none else (m.find g).map (fun st => (st.page_id_, st.evictable_)) := by
  by_cases h : g = f
  · rw [if_pos h, h, StatusMap.find_erase_self]
    rfl
  · rw [if_neg h, StatusMap.find_erase_ne _ h]

theorem view_eq_some {r : ArcReplacer} {f p : Int} {e : Bool} (h : r.view f = some (p, e)) :
    ∃ st, r.alive_map_.find f = some st ∧ st.page_id_ = p ∧ st.evictable_ = e := by
  unfold view at h
  cases hf : r.alive_map_.find f with
  | none => rw [hf] at h; cases h
  | some st =>
    rw [hf] at h
    simp only [Option.map_some', Option.some.injEq, Prod.mk.injEq] at h
    exact ⟨st, rfl, h.1, h.2⟩

theorem view_of_find {r : ArcReplacer} {f : Int} {st : FrameStatus}
    (h : r.alive_map_.find f = some st) : r.view f = some (st.page_id_, st.evictable_) := by
  unfold view
  rw [h]
  rfl

theorem view_eq_none {r : ArcReplacer} {f : Int} :
    r.view f = none ↔ r.alive_map_.find f = none := by
  unfold view
  cases r.alive_map_.find f <;> simp

/-- No alive frame holds the page id. -/
theorem holdsPage_eq_false {r : ArcReplacer} (hw : r.WellFormed) {p : Int}
    (h : ∀ g e, r.view g ≠ some (p, e)) : r.holdsPage p = false := by
  cases hh : r.holdsPage p with
  | false => rfl
  | true =>
    exfalso
    unfold holdsPage at hh
    rw [List.any_eq_true] at hh
    obtain ⟨e, he, hp⟩ := hh
    have hf := StatusMap.find_of_mem hw.keys_nodup he
    apply h e.1 e.2.evictable_
    rw [view_of_find hf]
    simp only [decide_eq_true_eq] at hp
    rw [hp]

/-- `RecordAccess` for an alive frame, as the buffer pool sees it: it returns and no page id or
evictable flag changes. -/
theorem recordAccess_hit_view {r : ArcReplacer} (hw : r.WellFormed) (hg : r.GhostWellFormed)
    {f : Int} {st : FrameStatus} (hf : r.alive_map_.find f = some st) (p : Int) :
    ∃ r', r.RecordAccess f p = Except.ok r' ∧ r'.WellFormed ∧ r'.GhostWellFormed ∧
      r'.replacer_size_ = r.replacer_size_ ∧ ∀ g, r'.view g = r.view g := by
  have hnh : r.pageNotHeld (ArcCall.record_access f p) = true := by
    simp [pageNotHeld, hf]
  rcases hw.status f st hf with htag | htag
  · have h := recordAccess_alive_mru p hf htag
    refine ⟨_, h, hw.recordAccess h, ghostWellFormed_recordAccess hw hg hnh h, rfl, ?_⟩
    intro g
    unfold view
    show ((r.alive_map_.assign f _).find g).map _ = _
    rw [view_assign]
    by_cases hgf : g = f
    · rw [if_pos hgf, hgf, hf]
      rfl
    · rw [if_neg hgf]
  · have h := recordAccess_alive_mfu p hf htag
    exact ⟨_, h, hw.recordAccess h, ghostWellFormed_recordAccess hw hg hnh h, rfl, fun g => rfl⟩

/-- `RecordAccess` for a frame that is not alive and a page id that no alive frame holds, when
the alive map has room: it returns, and the frame is alive with the page id, not evictable. -/
theorem recordAccess_miss_view {r : ArcReplacer} (hw : r.WellFormed) (hg : r.GhostWellFormed)
    {f : Int} (hf : r.alive_map_.find f = none) {p : Int} (hp : ∀ g e, r.view g ≠ some (p, e))
    (hroom : r.alive_map_.length + 1 ≤ r.replacer_size_) :
    ∃ r', r.RecordAccess f p = Except.ok r' ∧ r'.WellFormed ∧ r'.GhostWellFormed ∧
      r'.replacer_size_ = r.replacer_size_ ∧
      ∀ g, r'.view g = if g = f then some (p, false) else r.view g := by
  have hnh : r.pageNotHeld (ArcCall.record_access f p) = true := by
    simp [pageNotHeld, hf, holdsPage_eq_false hw hp]
  have hlen : ∀ v, ¬ (r.alive_map_.assign f v).length > r.replacer_size_ := by
    intro v
    rw [StatusMap.length_assign_of_find_none hf]
    omega
  cases hgh : r.ghost_map_.find p with
  | none =>
    have h := recordAccess_new hf hgh
    rw [if_neg (hlen _)] at h
    refine ⟨_, h, hw.recordAccess h, ghostWellFormed_recordAccess hw hg hnh h, rfl, ?_⟩
    intro g
    unfold view
    show ((r.alive_map_.assign f _).find g).map _ = _
    rw [view_assign]
  | some gst =>
    have hkey : gst.page_id_ = p := hg.ghost_key p gst hgh
    rcases hg.ghost_tag p gst hgh with htag | htag
    · have hb1 : ¬ r.mru_ghost_.length = 0 := by
        intro h0
        have hm := (hg.mem_b1 p).mpr ⟨gst, hgh, htag⟩
        rw [List.length_eq_zero] at h0
        rw [h0] at hm
        cases hm
      have h := recordAccess_ghost_mru hf hgh htag
      rw [if_neg hb1, if_neg (hlen _)] at h
      refine ⟨_, h, hw.recordAccess h, ghostWellFormed_recordAccess hw hg hnh h, rfl, ?_⟩
      intro g
      unfold view
      show ((r.alive_map_.assign f _).find g).map _ = _
      rw [view_assign]
      simp only [hkey]
    · have hb2 : ¬ r.mfu_ghost_.length = 0 := by
        intro h0
        have hm := (hg.mem_b2 p).mpr ⟨gst, hgh, htag⟩
        rw [List.length_eq_zero] at h0
        rw [h0] at hm
        cases hm
      have h := recordAccess_ghost_mfu hf hgh htag
      rw [if_neg hb2, if_neg (hlen _)] at h
      refine ⟨_, h, hw.recordAccess h, ghostWellFormed_recordAccess hw hg hnh h, rfl, ?_⟩
      intro g
      unfold view
      show ((r.alive_map_.assign f _).find g).map _ = _
      rw [view_assign]
      simp only [hkey]

/-- `SetEvictable` for an alive frame, as the buffer pool sees it. -/
theorem setEvictable_view {r : ArcReplacer} (hw : r.WellFormed) (hg : r.GhostWellFormed)
    {f p : Int} {e : Bool} (hf : r.view f = some (p, e)) (b : Bool) :
    (r.SetEvictable f b).2 = Except.ok () ∧ (r.SetEvictable f b).1.WellFormed ∧
      (r.SetEvictable f b).1.GhostWellFormed ∧
      (r.SetEvictable f b).1.replacer_size_ = r.replacer_size_ ∧
      ∀ g, (r.SetEvictable f b).1.view g = if g = f then some (p, b) else r.view g := by
  obtain ⟨st, hfind, hp, he⟩ := view_eq_some hf
  refine ⟨?_, hw.setEvictable f b, ghostWellFormed_setEvictable hw hg f b, ?_, ?_⟩
  · unfold SetEvictable
    rw [hfind]
    simp only
    split <;> [split; skip] <;> rfl
  · unfold SetEvictable
    rw [hfind]
    simp only
    split <;> [split; skip] <;> rfl
  · intro g
    unfold SetEvictable
    rw [hfind]
    simp only
    by_cases hb : st.evictable_ = b
    · rw [if_neg (by simpa using hb)]
      by_cases hgf : g = f
      · rw [if_pos hgf, hgf, hf, ← he, hb]
      · rw [if_neg hgf]
    · rw [if_pos (by simpa using hb)]
      have key : ((r.alive_map_.assign f { st with evictable_ := b }).find g).map
          (fun st => (st.page_id_, st.evictable_))
          = if g = f then some (p, b) else r.view g := by
        rw [view_assign]
        simp only [hp]
        rfl
      cases b <;> exact key

/-- `Evict`, as the buffer pool sees it: none and no change when no alive frame is evictable;
otherwise an evictable frame, which is alive no more. -/
theorem evict_view {r : ArcReplacer} (hw : r.WellFormed) (hg : r.GhostWellFormed) :
    (r.Evict = Except.ok (none, r) ∧ ∀ g p, r.view g ≠ some (p, true)) ∨
    ∃ f r' p, r.Evict = Except.ok (some f, r') ∧ r.view f = some (p, true) ∧ r'.WellFormed ∧
      r'.GhostWellFormed ∧ r'.replacer_size_ = r.replacer_size_ ∧
      ∀ g, r'.view g = if g = f then none else r.view g := by
  by_cases hex : ∃ e ∈ r.alive_map_, e.2.evictable_ = true
  · right
    obtain ⟨f, st, stat, h1, h2, h3, h4, h5, _⟩ := hw.evict_some hex
    refine ⟨f, _, st.page_id_, h5, ?_, hw.evict h5, ghostWellFormed_evict hw hg h5, rfl, ?_⟩
    · rw [view_of_find h2, h3]
    · intro g
      unfold view
      show ((r.alive_map_.erase f).find g).map _ = _
      rw [view_erase]
  · left
    have hall : ∀ e ∈ r.alive_map_, e.2.evictable_ = false := by
      intro e he
      cases hev : e.2.evictable_ with
      | false => rfl
      | true => exact absurd ⟨e, he, hev⟩ hex
    refine ⟨hw.evict_none hall, ?_⟩
    intro g p hv
    obtain ⟨st, hfind, _, he⟩ := view_eq_some hv
    have := hall (g, st) (StatusMap.mem_of_find hfind)
    rw [he] at this
    cases this

end ArcReplacer

/-! ## The invariant of the page table, the free list and the replacer -/

namespace TableInv

variable {N : Nat} {table : IntMap Int} {free : List Int} {r : ArcReplacer}

theorem range_nodup (N : Nat) : ((List.range N).map (fun i : Nat => (i : Int))).Nodup :=
  (List.nodup_range N).map (fun _ _ h => Int.ofNat.inj h)

theorem mem_range {N : Nat} {f : Int} :
    f ∈ (List.range N).map (fun i : Nat => (i : Int)) ↔ 0 ≤ f ∧ f < N := by
  rw [List.mem_map]
  constructor
  · rintro ⟨i, hi, rfl⟩
    rw [List.mem_range] at hi
    omega
  · rintro ⟨h0, h1⟩
    refine ⟨f.toNat, ?_, ?_⟩
    · rw [List.mem_range]
      omega
    · omega

theorem all_nodup (h : TableInv N table free r) : (free ++ table.map Prod.snd).Nodup :=
  h.partition.nodup_iff.mpr (range_nodup N)

theorem values_nodup (h : TableInv N table free r) : (table.map Prod.snd).Nodup :=
  (List.nodup_append.mp h.all_nodup).2.1

theorem free_nodup (h : TableInv N table free r) : free.Nodup :=
  (List.nodup_append.mp h.all_nodup).1

theorem free_not_value (h : TableInv N table free r) {f : Int} (hf : f ∈ free) :
    f ∉ table.map Prod.snd :=
  fun hv => (List.nodup_append.mp h.all_nodup).2.2 hf hv

theorem free_in_range (h : TableInv N table free r) {f : Int} (hf : f ∈ free) :
    0 ≤ f ∧ f < N :=
  mem_range.mp (h.partition.subset (List.mem_append_left _ hf))

theorem value_in_range (h : TableInv N table free r) {p f : Int}
    (hf : table.find p = some f) : 0 ≤ f ∧ f < N :=
  mem_range.mp (h.partition.subset (List.mem_append_right _
    (List.mem_map_of_mem Prod.snd (intMap_mem_of_find hf))))

theorem value_mem {p f : Int} (hf : table.find p = some f) : f ∈ table.map Prod.snd :=
  List.mem_map_of_mem Prod.snd (intMap_mem_of_find hf)

theorem alive_in_range (h : TableInv N table free r) {f p : Int} {e : Bool}
    (hf : r.view f = some (p, e)) : 0 ≤ f ∧ f < N :=
  h.value_in_range (h.alive_table f p e hf)

/-- Two pages of the page table are not in the same frame. -/
theorem page_unique (h : TableInv N table free r) {p q f : Int}
    (hp : table.find p = some f) (hq : table.find q = some f) : p = q := by
  obtain ⟨e, h1⟩ := h.table_alive p f hp
  obtain ⟨e', h2⟩ := h.table_alive q f hq
  rw [h1] at h2
  simp only [Option.some.injEq, Prod.mk.injEq] at h2
  exact h2.1

/-- The alive map has room for a frame of `[0, N)` that is not alive. -/
theorem alive_room (h : TableInv N table free r) {f : Int} (hf : r.alive_map_.find f = none)
    (hfr : 0 ≤ f ∧ f < (N : Int)) : r.alive_map_.length + 1 ≤ r.replacer_size_ := by
  rw [h.replacer_size]
  refine ArcReplacer.room_of_keysInRange h.replacer_wf.keys_nodup ?_ hf hfr
  intro e he
  have hfind := StatusMap.find_of_mem h.replacer_wf.keys_nodup he
  exact h.alive_in_range (ArcReplacer.view_of_find hfind)

/-- The entry of the page table the loop of the eviction branch finds for an alive frame. -/
theorem pageOfFrame_eq (h : TableInv N table free r) {q f : Int}
    (hq : table.find q = some f) :
    table.find? (fun e => decide (e.2 = f)) = some (q, f) := by
  cases hfind : table.find? (fun e => decide (e.2 = f)) with
  | none =>
    rw [List.find?_eq_none] at hfind
    have := hfind (q, f) (intMap_mem_of_find hq)
    simp at this
  | some e =>
    have hmem := List.mem_of_find?_eq_some hfind
    have hval := List.find?_some hfind
    simp only [decide_eq_true_eq] at hval
    have hfe := intMap_find_of_mem h.table_keys hmem
    rw [hval] at hfe
    have := h.page_unique hfe hq
    rw [← this, ← hval]

/-- The same view of the replacer keeps the invariant. -/
theorem table_of_view (h : TableInv N table free r) {r' : ArcReplacer} (hw : r'.WellFormed)
    (hg : r'.GhostWellFormed) (hsz : r'.replacer_size_ = r.replacer_size_)
    (hv : ∀ g, r'.view g = r.view g) : TableInv N table free r' where
  bound := h.bound
  replacer_size := hsz.trans h.replacer_size
  replacer_wf := hw
  replacer_ghost := hg
  table_keys := h.table_keys
  partition := h.partition
  alive_table := by
    intro f p e hf
    rw [hv] at hf
    exact h.alive_table f p e hf
  table_alive := by
    intro p f hf
    obtain ⟨e, he⟩ := h.table_alive p f hf
    exact ⟨e, by rw [hv]; exact he⟩

/-- The victim of an eviction leaves the page table: its frame is as good as free. -/
theorem table_evicted (h : TableInv N table [] r) {r' : ArcReplacer} {f q : Int}
    (hq : table.find q = some f) (hw : r'.WellFormed) (hg : r'.GhostWellFormed)
    (hsz : r'.replacer_size_ = r.replacer_size_)
    (hv : ∀ g, r'.view g = if g = f then none else r.view g) :
    TableInv N (table.erase q) [f] r' where
  bound := h.bound
  replacer_size := hsz.trans h.replacer_size
  replacer_wf := hw
  replacer_ghost := hg
  table_keys := intMap_nodup_erase h.table_keys q
  partition := by
    have := intMap_values_perm h.table_keys hq
    exact (this.trans (by simpa using h.partition))
  alive_table := by
    intro g p e hf
    rw [hv] at hf
    by_cases hgf : g = f
    · rw [if_pos hgf] at hf
      cases hf
    · rw [if_neg hgf] at hf
      have h1 := h.alive_table g p e hf
      have hpq : p ≠ q := by
        intro hpq
        rw [hpq, hq] at h1
        simp only [Option.some.injEq] at h1
        exact hgf h1.symm
      rw [intMap_find_erase_ne _ hpq]
      exact h1
  table_alive := by
    intro p g hf
    have hpq : p ≠ q := by
      intro hpq
      rw [hpq, intMap_find_erase_self] at hf
      cases hf
    rw [intMap_find_erase_ne _ hpq] at hf
    obtain ⟨e, he⟩ := h.table_alive p g hf
    have hgf : g ≠ f := by
      intro hgf
      rw [hgf] at hf
      exact hpq (h.page_unique hf hq)
    exact ⟨e, by rw [hv, if_neg hgf]; exact he⟩

/-- A page that is not resident is loaded into the frame at the front of the free list. -/
theorem table_loaded (h : TableInv N table (f :: free) r) {r' : ArcReplacer} {p : Int}
    (hp : table.find p = none) (hw : r'.WellFormed) (hg : r'.GhostWellFormed)
    (hsz : r'.replacer_size_ = r.replacer_size_)
    (hv : ∀ g, r'.view g = if g = f then some (p, false) else r.view g) :
    TableInv N (table.assign p f) free r' where
  bound := h.bound
  replacer_size := hsz.trans h.replacer_size
  replacer_wf := hw
  replacer_ghost := hg
  table_keys := intMap_nodup_assign h.table_keys p f
  partition := by
    unfold IntMap.assign
    rw [intMap_erase_of_find_none hp, List.map_cons]
    exact (List.perm_middle.trans h.partition)
  alive_table := by
    intro g p' e hf
    rw [hv] at hf
    by_cases hgf : g = f
    · rw [if_pos hgf] at hf
      simp only [Option.some.injEq, Prod.mk.injEq] at hf
      rw [hgf, ← hf.1]
      exact intMap_find_assign_self _ _ _
    · rw [if_neg hgf] at hf
      have h1 := h.alive_table g p' e hf
      have hpp : p' ≠ p := by
        intro hpp
        rw [hpp, hp] at h1
        cases h1
      rw [intMap_find_assign_ne _ _ hpp]
      exact h1
  table_alive := by
    intro p' g hf
    by_cases hpp : p' = p
    · rw [hpp, intMap_find_assign_self] at hf
      simp only [Option.some.injEq] at hf
      exact ⟨false, by rw [hv, if_pos hf.symm, hpp]⟩
    · rw [intMap_find_assign_ne _ _ hpp] at hf
      obtain ⟨e, he⟩ := h.table_alive p' g hf
      have hgf : g ≠ f := by
        intro hgf
        rw [hgf] at hf
        exact h.free_not_value (List.mem_cons_self _ _) (value_mem hf)
      exact ⟨e, by rw [hv, if_neg hgf]; exact he⟩

/-- The frame at the front of the free list is not alive. -/
theorem free_not_alive (h : TableInv N table free r) {f : Int} (hf : f ∈ free) :
    r.alive_map_.find f = none := by
  rw [← ArcReplacer.view_eq_none]
  cases hv : r.view f with
  | none => rfl
  | some v =>
    exfalso
    obtain ⟨p, e⟩ := v
    exact h.free_not_value hf (value_mem (h.alive_table f p e hv))

/-- No alive frame holds a page that is not resident. -/
theorem not_held (h : TableInv N table free r) {p : Int} (hp : table.find p = none) :
    ∀ g e, r.view g ≠ some (p, e) := by
  intro g e hv
  rw [h.alive_table g p e hv] at hp
  cases hp

end TableInv

/-! ## The invariant of the pin counts -/

theorem countP_erase_of_mem {α : Type} [DecidableEq α] (q : α → Bool) {l : List α} {a : α}
    (h : a ∈ l) : (l.erase a).countP q + (if q a = true then 1 else 0) = l.countP q := by
  have hp := (List.perm_cons_erase h).countP_eq q
  rw [hp, List.countP_cons]

namespace PinInv

variable {N : Nat} {x : Option Int} {table : IntMap Int} {r : ArcReplacer} {pin : Int → Nat}
  {G : List Guard}

/-- A frame on which the caller holds a guard is not the value of another page, is in range and
has a pin. -/
theorem guard_frame {free : List Int} (h : PinInv N x table r pin G)
    (ht : TableInv N table free r) {g : Guard} (hg : g ∈ G) :
    (0 ≤ g.frame_ ∧ g.frame_ < N) ∧ pin g.frame_ ≠ 0 := by
  have hr := ht.value_in_range (h.guards_valid g hg).2
  refine ⟨hr, ?_⟩
  rw [h.pins _ hr.1 hr.2]
  intro h0
  rw [List.countP_eq_zero] at h0
  have := h0 g hg
  simp at this

/-- A frame without a pin has no guard on it. -/
theorem no_guard {free : List Int} (h : PinInv N x table r pin G)
    (ht : TableInv N table free r) {f : Int} (hf : pin f = 0) : ∀ g ∈ G, g.frame_ ≠ f := by
  intro g hg hgf
  have := (h.guard_frame ht hg).2
  rw [hgf] at this
  exact this hf

theorem pin_weaken (h : PinInv N none table r pin G) (x : Option Int) : PinInv N x table r pin G where
  guards_valid := h.guards_valid
  guards_bound := h.guards_bound
  pins := h.pins
  evictable_pin := h.evictable_pin
  pin_evictable := fun f p _ hv => h.pin_evictable f p (by simp) hv

/-- The same view of the replacer and the same pin counts keep the invariant. -/
theorem pin_congr (h : PinInv N x table r pin G) {r' : ArcReplacer} {pin' : Int → Nat}
    (hv : ∀ g, r'.view g = r.view g) (hp : ∀ g, pin' g = pin g) :
    PinInv N x table r' pin' G where
  guards_valid := h.guards_valid
  guards_bound := h.guards_bound
  pins := by
    intro f h0 h1
    rw [hp]
    exact h.pins f h0 h1
  evictable_pin := by
    intro f p hf
    rw [hv] at hf
    rw [hp]
    exact h.evictable_pin f p hf
  pin_evictable := by
    intro f p hx hf
    rw [hv] at hf
    rw [hp]
    exact h.pin_evictable f p hx hf

/-- The victim of an eviction, which has no pin, leaves the page table. -/
theorem pin_evicted {free : List Int} (h : PinInv N none table r pin G)
    (ht : TableInv N table free r) {r' : ArcReplacer} {f q : Int}
    (hq : table.find q = some f) (hvf : r.view f = some (q, true))
    (hv : ∀ g, r'.view g = if g = f then none else r.view g) :
    PinInv N none (table.erase q) r' pin G where
  guards_valid := by
    intro g hg
    obtain ⟨h1, h2⟩ := h.guards_valid g hg
    refine ⟨h1, ?_⟩
    have hne : g.frame_ ≠ f := h.no_guard ht (h.evictable_pin f q hvf) g hg
    have hpq : g.page_id_ ≠ q := by
      intro hpq
      rw [hpq, hq] at h2
      simp only [Option.some.injEq] at h2
      exact hne h2.symm
    rw [intMap_find_erase_ne _ hpq]
    exact h2
  guards_bound := h.guards_bound
  pins := h.pins
  evictable_pin := by
    intro g p hg
    rw [hv] at hg
    by_cases hgf : g = f
    · rw [if_pos hgf] at hg
      cases hg
    · rw [if_neg hgf] at hg
      exact h.evictable_pin g p hg
  pin_evictable := by
    intro g p hx hg
    rw [hv] at hg
    by_cases hgf : g = f
    · rw [if_pos hgf] at hg
      cases hg
    · rw [if_neg hgf] at hg
      exact h.pin_evictable g p hx hg

/-- A page is loaded into a free frame, whose pin count is reset: the frame is being
acquired. -/
theorem pin_loaded {free : List Int} {f : Int} (h : PinInv N none table r pin G)
    (ht : TableInv N table (f :: free) r) {r' : ArcReplacer} {pin' : Int → Nat} {p : Int}
    (hp : table.find p = none)
    (hv : ∀ g, r'.view g = if g = f then some (p, false) else r.view g)
    (hpf : pin' f = 0) (hpg : ∀ g, g ≠ f → pin' g = pin g) :
    PinInv N (some f) (table.assign p f) r' pin' G where
  guards_valid := by
    intro g hg
    obtain ⟨h1, h2⟩ := h.guards_valid g hg
    refine ⟨h1, ?_⟩
    have hpq : g.page_id_ ≠ p := by
      intro hpq
      rw [hpq, hp] at h2
      cases h2
    rw [intMap_find_assign_ne _ _ hpq]
    exact h2
  guards_bound := h.guards_bound
  pins := by
    intro g h0 h1
    by_cases hgf : g = f
    · rw [hgf, hpf]
      symm
      rw [List.countP_eq_zero]
      intro g' hg'
      simp only [decide_eq_true_eq]
      intro hfr
      have h2 := (h.guards_valid g' hg').2
      rw [hfr] at h2
      exact ht.free_not_value (List.mem_cons_self _ _) (TableInv.value_mem h2)
    · rw [hpg g hgf]
      exact h.pins g h0 h1
  evictable_pin := by
    intro g p' hg
    rw [hv] at hg
    by_cases hgf : g = f
    · rw [if_pos hgf] at hg
      simp at hg
    · rw [if_neg hgf] at hg
      rw [hpg g hgf]
      exact h.evictable_pin g p' hg
  pin_evictable := by
    intro g p' hx hg
    rw [hv] at hg
    have hgf : g ≠ f := fun hgf => hx (by rw [hgf])
    rw [if_neg hgf] at hg
    rw [hpg g hgf]
    exact h.pin_evictable g p' (by simp) hg

/-- The frame being acquired is pinned and made non-evictable for a new guard. -/
theorem pin_pinned {f : Int} (h : PinInv N (some f) table r pin G)
    {r' : ArcReplacer} {pin' : Int → Nat} {p : Int}
    (hp : table.find p = some f)
    (hv : ∀ g, r'.view g = if g = f then some (p, false) else r.view g)
    (hpf : pin' f = pin f + 1) (hpg : ∀ g, g ≠ f → pin' g = pin g) {g : Guard}
    (hgv : g.is_valid_ = true) (hgp : g.page_id_ = p) (hgf : g.frame_ = f)
    (hlen : G.length + 1 < SIZE_T_MODULUS) :
    PinInv N none table r' pin' (g :: G) where
  guards_valid := by
    intro g' hg'
    rcases List.mem_cons.mp hg' with h1 | h1
    · rw [h1, hgp, hgf]
      exact ⟨hgv, hp⟩
    · exact h.guards_valid g' h1
  guards_bound := by
    rw [List.length_cons]
    exact hlen
  pins := by
    intro f' h0 h1
    rw [List.countP_cons]
    by_cases hff : f' = f
    · rw [hff, hpf, h.pins f (hff ▸ h0) (hff ▸ h1)]
      simp [hgf]
    · rw [hpg f' hff, h.pins f' h0 h1]
      have : ¬ g.frame_ = f' := by
        rw [hgf]
        exact fun h2 => hff h2.symm
      simp [this]
  evictable_pin := by
    intro f' p' hf'
    rw [hv] at hf'
    by_cases hff : f' = f
    · rw [if_pos hff] at hf'
      simp at hf'
    · rw [if_neg hff] at hf'
      rw [hpg f' hff]
      exact h.evictable_pin f' p' hf'
  pin_evictable := by
    intro f' p' _ hf'
    rw [hv] at hf'
    by_cases hff : f' = f
    · rw [hff, hpf]
      omega
    · rw [if_neg hff] at hf'
      rw [hpg f' hff]
      exact h.pin_evictable f' p' (by simpa using hff) hf'

/-- A guard is dropped: its frame loses a pin and is made evictable when it has no pin left. -/
theorem pin_unpinned {free : List Int} (h : PinInv N none table r pin G)
    (ht : TableInv N table free r) {r' : ArcReplacer} {pin' : Int → Nat} {g : Guard}
    (hg : g ∈ G) (hpf : pin' g.frame_ = pin g.frame_ - 1)
    (hpg : ∀ f, f ≠ g.frame_ → pin' f = pin f)
    (hv0 : pin g.frame_ - 1 = 0 →
      ∀ f, r'.view f = if f = g.frame_ then some (g.page_id_, true) else r.view f)
    (hv1 : pin g.frame_ - 1 ≠ 0 → ∀ f, r'.view f = r.view f) :
    PinInv N none table r' pin' (G.erase g) where
  guards_valid := fun g' hg' => h.guards_valid g' (List.mem_of_mem_erase hg')
  guards_bound := lt_of_le_of_lt (List.length_erase_le _ _) h.guards_bound
  pins := by
    intro f h0 h1
    have hc := countP_erase_of_mem (fun g' => decide (g'.frame_ = f)) hg
    by_cases hff : f = g.frame_
    · rw [hff, hpf, h.pins _ (hff ▸ h0) (hff ▸ h1)]
      rw [hff] at hc
      simp only [decide_True, if_true] at hc
      omega
    · rw [hpg f hff, h.pins f h0 h1]
      have : ¬ g.frame_ = f := fun h2 => hff h2.symm
      simp only [this, decide_False, Bool.false_eq_true, if_false] at hc
      omega
  evictable_pin := by
    intro f p hf
    by_cases h0 : pin g.frame_ - 1 = 0
    · rw [hv0 h0] at hf
      by_cases hff : f = g.frame_
      · rw [hff, hpf]
        exact h0
      · rw [if_neg hff] at hf
        rw [hpg f hff]
        exact h.evictable_pin f p hf
    · rw [hv1 h0] at hf
      have hz := h.evictable_pin f p hf
      have hff : f ≠ g.frame_ := by
        intro hff
        rw [hff] at hz
        exact (h.guard_frame ht hg).2 hz
      rw [hpg f hff]
      exact hz
  pin_evictable := by
    intro f p _ hf
    by_cases h0 : pin g.frame_ - 1 = 0
    · rw [hv0 h0] at hf
      by_cases hff : f = g.frame_
      · rw [if_pos hff] at hf
        simp at hf
      · rw [if_neg hff] at hf
        rw [hpg f hff]
        exact h.pin_evictable f p (by simp) hf
    · rw [hv1 h0] at hf
      by_cases hff : f = g.frame_
      · rw [hff, hpf]
        exact h0
      · rw [hpg f hff]
        exact h.pin_evictable f p (by simp) hf

end PinInv

/-! ## The invariant of the latches -/

theorem countP_frame_split (G : List Guard) (f : Int) :
    G.countP (fun g => decide (g.frame_ = f))
      = G.countP (fun g => decide (g.frame_ = f) && !g.isWrite)
        + G.countP (fun g => decide (g.frame_ = f) && g.isWrite) := by
  induction G with
  | nil => rfl
  | cons g G ih =>
    rw [List.countP_cons, List.countP_cons, List.countP_cons, ih]
    by_cases h1 : g.frame_ = f <;> cases h2 : g.isWrite <;> simp [h1, h2] <;> omega

namespace LatchInv

variable {N : Nat} {readers : Int → Nat} {writer : Int → Bool} {G : List Guard}

theorem latch_congr (h : LatchInv N readers writer G) {readers' : Int → Nat}
    {writer' : Int → Bool} (hr : ∀ f, readers' f = readers f) (hw : ∀ f, writer' f = writer f) :
    LatchInv N readers' writer' G where
  readers_eq := by
    intro f h0 h1
    rw [hr]
    exact h.readers_eq f h0 h1
  writer_iff := by
    intro f h0 h1
    rw [hw]
    exact h.writer_iff f h0 h1
  exclusive := h.exclusive

/-- No write guard is on a frame whose latch is not held exclusively. -/
theorem no_write_guard (h : LatchInv N readers writer G) {f : Int} (h0 : 0 ≤ f) (h1 : f < N)
    (hw : writer f = false) : ∀ g ∈ G, g.isWrite = true → g.frame_ ≠ f := by
  intro g hg hgw hgf
  have := (h.writer_iff f h0 h1).mpr ⟨g, hg, hgf, hgw⟩
  rw [hw] at this
  cases this

/-- No guard is on a frame whose latch is free. -/
theorem no_guard_of_free (h : LatchInv N readers writer G) {f : Int} (h0 : 0 ≤ f) (h1 : f < N)
    (hr : readers f = 0) (hw : writer f = false) :
    G.countP (fun g => decide (g.frame_ = f)) = 0 := by
  rw [countP_frame_split, ← h.readers_eq f h0 h1, hr, Nat.zero_add, List.countP_eq_zero]
  intro g hg
  simp only [Bool.and_eq_true, decide_eq_true_eq, not_and, Bool.not_eq_true]
  intro hgf
  cases hgw : g.isWrite with
  | false => rfl
  | true => exact absurd hgf (h.no_write_guard h0 h1 hw g hg hgw)

/-- A read guard is added on a frame whose latch is not held exclusively. -/
theorem latch_read (h : LatchInv N readers writer G) {f : Int} (h0 : 0 ≤ f) (h1 : f < N)
    (hw : writer f = false) {readers' : Int → Nat} (hrf : readers' f = readers f + 1)
    (hrg : ∀ g, g ≠ f → readers' g = readers g) {g : Guard} (hgf : g.frame_ = f)
    (hgw : g.isWrite = false) : LatchInv N readers' writer (g :: G) where
  readers_eq := by
    intro f' h0' h1'
    rw [List.countP_cons]
    by_cases hff : f' = f
    · rw [hff, hrf, h.readers_eq f h0 h1]
      simp [hgf, hgw]
    · rw [hrg f' hff, h.readers_eq f' h0' h1']
      have : ¬ g.frame_ = f' := by
        rw [hgf]
        exact fun h2 => hff h2.symm
      simp [this]
  writer_iff := by
    intro f' h0' h1'
    rw [h.writer_iff f' h0' h1']
    constructor
    · rintro ⟨g', hg', h2⟩
      exact ⟨g', List.mem_cons_of_mem _ hg', h2⟩
    · rintro ⟨g', hg', h2⟩
      rcases List.mem_cons.mp hg' with h3 | h3
      · rw [h3, hgw] at h2
        cases h2.2
      · exact ⟨g', h3, h2⟩
  exclusive := by
    intro g' hg' hgw'
    rcases List.mem_cons.mp hg' with h3 | h3
    · rw [h3, hgw] at hgw'
      cases hgw'
    · rw [List.countP_cons, h.exclusive g' h3 hgw']
      have hne := h.no_write_guard h0 h1 hw g' h3 hgw'
      have : ¬ g.frame_ = g'.frame_ := by
        rw [hgf]
        exact fun h2 => hne h2.symm
      simp [this]

/-- A write guard is added on a frame whose latch is free. -/
theorem latch_write (h : LatchInv N readers writer G) {f : Int} (h0 : 0 ≤ f) (h1 : f < N)
    (hr : readers f = 0) (hw : writer f = false) {writer' : Int → Bool}
    (hwf : writer' f = true) (hwg : ∀ g, g ≠ f → writer' g = writer g) {g : Guard}
    (hgf : g.frame_ = f) (hgw : g.isWrite = true) : LatchInv N readers writer' (g :: G) where
  readers_eq := by
    intro f' h0' h1'
    rw [List.countP_cons, h.readers_eq f' h0' h1']
    simp [hgw]
  writer_iff := by
    intro f' h0' h1'
    by_cases hff : f' = f
    · rw [hff, hwf]
      simp only [true_iff]
      exact ⟨g, List.mem_cons_self _ _, hgf, hgw⟩
    · rw [hwg f' hff, h.writer_iff f' h0' h1']
      constructor
      · rintro ⟨g', hg', h2⟩
        exact ⟨g', List.mem_cons_of_mem _ hg', h2⟩
      · rintro ⟨g', hg', h2⟩
        rcases List.mem_cons.mp hg' with h3 | h3
        · rw [h3, hgf] at h2
          exact absurd h2.1.symm hff
        · exact ⟨g', h3, h2⟩
  exclusive := by
    intro g' hg' hgw'
    have hzero := h.no_guard_of_free h0 h1 hr hw
    rcases List.mem_cons.mp hg' with h3 | h3
    · rw [h3, List.countP_cons, hgf, hzero]
      simp [hgf]
    · rw [List.countP_cons, h.exclusive g' h3 hgw']
      have hne : g'.frame_ ≠ f := by
        intro h4
        rw [List.countP_eq_zero] at hzero
        have := hzero g' h3
        simp [h4] at this
      have : ¬ g.frame_ = g'.frame_ := by
        rw [hgf]
        exact fun h2 => hne h2.symm
      simp [this]

/-- A guard is dropped: the latch of its frame is released. -/
theorem latch_drop (h : LatchInv N readers writer G) {g : Guard} (hg : g ∈ G)
    (h0 : 0 ≤ g.frame_) (h1 : g.frame_ < N) {readers' : Int → Nat} {writer' : Int → Bool}
    (hrf : readers' g.frame_ = if g.isWrite then readers g.frame_ else readers g.frame_ - 1)
    (hrg : ∀ f, f ≠ g.frame_ → readers' f = readers f)
    (hwf : writer' g.frame_ = if g.isWrite then false else writer g.frame_)
    (hwg : ∀ f, f ≠ g.frame_ → writer' f = writer f) :
    LatchInv N readers' writer' (G.erase g) where
  readers_eq := by
    intro f h0' h1'
    have hc := countP_erase_of_mem (fun g' => decide (g'.frame_ = f) && !g'.isWrite) hg
    by_cases hff : f = g.frame_
    · rw [hff, hrf]
      rw [hff] at hc
      rw [h.readers_eq _ h0 h1]
      cases hgw : g.isWrite with
      | false =>
        simp only [hgw, decide_True, Bool.not_false, Bool.and_self, if_true] at hc
        simp only [Bool.false_eq_true, if_false]
        omega
      | true =>
        simp only [hgw, decide_True, Bool.not_true, Bool.and_false, Bool.false_eq_true,
          if_false] at hc
        simp only [if_true]
        omega
    · rw [hrg f hff, h.readers_eq f h0' h1']
      have : ¬ g.frame_ = f := fun h2 => hff h2.symm
      simp only [this, decide_False, Bool.false_and, Bool.false_eq_true, if_false] at hc
      omega
  writer_iff := by
    intro f h0' h1'
    by_cases hff : f = g.frame_
    · rw [hff, hwf]
      cases hgw : g.isWrite with
      | false =>
        simp only [Bool.false_eq_true, if_false]
        rw [h.writer_iff _ h0 h1]
        constructor
        · rintro ⟨g', hg', h2⟩
          refine ⟨g', ?_, h2⟩
          have hne : g' ≠ g := by
            intro h3
            rw [h3, hgw] at h2
            cases h2.2
          exact (List.mem_erase_of_ne hne).mpr hg'
        · rintro ⟨g', hg', h2⟩
          exact ⟨g', List.mem_of_mem_erase hg', h2⟩
      | true =>
        simp only [if_true, Bool.false_eq_true, false_iff]
        rintro ⟨g', hg', h2, _⟩
        have hex := h.exclusive g hg hgw
        have hc := countP_erase_of_mem (fun g' => decide (g'.frame_ = g.frame_)) hg
        simp only [decide_True, if_true] at hc
        have hz : (G.erase g).countP (fun g' => decide (g'.frame_ = g.frame_)) = 0 := by omega
        rw [List.countP_eq_zero] at hz
        have := hz g' hg'
        simp [h2] at this
    · rw [hwg f hff, h.writer_iff f h0' h1']
      constructor
      · rintro ⟨g', hg', h2⟩
        refine ⟨g', ?_, h2⟩
        have hne : g' ≠ g := by
          intro h3
          rw [h3] at h2
          exact hff h2.1.symm
        exact (List.mem_erase_of_ne hne).mpr hg'
      · rintro ⟨g', hg', h2⟩
        exact ⟨g', List.mem_of_mem_erase hg', h2⟩
  exclusive := by
    intro g' hg' hgw'
    have hmem := List.mem_of_mem_erase hg'
    have hex := h.exclusive g' hmem hgw'
    have hc := countP_erase_of_mem (fun g'' => decide (g''.frame_ = g'.frame_)) hg
    have hpos : 0 < (G.erase g).countP (fun g'' => decide (g''.frame_ = g'.frame_)) := by
      rw [List.countP_pos_iff]
      exact ⟨g', hg', by simp⟩
    split at hc <;> omega

end LatchInv

/-! ## The invariant of the bytes -/

namespace DataInv

variable {table : IntMap Int} {disk : DiskManagerMemory} {dirty : Int → Bool}
  {data : Int → PageData}

theorem data_congr (h : DataInv table disk dirty data) {disk' : DiskManagerMemory}
    {dirty' : Int → Bool} {data' : Int → PageData} (hr : ∀ p, disk'.read p = disk.read p)
    (hd : ∀ f, dirty' f = dirty f) (hb : ∀ f, data' f = data f) :
    DataInv table disk' dirty' data' where
  clean := by
    intro p f hf hc
    rw [hr, hb]
    rw [hd] at hc
    exact h.clean p f hf hc

/-- The victim of an eviction leaves the page table; the disk keeps the other pages. -/
theorem data_evicted (h : DataInv table disk dirty data) {disk' : DiskManagerMemory} {q : Int}
    (hr : ∀ p, p ≠ q → disk'.read p = disk.read p) : DataInv (table.erase q) disk' dirty data where
  clean := by
    intro p f hf hc
    have hpq : p ≠ q := by
      intro hpq
      rw [hpq, intMap_find_erase_self] at hf
      cases hf
    rw [intMap_find_erase_ne _ hpq] at hf
    rw [hr p hpq]
    exact h.clean p f hf hc

/-- A page is loaded from disk into a frame that holds no page. -/
theorem data_loaded (h : DataInv table disk dirty data) {f p : Int}
    (hf : f ∉ table.map Prod.snd) {disk' : DiskManagerMemory} {dirty' : Int → Bool}
    {data' : Int → PageData} (hr : ∀ q, disk'.read q = disk.read q)
    (hdf : data' f = disk.read p) (hdg : ∀ g, g ≠ f → dirty' g = dirty g)
    (hbg : ∀ g, g ≠ f → data' g = data g) : DataInv (table.assign p f) disk' dirty' data' where
  clean := by
    intro q g hg hc
    by_cases hqp : q = p
    · rw [hqp, intMap_find_assign_self] at hg
      simp only [Option.some.injEq] at hg
      rw [hqp, hr, ← hg, hdf]
    · rw [intMap_find_assign_ne _ _ hqp] at hg
      have hgf : g ≠ f := by
        intro hgf
        rw [hgf] at hg
        exact hf (TableInv.value_mem hg)
      rw [hr, hbg g hgf]
      rw [hdg g hgf] at hc
      exact h.clean q g hg hc

/-- The frame of a page is made dirty, or its bytes are written to disk. -/
theorem data_frame (h : DataInv table disk dirty data) {f p : Int}
    (hp : table.find p = some f) (huniq : ∀ q, table.find q = some f → q = p)
    {disk' : DiskManagerMemory}
    {dirty' : Int → Bool} {data' : Int → PageData} (hr : ∀ q, q ≠ p → disk'.read q = disk.read q)
    (hf : dirty' f = false → disk'.read p = data' f) (hdg : ∀ g, g ≠ f → dirty' g = dirty g)
    (hbg : ∀ g, g ≠ f → data' g = data g) : DataInv table disk' dirty' data' where
  clean := by
    intro q g hg hc
    by_cases hgf : g = f
    · rw [hgf] at hg hc ⊢
      rw [huniq q hg]
      exact hf hc
    · have hqp : q ≠ p := by
        intro hqp
        rw [hqp, hp] at hg
        simp only [Option.some.injEq] at hg
        exact hgf hg.symm
      rw [hr q hqp, hbg g hgf]
      rw [hdg g hgf] at hc
      exact h.clean q g hg hc

end DataInv

/-! ## The invariant of the buffer pool is kept by a fault-in -/

namespace BufferPoolManager

theorem frameAt_self {s s' : BufferPoolManager} {f : Int} {fr : FrameHeader}
    (hs : s'.frames_ = s.frames_.set f.toNat fr) (h0 : 0 ≤ f)
    (h1 : f < (s.frames_.length : Int)) : s'.frameAt f = fr := by
  unfold frameAt
  rw [hs, frameOf_set h0 h1, if_pos rfl]

theorem frameAt_other {s s' : BufferPoolManager} {f : Int} {fr : FrameHeader}
    (hs : s'.frames_ = s.frames_.set f.toNat fr) (h0 : 0 ≤ f)
    (h1 : f < (s.frames_.length : Int)) {g : Int} (hg : g ≠ f) : s'.frameAt g = s.frameAt g := by
  unfold frameAt
  rw [hs, frameOf_set h0 h1, if_neg hg]

theorem frameAt_same {s s' : BufferPoolManager} (hs : s'.frames_ = s.frames_) (g : Int) :
    s'.frameAt g = s.frameAt g := by
  unfold frameAt
  rw [hs]

theorem content_resident {s : BufferPoolManager} {p f : Int}
    (h : s.page_table_.find p = some f) : s.content p = (s.frameAt f).data_ := by
  unfold content
  rw [h]

theorem content_absent {s : BufferPoolManager} {p : Int}
    (h : s.page_table_.find p = none) : s.content p = s.disk_.read p := by
  unfold content
  rw [h]

theorem read_diskAfterWriteBack_ne (s : BufferPoolManager) {q p : Int} (f : Int) (h : p ≠ q) :
    (s.diskAfterWriteBack q f).read p = s.disk_.read p := by
  unfold diskAfterWriteBack
  split
  · exact DiskManagerMemory.read_written_ne _ _ h
  · rfl

/-- A fault-in on a page id in range, up to the call of `RecordAccess`: either no frame can be
freed and nothing changes, or the page is in a frame that is ready to be pinned. -/
theorem fetch_inv {N : Nat} {s : BufferPoolManager} {G : List Guard}
    (hinv : PoolInv N none s G) {p : Int} (hr : ¬ (p < 0 ∨ p ≥ s.next_page_id_)) :
    (s.bringIn p = Except.ok (none, s) ∧ s.page_table_.find p = none ∧ s.free_frames_ = [] ∧
      ∀ g q, s.replacer_.view g ≠ some (q, true)) ∨
    ∃ f s1 r', s.bringIn p = Except.ok (some f, s1) ∧
      s1.replacer_.RecordAccess f p = Except.ok r' ∧
      PoolInv N (some f) { s1 with replacer_ := r' } G ∧
      s1.page_table_.find p = some f ∧
      (∀ q, ({ s1 with replacer_ := r' } : BufferPoolManager).content q = s.content q) ∧
      s1.next_page_id_ = s.next_page_id_ := by
  have ht := hinv.table
  have hp := hinv.pin
  have hl := hinv.latch
  have hd := hinv.data
  have hlen := hinv.frames_length
  cases hfind : s.page_table_.find p with
  | some f =>
    right
    obtain ⟨e, hview⟩ := ht.table_alive p f hfind
    obtain ⟨st, hst, _, _⟩ := ArcReplacer.view_eq_some hview
    obtain ⟨r', hra, hw', hg', hsz', hv'⟩ :=
      ArcReplacer.recordAccess_hit_view ht.replacer_wf ht.replacer_ghost hst p
    refine ⟨f, _, r', bringIn_hit hr hfind, hra, ?_, hfind, fun q => rfl, rfl⟩
    exact
      { frames_length := hlen
        table := ht.table_of_view hw' hg' hsz' hv'
        pin := (hp.pin_congr hv' (fun _ => rfl)).pin_weaken (some f)
        latch := hl
        data := hd }
  | none =>
    cases hfree : s.free_frames_ with
    | cons f rest =>
      right
      rw [hfree] at ht
      have hfr := ht.free_in_range (List.mem_cons_self _ _)
      have h0 := hfr.1
      have h1 : f < (s.frames_.length : Int) := by rw [hlen]; exact hfr.2
      have hnot := ht.free_not_alive (List.mem_cons_self _ _)
      obtain ⟨r', hra, hw', hg', hsz', hv'⟩ :=
        ArcReplacer.recordAccess_miss_view ht.replacer_wf ht.replacer_ghost hnot
          (ht.not_held hfind) (ht.alive_room hnot hfr)
      have hfv := ht.free_not_value (List.mem_cons_self _ _)
      refine ⟨f, _, r', bringIn_free hr hfind hfree h0 h1, hra, ?_,
        intMap_find_assign_self _ _ _, ?_, rfl⟩
      · exact
          { frames_length := by
              show (s.frames_.set f.toNat _).length = N
              rw [List.length_set]
              exact hlen
            table := ht.table_loaded hfind hw' hg' hsz' hv'
            pin := hp.pin_loaded ht hfind hv'
              (by
                show (frameAt _ f).pin_count_ = 0
                rw [frameAt_self rfl h0 h1])
              (by
                intro g hg
                show (frameAt _ g).pin_count_ = _
                rw [frameAt_other rfl h0 h1 hg])
            latch := hl.latch_congr
              (by
                intro g
                show (frameAt _ g).readers_ = _
                by_cases hg : g = f
                · rw [hg, frameAt_self rfl h0 h1]
                · rw [frameAt_other rfl h0 h1 hg])
              (by
                intro g
                show (frameAt _ g).writer_ = _
                by_cases hg : g = f
                · rw [hg, frameAt_self rfl h0 h1]
                · rw [frameAt_other rfl h0 h1 hg])
            data := hd.data_loaded hfv (fun q => DiskManagerMemory.read_allocated _ _ _)
              (by
                show (frameAt _ f).data_ = _
                rw [frameAt_self rfl h0 h1])
              (by
                intro g hg
                show (frameAt _ g).is_dirty_ = _
                rw [frameAt_other rfl h0 h1 hg])
              (by
                intro g hg
                show (frameAt _ g).data_ = _
                rw [frameAt_other rfl h0 h1 hg]) }
      · intro q
        by_cases hqp : q = p
        · rw [hqp, content_absent hfind,
            content_resident (f := f) (intMap_find_assign_self _ _ _), frameAt_self rfl h0 h1]
        · unfold content
          show (match (s.page_table_.assign p f).find q with
            | some f' => (frameAt _ f').data_
            | none => (s.disk_.allocated p).read q) = _
          rw [intMap_find_assign_ne _ _ hqp]
          cases hq : s.page_table_.find q with
          | none => exact DiskManagerMemory.read_allocated _ _ _
          | some f' =>
            have hne : f' ≠ f := by
              intro h2
              rw [h2] at hq
              exact hfv (TableInv.value_mem hq)
            simp only
            rw [frameAt_other rfl h0 h1 hne]
    | nil =>
      rw [hfree] at ht
      rcases ArcReplacer.evict_view ht.replacer_wf ht.replacer_ghost with
        ⟨hev, hnone⟩ | ⟨f, r1, q, hev, hvf, hw1, hg1, hsz1, hv1⟩
      · left
        have := bringIn_evict_none hr hfind hfree hev
        exact ⟨this, rfl, rfl, hnone⟩
      · right
        have hq := ht.alive_table f q true hvf
        have hfr := ht.value_in_range hq
        have h0 := hfr.1
        have h1 : f < (s.frames_.length : Int) := by rw [hlen]; exact hfr.2
        have hpq : p ≠ q := by
          intro hpq
          rw [hpq, hq] at hfind
          cases hfind
        have ht1 := ht.table_evicted hq hw1 hg1 hsz1 hv1
        have hfind1 : (s.page_table_.erase q).find p = none := by
          rw [intMap_find_erase_ne _ hpq]
          exact hfind
        have hnot : r1.alive_map_.find f = none := by
          rw [← ArcReplacer.view_eq_none, hv1, if_pos rfl]
        obtain ⟨r', hra, hw', hg', hsz', hv'⟩ :=
          ArcReplacer.recordAccess_miss_view hw1 hg1 hnot (ht1.not_held hfind1)
            (ht1.alive_room hnot hfr)
        have hfv := ht1.free_not_value (List.mem_singleton_self _)
        have hclean : (s.diskAfterWriteBack q f).read q = (s.frameAt f).data_ := by
          unfold diskAfterWriteBack
          by_cases hdirty : (s.frameAt f).is_dirty_ = true
          · rw [if_pos hdirty]
            exact DiskManagerMemory.read_written_self _ _ _
          · rw [if_neg hdirty]
            exact hd.clean q f hq (by simpa using hdirty)
        refine ⟨f, _, r', bringIn_evict hr hfind hfree hev (ht.pageOfFrame_eq hq) h0 h1, hra,
          ?_, intMap_find_assign_self _ _ _, ?_, rfl⟩
        · exact
            { frames_length := by
                show (s.frames_.set f.toNat _).length = N
                rw [List.length_set]
                exact hlen
              table := by
                have := ht1.table_loaded hfind1 hw' hg' hsz' hv'
                rw [hfree]
                exact this
              pin := (hp.pin_evicted ht hq hvf hv1).pin_loaded ht1 hfind1 hv'
                (by
                  show (frameAt _ f).pin_count_ = 0
                  rw [frameAt_self rfl h0 h1])
                (by
                  intro g hg
                  show (frameAt _ g).pin_count_ = _
                  rw [frameAt_other rfl h0 h1 hg])
              latch := hl.latch_congr
                (by
                  intro g
                  show (frameAt _ g).readers_ = _
                  by_cases hg : g = f
                  · rw [hg, frameAt_self rfl h0 h1]
                  · rw [frameAt_other rfl h0 h1 hg])
                (by
                  intro g
                  show (frameAt _ g).writer_ = _
                  by_cases hg : g = f
                  · rw [hg, frameAt_self rfl h0 h1]
                  · rw [frameAt_other rfl h0 h1 hg])
              data := (hd.data_evicted
                  (fun p' hp' => read_diskAfterWriteBack_ne s f hp')).data_loaded hfv
                (fun q' => DiskManagerMemory.read_allocated _ _ _)
                (by
                  show (frameAt _ f).data_ = _
                  rw [frameAt_self rfl h0 h1])
                (by
                  intro g hg
                  show (frameAt _ g).is_dirty_ = _
                  rw [frameAt_other rfl h0 h1 hg])
                (by
                  intro g hg
                  show (frameAt _ g).data_ = _
                  rw [frameAt_other rfl h0 h1 hg]) }
        · intro q'
          by_cases hqp : q' = p
          · rw [hqp, content_absent hfind,
              content_resident (f := f) (intMap_find_assign_self _ _ _),
              frameAt_self rfl h0 h1]
            exact read_diskAfterWriteBack_ne s f hpq
          · unfold content
            show (match ((s.page_table_.erase q).assign p f).find q' with
              | some f' => (frameAt _ f').data_
              | none => ((s.diskAfterWriteBack q f).allocated p).read q') = _
            rw [intMap_find_assign_ne _ _ hqp]
            by_cases hqq : q' = q
            · rw [hqq, intMap_find_erase_self, hq]
              simp only
              rw [DiskManagerMemory.read_allocated, hclean]
            · rw [intMap_find_erase_ne _ hqq]
              cases hq' : s.page_table_.find q' with
              | none =>
                simp only
                rw [DiskManagerMemory.read_allocated]
                exact read_diskAfterWriteBack_ne s f hqq
              | some f' =>
                have hne : f' ≠ f := by
                  intro h2
                  rw [h2] at hq'
                  exact hqq (ht.page_unique hq' hq)
                simp only
                rw [frameAt_other rfl h0 h1 hne]

end BufferPoolManager

/-! ## Guards: acquisition and drop -/

namespace BufferPoolManager

theorem pin_eq {s : BufferPoolManager} {f : Int} (h0 : 0 ≤ f)
    (h1 : f < (s.frames_.length : Int)) (hev : (s.replacer_.SetEvictable f false).2 = Except.ok ()) :
    s.pin f = Except.ok
      { s with
        frames_ := s.frames_.set f.toNat
          { s.frameAt f with pin_count_ := addSizeT (s.frameAt f).pin_count_ 1 }
        replacer_ := (s.replacer_.SetEvictable f false).1 } := by
  unfold pin
  simp only [bind, Except.bind, frame_eq h0 h1, setFrame_eq h0 h1]
  have : ((s.withFrame f { s.frameAt f with
      pin_count_ := addSizeT (s.frameAt f).pin_count_ 1 }).replacer_.SetEvictable f false).2
      = Except.ok () := hev
  rw [this]
  rfl

theorem unpin_eq {s : BufferPoolManager} {f : Int} (h0 : 0 ≤ f)
    (h1 : f < (s.frames_.length : Int)) (hev : (s.replacer_.SetEvictable f true).2 = Except.ok ()) :
    s.unpin f = Except.ok
      { s with
        frames_ := s.frames_.set f.toNat
          { s.frameAt f with pin_count_ := subSizeT (s.frameAt f).pin_count_ 1 }
        replacer_ :=
          if subSizeT (s.frameAt f).pin_count_ 1 = 0 then (s.replacer_.SetEvictable f true).1
          else s.replacer_ } := by
  unfold unpin
  simp only [bind, Except.bind, frame_eq h0 h1, setFrame_eq h0 h1]
  by_cases hz : subSizeT (s.frameAt f).pin_count_ 1 = 0
  · have : ∀ fr, ((s.withFrame f fr).replacer_.SetEvictable f true).2 = Except.ok () :=
      fun _ => hev
    simp only [hz, if_true, this]
    rfl
  · simp only [hz, if_false]
    rfl

end BufferPoolManager

namespace BufferPoolManager

theorem newReadPageGuard_eq {s : BufferPoolManager} {f : Int} (h0 : 0 ≤ f)
    (h1 : f < (s.frames_.length : Int))
    (hev : (s.replacer_.SetEvictable f false).2 = Except.ok ()) (p : Int)
    (hw : (s.frameAt f).writer_ = false) :
    s.newReadPageGuard p f = Except.ok (⟨p, f, true⟩,
      { s with
        frames_ := s.frames_.set f.toNat
          { s.frameAt f with
            pin_count_ := addSizeT (s.frameAt f).pin_count_ 1,
            readers_ := (s.frameAt f).readers_ + 1 }
        replacer_ := (s.replacer_.SetEvictable f false).1 }) := by
  have hw' : (frameOf s.frames_ f).writer_ = false := hw
  unfold newReadPageGuard
  simp only [bind, Except.bind, pin_eq h0 h1 hev]
  rw [frame_eq h0]; swap
  · simpa using h1
  simp only [frameAt, frameOf_set h0 h1, if_true, FrameHeader.lock_shared, hw',
    Bool.false_eq_true, if_false, pure, Except.pure]
  rw [setFrame_eq h0]; swap
  · simpa using h1
  simp only [withFrame, List.set_set]

theorem newReadPageGuard_throws {s : BufferPoolManager} {f : Int} (h0 : 0 ≤ f)
    (h1 : f < (s.frames_.length : Int))
    (hev : (s.replacer_.SetEvictable f false).2 = Except.ok ()) (p : Int)
    (hw : (s.frameAt f).writer_ = true) :
    s.newReadPageGuard p f = Except.error Err.system_error := by
  have hw' : (frameOf s.frames_ f).writer_ = true := hw
  unfold newReadPageGuard
  simp only [bind, Except.bind, pin_eq h0 h1 hev]
  rw [frame_eq h0]; swap
  · simpa using h1
  simp only [frameAt, frameOf_set h0 h1, if_true, FrameHeader.lock_shared, hw']

theorem newWritePageGuard_eq {s : BufferPoolManager} {f : Int} (h0 : 0 ≤ f)
    (h1 : f < (s.frames_.length : Int))
    (hev : (s.replacer_.SetEvictable f false).2 = Except.ok ()) (p : Int)
    (hw : (s.frameAt f).writer_ = false) (hr : (s.frameAt f).readers_ = 0) :
    s.newWritePageGuard p f = Except.ok (⟨p, f, true⟩,
      { s with
        frames_ := s.frames_.set f.toNat
          { s.frameAt f with
            pin_count_ := addSizeT (s.frameAt f).pin_count_ 1, writer_ := true }
        replacer_ := (s.replacer_.SetEvictable f false).1 }) := by
  have hw' : (frameOf s.frames_ f).writer_ = false := hw
  have hr' : (frameOf s.frames_ f).readers_ = 0 := hr
  unfold newWritePageGuard
  simp only [bind, Except.bind, pin_eq h0 h1 hev]
  rw [frame_eq h0]; swap
  · simpa using h1
  simp only [frameAt, frameOf_set h0 h1, if_true, FrameHeader.lock, hw', hr',
    Bool.false_eq_true, ne_eq, not_true_eq_false, if_false, pure, Except.pure]
  rw [setFrame_eq h0]; swap
  · simpa using h1
  simp only [withFrame, List.set_set]

theorem newWritePageGuard_throws {s : BufferPoolManager} {f : Int} (h0 : 0 ≤ f)
    (h1 : f < (s.frames_.length : Int))
    (hev : (s.replacer_.SetEvictable f false).2 = Except.ok ()) (p : Int)
    (hw : (s.frameAt f).writer_ = true) :
    s.newWritePageGuard p f = Except.error Err.system_error := by
  have hw' : (frameOf s.frames_ f).writer_ = true := hw
  unfold newWritePageGuard
  simp only [bind, Except.bind, pin_eq h0 h1 hev]
  rw [frame_eq h0]; swap
  · simpa using h1
  simp only [frameAt, frameOf_set h0 h1, if_true, FrameHeader.lock, hw']

theorem newWritePageGuard_deadlock {s : BufferPoolManager} {f : Int} (h0 : 0 ≤ f)
    (h1 : f < (s.frames_.length : Int))
    (hev : (s.replacer_.SetEvictable f false).2 = Except.ok ()) (p : Int)
    (hw : (s.frameAt f).writer_ = false) (hr : (s.frameAt f).readers_ ≠ 0) :
    s.newWritePageGuard p f = Except.error Err.deadlock := by
  have hw' : (frameOf s.frames_ f).writer_ = false := hw
  have hr' : (frameOf s.frames_ f).readers_ ≠ 0 := hr
  unfold newWritePageGuard
  simp only [bind, Except.bind, pin_eq h0 h1 hev]
  rw [frame_eq h0]; swap
  · simpa using h1
  simp only [frameAt, frameOf_set h0 h1, if_true, FrameHeader.lock, hw', hr',
    Bool.false_eq_true, ne_eq, not_false_eq_true, if_false]

end BufferPoolManager

/-- A change of the evictable flag of an alive frame keeps the invariant of the page table. -/
theorem TableInv.table_flag {N : Nat} {table : IntMap Int} {free : List Int} {r : ArcReplacer}
    (h : TableInv N table free r) {r' : ArcReplacer} {f p : Int} {e b : Bool}
    (hf : r.view f = some (p, e)) (hw : r'.WellFormed) (hg : r'.GhostWellFormed)
    (hsz : r'.replacer_size_ = r.replacer_size_)
    (hv : ∀ g, r'.view g = if g = f then some (p, b) else r.view g) : TableInv N table free r' where
  bound := h.bound
  replacer_size := hsz.trans h.replacer_size
  replacer_wf := hw
  replacer_ghost := hg
  table_keys := h.table_keys
  partition := h.partition
  alive_table := by
    intro g p' e' hg'
    rw [hv] at hg'
    by_cases hgf : g = f
    · rw [if_pos hgf] at hg'
      simp only [Option.some.injEq, Prod.mk.injEq] at hg'
      rw [hgf, ← hg'.1]
      exact h.alive_table f p e hf
    · rw [if_neg hgf] at hg'
      exact h.alive_table g p' e' hg'
  table_alive := by
    intro p' g hg'
    obtain ⟨e', he'⟩ := h.table_alive p' g hg'
    by_cases hgf : g = f
    · rw [hgf] at he'
      rw [hf] at he'
      simp only [Option.some.injEq, Prod.mk.injEq] at he'
      exact ⟨b, by rw [hv, if_pos hgf, he'.1]⟩
    · exact ⟨e', by rw [hv, if_neg hgf]; exact he'⟩

namespace BufferPoolManager

theorem content_congr {s s' : BufferPoolManager} (ht : s'.page_table_ = s.page_table_)
    (hd : ∀ p, s'.disk_.read p = s.disk_.read p)
    (hf : ∀ f, (s'.frameAt f).data_ = (s.frameAt f).data_) (q : Int) :
    s'.content q = s.content q := by
  unfold content
  rw [ht]
  cases s.page_table_.find q with
  | none => exact hd q
  | some f => exact hf f

/-- The constructor of a read guard on the frame being acquired: it throws while a write guard
is held on the frame; otherwise the new guard joins those the caller holds. -/
theorem acquire_read_inv {N : Nat} {s : BufferPoolManager} {G : List Guard} {f p : Int}
    (hinv : PoolInv N (some f) s G) (hp : s.page_table_.find p = some f)
    (hlen : G.length + 1 < SIZE_T_MODULUS) :
    ((s.frameAt f).writer_ = true ∧
      s.newReadPageGuard p f = Except.error Err.system_error) ∨
    ((s.frameAt f).writer_ = false ∧
      ∃ s', s.newReadPageGuard p f = Except.ok (⟨p, f, true⟩, s') ∧
        PoolInv N none s' (Guard.read ⟨p, f, true⟩ :: G) ∧
        (∀ q, s'.content q = s.content q) ∧ s'.next_page_id_ = s.next_page_id_) := by
  have ht := hinv.table
  have hpin := hinv.pin
  have hfr := ht.value_in_range hp
  have h0 := hfr.1
  have h1 : f < (s.frames_.length : Int) := by rw [hinv.frames_length]; exact hfr.2
  obtain ⟨e, hvf⟩ := ht.table_alive p f hp
  obtain ⟨hok, hw', hg', hsz', hv'⟩ :=
    ArcReplacer.setEvictable_view ht.replacer_wf ht.replacer_ghost hvf false
  have hpc : addSizeT (s.frameAt f).pin_count_ 1 = (s.frameAt f).pin_count_ + 1 := by
    apply addSizeT_one
    have := hpin.pins f h0 hfr.2
    simp only at this
    rw [this]
    have := List.countP_le_length (fun g : Guard => decide (g.frame_ = f)) (l := G)
    omega
  cases hw : (s.frameAt f).writer_ with
  | true => exact Or.inl ⟨rfl, newReadPageGuard_throws h0 h1 hok p hw⟩
  | false =>
    refine Or.inr ⟨rfl, _, newReadPageGuard_eq h0 h1 hok p hw, ?_, ?_, rfl⟩
    · exact
        { frames_length := by
            show (s.frames_.set f.toNat _).length = N
            rw [List.length_set]
            exact hinv.frames_length
          table := ht.table_flag hvf hw' hg' hsz' hv'
          pin := hpin.pin_pinned (g := Guard.read ⟨p, f, true⟩) hp hv'
            (by
              show (frameAt _ f).pin_count_ = _
              rw [frameAt_self rfl h0 h1]
              exact hpc)
            (by
              intro g hg
              show (frameAt _ g).pin_count_ = _
              rw [frameAt_other rfl h0 h1 hg])
            rfl rfl rfl hlen
          latch := hinv.latch.latch_read (g := Guard.read ⟨p, f, true⟩) h0 hfr.2 hw
            (by
              show (frameAt _ f).readers_ = _
              rw [frameAt_self rfl h0 h1])
            (by
              intro g hg
              show (frameAt _ g).readers_ = _
              rw [frameAt_other rfl h0 h1 hg])
            rfl rfl |>.latch_congr (fun _ => rfl)
              (by
                intro g
                show (frameAt _ g).writer_ = _
                by_cases hg : g = f
                · rw [hg, frameAt_self rfl h0 h1]
                · rw [frameAt_other rfl h0 h1 hg])
          data := hinv.data.data_congr (fun _ => rfl)
            (by
              intro g
              show (frameAt _ g).is_dirty_ = _
              by_cases hg : g = f
              · rw [hg, frameAt_self rfl h0 h1]
              · rw [frameAt_other rfl h0 h1 hg])
            (by
              intro g
              show (frameAt _ g).data_ = _
              by_cases hg : g = f
              · rw [hg, frameAt_self rfl h0 h1]
              · rw [frameAt_other rfl h0 h1 hg]) }
    · refine fun q => content_congr ?_ ?_ ?_ q
      · rfl
      · exact fun _ => rfl
      intro g
      by_cases hg : g = f
      · rw [hg, frameAt_self rfl h0 h1]
      · rw [frameAt_other rfl h0 h1 hg]

/-- The constructor of a write guard on the frame being acquired: it throws while a write guard
is held on the frame and never returns while only read guards are; otherwise the new guard joins
those the caller holds. -/
theorem acquire_write_inv {N : Nat} {s : BufferPoolManager} {G : List Guard} {f p : Int}
    (hinv : PoolInv N (some f) s G) (hp : s.page_table_.find p = some f)
    (hlen : G.length + 1 < SIZE_T_MODULUS) :
    ((s.frameAt f).writer_ = true ∧
      s.newWritePageGuard p f = Except.error Err.system_error) ∨
    (((s.frameAt f).writer_ = false ∧ (s.frameAt f).readers_ ≠ 0) ∧
      s.newWritePageGuard p f = Except.error Err.deadlock) ∨
    (((s.frameAt f).writer_ = false ∧ (s.frameAt f).readers_ = 0) ∧
      ∃ s', s.newWritePageGuard p f = Except.ok (⟨p, f, true⟩, s') ∧
        PoolInv N none s' (Guard.write ⟨p, f, true⟩ :: G) ∧
        (∀ q, s'.content q = s.content q) ∧ s'.next_page_id_ = s.next_page_id_) := by
  have ht := hinv.table
  have hpin := hinv.pin
  have hfr := ht.value_in_range hp
  have h0 := hfr.1
  have h1 : f < (s.frames_.length : Int) := by rw [hinv.frames_length]; exact hfr.2
  obtain ⟨e, hvf⟩ := ht.table_alive p f hp
  obtain ⟨hok, hw', hg', hsz', hv'⟩ :=
    ArcReplacer.setEvictable_view ht.replacer_wf ht.replacer_ghost hvf false
  have hpc : addSizeT (s.frameAt f).pin_count_ 1 = (s.frameAt f).pin_count_ + 1 := by
    apply addSizeT_one
    have := hpin.pins f h0 hfr.2
    simp only at this
    rw [this]
    have := List.countP_le_length (fun g : Guard => decide (g.frame_ = f)) (l := G)
    omega
  by_cases hwt : (s.frameAt f).writer_ = true
  · exact Or.inl ⟨hwt, newWritePageGuard_throws h0 h1 hok p hwt⟩
  have hw : (s.frameAt f).writer_ = false := by
    cases h : (s.frameAt f).writer_ with
    | false => rfl
    | true => exact absurd h hwt
  by_cases hr : (s.frameAt f).readers_ = 0
  swap
  · exact Or.inr (Or.inl ⟨⟨hw, hr⟩, newWritePageGuard_deadlock h0 h1 hok p hw hr⟩)
  · refine Or.inr (Or.inr ⟨⟨hw, hr⟩, _, newWritePageGuard_eq h0 h1 hok p hw hr, ?_, ?_, rfl⟩)
    · exact
        { frames_length := by
            show (s.frames_.set f.toNat _).length = N
            rw [List.length_set]
            exact hinv.frames_length
          table := ht.table_flag hvf hw' hg' hsz' hv'
          pin := hpin.pin_pinned (g := Guard.write ⟨p, f, true⟩) hp hv'
            (by
              show (frameAt _ f).pin_count_ = _
              rw [frameAt_self rfl h0 h1]
              exact hpc)
            (by
              intro g hg
              show (frameAt _ g).pin_count_ = _
              rw [frameAt_other rfl h0 h1 hg])
            rfl rfl rfl hlen
          latch := hinv.latch.latch_write (g := Guard.write ⟨p, f, true⟩) h0 hfr.2 hr hw
            (by
              show (frameAt _ f).writer_ = _
              rw [frameAt_self rfl h0 h1])
            (by
              intro g hg
              show (frameAt _ g).writer_ = _
              rw [frameAt_other rfl h0 h1 hg])
            rfl rfl |>.latch_congr
              (by
                intro g
                show (frameAt _ g).readers_ = _
                by_cases hg : g = f
                · rw [hg, frameAt_self rfl h0 h1]
                · rw [frameAt_other rfl h0 h1 hg])
              (fun _ => rfl)
          data := hinv.data.data_congr (fun _ => rfl)
            (by
              intro g
              show (frameAt _ g).is_dirty_ = _
              by_cases hg : g = f
              · rw [hg, frameAt_self rfl h0 h1]
              · rw [frameAt_other rfl h0 h1 hg])
            (by
              intro g
              show (frameAt _ g).data_ = _
              by_cases hg : g = f
              · rw [hg, frameAt_self rfl h0 h1]
              · rw [frameAt_other rfl h0 h1 hg]) }
    · refine fun q => content_congr ?_ ?_ ?_ q
      · rfl
      · exact fun _ => rfl
      intro g
      by_cases hg : g = f
      · rw [hg, frameAt_self rfl h0 h1]
      · rw [frameAt_other rfl h0 h1 hg]

end BufferPoolManager

/-! ## ReadPage and WritePage -/

namespace BufferPoolManager

/-- No frame is to be had for a page out of range, or for a page that is not resident when the
free list is empty and no alive frame is evictable: the block under the latch leaves the buffer
pool as it is. -/
theorem bringIn_none {N : Nat} {s : BufferPoolManager} {G : List Guard}
    (hinv : PoolInv N none s G) {p : Int}
    (hc : p < 0 ∨ p ≥ s.next_page_id_ ∨ (s.page_table_.find p = none ∧ s.free_frames_ = [] ∧
      ∀ g q, s.replacer_.view g ≠ some (q, true))) :
    s.bringIn p = Except.ok (none, s) := by
  by_cases hr : p < 0 ∨ p ≥ s.next_page_id_
  · exact bringIn_out_of_range hr
  · have hc3 : s.page_table_.find p = none ∧ s.free_frames_ = [] ∧
        ∀ g q, s.replacer_.view g ≠ some (q, true) := by
      rcases hc with h | h | h
      · exact absurd (Or.inl h) hr
      · exact absurd (Or.inr h) hr
      · exact h
    rcases ArcReplacer.evict_view hinv.table.replacer_wf hinv.table.replacer_ghost with
      ⟨hev, _⟩ | ⟨f, r', q, _, hv, _⟩
    · exact bringIn_evict_none hr hc3.1 hc3.2.1 hev
    · exact absurd hv (hc3.2.2 f q)

/-- A frame is had for every other page. -/
theorem bringIn_some {N : Nat} {s : BufferPoolManager} {G : List Guard}
    (hinv : PoolInv N none s G) {p : Int}
    (hc : ¬ (p < 0 ∨ p ≥ s.next_page_id_ ∨ (s.page_table_.find p = none ∧ s.free_frames_ = [] ∧
      ∀ g q, s.replacer_.view g ≠ some (q, true)))) :
    ∃ f s1 r', s.bringIn p = Except.ok (some f, s1) ∧
      s1.replacer_.RecordAccess f p = Except.ok r' ∧
      PoolInv N (some f) { s1 with replacer_ := r' } G ∧
      s1.page_table_.find p = some f ∧
      (∀ q, ({ s1 with replacer_ := r' } : BufferPoolManager).content q = s.content q) ∧
      s1.next_page_id_ = s.next_page_id_ := by
  have hr : ¬ (p < 0 ∨ p ≥ s.next_page_id_) := by
    intro h
    rcases h with h | h
    · exact hc (Or.inl h)
    · exact hc (Or.inr (Or.inl h))
  rcases fetch_inv hinv hr with ⟨_, h1, h2, h3⟩ | h
  · exact absurd (Or.inr (Or.inr ⟨h1, h2, h3⟩)) hc
  · exact h

/-- The outcomes of `ReadPage`: runtime_error where no frame is to be had, system_error where
the caller holds a write guard on the page, and a valid guard on the page otherwise. -/
theorem ReadPage_cases {N : Nat} {s : BufferPoolManager} {G : List Guard}
    (hinv : PoolInv N none s G) (hlen : G.length + 1 < SIZE_T_MODULUS) (p : Int) :
    ((p < 0 ∨ p ≥ s.next_page_id_ ∨ (s.page_table_.find p = none ∧ s.free_frames_ = [] ∧
        ∀ g q, s.replacer_.view g ≠ some (q, true))) ∧
      s.CheckedReadPage p = Except.ok (none, s) ∧
      s.ReadPage p = Except.error Err.runtime_error) ∨
    (¬ (p < 0 ∨ p ≥ s.next_page_id_ ∨ (s.page_table_.find p = none ∧ s.free_frames_ = [] ∧
        ∀ g q, s.replacer_.view g ≠ some (q, true))) ∧
      (((∃ g ∈ G, g.page_id_ = p ∧ g.isWrite = true) ∧
          s.ReadPage p = Except.error Err.system_error) ∨
        ((∀ g ∈ G, g.page_id_ = p → g.isWrite = false) ∧
          ∃ f s', s.ReadPage p = Except.ok (⟨p, f, true⟩, s') ∧
            PoolInv N none s' (Guard.read ⟨p, f, true⟩ :: G) ∧
            (∀ q, s'.content q = s.content q) ∧ s'.next_page_id_ = s.next_page_id_ ∧
            s'.page_table_.find p = some f))) := by
  by_cases hc : p < 0 ∨ p ≥ s.next_page_id_ ∨ (s.page_table_.find p = none ∧
      s.free_frames_ = [] ∧ ∀ g q, s.replacer_.view g ≠ some (q, true))
  · have hb := bringIn_none hinv hc
    refine Or.inl ⟨hc, ?_, ?_⟩
    · unfold CheckedReadPage
      simp only [bind, Except.bind, hb]
      rfl
    · unfold ReadPage CheckedReadPage
      simp only [bind, Except.bind, hb]
      rfl
  · obtain ⟨f, s1, r', hb, hra, hinv2, hp, hcont, hnext⟩ := bringIn_some hinv hc
    refine Or.inr ⟨hc, ?_⟩
    have hfr := hinv2.table.value_in_range hp
    have h1 : f < (s1.frames_.length : Int) := by
      have := hinv2.frames_length
      simp only at this
      rw [this]
      exact hfr.2
    have hpre : ∀ (res : Except Err (ReadPageGuard × BufferPoolManager)),
        ({ s1 with replacer_ := r' } : BufferPoolManager).newReadPageGuard p f = res →
        s.ReadPage p = res := by
      intro res hres
      unfold ReadPage CheckedReadPage
      simp only [bind, Except.bind, hb, frame_eq hfr.1 h1, hra, hres]
      cases res with
      | error e => rfl
      | ok v => rfl
    rcases acquire_read_inv hinv2 hp hlen with ⟨hw, hacq⟩ | ⟨hw, s', hacq, hinv3, hcont3, hnext3⟩
    · left
      refine ⟨?_, hpre _ hacq⟩
      obtain ⟨g, hg, hgf, hgw⟩ := (hinv2.latch.writer_iff f hfr.1 hfr.2).mp hw
      refine ⟨g, hg, ?_, hgw⟩
      have := (hinv2.pin.guards_valid g hg).2
      rw [hgf] at this
      exact hinv2.table.page_unique this hp
    · right
      refine ⟨?_, f, s', hpre _ hacq, hinv3, ?_, hnext3.trans hnext, ?_⟩
      · intro g hg hgp
        cases hgw : g.isWrite with
        | false => rfl
        | true =>
          have hv := (hinv2.pin.guards_valid g hg).2
          rw [hgp] at hv
          have hv2 : s1.page_table_.find p = some g.frame_ := hv
          rw [hp] at hv2
          simp only [Option.some.injEq] at hv2
          have : (s1.frameAt f).writer_ = true :=
            (hinv2.latch.writer_iff f hfr.1 hfr.2).mpr ⟨g, hg, hv2.symm, hgw⟩
          exact absurd (this.symm.trans hw) (by decide)
      · intro q
        rw [hcont3 q, hcont q]
      · exact (hinv3.pin.guards_valid _ (List.mem_cons_self _ _)).2

/-- The outcomes of `WritePage`: runtime_error where no frame is to be had, system_error where
the caller holds a write guard on the page, no return where the caller holds read guards on the
page, and a valid guard on the page otherwise. -/
theorem WritePage_cases {N : Nat} {s : BufferPoolManager} {G : List Guard}
    (hinv : PoolInv N none s G) (hlen : G.length + 1 < SIZE_T_MODULUS) (p : Int) :
    ((p < 0 ∨ p ≥ s.next_page_id_ ∨ (s.page_table_.find p = none ∧ s.free_frames_ = [] ∧
        ∀ g q, s.replacer_.view g ≠ some (q, true))) ∧
      s.CheckedWritePage p = Except.ok (none, s) ∧
      s.WritePage p = Except.error Err.runtime_error) ∨
    (¬ (p < 0 ∨ p ≥ s.next_page_id_ ∨ (s.page_table_.find p = none ∧ s.free_frames_ = [] ∧
        ∀ g q, s.replacer_.view g ≠ some (q, true))) ∧
      (((∃ g ∈ G, g.page_id_ = p ∧ g.isWrite = true) ∧
          s.WritePage p = Except.error Err.system_error) ∨
        (((∃ g ∈ G, g.page_id_ = p) ∧ ∀ g ∈ G, g.page_id_ = p → g.isWrite = false) ∧
          s.WritePage p = Except.error Err.deadlock) ∨
        ((∀ g ∈ G, g.page_id_ ≠ p) ∧
          ∃ f s', s.WritePage p = Except.ok (⟨p, f, true⟩, s') ∧
            PoolInv N none s' (Guard.write ⟨p, f, true⟩ :: G) ∧
            (∀ q, s'.content q = s.content q) ∧ s'.next_page_id_ = s.next_page_id_ ∧
            s'.page_table_.find p = some f))) := by
  by_cases hc : p < 0 ∨ p ≥ s.next_page_id_ ∨ (s.page_table_.find p = none ∧
      s.free_frames_ = [] ∧ ∀ g q, s.replacer_.view g ≠ some (q, true))
  · have hb := bringIn_none hinv hc
    refine Or.inl ⟨hc, ?_, ?_⟩
    · unfold CheckedWritePage
      simp only [bind, Except.bind, hb]
      rfl
    · unfold WritePage CheckedWritePage
      simp only [bind, Except.bind, hb]
      rfl
  · obtain ⟨f, s1, r', hb, hra, hinv2, hp, hcont, hnext⟩ := bringIn_some hinv hc
    refine Or.inr ⟨hc, ?_⟩
    have hfr := hinv2.table.value_in_range hp
    have h1 : f < (s1.frames_.length : Int) := by
      have := hinv2.frames_length
      simp only at this
      rw [this]
      exact hfr.2
    have hpre : ∀ (res : Except Err (WritePageGuard × BufferPoolManager)),
        ({ s1 with replacer_ := r' } : BufferPoolManager).newWritePageGuard p f = res →
        s.WritePage p = res := by
      intro res hres
      unfold WritePage CheckedWritePage
      simp only [bind, Except.bind, hb, frame_eq hfr.1 h1, hra, hres]
      cases res with
      | error e => rfl
      | ok v => rfl
    have hframe : ∀ g ∈ G, g.page_id_ = p → g.frame_ = f := by
      intro g hg hgp
      have hv := (hinv2.pin.guards_valid g hg).2
      rw [hgp] at hv
      have hv2 : s1.page_table_.find p = some g.frame_ := hv
      rw [hp] at hv2
      simp only [Option.some.injEq] at hv2
      exact hv2.symm
    rcases acquire_write_inv hinv2 hp hlen with
      ⟨hw, hacq⟩ | ⟨⟨hw, hrd⟩, hacq⟩ | ⟨⟨hw, hrd⟩, s', hacq, hinv3, hcont3, hnext3⟩
    · left
      refine ⟨?_, hpre _ hacq⟩
      obtain ⟨g, hg, hgf, hgw⟩ := (hinv2.latch.writer_iff f hfr.1 hfr.2).mp hw
      refine ⟨g, hg, ?_, hgw⟩
      have := (hinv2.pin.guards_valid g hg).2
      rw [hgf] at this
      exact hinv2.table.page_unique this hp
    · right
      left
      refine ⟨⟨?_, ?_⟩, hpre _ hacq⟩
      · have hre := hinv2.latch.readers_eq f hfr.1 hfr.2
        simp only at hre
        rw [hre] at hrd
        obtain ⟨g, hg, hgp⟩ := List.countP_pos_iff.mp (Nat.pos_of_ne_zero hrd)
        simp only [Bool.and_eq_true, decide_eq_true_eq] at hgp
        refine ⟨g, hg, ?_⟩
        have := (hinv2.pin.guards_valid g hg).2
        rw [hgp.1] at this
        exact hinv2.table.page_unique this hp
      · intro g hg hgp
        cases hgw : g.isWrite with
        | false => rfl
        | true =>
          have : (s1.frameAt f).writer_ = true :=
            (hinv2.latch.writer_iff f hfr.1 hfr.2).mpr ⟨g, hg, hframe g hg hgp, hgw⟩
          exact absurd (this.symm.trans hw) (by decide)
    · right
      right
      refine ⟨?_, f, s', hpre _ hacq, hinv3, ?_, hnext3.trans hnext, ?_⟩
      · intro g hg hgp
        have hz := hinv2.latch.no_guard_of_free hfr.1 hfr.2 hrd hw
        rw [List.countP_eq_zero] at hz
        have := hz g hg
        simp only [decide_eq_true_eq] at this
        exact this (hframe g hg hgp)
      · intro q
        rw [hcont3 q, hcont q]
      · exact (hinv3.pin.guards_valid _ (List.mem_cons_self _ _)).2

end BufferPoolManager

/-! ## Drop -/

namespace BufferPoolManager

/-- The buffer pool after the latch of the frame of a guard is released and its pin given back:
the invariant holds for the other guards. -/
theorem release_core {N : Nat} {s s' : BufferPoolManager} {G : List Guard}
    (hinv : PoolInv N none s G) {g : Guard} (hg : g ∈ G)
    (hrd : (s'.frameAt g.frame_).readers_ =
      if g.isWrite then (s.frameAt g.frame_).readers_ else (s.frameAt g.frame_).readers_ - 1)
    (hwr : (s'.frameAt g.frame_).writer_ =
      if g.isWrite then false else (s.frameAt g.frame_).writer_)
    (hpc : (s'.frameAt g.frame_).pin_count_ = (s.frameAt g.frame_).pin_count_ - 1)
    (hdt : (s'.frameAt g.frame_).is_dirty_ = (s.frameAt g.frame_).is_dirty_)
    (hda : (s'.frameAt g.frame_).data_ = (s.frameAt g.frame_).data_)
    (hoth : ∀ f, f ≠ g.frame_ → s'.frameAt f = s.frameAt f)
    (hlen : s'.frames_.length = s.frames_.length)
    (htab : s'.page_table_ = s.page_table_) (hfree : s'.free_frames_ = s.free_frames_)
    (hdisk : s'.disk_ = s.disk_)
    (hw : s'.replacer_.WellFormed) (hgh : s'.replacer_.GhostWellFormed)
    (hsz : s'.replacer_.replacer_size_ = s.replacer_.replacer_size_)
    (hv0 : (s.frameAt g.frame_).pin_count_ - 1 = 0 →
      ∀ f, s'.replacer_.view f =
        if f = g.frame_ then some (g.page_id_, true) else s.replacer_.view f)
    (hv1 : (s.frameAt g.frame_).pin_count_ - 1 ≠ 0 →
      ∀ f, s'.replacer_.view f = s.replacer_.view f) :
    PoolInv N none s' (G.erase g) ∧ ∀ q, s'.content q = s.content q := by
  have ht := hinv.table
  have hv := hinv.pin.guards_valid g hg
  obtain ⟨⟨h0, hN⟩, hpin0⟩ := hinv.pin.guard_frame ht hg
  obtain ⟨e, hvf⟩ := ht.table_alive _ _ hv.2
  have hfield : ∀ {α : Type} (π : FrameHeader → α),
      π (s'.frameAt g.frame_) = π (s.frameAt g.frame_) →
      ∀ f, π (s'.frameAt f) = π (s.frameAt f) := by
    intro α π h f
    by_cases hf : f = g.frame_
    · rw [hf, h]
    · rw [hoth f hf]
  refine ⟨?_, ?_⟩
  · exact
      { frames_length := hlen.trans hinv.frames_length
        table := by
          rw [htab, hfree]
          by_cases hz : (s.frameAt g.frame_).pin_count_ - 1 = 0
          · exact ht.table_flag hvf hw hgh hsz (hv0 hz)
          · exact ht.table_of_view hw hgh hsz (hv1 hz)
        pin := by
          rw [htab]
          exact hinv.pin.pin_unpinned ht hg hpc
            (fun f hf => by
              show (s'.frameAt f).pin_count_ = _
              rw [hoth f hf])
            hv0 hv1
        latch := hinv.latch.latch_drop hg h0 hN hrd
          (fun f hf => by
            show (s'.frameAt f).readers_ = _
            rw [hoth f hf])
          hwr
          (fun f hf => by
            show (s'.frameAt f).writer_ = _
            rw [hoth f hf])
        data := by
          rw [htab]
          exact hinv.data.data_congr (fun p => by rw [hdisk])
            (hfield (fun fr => fr.is_dirty_) hdt) (hfield (fun fr => fr.data_) hda) }
  · exact content_congr htab (fun p => by rw [hdisk]) (hfield (fun fr => fr.data_) hda)

/-- The block of `Drop` after the test of `is_valid_`, for a guard the caller holds: `fr` is the
frame with its latch released. -/
theorem release_inv {N : Nat} {s : BufferPoolManager} {G : List Guard}
    (hinv : PoolInv N none s G) {g : Guard} (hg : g ∈ G) (fr : FrameHeader)
    (hrd : fr.readers_ =
      if g.isWrite then (s.frameAt g.frame_).readers_ else (s.frameAt g.frame_).readers_ - 1)
    (hwr : fr.writer_ = if g.isWrite then false else (s.frameAt g.frame_).writer_)
    (hpc : fr.pin_count_ = (s.frameAt g.frame_).pin_count_)
    (hdt : fr.is_dirty_ = (s.frameAt g.frame_).is_dirty_)
    (hda : fr.data_ = (s.frameAt g.frame_).data_) :
    ∃ s', (s.withFrame g.frame_ fr).unpin g.frame_ = Except.ok s' ∧
      PoolInv N none s' (G.erase g) ∧ (∀ q, s'.content q = s.content q) ∧
      s'.next_page_id_ = s.next_page_id_ ∧ s'.page_table_ = s.page_table_ ∧
      s'.free_frames_ = s.free_frames_ ∧ s'.disk_ = s.disk_ ∧
      (s.frameAt g.frame_).pin_count_ ≠ 0 ∧
      (s'.frameAt g.frame_).pin_count_ = (s.frameAt g.frame_).pin_count_ - 1 ∧
      (∀ f, f ≠ g.frame_ → s'.frameAt f = s.frameAt f) ∧
      ((s.frameAt g.frame_).pin_count_ - 1 = 0 →
        ∀ f, s'.replacer_.view f =
          if f = g.frame_ then some (g.page_id_, true) else s.replacer_.view f) ∧
      ((s.frameAt g.frame_).pin_count_ - 1 ≠ 0 → s'.replacer_ = s.replacer_) := by
  have ht := hinv.table
  have hv := hinv.pin.guards_valid g hg
  obtain ⟨⟨h0, hN⟩, hpin0⟩ := hinv.pin.guard_frame ht hg
  have h1 : g.frame_ < (s.frames_.length : Int) := by rw [hinv.frames_length]; exact hN
  have h1' : g.frame_ < ((s.withFrame g.frame_ fr).frames_.length : Int) := by
    show g.frame_ < ((s.frames_.set _ _).length : Int)
    rw [List.length_set]
    exact h1
  obtain ⟨e, hvf⟩ := ht.table_alive _ _ hv.2
  obtain ⟨hok, hw', hg', hsz', hv'⟩ :=
    ArcReplacer.setEvictable_view ht.replacer_wf ht.replacer_ghost hvf true
  have hs1 : (s.withFrame g.frame_ fr).frameAt g.frame_ = fr := frameAt_self rfl h0 h1
  have hlt : (s.frameAt g.frame_).pin_count_ < SIZE_T_MODULUS := by
    have := hinv.pin.pins _ h0 hN
    simp only at this
    rw [this]
    exact lt_of_le_of_lt (List.countP_le_length _) hinv.pin.guards_bound
  have hsub : subSizeT fr.pin_count_ 1 = (s.frameAt g.frame_).pin_count_ - 1 := by
    rw [hpc]
    exact subSizeT_one (Nat.pos_of_ne_zero hpin0) hlt
  have hun := unpin_eq (s := s.withFrame g.frame_ fr) h0 h1' hok
  rw [hs1, hsub] at hun
  have hself : ∀ s' : BufferPoolManager,
      s'.frames_ = (s.withFrame g.frame_ fr).frames_.set g.frame_.toNat
        { fr with pin_count_ := (s.frameAt g.frame_).pin_count_ - 1 } →
      s'.frameAt g.frame_ = { fr with pin_count_ := (s.frameAt g.frame_).pin_count_ - 1 } :=
    fun s' hs => frameAt_self hs h0 h1'
  have hother : ∀ s' : BufferPoolManager,
      s'.frames_ = (s.withFrame g.frame_ fr).frames_.set g.frame_.toNat
        { fr with pin_count_ := (s.frameAt g.frame_).pin_count_ - 1 } →
      ∀ f, f ≠ g.frame_ → s'.frameAt f = s.frameAt f := by
    intro s' hs f hf
    rw [frameAt_other hs h0 h1' hf]
    exact frameAt_other rfl h0 h1 hf
  have hlength : ∀ s' : BufferPoolManager,
      s'.frames_ = (s.withFrame g.frame_ fr).frames_.set g.frame_.toNat
        { fr with pin_count_ := (s.frameAt g.frame_).pin_count_ - 1 } →
      s'.frames_.length = s.frames_.length := by
    intro s' hs
    rw [hs, List.length_set]
    show (s.frames_.set _ _).length = _
    rw [List.length_set]
  by_cases hz : (s.frameAt g.frame_).pin_count_ - 1 = 0
  · rw [if_pos hz] at hun
    refine ⟨_, hun, ?_⟩
    rw [← and_assoc]
    refine ⟨release_core hinv hg
      (by rw [hself _ rfl]; exact hrd) (by rw [hself _ rfl]; exact hwr)
      (by rw [hself _ rfl]) (by rw [hself _ rfl]; exact hdt) (by rw [hself _ rfl]; exact hda)
      (by exact hother _ rfl) (by exact hlength _ rfl) (by rfl) (by rfl) (by rfl)
      (by exact hw') (by exact hg') (by exact hsz') (by exact fun _ => hv')
      (by exact fun h => absurd hz h),
      rfl, rfl, rfl, rfl, hpin0, ?_, hother _ rfl, fun _ => hv', fun h => absurd hz h⟩
    rw [hself _ rfl]
  · rw [if_neg hz] at hun
    refine ⟨_, hun, ?_⟩
    rw [← and_assoc]
    refine ⟨release_core hinv hg
      (by rw [hself _ rfl]; exact hrd) (by rw [hself _ rfl]; exact hwr)
      (by rw [hself _ rfl]) (by rw [hself _ rfl]; exact hdt) (by rw [hself _ rfl]; exact hda)
      (by exact hother _ rfl) (by exact hlength _ rfl) (by rfl) (by rfl) (by rfl)
      (by exact ht.replacer_wf) (by exact ht.replacer_ghost) (by rfl)
      (by exact fun h => absurd h hz) (by exact fun _ _ => rfl),
      rfl, rfl, rfl, rfl, hpin0, ?_, hother _ rfl, fun h => absurd h hz, fun _ => rfl⟩
    rw [hself _ rfl]

end BufferPoolManager

namespace BufferPoolManager

/-- The outcome of `ReadPageGuard::Drop` on a guard the caller holds. -/
theorem Drop_inv {N : Nat} {s : BufferPoolManager} {G : List Guard}
    (hinv : PoolInv N none s G) {g : ReadPageGuard} (hg : Guard.read g ∈ G) :
    ∃ s', s.Drop g = Except.ok ({ g with is_valid_ := false }, s') ∧
      PoolInv N none s' (G.erase (Guard.read g)) ∧ (∀ q, s'.content q = s.content q) ∧
      s'.next_page_id_ = s.next_page_id_ ∧ s'.page_table_ = s.page_table_ ∧
      s'.free_frames_ = s.free_frames_ ∧ s'.disk_ = s.disk_ ∧
      (s.frameAt g.frame_).pin_count_ ≠ 0 ∧
      (s'.frameAt g.frame_).pin_count_ = (s.frameAt g.frame_).pin_count_ - 1 ∧
      (∀ f, f ≠ g.frame_ → s'.frameAt f = s.frameAt f) ∧
      ((s.frameAt g.frame_).pin_count_ - 1 = 0 →
        ∀ f, s'.replacer_.view f =
          if f = g.frame_ then some (g.page_id_, true) else s.replacer_.view f) ∧
      ((s.frameAt g.frame_).pin_count_ - 1 ≠ 0 → s'.replacer_ = s.replacer_) := by
  have hv := hinv.pin.guards_valid _ hg
  obtain ⟨⟨h0', hN⟩, _⟩ := hinv.pin.guard_frame hinv.table hg
  have h0 : 0 ≤ g.frame_ := h0'
  have h1 : g.frame_ < (s.frames_.length : Int) := by rw [hinv.frames_length]; exact hN
  obtain ⟨s', hun, hrest⟩ := release_inv hinv hg (s.frameAt g.frame_).unlock_shared
    rfl rfl rfl rfl rfl
  refine ⟨s', ?_, hrest⟩
  have hval : g.is_valid_ = true := hv.1
  have hun' : (s.withFrame g.frame_ (s.frameAt g.frame_).unlock_shared).unpin g.frame_ =
      Except.ok s' := hun
  unfold Drop
  simp only [hval, if_true, bind, Except.bind, frame_eq h0 h1, setFrame_eq h0 h1, hun']
  rfl

/-- The outcome of `WritePageGuard::Drop` on a guard the caller holds. -/
theorem DropWrite_inv {N : Nat} {s : BufferPoolManager} {G : List Guard}
    (hinv : PoolInv N none s G) {g : WritePageGuard} (hg : Guard.write g ∈ G) :
    ∃ s', s.DropWrite g = Except.ok ({ g with is_valid_ := false }, s') ∧
      PoolInv N none s' (G.erase (Guard.write g)) ∧ (∀ q, s'.content q = s.content q) ∧
      s'.next_page_id_ = s.next_page_id_ ∧ s'.page_table_ = s.page_table_ ∧
      s'.free_frames_ = s.free_frames_ ∧ s'.disk_ = s.disk_ ∧
      (s.frameAt g.frame_).pin_count_ ≠ 0 ∧
      (s'.frameAt g.frame_).pin_count_ = (s.frameAt g.frame_).pin_count_ - 1 ∧
      (∀ f, f ≠ g.frame_ → s'.frameAt f = s.frameAt f) ∧
      ((s.frameAt g.frame_).pin_count_ - 1 = 0 →
        ∀ f, s'.replacer_.view f =
          if f = g.frame_ then some (g.page_id_, true) else s.replacer_.view f) ∧
      ((s.frameAt g.frame_).pin_count_ - 1 ≠ 0 → s'.replacer_ = s.replacer_) := by
  have hv := hinv.pin.guards_valid _ hg
  obtain ⟨⟨h0', hN⟩, _⟩ := hinv.pin.guard_frame hinv.table hg
  have h0 : 0 ≤ g.frame_ := h0'
  have h1 : g.frame_ < (s.frames_.length : Int) := by rw [hinv.frames_length]; exact hN
  obtain ⟨s', hun, hrest⟩ := release_inv hinv hg (s.frameAt g.frame_).unlock
    rfl rfl rfl rfl rfl
  refine ⟨s', ?_, hrest⟩
  have hval : g.is_valid_ = true := hv.1
  have hun' : (s.withFrame g.frame_ (s.frameAt g.frame_).unlock).unpin g.frame_ =
      Except.ok s' := hun
  unfold DropWrite
  simp only [hval, if_true, bind, Except.bind, frame_eq h0 h1, setFrame_eq h0 h1, hun']
  rfl

/-- A guard that is not valid: `Drop` returns at once. -/
theorem Drop_invalid (s : BufferPoolManager) {g : ReadPageGuard} (h : g.is_valid_ = false) :
    s.Drop g = Except.ok (g, s) := by
  unfold Drop
  rw [h]
  rfl

theorem DropWrite_invalid (s : BufferPoolManager) {g : WritePageGuard}
    (h : g.is_valid_ = false) : s.DropWrite g = Except.ok (g, s) := by
  unfold DropWrite
  rw [h]
  rfl

/-! ## Stores and flushes -/

/-- The dirty flag and the bytes of the frame of a resident page change, and the image of the
page on disk: the invariant holds if a clean frame has its bytes on disk. -/
theorem touch_inv {N : Nat} {x : Option Int} {s : BufferPoolManager} (s' : BufferPoolManager)
    {G : List Guard} (hinv : PoolInv N x s G) {p f : Int} (hp : s.page_table_.find p = some f)
    (hlen : s'.frames_.length = s.frames_.length)
    (htab : s'.page_table_ = s.page_table_) (hfree : s'.free_frames_ = s.free_frames_)
    (hrep : s'.replacer_ = s.replacer_)
    (hoth : ∀ g, g ≠ f → s'.frameAt g = s.frameAt g)
    (hrd : (s'.frameAt f).readers_ = (s.frameAt f).readers_)
    (hwr : (s'.frameAt f).writer_ = (s.frameAt f).writer_)
    (hpc : (s'.frameAt f).pin_count_ = (s.frameAt f).pin_count_)
    (hdisk : ∀ q, q ≠ p → s'.disk_.read q = s.disk_.read q)
    (hclean : (s'.frameAt f).is_dirty_ = false → s'.disk_.read p = (s'.frameAt f).data_) :
    PoolInv N x s' G ∧ (∀ q, q ≠ p → s'.content q = s.content q) ∧
      s'.content p = (s'.frameAt f).data_ := by
  have hfield : ∀ {α : Type} (π : FrameHeader → α),
      π (s'.frameAt f) = π (s.frameAt f) → ∀ g, π (s'.frameAt g) = π (s.frameAt g) := by
    intro α π h g
    by_cases hg : g = f
    · rw [hg, h]
    · rw [hoth g hg]
  refine ⟨?_, ?_, ?_⟩
  · exact
      { frames_length := hlen.trans hinv.frames_length
        table := by
          rw [htab, hfree, hrep]
          exact hinv.table
        pin := by
          rw [htab, hrep]
          exact hinv.pin.pin_congr (fun _ => rfl) (hfield (fun fr => fr.pin_count_) hpc)
        latch := hinv.latch.latch_congr (hfield (fun fr => fr.readers_) hrd)
          (hfield (fun fr => fr.writer_) hwr)
        data := by
          rw [htab]
          exact hinv.data.data_frame hp (fun q hq => hinv.table.page_unique hq hp) hdisk hclean
            (fun g hg => by
              show (s'.frameAt g).is_dirty_ = _
              rw [hoth g hg])
            (fun g hg => by
              show (s'.frameAt g).data_ = _
              rw [hoth g hg]) }
  · intro q hq
    unfold content
    rw [htab]
    cases hfq : s.page_table_.find q with
    | none => exact hdisk q hq
    | some g =>
      have hg : g ≠ f := by
        intro hg
        rw [hg] at hfq
        exact hq (hinv.table.page_unique hfq hp)
      show (s'.frameAt g).data_ = _
      rw [hoth g hg]
  · unfold content
    rw [htab, hp]

/-- A store through a write guard the caller holds. -/
theorem store_inv {N : Nat} {s : BufferPoolManager} {G : List Guard}
    (hinv : PoolInv N none s G) {g : WritePageGuard} (hg : Guard.write g ∈ G)
    (data : PageData) :
    ∃ s', s.store g data = Except.ok s' ∧ PoolInv N none s' G ∧
      (∀ q, q ≠ g.page_id_ → s'.content q = s.content q) ∧ s'.content g.page_id_ = data ∧
      s'.next_page_id_ = s.next_page_id_ ∧ s'.page_table_ = s.page_table_ ∧
      s'.free_frames_ = s.free_frames_ ∧ s'.replacer_ = s.replacer_ ∧ s'.disk_ = s.disk_ := by
  have hv := hinv.pin.guards_valid _ hg
  have hval : g.is_valid_ = true := hv.1
  have hp : s.page_table_.find g.page_id_ = some g.frame_ := hv.2
  obtain ⟨⟨h0', hN'⟩, _⟩ := hinv.pin.guard_frame hinv.table hg
  have h0 : 0 ≤ g.frame_ := h0'
  have hN : g.frame_ < N := hN'
  have h1 : g.frame_ < (s.frames_.length : Int) := by rw [hinv.frames_length]; exact hN
  obtain ⟨S, hS⟩ : ∃ S : BufferPoolManager, S =
      s.withFrame g.frame_ { s.frameAt g.frame_ with is_dirty_ := true, data_ := data } :=
    ⟨_, rfl⟩
  have heq : s.store g data = Except.ok S := by
    rw [hS]
    unfold store
    simp only [hval, if_true, bind, Except.bind, frame_eq h0 h1, setFrame_eq h0 h1]
  have hfr : S.frames_ = s.frames_.set g.frame_.toNat
      { s.frameAt g.frame_ with is_dirty_ := true, data_ := data } := by rw [hS]; rfl
  have hself := frameAt_self hfr h0 h1
  have htouch := touch_inv S hinv hp
    (by rw [hfr, List.length_set]) (by rw [hS]; rfl) (by rw [hS]; rfl) (by rw [hS]; rfl)
    (fun f hf => frameAt_other hfr h0 h1 hf)
    (by rw [hself]) (by rw [hself]) (by rw [hself]) (fun _ _ => by rw [hS]; rfl)
    (by
      rw [hself]
      intro h
      cases h)
  refine ⟨S, heq, htouch.1, htouch.2.1, ?_, ?_, ?_, ?_, ?_, ?_⟩
  · rw [htouch.2.2, hself]
  all_goals rw [hS]; rfl

/-- The outcome of `Flush` on a guard the caller holds. -/
theorem Flush_inv {N : Nat} {s : BufferPoolManager} {G : List Guard}
    (hinv : PoolInv N none s G) {g : Guard} (hg : g ∈ G) :
    ∃ s', s.Flush g.page_id_ g.frame_ = Except.ok s' ∧ PoolInv N none s' G ∧
      (∀ q, s'.content q = s.content q) ∧
      s'.next_page_id_ = s.next_page_id_ ∧ s'.page_table_ = s.page_table_ ∧
      s'.free_frames_ = s.free_frames_ ∧ s'.replacer_ = s.replacer_ ∧
      (s'.frameAt g.frame_).is_dirty_ = false ∧
      s'.disk_.read g.page_id_ = (s'.frameAt g.frame_).data_ := by
  have hv := hinv.pin.guards_valid _ hg
  have hp : s.page_table_.find g.page_id_ = some g.frame_ := hv.2
  obtain ⟨⟨h0, hN⟩, _⟩ := hinv.pin.guard_frame hinv.table hg
  have h1 : g.frame_ < (s.frames_.length : Int) := by rw [hinv.frames_length]; exact hN
  obtain ⟨S, hS⟩ : ∃ S : BufferPoolManager, S =
      { s with
        disk_ := s.disk_.written g.page_id_ (s.frameAt g.frame_).data_
        frames_ := s.frames_.set g.frame_.toNat
          { s.frameAt g.frame_ with is_dirty_ := false } } :=
    ⟨_, rfl⟩
  have heq : s.Flush g.page_id_ g.frame_ = Except.ok S := by
    rw [hS]
    unfold Flush
    simp only [bind, Except.bind, frame_eq h0 h1, DiskManagerMemory.disk_WritePage_eq]
    rw [setFrame_eq h0 (by exact h1)]
    rfl
  have hfr : S.frames_ = s.frames_.set g.frame_.toNat
      { s.frameAt g.frame_ with is_dirty_ := false } := by rw [hS]
  have hdk : S.disk_ = s.disk_.written g.page_id_ (s.frameAt g.frame_).data_ := by rw [hS]
  have hself := frameAt_self hfr h0 h1
  have hread := DiskManagerMemory.read_written_self s.disk_ g.page_id_ (s.frameAt g.frame_).data_
  have htouch := touch_inv S hinv hp
    (by rw [hfr, List.length_set]) (by rw [hS]) (by rw [hS]) (by rw [hS])
    (fun f hf => frameAt_other hfr h0 h1 hf)
    (by rw [hself]) (by rw [hself]) (by rw [hself])
    (fun q hq => by rw [hdk]; exact DiskManagerMemory.read_written_ne _ _ hq)
    (by
      rw [hself, hdk]
      intro _
      exact hread)
  refine ⟨S, heq, htouch.1, ?_, ?_, ?_, ?_, ?_, ?_, ?_⟩
  · intro q
    by_cases hq : q = g.page_id_
    · rw [hq, htouch.2.2, hself, content_resident hp]
    · exact htouch.2.1 q hq
  · rw [hS]
  · rw [hS]
  · rw [hS]
  · rw [hS]
  · rw [hself]
  · rw [hself, hdk]
    exact hread

end BufferPoolManager

namespace BufferPoolManager

/-- The latch of the frame of a resident page is held exactly when the caller holds a guard on
the page. -/
theorem latch_held_iff {N : Nat} {x : Option Int} {s : BufferPoolManager} {G : List Guard}
    (hinv : PoolInv N x s G) {p f : Int} (hp : s.page_table_.find p = some f) :
    ((s.frameAt f).writer_ = true ∨ (s.frameAt f).readers_ ≠ 0) ↔ ∃ g ∈ G, g.page_id_ = p := by
  have hfr := hinv.table.value_in_range hp
  have hpage : ∀ g ∈ G, g.frame_ = f → g.page_id_ = p := by
    intro g hg hgf
    have := (hinv.pin.guards_valid g hg).2
    rw [hgf] at this
    exact hinv.table.page_unique this hp
  have hframe : ∀ g ∈ G, g.page_id_ = p → g.frame_ = f := by
    intro g hg hgp
    have hv := (hinv.pin.guards_valid g hg).2
    rw [hgp, hp] at hv
    simp only [Option.some.injEq] at hv
    exact hv.symm
  constructor
  · rintro (hw | hr)
    · obtain ⟨g, hg, hgf, _⟩ := (hinv.latch.writer_iff f hfr.1 hfr.2).mp hw
      exact ⟨g, hg, hpage g hg hgf⟩
    · have hre := hinv.latch.readers_eq f hfr.1 hfr.2
      simp only at hre
      rw [hre] at hr
      obtain ⟨g, hg, hgp⟩ := List.countP_pos_iff.mp (Nat.pos_of_ne_zero hr)
      simp only [Bool.and_eq_true, decide_eq_true_eq] at hgp
      exact ⟨g, hg, hpage g hg hgp.1⟩
  · rintro ⟨g, hg, hgp⟩
    have hgf := hframe g hg hgp
    cases hgw : g.isWrite with
    | true => exact Or.inl ((hinv.latch.writer_iff f hfr.1 hfr.2).mpr ⟨g, hg, hgf, hgw⟩)
    | false =>
      right
      have hre := hinv.latch.readers_eq f hfr.1 hfr.2
      simp only at hre
      rw [hre]
      apply Nat.pos_iff_ne_zero.mp
      apply List.countP_pos_iff.mpr
      exact ⟨g, hg, by simp [hgf, hgw]⟩

/-- The outcomes of the block of `FlushPage` under the latch of the frame of a resident page: a
throw or no return where the caller holds a guard on the page; otherwise the frame is clean
afterwards and its bytes are on disk. -/
theorem flushFrame_cases {N : Nat} {s : BufferPoolManager} {G : List Guard}
    (hinv : PoolInv N none s G) {p f : Int} (hp : s.page_table_.find p = some f) :
    ((∃ g ∈ G, g.page_id_ = p) ∧ (s.flushFrame p f = Except.error Err.system_error ∨
      s.flushFrame p f = Except.error Err.deadlock)) ∨
    ((∀ g ∈ G, g.page_id_ ≠ p) ∧
      ∃ s', s.flushFrame p f = Except.ok s' ∧ PoolInv N none s' G ∧
        (∀ q, s'.content q = s.content q) ∧
        s'.next_page_id_ = s.next_page_id_ ∧ s'.page_table_ = s.page_table_ ∧
        s'.free_frames_ = s.free_frames_ ∧ s'.replacer_ = s.replacer_ ∧
        (∀ g, (s'.frameAt g).data_ = (s.frameAt g).data_) ∧
        (s'.frameAt f).is_dirty_ = false ∧ s'.disk_.read p = (s'.frameAt f).data_ ∧
        ((s.frameAt f).is_dirty_ = false → s' = s)) := by
  have hfr := hinv.table.value_in_range hp
  have h0 := hfr.1
  have h1 : f < (s.frames_.length : Int) := by rw [hinv.frames_length]; exact hfr.2
  by_cases hheld : (s.frameAt f).writer_ = true ∨ (s.frameAt f).readers_ ≠ 0
  · left
    refine ⟨(latch_held_iff hinv hp).mp hheld, ?_⟩
    unfold flushFrame
    cases hwt : (s.frameAt f).writer_ with
    | true =>
      left
      simp only [bind, Except.bind, frame_eq h0 h1, FrameHeader.lock, hwt, if_true]
    | false =>
      right
      have hrd : (s.frameAt f).readers_ ≠ 0 := by
        rcases hheld with h | h
        · rw [hwt] at h
          cases h
        · exact h
      simp only [bind, Except.bind, frame_eq h0 h1, FrameHeader.lock, hwt, hrd,
        Bool.false_eq_true, ne_eq, not_false_eq_true, if_true, if_false]
  · have hwf : (s.frameAt f).writer_ = false := by
      cases h : (s.frameAt f).writer_ with
      | false => rfl
      | true => exact absurd (Or.inl h) hheld
    have hrz : (s.frameAt f).readers_ = 0 := by
      by_contra h
      exact hheld (Or.inr h)
    have hlock : (s.frameAt f).lock = Except.ok { s.frameAt f with writer_ := true } := by
      unfold FrameHeader.lock
      rw [if_neg (by rw [hwf]; decide), if_neg (by simpa using hrz)]
      rfl
    right
    refine ⟨?_, ?_⟩
    · intro g hg hgp
      exact hheld ((latch_held_iff hinv hp).mpr ⟨g, hg, hgp⟩)
    cases hd : (s.frameAt f).is_dirty_ with
    | false =>
      refine ⟨s, ?_, hinv, fun _ => rfl, rfl, rfl, rfl, rfl, fun _ => rfl, hd, ?_, fun _ => rfl⟩
      · unfold flushFrame
        simp only [bind, Except.bind, frame_eq h0 h1, hlock, hd,
          Bool.not_false, if_true, pure, Except.pure]
      · exact hinv.data.clean p f hp hd
    | true =>
      obtain ⟨S, hS⟩ : ∃ S : BufferPoolManager, S =
          { s with
            disk_ := s.disk_.written p (s.frameAt f).data_
            disk_writes_ := addSizeT s.disk_writes_ 1
            frames_ := s.frames_.set f.toNat { s.frameAt f with is_dirty_ := false } } :=
        ⟨_, rfl⟩
      have heq : s.flushFrame p f = Except.ok S := by
        rw [hS]
        unfold flushFrame
        simp only [bind, Except.bind, frame_eq h0 h1, hlock, Bool.false_eq_true, if_false, hd,
          Bool.not_true, pure, Except.pure, PageSwitch_write h0 h1]
        rw [frame_eq h0 (by exact h1)]
        exact setFrame_eq h0 (by exact h1) _
      have hfrm : S.frames_ = s.frames_.set f.toNat
          { s.frameAt f with is_dirty_ := false } := by rw [hS]
      have hdk : S.disk_ = s.disk_.written p (s.frameAt f).data_ := by rw [hS]
      have hself := frameAt_self hfrm h0 h1
      have hread := DiskManagerMemory.read_written_self s.disk_ p (s.frameAt f).data_
      have htouch := touch_inv S hinv hp
        (by rw [hfrm, List.length_set]) (by rw [hS]) (by rw [hS]) (by rw [hS])
        (fun g hg => frameAt_other hfrm h0 h1 hg)
        (by rw [hself]) (by rw [hself]) (by rw [hself])
        (fun q hq => by rw [hdk]; exact DiskManagerMemory.read_written_ne _ _ hq)
        (by
          rw [hself, hdk]
          intro _
          exact hread)
      refine ⟨S, heq, htouch.1, ?_, ?_, ?_, ?_, ?_, ?_, ?_, ?_, ?_⟩
      · intro q
        by_cases hq : q = p
        · rw [hq, htouch.2.2, hself, content_resident hp]
        · exact htouch.2.1 q hq
      · rw [hS]
      · rw [hS]
      · rw [hS]
      · rw [hS]
      · intro g
        by_cases hg : g = f
        · rw [hg, hself]
        · rw [frameAt_other hfrm h0 h1 hg]
      · rw [hself]
      · rw [hself, hdk]
        exact hread
      · intro h
        cases h

/-- The outcomes of `FlushPage`. -/
theorem FlushPage_cases {N : Nat} {s : BufferPoolManager} {G : List Guard}
    (hinv : PoolInv N none s G) (p : Int) :
    ((p < 0 ∨ p ≥ s.next_page_id_ ∨ s.page_table_.find p = none) ∧
      s.FlushPage p = Except.ok (false, s)) ∨
    (¬ (p < 0 ∨ p ≥ s.next_page_id_ ∨ s.page_table_.find p = none) ∧
      (((∃ g ∈ G, g.page_id_ = p) ∧ (s.FlushPage p = Except.error Err.system_error ∨
          s.FlushPage p = Except.error Err.deadlock)) ∨
        ((∀ g ∈ G, g.page_id_ ≠ p) ∧
          ∃ f s', s.page_table_.find p = some f ∧ s.FlushPage p = Except.ok (true, s') ∧
            PoolInv N none s' G ∧ (∀ q, s'.content q = s.content q) ∧
            s'.next_page_id_ = s.next_page_id_ ∧ s'.page_table_ = s.page_table_ ∧
            s'.free_frames_ = s.free_frames_ ∧ s'.replacer_ = s.replacer_ ∧
            (∀ g, (s'.frameAt g).data_ = (s.frameAt g).data_) ∧
            (s'.frameAt f).is_dirty_ = false ∧ s'.disk_.read p = (s'.frameAt f).data_ ∧
            ((s.frameAt f).is_dirty_ = false → s' = s)))) := by
  by_cases hr : p < 0 ∨ p ≥ s.next_page_id_
  · left
    refine ⟨?_, ?_⟩
    · rcases hr with h | h
      · exact Or.inl h
      · exact Or.inr (Or.inl h)
    · unfold FlushPage
      rw [if_pos hr]
      rfl
  · cases hf : s.page_table_.find p with
    | none =>
      left
      refine ⟨Or.inr (Or.inr rfl), ?_⟩
      unfold FlushPage
      rw [if_neg hr, hf]
      rfl
    | some f =>
      right
      refine ⟨?_, ?_⟩
      · rintro (h | h | h)
        · exact hr (Or.inl h)
        · exact hr (Or.inr h)
        · cases h
      have hpre : ∀ res : Except Err BufferPoolManager, s.flushFrame p f = res →
          s.FlushPage p = res.map (fun s' => (true, s')) := by
        intro res hres
        unfold FlushPage
        rw [if_neg hr, hf]
        simp only [bind, Except.bind, hres]
        cases res with
        | error e => rfl
        | ok v => rfl
      rcases flushFrame_cases hinv hf with ⟨hg, heq | heq⟩ | ⟨hg, s', heq, hrest⟩
      · exact Or.inl ⟨hg, Or.inl (hpre _ heq)⟩
      · exact Or.inl ⟨hg, Or.inr (hpre _ heq)⟩
      · exact Or.inr ⟨hg, f, s', rfl, hpre _ heq, hrest⟩

/-- The loop of `FlushAllPages` over entries of the page table: if it returns, the invariant
holds, and the page table and the bytes of the frames are the same. -/
theorem flushEntries_inv {N : Nat} {G : List Guard} (entries : List (Int × Int)) :
    ∀ {s s' : BufferPoolManager}, PoolInv N none s G →
      (∀ e ∈ entries, s.page_table_.find e.1 = some e.2) →
      s.flushEntries entries = Except.ok s' →
      PoolInv N none s' G ∧ (∀ q, s'.content q = s.content q) ∧
        s'.next_page_id_ = s.next_page_id_ ∧ s'.page_table_ = s.page_table_ ∧
        s'.free_frames_ = s.free_frames_ ∧ s'.replacer_ = s.replacer_ := by
  induction entries with
  | nil =>
    intro s s' hinv _ h
    unfold flushEntries at h
    simp only [pure, Except.pure, Except.ok.injEq] at h
    rw [← h]
    exact ⟨hinv, fun _ => rfl, rfl, rfl, rfl, rfl⟩
  | cons e entries ih =>
    intro s s' hinv hmem h
    obtain ⟨p, f⟩ := e
    have hp : s.page_table_.find p = some f := hmem (p, f) (List.mem_cons_self _ _)
    unfold flushEntries at h
    rcases flushFrame_cases hinv hp with
      ⟨_, heq | heq⟩ | ⟨_, s1, heq, hinv1, hc1, hn1, ht1, hf1, hr1, _⟩
    · simp only [bind, Except.bind, heq] at h
      cases h
    · simp only [bind, Except.bind, heq] at h
      cases h
    · simp only [bind, Except.bind, heq] at h
      have hmem1 : ∀ e ∈ entries, s1.page_table_.find e.1 = some e.2 := by
        intro e he
        rw [ht1]
        exact hmem e (List.mem_cons_of_mem _ he)
      obtain ⟨hinv2, hc2, hn2, ht2, hf2, hr2⟩ := ih hinv1 hmem1 h
      exact ⟨hinv2, fun q => (hc2 q).trans (hc1 q), hn2.trans hn1, ht2.trans ht1,
        hf2.trans hf1, hr2.trans hr1⟩

/-- The outcome of `FlushAllPages`, if it returns. -/
theorem FlushAllPages_inv {N : Nat} {G : List Guard} {s s' : BufferPoolManager}
    (hinv : PoolInv N none s G) (h : s.FlushAllPages = Except.ok s') :
    PoolInv N none s' G ∧ (∀ q, s'.content q = s.content q) ∧
      s'.next_page_id_ = s.next_page_id_ ∧ s'.page_table_ = s.page_table_ ∧
      s'.free_frames_ = s.free_frames_ ∧ s'.replacer_ = s.replacer_ := by
  refine flushEntries_inv s.page_table_ hinv ?_ h
  intro e he
  exact intMap_find_of_mem hinv.table.table_keys he

/-- The effect of `NewPage`: the next page id is advanced. -/
theorem NewPage_inv {N : Nat} {G : List Guard} {s : BufferPoolManager}
    (hinv : PoolInv N none s G) :
    PoolInv N none s.NewPage.2 G ∧ ∀ q, s.NewPage.2.content q = s.content q :=
  ⟨{ frames_length := hinv.frames_length
     table := hinv.table
     pin := hinv.pin
     latch := hinv.latch
     data := hinv.data }, fun _ => rfl⟩

end BufferPoolManager

/-! ## The invariant of the buffer pool holds in every reachable state -/

namespace BufferPoolManager

theorem frameAt_new (N : Nat) (d : DiskManagerMemory) (f : Int) :
    (BufferPoolManager.new N d).frameAt f = FrameHeader.new := by
  unfold frameAt frameOf BufferPoolManager.new
  simp only
  split
  · rw [List.getD_eq_getElem?_getD, List.getElem?_replicate]
    split <;> rfl
  · rfl

theorem free_frames_new {N : Nat} (hN : N < 2147483648) (d : DiskManagerMemory) :
    (BufferPoolManager.new N d).free_frames_ = (List.range N).map (fun i : Nat => (i : Int)) := by
  unfold BufferPoolManager.new
  simp only
  apply List.map_congr_left
  intro i hi
  rw [List.mem_range] at hi
  exact wrapInt32_of_bounds _ (by omega) (by omega)

/-- The invariant holds in a fresh buffer pool. -/
theorem poolInv_new {N : Nat} (hN : N < 2147483648) (d : DiskManagerMemory) :
    PoolInv N none (BufferPoolManager.new N d) [] where
  frames_length := List.length_replicate _ _
  table :=
    { bound := hN
      replacer_size := rfl
      replacer_wf := ArcReplacer.wellFormed_new (by unfold SIZE_T_MODULUS; omega)
      replacer_ghost := ArcReplacer.ghostWellFormed_new N
      table_keys := List.nodup_nil
      partition := by
        rw [free_frames_new hN d]
        show ((List.range N).map (fun i : Nat => (i : Int)) ++ []).Perm _
        rw [List.append_nil]
      alive_table := by
        intro f p e h
        cases h
      table_alive := by
        intro p f h
        cases h }
  pin :=
    { guards_valid := by
        intro g hg
        cases hg
      guards_bound := by
        unfold SIZE_T_MODULUS
        simp
      pins := by
        intro f _ _
        simp only [frameAt_new, List.countP_nil]
        rfl
      evictable_pin := by
        intro f p h
        cases h
      pin_evictable := by
        intro f p _ h
        cases h }
  latch :=
    { readers_eq := by
        intro f _ _
        simp only [frameAt_new, List.countP_nil]
        rfl
      writer_iff := by
        intro f _ _
        simp only [frameAt_new, List.not_mem_nil, false_and, exists_false, iff_false]
        intro h
        cases h
      exclusive := by
        intro g hg
        cases hg }
  data :=
    { clean := by
        intro p f h
        cases h }

end BufferPoolManager

/-- The invariant of the buffer pool holds in every pool the caller reaches. -/
theorem Pool.Reachable.poolInv {N : Nat} {d : DiskManagerMemory} {P : Pool}
    (h : Pool.Reachable N d P) : PoolInv N none P.bpm P.guards := by
  induction h with
  | fresh hN => exact BufferPoolManager.poolInv_new hN d
  | @step P P' cl _ hholds hlen hcall ih =>
    cases cl with
    | new_page =>
      simp only [Pool.call, pure, Except.pure, Except.ok.injEq] at hcall
      rw [← hcall]
      exact (BufferPoolManager.NewPage_inv ih).1
    | read_page p =>
      rcases BufferPoolManager.ReadPage_cases ih hlen p with
        ⟨_, _, he⟩ | ⟨_, ⟨_, he⟩ | ⟨_, f, s', he, hinv, _⟩⟩
      · simp only [Pool.call, bind, Except.bind, he] at hcall
        cases hcall
      · simp only [Pool.call, bind, Except.bind, he] at hcall
        cases hcall
      · simp only [Pool.call, bind, Except.bind, he, pure, Except.pure, Except.ok.injEq] at hcall
        rw [← hcall]
        exact hinv
    | write_page p =>
      rcases BufferPoolManager.WritePage_cases ih hlen p with
        ⟨_, _, he⟩ | ⟨_, ⟨_, he⟩ | ⟨_, he⟩ | ⟨_, f, s', he, hinv, _⟩⟩
      · simp only [Pool.call, bind, Except.bind, he] at hcall
        cases hcall
      · simp only [Pool.call, bind, Except.bind, he] at hcall
        cases hcall
      · simp only [Pool.call, bind, Except.bind, he] at hcall
        cases hcall
      · simp only [Pool.call, bind, Except.bind, he, pure, Except.pure, Except.ok.injEq] at hcall
        rw [← hcall]
        exact hinv
    | store g data =>
      have hg : Guard.write g ∈ P.guards := by
        simpa [Pool.holds] using hholds
      obtain ⟨s', he, hinv, _⟩ := BufferPoolManager.store_inv ih hg data
      simp only [Pool.call, bind, Except.bind, he, pure, Except.pure, Except.ok.injEq] at hcall
      rw [← hcall]
      exact hinv
    | flush_guard g =>
      have hg : g ∈ P.guards := by
        simpa [Pool.holds] using hholds
      obtain ⟨s', he, hinv, _⟩ := BufferPoolManager.Flush_inv ih hg
      simp only [Pool.call, bind, Except.bind, he, pure, Except.pure, Except.ok.injEq] at hcall
      rw [← hcall]
      exact hinv
    | drop g =>
      have hg : g ∈ P.guards := by
        simpa [Pool.holds] using hholds
      cases g with
      | read g =>
        obtain ⟨s', he, hinv, _⟩ := BufferPoolManager.Drop_inv ih hg
        simp only [Pool.call, bind, Except.bind, he, pure, Except.pure, Except.ok.injEq] at hcall
        rw [← hcall]
        exact hinv
      | write g =>
        obtain ⟨s', he, hinv, _⟩ := BufferPoolManager.DropWrite_inv ih hg
        simp only [Pool.call, bind, Except.bind, he, pure, Except.pure, Except.ok.injEq] at hcall
        rw [← hcall]
        exact hinv
    | flush_page p =>
      rcases BufferPoolManager.FlushPage_cases ih p with
        ⟨_, he⟩ | ⟨_, ⟨_, he | he⟩ | ⟨_, f, s', _, he, hinv, _⟩⟩
      · simp only [Pool.call, bind, Except.bind, he, pure, Except.pure, Except.ok.injEq] at hcall
        rw [← hcall]
        exact ih
      · simp only [Pool.call, bind, Except.bind, he] at hcall
        cases hcall
      · simp only [Pool.call, bind, Except.bind, he] at hcall
        cases hcall
      · simp only [Pool.call, bind, Except.bind, he, pure, Except.pure, Except.ok.injEq] at hcall
        rw [← hcall]
        exact hinv
    | flush_all_pages =>
      cases he : P.bpm.FlushAllPages with
      | error e =>
        simp only [Pool.call, bind, Except.bind, he] at hcall
        cases hcall
      | ok s' =>
        simp only [Pool.call, bind, Except.bind, he, pure, Except.pure, Except.ok.injEq] at hcall
        rw [← hcall]
        exact (BufferPoolManager.FlushAllPages_inv ih he).1

namespace Pool

theorem Reachable.of_calls {N : Nat} {d : DiskManagerMemory} :
    ∀ (cls : List PoolCall) {P P' : Pool}, Reachable N d P → P.calls cls = some P' →
      Reachable N d P' := by
  intro cls
  induction cls with
  | nil =>
    intro P P' hr h
    simp only [calls, Option.some.injEq] at h
    rw [← h]
    exact hr
  | cons cl cls ih =>
    intro P P' hr h
    unfold calls at h
    by_cases ha : P.holds cl = true ∧ P.guards.length + 1 < SIZE_T_MODULUS
    · rw [if_pos ha] at h
      cases hc : P.call cl with
      | error e => simp [hc] at h
      | ok P1 =>
        simp only [hc] at h
        exact ih (Reachable.step cl hr ha.1 ha.2 hc) h
    · rw [if_neg ha] at h
      cases h

theorem reachable_after {N : Nat} (hN : N < 2147483648) {d : DiskManagerMemory}
    {cls : List PoolCall}
    (h : ((Pool.mk (BufferPoolManager.new N d) []).calls cls).isSome = true) :
    Reachable N d (after N d cls) := by
  unfold after
  cases h1 : (Pool.mk (BufferPoolManager.new N d) []).calls cls with
  | none => rw [h1] at h; cases h
  | some P => exact Reachable.of_calls cls (Reachable.fresh hN) h1

end Pool

/-! ## The free list and the page table share out the frames -/

/-- C22: in every pool reachable by operations of a single caller on a buffer pool of `N`
frames, each frame id in `[0, N)` is either in the free list exactly once and the value of no
entry of the page table, or not in the free list and the value of exactly one entry of the page
table. -/
theorem C22_free_list_page_table_partition (N : Nat) (d : DiskManagerMemory) (P : Pool)
    (h : Pool.Reachable N d P) (f : Int) (h0 : 0 ≤ f) (h1 : f < N) :
    (P.bpm.free_frames_.count f = 1 ∧ (P.bpm.page_table_.map Prod.snd).count f = 0) ∨
    (P.bpm.free_frames_.count f = 0 ∧ (P.bpm.page_table_.map Prod.snd).count f = 1) := by
  have ht := h.poolInv.table
  have hc := ht.partition.count_eq f
  rw [List.count_append,
    List.count_eq_one_of_mem (TableInv.range_nodup N) (TableInv.mem_range.mpr ⟨h0, h1⟩)] at hc
  omega

/-- C22, witness: frame 0 of a pool of two frames in which page 0 and page 1 were brought
in. -/
theorem C22_free_list_page_table_partition_witness :
    (Pool.twoFramesDirty.bpm.free_frames_.count 0 = 1 ∧
      (Pool.twoFramesDirty.bpm.page_table_.map Prod.snd).count 0 = 0) ∨
    (Pool.twoFramesDirty.bpm.free_frames_.count 0 = 0 ∧
      (Pool.twoFramesDirty.bpm.page_table_.map Prod.snd).count 0 = 1) :=
  C22_free_list_page_table_partition 2 DiskManagerMemory.new Pool.twoFramesDirty
    (Pool.reachable_after (by decide) (by decide)) 0 (by decide) (by decide)

/-! ## A pinned frame is not evictable -/

/-- C23: in every pool reachable by operations of a single caller, a frame whose pin count is
greater than 0 is alive in the replacer with its evictable flag false, and a frame `Evict()`
returns is the frame of none of the guards the caller holds. -/
theorem C23_pinned_frame_not_evictable (N : Nat) (d : DiskManagerMemory) (P : Pool)
    (h : Pool.Reachable N d P) :
    (∀ f fr, P.bpm.frame f = Except.ok fr → fr.pin_count_ > 0 →
      ∃ st, P.bpm.replacer_.alive_map_.find f = some st ∧ st.evictable_ = false) ∧
    (∀ f r, P.bpm.replacer_.Evict = Except.ok (some f, r) → ∀ g ∈ P.guards, g.frame_ ≠ f) := by
  have hinv := h.poolInv
  refine ⟨?_, ?_⟩
  · intro f fr hfr hpin
    have hrange : 0 ≤ f ∧ f < (P.bpm.frames_.length : Int) := by
      unfold BufferPoolManager.frame at hfr
      by_cases h0 : 0 ≤ f
      · rw [if_pos h0] at hfr
        refine ⟨h0, ?_⟩
        by_contra hlt
        rw [List.get?_eq_none.mpr (by omega)] at hfr
        cases hfr
      · rw [if_neg h0] at hfr
        cases hfr
    rw [BufferPoolManager.frame_eq hrange.1 hrange.2] at hfr
    simp only [Except.ok.injEq] at hfr
    have hN : f < N := by
      rw [← hinv.frames_length]
      exact hrange.2
    have hpins := hinv.pin.pins f hrange.1 hN
    simp only at hpins
    rw [hfr] at hpins
    rw [hpins] at hpin
    obtain ⟨g, hg, hgf⟩ := List.countP_pos_iff.mp hpin
    simp only [decide_eq_true_eq] at hgf
    have hv := (hinv.pin.guards_valid g hg).2
    rw [hgf] at hv
    obtain ⟨e, hview⟩ := hinv.table.table_alive _ _ hv
    obtain ⟨st, hfind, _, hev⟩ := ArcReplacer.view_eq_some hview
    refine ⟨st, hfind, ?_⟩
    cases e with
    | false => exact hev
    | true =>
      have hz := hinv.pin.evictable_pin f _ hview
      simp only at hz
      rw [hfr] at hz
      omega
  · intro f r hev g hg hgf
    rcases ArcReplacer.evict_view hinv.table.replacer_wf hinv.table.replacer_ghost with
      ⟨hnone, _⟩ | ⟨f', r', p, hsome, hview, _⟩
    · rw [hnone] at hev
      cases hev
    · rw [hsome] at hev
      simp only [Except.ok.injEq, Prod.mk.injEq, Option.some.injEq] at hev
      rw [hev.1] at hview
      have hz := hinv.pin.evictable_pin f p hview
      exact hinv.pin.no_guard hinv.table hz g hg hgf

/-- C23, witness: a pool of two frames in which the caller holds two read guards on page 0 and
the write guard on page 1. -/
theorem C23_pinned_frame_not_evictable_witness :
    (∀ f fr, Pool.twoFramesPinned.bpm.frame f = Except.ok fr → fr.pin_count_ > 0 →
      ∃ st, Pool.twoFramesPinned.bpm.replacer_.alive_map_.find f = some st ∧
        st.evictable_ = false) ∧
    (∀ f r, Pool.twoFramesPinned.bpm.replacer_.Evict = Except.ok (some f, r) →
      ∀ g ∈ Pool.twoFramesPinned.guards, g.frame_ ≠ f) :=
  C23_pinned_frame_not_evictable 2 DiskManagerMemory.new Pool.twoFramesPinned
    (Pool.reachable_after (by decide) (by decide))

/-! ## GetPinCount -/

/-- In every pool reachable by operations of a single caller that returned, `GetPinCount(page_id)`
returns; it returns none if and only if the page id is out of range or the page is not resident,
and otherwise the number of valid guards the caller holds on the page (0 when it holds none). -/
theorem get_pin_count_of_held_guards (N : Nat) (d : DiskManagerMemory) (P : Pool)
    (h : Pool.Reachable N d P) (p : Int) :
    ∃ r, P.bpm.GetPinCount p = Except.ok r ∧
      (r = none ↔ (p < 0 ∨ p ≥ P.bpm.next_page_id_ ∨ P.bpm.page_table_.find p = none)) ∧
      (∀ n, r = some n → n = P.guards.countP (fun g => decide (g.page_id_ = p))) ∧
      (∀ g ∈ P.guards, g.is_valid_ = true) := by
  have hinv := h.poolInv
  have hvalid : ∀ g ∈ P.guards, g.is_valid_ = true := fun g hg => (hinv.pin.guards_valid g hg).1
  by_cases hr : p < 0 ∨ p ≥ P.bpm.next_page_id_
  · refine ⟨none, ?_, ?_, ?_, hvalid⟩
    · unfold BufferPoolManager.GetPinCount
      rw [if_pos hr]
      rfl
    · refine ⟨fun _ => ?_, fun _ => rfl⟩
      rcases hr with h | h
      · exact Or.inl h
      · exact Or.inr (Or.inl h)
    · intro n hn
      cases hn
  · cases hf : P.bpm.page_table_.find p with
    | none =>
      refine ⟨none, ?_, ?_, ?_, hvalid⟩
      · unfold BufferPoolManager.GetPinCount
        rw [if_neg hr, hf]
        rfl
      · exact ⟨fun _ => Or.inr (Or.inr rfl), fun _ => rfl⟩
      · intro n hn
        cases hn
    | some f =>
      have hfr := hinv.table.value_in_range hf
      have h1 : f < (P.bpm.frames_.length : Int) := by
        rw [hinv.frames_length]
        exact hfr.2
      refine ⟨some (P.bpm.frameAt f).pin_count_, ?_, ?_, ?_, hvalid⟩
      · unfold BufferPoolManager.GetPinCount
        rw [if_neg hr, hf]
        simp only [bind, Except.bind, BufferPoolManager.frame_eq hfr.1 h1]
        rfl
      · constructor
        · intro h
          cases h
        · rintro (h | h | h)
          · exact absurd (Or.inl h) hr
          · exact absurd (Or.inr h) hr
          · cases h
      · intro n hn
        simp only [Option.some.injEq] at hn
        rw [← hn]
        have hpins := hinv.pin.pins f hfr.1 hfr.2
        simp only at hpins
        rw [hpins]
        apply List.countP_congr
        intro g hg
        simp only [decide_eq_true_eq]
        have hv := (hinv.pin.guards_valid g hg).2
        constructor
        · intro hgf
          rw [hgf] at hv
          exact hinv.table.page_unique hv hf
        · intro hgp
          rw [hgp, hf] at hv
          simp only [Option.some.injEq] at hv
          exact hv.symm

/-- An instance: page 0 of a pool of two frames in which the caller holds two read guards on
page 0 and the write guard on page 1. -/
theorem get_pin_count_of_held_guards_instance :
    ∃ r, Pool.twoFramesPinned.bpm.GetPinCount 0 = Except.ok r ∧
      (r = none ↔ ((0 : Int) < 0 ∨ 0 ≥ Pool.twoFramesPinned.bpm.next_page_id_ ∨
        Pool.twoFramesPinned.bpm.page_table_.find 0 = none)) ∧
      (∀ n, r = some n →
        n = Pool.twoFramesPinned.guards.countP (fun g => decide (g.page_id_ = 0))) ∧
      (∀ g ∈ Pool.twoFramesPinned.guards, g.is_valid_ = true) :=
  get_pin_count_of_held_guards 2 DiskManagerMemory.new Pool.twoFramesPinned
    (Pool.reachable_after (by decide) (by decide)) 0

/-- No alive frame is evictable, in the two ways it is said. -/
theorem ArcReplacer.no_evictable_iff {r : ArcReplacer} (hw : r.WellFormed) :
    (∀ g q, r.view g ≠ some (q, true)) ↔ ∀ e ∈ r.alive_map_, e.2.evictable_ = false := by
  constructor
  · intro h e he
    have hv := ArcReplacer.view_of_find (StatusMap.find_of_mem hw.keys_nodup he)
    cases hev : e.2.evictable_ with
    | false => rfl
    | true =>
      rw [hev] at hv
      exact absurd hv (h _ _)
  · intro h g q hv
    obtain ⟨st, hfind, _, hev⟩ := ArcReplacer.view_eq_some hv
    have := h (g, st) (StatusMap.mem_of_find hfind)
    simp only at this
    rw [this] at hev
    cases hev

/-! ## ReadPage and WritePage throw exactly when no frame is to be had -/

/-- `CheckedReadPage` is the statements before the acquisition of the latch, then
`rwlatch_.lock_shared()`: when the latter throws, the pool is the one `pinnedBeforeLatch`
returns. -/
theorem BufferPoolManager.CheckedReadPage_eq_pinnedBeforeLatch (s : BufferPoolManager)
    (page_id : Int) :
    s.CheckedReadPage page_id = (do
      match (← s.pinnedBeforeLatch page_id) with
      | (none, s) => pure (none, s)
      | (some frame_id, s) =>
        let s ← s.setFrame frame_id (← (← s.frame frame_id).lock_shared)
        pure (some ⟨page_id, frame_id, true⟩, s)) := by
  unfold BufferPoolManager.CheckedReadPage BufferPoolManager.pinnedBeforeLatch
    BufferPoolManager.newReadPageGuard
  simp only [bind, Except.bind, pure, Except.pure]
  cases s.bringIn page_id with
  | error e => rfl
  | ok r =>
    obtain ⟨o, s1⟩ := r
    cases o with
    | none => rfl
    | some f =>
      simp only []
      cases s1.frame f with
      | error e => rfl
      | ok fr =>
        simp only []
        cases s1.replacer_.RecordAccess f page_id with
        | error e => rfl
        | ok r =>
          simp only []
          cases BufferPoolManager.pin { s1 with replacer_ := r } f with
          | error e => rfl
          | ok s2 =>
            simp only []
            cases s2.frame f with
            | error e => rfl
            | ok fr2 =>
              simp only []
              cases fr2.lock_shared with
              | error e => rfl
              | ok fr3 =>
                simp only []
                cases s2.setFrame f fr3 with
                | error e => rfl
                | ok s3 => rfl

/-- `CheckedWritePage` is the statements before the acquisition of the latch, then
`rwlatch_.lock()`: when the latter throws, the pool is the one `pinnedBeforeLatch` returns. -/
theorem BufferPoolManager.CheckedWritePage_eq_pinnedBeforeLatch (s : BufferPoolManager)
    (page_id : Int) :
    s.CheckedWritePage page_id = (do
      match (← s.pinnedBeforeLatch page_id) with
      | (none, s) => pure (none, s)
      | (some frame_id, s) =>
        let s ← s.setFrame frame_id (← (← s.frame frame_id).lock)
        pure (some ⟨page_id, frame_id, true⟩, s)) := by
  unfold BufferPoolManager.CheckedWritePage BufferPoolManager.pinnedBeforeLatch
    BufferPoolManager.newWritePageGuard
  simp only [bind, Except.bind, pure, Except.pure]
  cases s.bringIn page_id with
  | error e => rfl
  | ok r =>
    obtain ⟨o, s1⟩ := r
    cases o with
    | none => rfl
    | some f =>
      simp only []
      cases s1.frame f with
      | error e => rfl
      | ok fr =>
        simp only []
        cases s1.replacer_.RecordAccess f page_id with
        | error e => rfl
        | ok r =>
          simp only []
          cases BufferPoolManager.pin { s1 with replacer_ := r } f with
          | error e => rfl
          | ok s2 =>
            simp only []
            cases s2.frame f with
            | error e => rfl
            | ok fr2 =>
              simp only []
              cases fr2.lock with
              | error e => rfl
              | ok fr3 =>
                simp only []
                cases s2.setFrame f fr3 with
                | error e => rfl
                | ok s3 => rfl

/-- C21, counterexample: in the pool of one frame in which the caller holds the write guard on
page 0, the page is in range and resident, and yet `ReadPage(0)` and `WritePage(0)` throw: the
latch of the frame, which the caller holds exclusively, throws `std::system_error`, which is a
`std::runtime_error`. -/
theorem C21_throws_for_page_held_for_writing :
    Pool.Reachable 1 DiskManagerMemory.new Pool.oneFramePinned ∧
    Pool.oneFramePinned.guards = [Guard.write ⟨0, 0, true⟩] ∧
    ((0 : Int) < Pool.oneFramePinned.bpm.next_page_id_ ∧
      Pool.oneFramePinned.bpm.page_table_.find 0 = some 0) ∧
    Except.map Prod.fst (Pool.oneFramePinned.bpm.ReadPage 0)
      = Except.error Err.system_error ∧
    Except.map Prod.fst (Pool.oneFramePinned.bpm.WritePage 0)
      = Except.error Err.system_error ∧
    Err.system_error.isRuntimeError = true :=
  ⟨Pool.reachable_after (by decide) (by decide), by decide, by decide, by decide, by decide,
    by decide⟩

/-- C21: in every pool reachable by operations of a single caller, for every page on which the
caller holds no write guard, `ReadPage(page_id)` and `WritePage(page_id)` throw a
`runtime_error` if and only if `page_id < 0`, or `page_id` is not below the next page id to
allocate, or the page is not resident while the free list is empty and no alive frame of the
replacer is evictable; and in that case `CheckedReadPage` and `CheckedWritePage`, whose empty
result makes them throw, leave every member of the buffer pool as it was. -/
theorem C21_read_write_page_fail (N : Nat) (d : DiskManagerMemory) (P : Pool)
    (h : Pool.Reachable N d P) (hlen : P.guards.length + 1 < SIZE_T_MODULUS) (p : Int)
    (hnw : ∀ g ∈ P.guards, g.page_id_ = p → g.isWrite = false) :
    ((∃ e, P.bpm.ReadPage p = Except.error e ∧ e.isRuntimeError = true) ↔
      (p < 0 ∨ p ≥ P.bpm.next_page_id_ ∨ (P.bpm.page_table_.find p = none ∧
        P.bpm.free_frames_ = [] ∧ ∀ e ∈ P.bpm.replacer_.alive_map_, e.2.evictable_ = false))) ∧
    ((∃ e, P.bpm.WritePage p = Except.error e ∧ e.isRuntimeError = true) ↔
      (p < 0 ∨ p ≥ P.bpm.next_page_id_ ∨ (P.bpm.page_table_.find p = none ∧
        P.bpm.free_frames_ = [] ∧ ∀ e ∈ P.bpm.replacer_.alive_map_, e.2.evictable_ = false))) ∧
    ((p < 0 ∨ p ≥ P.bpm.next_page_id_ ∨ (P.bpm.page_table_.find p = none ∧
        P.bpm.free_frames_ = [] ∧ ∀ e ∈ P.bpm.replacer_.alive_map_, e.2.evictable_ = false)) →
      P.bpm.ReadPage p = Except.error Err.runtime_error ∧
        P.bpm.WritePage p = Except.error Err.runtime_error ∧
        P.bpm.CheckedReadPage p = Except.ok (none, P.bpm) ∧
        P.bpm.CheckedWritePage p = Except.ok (none, P.bpm)) := by
  have hinv := h.poolInv
  rw [← ArcReplacer.no_evictable_iff hinv.table.replacer_wf]
  have hread := BufferPoolManager.ReadPage_cases hinv hlen p
  have hwrite := BufferPoolManager.WritePage_cases hinv hlen p
  refine ⟨?_, ?_, ?_⟩
  · rcases hread with ⟨hc, _, he⟩ | ⟨hc, ⟨⟨g, hg, hgp, hgw⟩, _⟩ | ⟨_, f, s', he, _⟩⟩
    · exact ⟨fun _ => hc, fun _ => ⟨_, he, rfl⟩⟩
    · rw [hnw g hg hgp] at hgw
      cases hgw
    · refine ⟨fun h => ?_, fun h => absurd h hc⟩
      obtain ⟨e, h, _⟩ := h
      rw [he] at h
      cases h
  · rcases hwrite with
      ⟨hc, _, he⟩ | ⟨hc, ⟨⟨g, hg, hgp, hgw⟩, _⟩ | ⟨_, he⟩ | ⟨_, f, s', he, _⟩⟩
    · exact ⟨fun _ => hc, fun _ => ⟨_, he, rfl⟩⟩
    · rw [hnw g hg hgp] at hgw
      cases hgw
    · refine ⟨fun h => ?_, fun h => absurd h hc⟩
      obtain ⟨e, h, he2⟩ := h
      rw [he] at h
      simp only [Except.error.injEq] at h
      rw [← h] at he2
      cases he2
    · refine ⟨fun h => ?_, fun h => absurd h hc⟩
      obtain ⟨e, h, _⟩ := h
      rw [he] at h
      cases h
  · intro hc
    refine ⟨?_, ?_, ?_, ?_⟩
    · rcases hread with ⟨_, _, he⟩ | ⟨hn, _⟩
      · exact he
      · exact absurd hc hn
    · rcases hwrite with ⟨_, _, he⟩ | ⟨hn, _⟩
      · exact he
      · exact absurd hc hn
    · rcases hread with ⟨_, he, _⟩ | ⟨hn, _⟩
      · exact he
      · exact absurd hc hn
    · rcases hwrite with ⟨_, he, _⟩ | ⟨hn, _⟩
      · exact he
      · exact absurd hc hn

/-- C21, witness: page 1 in a pool of one frame whose frame is pinned for page 0: the caller
holds no guard on page 1, the page is not resident, the free list is empty and the only alive
frame is not evictable. -/
theorem C21_read_write_page_fail_witness :
    (∃ e, Pool.oneFramePinned.bpm.ReadPage 1 = Except.error e ∧ e.isRuntimeError = true) ∧
    (∃ e, Pool.oneFramePinned.bpm.WritePage 1 = Except.error e ∧ e.isRuntimeError = true) ∧
    Pool.oneFramePinned.bpm.ReadPage 1 = Except.error Err.runtime_error ∧
    Pool.oneFramePinned.bpm.WritePage 1 = Except.error Err.runtime_error ∧
    Pool.oneFramePinned.bpm.CheckedReadPage 1 = Except.ok (none, Pool.oneFramePinned.bpm) ∧
    Pool.oneFramePinned.bpm.CheckedWritePage 1 = Except.ok (none, Pool.oneFramePinned.bpm) :=
  have hc : (1 : Int) < 0 ∨ 1 ≥ Pool.oneFramePinned.bpm.next_page_id_ ∨
      (Pool.oneFramePinned.bpm.page_table_.find 1 = none ∧
        Pool.oneFramePinned.bpm.free_frames_ = [] ∧
        ∀ e ∈ Pool.oneFramePinned.bpm.replacer_.alive_map_, e.2.evictable_ = false) :=
    Or.inr (Or.inr ⟨by decide, by decide, by decide⟩)
  have h := C21_read_write_page_fail 1 DiskManagerMemory.new Pool.oneFramePinned
    (Pool.reachable_after (by decide) (by decide)) (by decide) 1 (by decide)
  ⟨h.1.mpr hc, h.2.1.mpr hc, (h.2.2 hc).1, (h.2.2 hc).2.1, (h.2.2 hc).2.2.1, (h.2.2 hc).2.2.2⟩

/-- C26, the code at the failing input: in the pool of one frame in which the caller holds the
write guard on page 0, `GetPinCount(0)` is 1.  `WritePage(0)` (and `ReadPage(0)`) throws
`std::system_error` from the acquisition of the latch at the end of the guard constructor,
after the constructor has incremented `pin_count_`; no guard was constructed, so nothing takes
the pin back, and in the pool the call leaves behind `GetPinCount(0)` returns 2 while the
caller holds one valid guard on page 0; after the `Drop()` of that guard it returns 1 while the
caller holds none. -/
theorem C26_pin_count_after_constructor_throws :
    Pool.Reachable 1 DiskManagerMemory.new Pool.oneFramePinned ∧
    Pool.oneFramePinned.guards = [Guard.write ⟨0, 0, true⟩] ∧
    Pool.oneFramePinned.bpm.GetPinCount 0 = Except.ok (some 1) ∧
    Except.map Prod.fst (Pool.oneFramePinned.bpm.WritePage 0)
      = Except.error Err.system_error ∧
    Except.map Prod.fst (Pool.oneFramePinned.bpm.ReadPage 0)
      = Except.error Err.system_error ∧
    Except.map Prod.fst (Pool.oneFramePinned.bpm.pinnedBeforeLatch 0)
      = Except.ok (some 0) ∧
    (do
      let r ← Pool.oneFramePinned.bpm.pinnedBeforeLatch 0
      r.2.GetPinCount 0) = Except.ok (some 2) ∧
    (Pool.oneFramePinned.guards.countP (fun g => decide (g.page_id_ = 0 ∧ g.is_valid_ = true)))
      = 1 ∧
    (do
      let r ← Pool.oneFramePinned.bpm.pinnedBeforeLatch 0
      let d ← r.2.DropWrite ⟨0, 0, true⟩
      d.2.GetPinCount 0) = Except.ok (some 1) :=
  ⟨Pool.reachable_after (by decide) (by decide), by decide, by decide, by decide, by decide,
    by decide, by decide, by decide, by decide⟩

/-! ## Drop -/

/-- C27: for a read or write guard the caller holds in a reachable pool, `Drop()` returns with
the guard no longer valid and the pin count of its frame, which was at least 1, one lower; if
the count is then 0 the frame is evictable in the replacer, and otherwise the replacer is as it
was.  `Drop()` on a guard that is not valid (one that was dropped, moved from or
default-constructed) returns with every member of the buffer pool as it was. -/
theorem C27_drop (N : Nat) (d : DiskManagerMemory) (P : Pool) (h : Pool.Reachable N d P) :
    (∀ g : ReadPageGuard, Guard.read g ∈ P.guards →
      ∃ fr s' fr', P.bpm.frame g.frame_ = Except.ok fr ∧
        P.bpm.Drop g = Except.ok ({ g with is_valid_ := false }, s') ∧
        s'.frame g.frame_ = Except.ok fr' ∧ fr'.pin_count_ + 1 = fr.pin_count_ ∧
        (fr'.pin_count_ = 0 →
          ∃ st, s'.replacer_.alive_map_.find g.frame_ = some st ∧ st.evictable_ = true) ∧
        (fr'.pin_count_ ≠ 0 → s'.replacer_ = P.bpm.replacer_) ∧
        s'.Drop { g with is_valid_ := false } = Except.ok ({ g with is_valid_ := false }, s')) ∧
    (∀ g : WritePageGuard, Guard.write g ∈ P.guards →
      ∃ fr s' fr', P.bpm.frame g.frame_ = Except.ok fr ∧
        P.bpm.DropWrite g = Except.ok ({ g with is_valid_ := false }, s') ∧
        s'.frame g.frame_ = Except.ok fr' ∧ fr'.pin_count_ + 1 = fr.pin_count_ ∧
        (fr'.pin_count_ = 0 →
          ∃ st, s'.replacer_.alive_map_.find g.frame_ = some st ∧ st.evictable_ = true) ∧
        (fr'.pin_count_ ≠ 0 → s'.replacer_ = P.bpm.replacer_) ∧
        s'.DropWrite { g with is_valid_ := false } =
          Except.ok ({ g with is_valid_ := false }, s')) ∧
    (∀ (s : BufferPoolManager) (g : ReadPageGuard), g.is_valid_ = false →
      s.Drop g = Except.ok (g, s)) ∧
    (∀ (s : BufferPoolManager) (g : WritePageGuard), g.is_valid_ = false →
      s.DropWrite g = Except.ok (g, s)) ∧
    (∀ g : ReadPageGuard, g.move.2.is_valid_ = false) ∧
    (∀ g : WritePageGuard, g.move.2.is_valid_ = false) := by
  have hinv := h.poolInv
  refine ⟨?_, ?_, fun s g hg => s.Drop_invalid hg, fun s g hg => s.DropWrite_invalid hg,
    fun _ => rfl, fun _ => rfl⟩
  · intro g hg
    obtain ⟨s', he, hinv', _, _, _, _, _, hpin0, hpin, _, hv0, hv1⟩ :=
      BufferPoolManager.Drop_inv hinv hg
    obtain ⟨⟨h0', hN'⟩, _⟩ := hinv.pin.guard_frame hinv.table hg
    have h0 : 0 ≤ g.frame_ := h0'
    have hN : g.frame_ < N := hN'
    have h1 : g.frame_ < (P.bpm.frames_.length : Int) := by
      rw [hinv.frames_length]
      exact hN
    have h1' : g.frame_ < (s'.frames_.length : Int) := by
      rw [hinv'.frames_length]
      exact hN
    refine ⟨_, s', _, BufferPoolManager.frame_eq h0 h1, he, BufferPoolManager.frame_eq h0 h1',
      ?_, ?_, ?_, s'.Drop_invalid rfl⟩
    · rw [hpin]
      omega
    · intro hz
      rw [hpin] at hz
      have hview := hv0 hz g.frame_
      rw [if_pos rfl] at hview
      obtain ⟨st, hfind, _, hev⟩ := ArcReplacer.view_eq_some hview
      exact ⟨st, hfind, hev⟩
    · intro hz
      rw [hpin] at hz
      exact hv1 hz
  · intro g hg
    obtain ⟨s', he, hinv', _, _, _, _, _, hpin0, hpin, _, hv0, hv1⟩ :=
      BufferPoolManager.DropWrite_inv hinv hg
    obtain ⟨⟨h0', hN'⟩, _⟩ := hinv.pin.guard_frame hinv.table hg
    have h0 : 0 ≤ g.frame_ := h0'
    have hN : g.frame_ < N := hN'
    have h1 : g.frame_ < (P.bpm.frames_.length : Int) := by
      rw [hinv.frames_length]
      exact hN
    have h1' : g.frame_ < (s'.frames_.length : Int) := by
      rw [hinv'.frames_length]
      exact hN
    refine ⟨_, s', _, BufferPoolManager.frame_eq h0 h1, he, BufferPoolManager.frame_eq h0 h1',
      ?_, ?_, ?_, s'.DropWrite_invalid rfl⟩
    · rw [hpin]
      omega
    · intro hz
      rw [hpin] at hz
      have hview := hv0 hz g.frame_
      rw [if_pos rfl] at hview
      obtain ⟨st, hfind, _, hev⟩ := ArcReplacer.view_eq_some hview
      exact ⟨st, hfind, hev⟩
    · intro hz
      rw [hpin] at hz
      exact hv1 hz

/-- C27, witness: a pool of two frames in which the caller holds two read guards on page 0 and
the write guard on page 1. -/
theorem C27_drop_witness :
    (∃ fr s' fr', Pool.twoFramesPinned.bpm.frame 0 = Except.ok fr ∧
        Pool.twoFramesPinned.bpm.Drop ⟨0, 0, true⟩ = Except.ok (⟨0, 0, false⟩, s') ∧
        s'.frame 0 = Except.ok fr' ∧ fr'.pin_count_ + 1 = fr.pin_count_ ∧
        (fr'.pin_count_ = 0 →
          ∃ st, s'.replacer_.alive_map_.find 0 = some st ∧ st.evictable_ = true) ∧
        (fr'.pin_count_ ≠ 0 → s'.replacer_ = Pool.twoFramesPinned.bpm.replacer_) ∧
        s'.Drop ⟨0, 0, false⟩ = Except.ok (⟨0, 0, false⟩, s')) ∧
    (∃ fr s' fr', Pool.twoFramesPinned.bpm.frame 1 = Except.ok fr ∧
        Pool.twoFramesPinned.bpm.DropWrite ⟨1, 1, true⟩ = Except.ok (⟨1, 1, false⟩, s') ∧
        s'.frame 1 = Except.ok fr' ∧ fr'.pin_count_ + 1 = fr.pin_count_ ∧
        (fr'.pin_count_ = 0 →
          ∃ st, s'.replacer_.alive_map_.find 1 = some st ∧ st.evictable_ = true) ∧
        (fr'.pin_count_ ≠ 0 → s'.replacer_ = Pool.twoFramesPinned.bpm.replacer_) ∧
        s'.DropWrite ⟨1, 1, false⟩ = Except.ok (⟨1, 1, false⟩, s')) :=
  have h := C27_drop 2 DiskManagerMemory.new Pool.twoFramesPinned
    (Pool.reachable_after (by decide) (by decide))
  ⟨h.1 ⟨0, 0, true⟩ (by decide), h.2.1 ⟨1, 1, true⟩ (by decide)⟩

/-! ## FlushPage -/

/-- Fewer than `N` guards leave a frame id of `[0, N)` that is the frame of none of them. -/
theorem exists_unguarded_frame {N : Nat} {G : List Guard} (h : G.length < N) :
    ∃ f : Int, 0 ≤ f ∧ f < N ∧ ∀ g ∈ G, g.frame_ ≠ f := by
  have hcard : (G.map Guard.frame_).toFinset.card <
      ((Finset.range N).image (fun i : Nat => (i : Int))).card := by
    rw [Finset.card_image_of_injective _ Nat.cast_injective, Finset.card_range]
    exact lt_of_le_of_lt (List.toFinset_card_le _) (by rw [List.length_map]; exact h)
  obtain ⟨f, hf, hnot⟩ : ∃ f ∈ (Finset.range N).image (fun i : Nat => (i : Int)),
      f ∉ (G.map Guard.frame_).toFinset := by
    by_contra hall
    have hsub : (Finset.range N).image (fun i : Nat => (i : Int)) ⊆
        (G.map Guard.frame_).toFinset := by
      intro x hx
      by_contra hx'
      exact hall ⟨x, hx, hx'⟩
    have := Finset.card_le_card hsub
    omega
  rw [Finset.mem_image] at hf
  obtain ⟨i, hi, rfl⟩ := hf
  rw [Finset.mem_range] at hi
  refine ⟨(i : Int), by omega, by omega, ?_⟩
  intro g hg hgf
  apply hnot
  rw [List.mem_toFinset, List.mem_map]
  exact ⟨g, hg, hgf⟩

namespace BufferPoolManager

/-- While the caller holds fewer guards than there are frames, the free list is not empty or an
alive frame is evictable. -/
theorem frame_available {N : Nat} {s : BufferPoolManager} {G : List Guard}
    (hinv : PoolInv N none s G) (h : G.length < N) :
    ¬ (s.free_frames_ = [] ∧ ∀ g q, s.replacer_.view g ≠ some (q, true)) := by
  rintro ⟨hfree, hnone⟩
  obtain ⟨f, h0, h1, hf⟩ := exists_unguarded_frame h
  have hmem := hinv.table.partition.symm.subset (TableInv.mem_range.mpr ⟨h0, h1⟩)
  rw [hfree, List.nil_append, List.mem_map] at hmem
  obtain ⟨⟨p, f'⟩, he, hef⟩ := hmem
  simp only at hef
  rw [hef] at he
  have hfind := intMap_find_of_mem hinv.table.table_keys he
  simp only at hfind
  obtain ⟨e, hview⟩ := hinv.table.table_alive p f hfind
  cases e with
  | true => exact hnone f p hview
  | false =>
    apply hinv.pin.pin_evictable f p (by simp) hview
    have hpins := hinv.pin.pins f h0 h1
    simp only at hpins ⊢
    rw [hpins, List.countP_eq_zero]
    intro g hg
    simp only [decide_eq_true_eq]
    exact hf g hg

/-- `ReadPage` of a page in range returns while the caller holds fewer guards than there are
frames and no write guard on the page. -/
theorem ReadPage_ok {N : Nat} {s : BufferPoolManager} {G : List Guard}
    (hinv : PoolInv N none s G) (hG : G.length < N) {p : Int} (h0 : 0 ≤ p)
    (h1 : p < s.next_page_id_) (hw : ∀ g ∈ G, g.page_id_ = p → g.isWrite = false) :
    ∃ f s', s.ReadPage p = Except.ok (⟨p, f, true⟩, s') ∧
      PoolInv N none s' (Guard.read ⟨p, f, true⟩ :: G) ∧
      (∀ q, s'.content q = s.content q) ∧ s'.next_page_id_ = s.next_page_id_ ∧
      s'.page_table_.find p = some f := by
  have hlen : G.length + 1 < SIZE_T_MODULUS := by
    have := hinv.table.bound
    unfold SIZE_T_MODULUS
    omega
  rcases ReadPage_cases hinv hlen p with
    ⟨hc, _⟩ | ⟨_, ⟨⟨g, hg, hgp, hgw⟩, _⟩ | ⟨_, hok⟩⟩
  · rcases hc with hc | hc | ⟨_, hc⟩
    · omega
    · omega
    · exact absurd hc (frame_available hinv hG)
  · rw [hw g hg hgp] at hgw
    cases hgw
  · exact hok

/-- `WritePage` of a page in range returns while the caller holds fewer guards than there are
frames and no guard on the page. -/
theorem WritePage_ok {N : Nat} {s : BufferPoolManager} {G : List Guard}
    (hinv : PoolInv N none s G) (hG : G.length < N) {p : Int} (h0 : 0 ≤ p)
    (h1 : p < s.next_page_id_) (hw : ∀ g ∈ G, g.page_id_ ≠ p) :
    ∃ f s', s.WritePage p = Except.ok (⟨p, f, true⟩, s') ∧
      PoolInv N none s' (Guard.write ⟨p, f, true⟩ :: G) ∧
      (∀ q, s'.content q = s.content q) ∧ s'.next_page_id_ = s.next_page_id_ ∧
      s'.page_table_.find p = some f := by
  have hlen : G.length + 1 < SIZE_T_MODULUS := by
    have := hinv.table.bound
    unfold SIZE_T_MODULUS
    omega
  rcases WritePage_cases hinv hlen p with
    ⟨hc, _⟩ | ⟨_, ⟨⟨g, hg, hgp, _⟩, _⟩ | ⟨⟨⟨g, hg, hgp⟩, _⟩, _⟩ | ⟨_, hok⟩⟩
  · rcases hc with hc | hc | ⟨_, hc⟩
    · omega
    · omega
    · exact absurd hc (frame_available hinv hG)
  · exact absurd hgp (hw g hg)
  · exact absurd hgp (hw g hg)
  · exact hok

/-- The bytes `GetData()` returns through a read guard the caller holds are those of the
page. -/
theorem GetData_eq {N : Nat} {s : BufferPoolManager} {G : List Guard}
    (hinv : PoolInv N none s G) {g : ReadPageGuard} (hg : Guard.read g ∈ G) :
    s.GetData g = Except.ok (s.content g.page_id_) := by
  have hv := hinv.pin.guards_valid _ hg
  have hval : g.is_valid_ = true := hv.1
  have hp : s.page_table_.find g.page_id_ = some g.frame_ := hv.2
  have hfr := hinv.table.value_in_range hp
  have h1 : g.frame_ < (s.frames_.length : Int) := by
    rw [hinv.frames_length]
    exact hfr.2
  unfold GetData
  simp only [hval, if_true, bind, Except.bind, frame_eq hfr.1 h1, pure, Except.pure]
  rw [content_resident hp]

/-- A write through a guard while no guard is held. -/
theorem writeThrough_ok {N : Nat} {s : BufferPoolManager} (hinv : PoolInv N none s [])
    (hN : 1 ≤ N) {p : Int} (h0 : 0 ≤ p) (h1 : p < s.next_page_id_) (data : PageData) :
    ∃ s', s.writeThrough p data = Except.ok s' ∧ PoolInv N none s' [] ∧
      (∀ q, s'.content q = if q = p then data else s.content q) ∧
      s'.next_page_id_ = s.next_page_id_ := by
  obtain ⟨f, s1, he1, hinv1, hc1, hn1, _⟩ :=
    WritePage_ok hinv (by simpa using hN) h0 h1 (fun g hg => by cases hg)
  obtain ⟨s2, he2, hinv2, hc2, hc2', hn2, _⟩ :=
    store_inv hinv1 (g := ⟨p, f, true⟩) (List.mem_cons_self _ _) data
  obtain ⟨s3, he3, hinv3, hc3, hn3, _⟩ :=
    DropWrite_inv hinv2 (g := ⟨p, f, true⟩) (List.mem_cons_self _ _)
  refine ⟨s3, ?_, ?_, ?_, ?_⟩
  · unfold writeThrough
    simp only [bind, Except.bind, he1, he2, he3, pure, Except.pure]
  · simpa using hinv3
  · intro q
    rw [hc3 q]
    by_cases hq : q = p
    · rw [if_pos hq, hq]
      exact hc2'
    · rw [if_neg hq, hc2 q hq, hc1 q]
  · rw [hn3, hn2, hn1]

/-- A read through a guard while no guard is held. -/
theorem readThrough_ok {N : Nat} {s : BufferPoolManager} (hinv : PoolInv N none s [])
    (hN : 1 ≤ N) {p : Int} (h0 : 0 ≤ p) (h1 : p < s.next_page_id_) :
    ∃ s', s.readThrough p = Except.ok (s.content p, s') ∧ PoolInv N none s' [] ∧
      (∀ q, s'.content q = s.content q) ∧ s'.next_page_id_ = s.next_page_id_ := by
  obtain ⟨f, s1, he1, hinv1, hc1, hn1, _⟩ :=
    ReadPage_ok hinv (by simpa using hN) h0 h1 (fun g hg => by cases hg)
  have he2 := GetData_eq hinv1 (g := ⟨p, f, true⟩) (List.mem_cons_self _ _)
  obtain ⟨s3, he3, hinv3, hc3, hn3, _⟩ :=
    Drop_inv hinv1 (g := ⟨p, f, true⟩) (List.mem_cons_self _ _)
  refine ⟨s3, ?_, ?_, ?_, ?_⟩
  · unfold readThrough
    simp only [bind, Except.bind, he1, he2, he3, pure, Except.pure]
    rw [hc1 p]
  · simpa using hinv3
  · intro q
    rw [hc3 q, hc1 q]
  · rw [hn3, hn1]

/-- A sequence of accesses to pages in range while no guard is held: the reads return what
`lastWrittenReads` gives for the bytes of the pages. -/
theorem accesses_ok {N : Nat} (hN : 1 ≤ N) (ops : List PageAccess) :
    ∀ {s : BufferPoolManager}, PoolInv N none s [] →
      (∀ a ∈ ops, 0 ≤ a.page_id ∧ a.page_id < s.next_page_id_) →
      ∃ s', s.accesses ops = Except.ok (lastWrittenReads s.content ops, s') := by
  induction ops with
  | nil =>
    intro s _ _
    exact ⟨s, rfl⟩
  | cons a ops ih =>
    intro s hinv hr
    have ha := hr a (List.mem_cons_self _ _)
    cases a with
    | write p data =>
      have ha' : 0 ≤ p ∧ p < s.next_page_id_ := ha
      obtain ⟨s1, he1, hinv1, hc1, hn1⟩ := writeThrough_ok hinv hN ha'.1 ha'.2 data
      obtain ⟨s2, he2⟩ := ih hinv1 (fun a ha => by
        rw [hn1]
        exact hr a (List.mem_cons_of_mem _ ha))
      refine ⟨s2, ?_⟩
      have : s1.content = fun q => if q = p then data else s.content q := funext hc1
      rw [this] at he2
      unfold accesses lastWrittenReads
      simp only [bind, Except.bind, he1, he2]
    | read p =>
      have ha' : 0 ≤ p ∧ p < s.next_page_id_ := ha
      obtain ⟨s1, he1, hinv1, hc1, hn1⟩ := readThrough_ok hinv hN ha'.1 ha'.2
      obtain ⟨s2, he2⟩ := ih hinv1 (fun a ha => by
        rw [hn1]
        exact hr a (List.mem_cons_of_mem _ ha))
      refine ⟨s2, ?_⟩
      have : s1.content = s.content := funext hc1
      rw [this] at he2
      unfold accesses lastWrittenReads
      simp only [bind, Except.bind, he1, he2, pure, Except.pure]

theorem allocate_inv {N : Nat} (n : Nat) :
    ∀ {s : BufferPoolManager}, PoolInv N none s [] → 0 ≤ s.next_page_id_ →
      s.next_page_id_ + n < 2147483648 →
      PoolInv N none (s.allocate n) [] ∧ (∀ q, (s.allocate n).content q = s.content q) ∧
        (s.allocate n).next_page_id_ = s.next_page_id_ + n := by
  induction n with
  | zero =>
    intro s hinv _ _
    exact ⟨hinv, fun _ => rfl, by simp [allocate]⟩
  | succ n ih =>
    intro s hinv h0 h1
    have hnext : s.NewPage.2.next_page_id_ = s.next_page_id_ + 1 := by
      show wrapInt32 (s.next_page_id_ + 1) = _
      exact wrapInt32_of_bounds _ (by omega) (by omega)
    obtain ⟨hinv1, hc1, hn1⟩ := ih (NewPage_inv hinv).1 (by rw [hnext]; omega)
      (by rw [hnext]; push_cast at h1; omega)
    refine ⟨hinv1, fun q => (hc1 q).trans ((NewPage_inv hinv).2 q), ?_⟩
    show (s.NewPage.2.allocate n).next_page_id_ = _
    rw [hn1, hnext]
    push_cast
    omega

theorem content_new (N : Nat) (q : Int) :
    (BufferPoolManager.new N DiskManagerMemory.new).content q = PageData.zero := rfl

end BufferPoolManager

/-! ## A read returns the bytes most recently written -/

/-- C24: on a fresh buffer pool of `N ≥ 1` frames over an empty disk manager with the pages
`0 .. K - 1` allocated, every sequence of writes and reads of those pages through guards, each
guard dropped before the next page is requested, returns, and each read returns the bytes most
recently written to its page through a write guard, or `PAGE_SIZE` zero bytes if the page was
never written. -/
theorem C24_read_returns_last_write (N K : Nat) (hN1 : 1 ≤ N) (hN : N < 2147483648)
    (hK : K < 2147483648) (ops : List PageAccess)
    (hops : ∀ a ∈ ops, 0 ≤ a.page_id ∧ a.page_id < K) :
    ∃ s', ((BufferPoolManager.new N DiskManagerMemory.new).allocate K).accesses ops =
      Except.ok (lastWrittenReads (fun _ => PageData.zero) ops, s') := by
  obtain ⟨hinv, hc, hn⟩ := BufferPoolManager.allocate_inv K
    (BufferPoolManager.poolInv_new hN DiskManagerMemory.new) (le_refl _)
    (by
      show (0 : Int) + K < 2147483648
      omega)
  have hn' : ((BufferPoolManager.new N DiskManagerMemory.new).allocate K).next_page_id_ = K := by
    rw [hn]
    show (0 : Int) + K = K
    omega
  obtain ⟨s', he⟩ := BufferPoolManager.accesses_ok hN1 ops hinv (fun a ha => by
    rw [hn']
    exact hops a ha)
  refine ⟨s', ?_⟩
  rw [he]
  have : ((BufferPoolManager.new N DiskManagerMemory.new).allocate K).content =
      fun _ => PageData.zero := funext (fun q => (hc q).trans (BufferPoolManager.content_new N q))
  rw [this]

/-- C24, witness: a pool of one frame and two pages, so that every access to the other page
evicts the one that is resident: page 0 and page 1 are written, and the reads of page 0, page 1
and page 0 return the bytes written to each. -/
theorem C24_read_returns_last_write_witness :
    lastWrittenReads (fun _ => PageData.zero)
        [PageAccess.write 0 (List.replicate PAGE_SIZE 7),
          PageAccess.write 1 (List.replicate PAGE_SIZE 9), PageAccess.read 0,
          PageAccess.read 1, PageAccess.read 0] =
      [List.replicate PAGE_SIZE 7, List.replicate PAGE_SIZE 9, List.replicate PAGE_SIZE 7] ∧
    ∃ s', ((BufferPoolManager.new 1 DiskManagerMemory.new).allocate 2).accesses
        [PageAccess.write 0 (List.replicate PAGE_SIZE 7),
          PageAccess.write 1 (List.replicate PAGE_SIZE 9), PageAccess.read 0,
          PageAccess.read 1, PageAccess.read 0] =
      Except.ok (lastWrittenReads (fun _ => PageData.zero)
        [PageAccess.write 0 (List.replicate PAGE_SIZE 7),
          PageAccess.write 1 (List.replicate PAGE_SIZE 9), PageAccess.read 0,
          PageAccess.read 1, PageAccess.read 0], s') :=
  ⟨rfl, C24_read_returns_last_write 1 2 (by decide) (by decide) (by decide) _ (by decide)⟩

/-! ## The block nested loop join -/

/-- The invariant of the buffer pool does not depend on the order of the guards. -/
theorem PoolInv.perm {N : Nat} {x : Option Int} {s : BufferPoolManager} {G G' : List Guard}
    (h : PoolInv N x s G) (hp : G.Perm G') : PoolInv N x s G' where
  frames_length := h.frames_length
  table := h.table
  pin :=
    { guards_valid := fun g hg => h.pin.guards_valid g (hp.mem_iff.mpr hg)
      guards_bound := by
        rw [← hp.length_eq]
        exact h.pin.guards_bound
      pins := by
        intro f h0 h1
        rw [← hp.countP_eq]
        exact h.pin.pins f h0 h1
      evictable_pin := h.pin.evictable_pin
      pin_evictable := h.pin.pin_evictable }
  latch :=
    { readers_eq := by
        intro f h0 h1
        rw [← hp.countP_eq]
        exact h.latch.readers_eq f h0 h1
      writer_iff := by
        intro f h0 h1
        rw [h.latch.writer_iff f h0 h1]
        constructor
        · rintro ⟨g, hg, hgf⟩
          exact ⟨g, hp.mem_iff.mp hg, hgf⟩
        · rintro ⟨g, hg, hgf⟩
          exact ⟨g, hp.mem_iff.mpr hg, hgf⟩
      exclusive := by
        intro g hg hgw
        rw [← hp.countP_eq]
        exact h.latch.exclusive g (hp.mem_iff.mpr hg) hgw }
  data := h.data

namespace BlockNestedLoopJoinExecutor

theorem matchLoop_eq (c : Int) (rid : RID) (items : List item) :
    ∀ results : List (RID × RID), matchLoop c rid items results =
      results ++ (items.filter (fun it => decide (it.col1 = c))).map
        (fun it => (it.left_rid, rid)) := by
  induction items with
  | nil =>
    intro results
    simp [matchLoop]
  | cons it items ih =>
    intro results
    unfold matchLoop
    rw [ih]
    by_cases hc : it.col1 = c
    · simp [hc, List.filter_cons]
    · simp [hc, List.filter_cons]

end BlockNestedLoopJoinExecutor

theorem RowChain.start_eq {bytes : Int → PageData} {row_size : Nat} {start : RID}
    {row : RID × Int} {rows : List (RID × Int)}
    (h : RowChain bytes row_size start (row :: rows)) :
    row.1 = start ∧ start.IsValid = true := by
  cases h with
  | cons hv _ _ => exact ⟨rfl, hv⟩

theorem RowChain.of_nil {bytes : Int → PageData} {row_size : Nat} {start : RID}
    (h : RowChain bytes row_size start []) : start.IsValid = false := by
  cases h with
  | nil hv => exact hv

theorem RowChain.congr {bytes bytes' : Int → PageData} (hb : ∀ q, bytes' q = bytes q)
    {row_size : Nat} {start : RID} {rows : List (RID × Int)}
    (h : RowChain bytes row_size start rows) : RowChain bytes' row_size start rows := by
  have : bytes' = bytes := funext hb
  rw [this]
  exact h

namespace BufferPoolManager

/-- The move assignment to a guard that is not valid. -/
theorem moveAssign_invalid (s : BufferPoolManager) {this : ReadPageGuard}
    (h : this.is_valid_ = false) (that : ReadPageGuard) :
    s.moveAssign this that =
      Except.ok (⟨that.page_id_, that.frame_, that.is_valid_⟩,
        { that with is_valid_ := false }, s) := by
  unfold moveAssign
  rw [Drop_invalid s h]
  rfl

/-- The destructors of guards the caller holds. -/
theorem dropAll_ok {N : Nat} (gs : List ReadPageGuard) :
    ∀ {s : BufferPoolManager} {G H : List Guard}, PoolInv N none s G →
      G.Perm (gs.map Guard.read ++ H) →
      ∃ s', s.dropAll gs = Except.ok s' ∧ PoolInv N none s' H ∧
        (∀ q, s'.content q = s.content q) ∧ s'.next_page_id_ = s.next_page_id_ := by
  induction gs with
  | nil =>
    intro s G H hinv hp
    exact ⟨s, rfl, hinv.perm hp, fun _ => rfl, rfl⟩
  | cons g gs ih =>
    intro s G H hinv hp
    have hinv' := hinv.perm hp
    obtain ⟨s1, he1, hinv1, hc1, hn1, _⟩ :=
      Drop_inv hinv' (g := g) (List.mem_cons_self _ _)
    have herase : ((g :: gs).map Guard.read ++ H).erase (Guard.read g) =
        gs.map Guard.read ++ H := by
      simp
    rw [herase] at hinv1
    obtain ⟨s2, he2, hinv2, hc2, hn2⟩ := ih hinv1 (List.Perm.refl _)
    refine ⟨s2, ?_, hinv2, fun q => (hc2 q).trans (hc1 q), hn2.trans hn1⟩
    unfold dropAll
    simp only [bind, Except.bind, he1, he2]

end BufferPoolManager

namespace BlockNestedLoopJoinExecutor

/-- The page switch of the loop over the rows of a block, while the caller holds the guard
`g`, the guards `gs` and fewer guards than there are frames: afterwards the current guard is on
the page of the row. -/
theorem leftSwitch_ok {N : Nat} {s : BufferPoolManager} {g : ReadPageGuard}
    {gs : List ReadPageGuard} (hinv : PoolInv N none s ((g :: gs).map Guard.read))
    (hG : gs.length + 1 < N) {rid : RID} (h0 : 0 ≤ rid.page_id)
    (h1 : rid.page_id < s.next_page_id_) :
    ∃ s' g' gs', leftSwitch s rid g gs (gs.length + 1) = Except.ok (s', g', gs', gs'.length + 1) ∧
      PoolInv N none s' ((g' :: gs').map Guard.read) ∧ g'.page_id_ = rid.page_id ∧
      (∀ q, s'.content q = s.content q) ∧ s'.next_page_id_ = s.next_page_id_ ∧
      gs.length ≤ gs'.length ∧ gs'.length ≤ gs.length + 1 := by
  by_cases hpage : g.page_id_ = rid.page_id
  · refine ⟨s, g, gs, ?_, hinv, hpage, fun _ => rfl, rfl, le_refl _, Nat.le_succ _⟩
    unfold leftSwitch
    rw [if_neg (by simpa using hpage)]
    rfl
  · have hlen : ((g :: gs).map Guard.read).length < N := by
      rw [List.length_map, List.length_cons]
      exact hG
    obtain ⟨f, s1, he1, hinv1, hc1, hn1, _⟩ :=
      BufferPoolManager.ReadPage_ok hinv hlen h0 h1 (by
        intro g' hg' _
        rw [List.mem_map] at hg'
        obtain ⟨r, _, rfl⟩ := hg'
        rfl)
    have hadd : addSizeT (gs.length + 1) 1 = (gs ++ [g]).length + 1 := by
      rw [List.length_append, List.length_singleton]
      apply addSizeT_one
      have := hinv.table.bound
      unfold SIZE_T_MODULUS
      omega
    refine ⟨s1, ⟨rid.page_id, f, true⟩, gs ++ [g], ?_, ?_, rfl, hc1, hn1, ?_, ?_⟩
    · unfold leftSwitch
      rw [if_pos hpage]
      simp only [ReadPageGuard.move, bind, Except.bind, he1,
        BufferPoolManager.moveAssign_invalid, BufferPoolManager.Drop_invalid, pure, Except.pure,
        hadd]
    · apply hinv1.perm
      rw [List.map_cons, List.map_cons, List.map_append, List.map_cons, List.map_nil]
      apply List.Perm.cons
      exact (List.perm_append_singleton _ _).symm
    · rw [List.length_append]
      omega
    · rw [List.length_append, List.length_singleton]

/-- The loop over the rows of a block, on a chain of rows in pages in range: it takes rows of
the chain in order, at least one if the block has room and the chain has a row; the caller
holds the guards it returns. -/
theorem leftLoop_ok {N : Nat} {c : Int → PageData} {row_size block_size : Nat} {K : Int}
    (hN : block_size < N) (rows : List (RID × Int)) :
    ∀ (fuel : Nat) {s : BufferPoolManager} {rid : RID} {g : ReadPageGuard}
      {gs : List ReadPageGuard} (items : List item), rows.length < fuel →
      PoolInv N none s ((g :: gs).map Guard.read) → (∀ q, s.content q = c q) →
      s.next_page_id_ = K → RowChain c row_size rid rows →
      (∀ row ∈ rows, 0 ≤ row.1.page_id ∧ row.1.page_id < K) →
      ∃ s' rid' g' gs' taken rest,
        leftLoop row_size block_size fuel s rid g gs (gs.length + 1) items =
          Except.ok (s', rid', g', gs',
            items ++ taken.map (fun row : RID × Int => (⟨row.2, row.1⟩ : item))) ∧
        rows = taken ++ rest ∧ RowChain c row_size rid' rest ∧
        PoolInv N none s' ((g' :: gs').map Guard.read) ∧ (∀ q, s'.content q = c q) ∧
        s'.next_page_id_ = K ∧ gs'.length ≤ max gs.length block_size ∧
        (gs.length + 1 ≤ block_size → rows ≠ [] → taken ≠ []) := by
  induction rows with
  | nil =>
    intro fuel s rid g gs items hfuel hinv hc hn hchain _
    obtain ⟨fuel', rfl⟩ : ∃ fuel', fuel = fuel' + 1 :=
      Nat.exists_eq_succ_of_ne_zero (by omega)
    refine ⟨s, rid, g, gs, [], [], ?_, rfl, hchain, hinv, hc, hn, le_max_left _ _,
      fun _ h => absurd rfl h⟩
    unfold leftLoop
    rw [if_neg (by
      rw [hchain.of_nil]
      simp)]
    simp [pure, Except.pure]
  | cons row rows ih =>
    intro fuel s rid g gs items hfuel hinv hc hn hchain hrange
    obtain ⟨fuel', rfl⟩ : ∃ fuel', fuel = fuel' + 1 :=
      Nat.exists_eq_succ_of_ne_zero (by omega)
    by_cases hroom : gs.length + 1 ≤ block_size
    · cases hchain with
      | @cons _ next_rid col1 _ hvalid hrow hrest =>
        have hpage := hrange (rid, col1) (List.mem_cons_self _ _)
        simp only at hpage
        obtain ⟨s1, g1, gs1, he1, hinv1, hg1, hc1, hn1, hlen1, hlen1'⟩ :=
          leftSwitch_ok hinv (by omega) hpage.1 (by rw [hn]; exact hpage.2)
        have hdata : s1.GetData g1 = Except.ok (c rid.page_id) := by
          rw [BufferPoolManager.GetData_eq hinv1 (g := g1) (List.mem_cons_self _ _), hg1, hc1, hc]
        obtain ⟨s', rid', g', gs', taken, rest, he, hrows, hchain', hinv', hc', hn', hlen',
            _⟩ :=
          ih fuel' (items ++ [⟨col1, rid⟩]) (by
            rw [List.length_cons] at hfuel
            omega) hinv1 (fun q => (hc1 q).trans (hc q)) (hn1.trans hn) hrest
            (fun r hr => hrange r (List.mem_cons_of_mem _ hr))
        refine ⟨s', rid', g', gs', (rid, col1) :: taken, rest, ?_, ?_, hchain', hinv', hc', hn',
          ?_, fun _ _ => List.cons_ne_nil _ _⟩
        · unfold leftLoop
          rw [if_pos ⟨hroom, hvalid⟩]
          simp only [bind, Except.bind, he1, hdata, hrow, he]
          simp
        · rw [hrows]
          rfl
        · apply le_trans hlen'
          apply max_le
          · exact le_trans hlen1' (le_trans hroom (le_max_right _ _))
          · exact le_max_right _ _
    · refine ⟨s, rid, g, gs, [], row :: rows, ?_, rfl, hchain, hinv, hc, hn, le_max_left _ _,
        fun h => absurd h hroom⟩
      unfold leftLoop
      rw [if_neg (fun h => hroom h.1)]
      simp [pure, Except.pure]

end BlockNestedLoopJoinExecutor

namespace BlockNestedLoopJoinExecutor

/-- The page switch of the loop over the right chain, while the caller holds the guard `rg`,
the read guards `H` and fewer guards than there are frames: afterwards the guard is on the page
of the row, and the guard that was held before is dropped. -/
theorem rightSwitch_ok {N : Nat} {s : BufferPoolManager} {rg : ReadPageGuard} {H : List Guard}
    (hinv : PoolInv N none s (Guard.read rg :: H)) (hH : ∀ g ∈ H, g.isWrite = false)
    (hG : H.length + 1 < N) {rid : RID} (h0 : 0 ≤ rid.page_id)
    (h1 : rid.page_id < s.next_page_id_) :
    ∃ s' rg', rightSwitch s rid rg = Except.ok (s', rg') ∧
      PoolInv N none s' (Guard.read rg' :: H) ∧ rg'.page_id_ = rid.page_id ∧
      (∀ q, s'.content q = s.content q) ∧ s'.next_page_id_ = s.next_page_id_ := by
  by_cases hpage : rg.page_id_ = rid.page_id
  · refine ⟨s, rg, ?_, hinv, hpage, fun _ => rfl, rfl⟩
    unfold rightSwitch
    rw [if_neg (by simpa using hpage)]
    rfl
  · obtain ⟨f, s1, he1, hinv1, hc1, hn1, _⟩ :=
      BufferPoolManager.ReadPage_ok hinv (by rw [List.length_cons]; exact hG) h0 h1 (by
        intro g' hg' _
        rcases List.mem_cons.mp hg' with h | h
        · rw [h]
          rfl
        · exact hH g' h)
    have hinv1' : PoolInv N none s1
        (Guard.read rg :: Guard.read ⟨rid.page_id, f, true⟩ :: H) :=
      hinv1.perm (List.Perm.swap _ _ _)
    obtain ⟨s2, he2, hinv2, hc2, hn2, _⟩ :=
      BufferPoolManager.Drop_inv hinv1' (g := rg) (List.mem_cons_self _ _)
    rw [List.erase_cons_head] at hinv2
    refine ⟨s2, ⟨rid.page_id, f, true⟩, ?_, hinv2, rfl, fun q => (hc2 q).trans (hc1 q),
      hn2.trans hn1⟩
    unfold rightSwitch
    rw [if_pos hpage]
    simp only [BufferPoolManager.moveAssign, bind, Except.bind, he1, he2,
      BufferPoolManager.Drop_invalid, pure, Except.pure]

/-- The loop over the right chain, on a chain of rows in pages in range: `results_` gains, for
each row of the chain in order, a pair for each item of the block with the `col1` of the row. -/
theorem rightLoop_ok {N : Nat} {c : Int → PageData} {row_size : Nat} {K : Int}
    {H : List Guard} (hH : ∀ g ∈ H, g.isWrite = false) (hG : H.length + 1 < N)
    (items : List item) (rows : List (RID × Int)) :
    ∀ (fuel : Nat) {s : BufferPoolManager} {rid : RID} {rg : ReadPageGuard}
      (results : List (RID × RID)), rows.length < fuel →
      PoolInv N none s (Guard.read rg :: H) → (∀ q, s.content q = c q) →
      s.next_page_id_ = K → RowChain c row_size rid rows →
      (∀ row ∈ rows, 0 ≤ row.1.page_id ∧ row.1.page_id < K) →
      ∃ s' rg',
        rightLoop row_size items fuel s rid rg results =
          Except.ok (s', rg', results ++ rows.flatMap (fun r : RID × Int =>
            (items.filter (fun it => decide (it.col1 = r.2))).map
              (fun it => (it.left_rid, r.1)))) ∧
        PoolInv N none s' (Guard.read rg' :: H) ∧ (∀ q, s'.content q = c q) ∧
        s'.next_page_id_ = K := by
  induction rows with
  | nil =>
    intro fuel s rid rg results hfuel hinv hc hn hchain _
    obtain ⟨fuel', rfl⟩ : ∃ fuel', fuel = fuel' + 1 :=
      Nat.exists_eq_succ_of_ne_zero (by omega)
    refine ⟨s, rg, ?_, hinv, hc, hn⟩
    unfold rightLoop
    rw [if_neg (by
      rw [hchain.of_nil]
      simp)]
    simp [pure, Except.pure]
  | cons row rows ih =>
    intro fuel s rid rg results hfuel hinv hc hn hchain hrange
    obtain ⟨fuel', rfl⟩ : ∃ fuel', fuel = fuel' + 1 :=
      Nat.exists_eq_succ_of_ne_zero (by omega)
    cases hchain with
    | @cons _ next_rid col1 _ hvalid hrow hrest =>
      have hpage := hrange (rid, col1) (List.mem_cons_self _ _)
      simp only at hpage
      obtain ⟨s1, rg1, he1, hinv1, hg1, hc1, hn1⟩ :=
        rightSwitch_ok hinv hH hG hpage.1 (by rw [hn]; exact hpage.2)
      have hdata : s1.GetData rg1 = Except.ok (c rid.page_id) := by
        rw [BufferPoolManager.GetData_eq hinv1 (g := rg1) (List.mem_cons_self _ _), hg1, hc1, hc]
      obtain ⟨s', rg', he, hinv', hc', hn'⟩ :=
        ih fuel' (matchLoop col1 rid items results) (by
          rw [List.length_cons] at hfuel
          omega) hinv1 (fun q => (hc1 q).trans (hc q)) (hn1.trans hn) hrest
          (fun r hr => hrange r (List.mem_cons_of_mem _ hr))
      refine ⟨s', rg', ?_, hinv', hc', hn'⟩
      unfold rightLoop
      rw [if_pos hvalid]
      simp only [bind, Except.bind, he1, hdata, hrow, he]
      rw [matchLoop_eq, List.flatMap_cons, List.append_assoc]

end BlockNestedLoopJoinExecutor

theorem joinPairs_nil (right : List (RID × Int)) : joinPairs [] right = [] := rfl

theorem joinPairs_append (left left' right : List (RID × Int)) :
    joinPairs (left ++ left') right = joinPairs left right ++ joinPairs left' right := by
  unfold joinPairs
  rw [List.flatMap_append]

/-- The pairs of a row `l` of the left chain, found one right row at a time. -/
theorem flatMap_match_row (l : RID × Int) (right : List (RID × Int)) :
    right.flatMap (fun r : RID × Int => if l.2 = r.2 then [(l.1, r.1)] else []) =
      (right.filter (fun r => decide (l.2 = r.2))).map (fun r => (l.1, r.1)) := by
  induction right with
  | nil => rfl
  | cons r right ih =>
    rw [List.flatMap_cons, ih]
    by_cases h : l.2 = r.2
    · simp [h, List.filter_cons]
    · simp [h, List.filter_cons]

/-- The pairs the loop over the right chain appends for a block are those of the join of the
rows of the block with the right chain, in another order. -/
theorem blockPairs_perm (taken right : List (RID × Int)) :
    (right.flatMap (fun r : RID × Int =>
      ((taken.map (fun row : RID × Int => (⟨row.2, row.1⟩ : item))).filter
        (fun it => decide (it.col1 = r.2))).map (fun it => (it.left_rid, r.1)))).Perm
      (joinPairs taken right) := by
  induction taken with
  | nil =>
    rw [joinPairs_nil]
    simp
  | cons l taken ih =>
    have hsplit : (fun r : RID × Int =>
        (((l :: taken).map (fun row : RID × Int => (⟨row.2, row.1⟩ : item))).filter
          (fun it => decide (it.col1 = r.2))).map (fun it => (it.left_rid, r.1))) =
        fun r : RID × Int => (if l.2 = r.2 then [(l.1, r.1)] else []) ++
          ((taken.map (fun row : RID × Int => (⟨row.2, row.1⟩ : item))).filter
            (fun it => decide (it.col1 = r.2))).map (fun it => (it.left_rid, r.1)) := by
      funext r
      by_cases h : l.2 = r.2
      · simp [h, List.filter_cons]
      · simp [h, List.filter_cons]
    rw [hsplit]
    refine (List.flatMap_append_perm right _ _).symm.trans ?_
    rw [flatMap_match_row]
    show List.Perm _ ((right.filter (fun r => decide (l.2 = r.2))).map (fun r => (l.1, r.1)) ++
      joinPairs taken right)
    exact List.Perm.append_left _ ih

namespace BlockNestedLoopJoinExecutor

/-- The loop over the blocks of the left chain, entered with no guard held on a pool of at
least `block_size + 3` frames: it returns with no guard held, and `results_` has gained the
pairs of the join of the left rows that were left with the right chain, in some order. -/
theorem blockLoop_ok {N : Nat} {c : Int → PageData} {left_row_size right_row_size : Nat}
    {K : Int} {block_size fuel : Nat} {right_start : RID} {right : List (RID × Int)}
    (hb : 1 ≤ block_size) (hN : block_size + 3 ≤ N)
    (hr : RowChain c right_row_size right_start right)
    (hrp : ∀ row ∈ right, 0 ≤ row.1.page_id ∧ row.1.page_id < K)
    (hrfuel : right.length < fuel) :
    ∀ (n : Nat) (left : List (RID × Int)) {s : BufferPoolManager} {rid : RID}
      (results : List (RID × RID)), left.length < n → left.length < fuel →
      (left = [] ∨ right ≠ []) → PoolInv N none s [] → (∀ q, s.content q = c q) →
      s.next_page_id_ = K → RowChain c left_row_size rid left →
      (∀ row ∈ left, 0 ≤ row.1.page_id ∧ row.1.page_id < K) →
      ∃ s' results',
        blockLoop left_row_size right_row_size right_start block_size fuel n s rid results =
          Except.ok (s', results') ∧
        results'.Perm (results ++ joinPairs left right) ∧
        PoolInv N none s' [] ∧ (∀ q, s'.content q = c q) ∧ s'.next_page_id_ = K := by
  intro n
  induction n with
  | zero =>
    intro left s rid results hn
    omega
  | succ n ih =>
    intro left s rid results hn hfuel hne hinv hc hnext hchain hlp
    cases left with
    | nil =>
      refine ⟨s, results, ?_, ?_, hinv, hc, hnext⟩
      · unfold blockLoop
        rw [if_neg (by
          rw [hchain.of_nil]
          simp)]
        rfl
      · rw [joinPairs_nil, List.append_nil]
    | cons row left =>
      have hright : right ≠ [] := by
        rcases hne with h | h
        · cases h
        · exact h
      obtain ⟨hrow, hvalid⟩ := hchain.start_eq
      have hpage := hlp row (List.mem_cons_self _ _)
      rw [hrow] at hpage
      -- the page of the first row of the block is read
      obtain ⟨f0, s1, he1, hinv1, hc1, hn1, _⟩ :=
        BufferPoolManager.ReadPage_ok hinv (show ([] : List Guard).length < N by
          rw [List.length_nil]
          omega) hpage.1 (by rw [hnext]; exact hpage.2) (fun g hg => by cases hg)
      -- the rows of the block are taken
      have hinv1' : PoolInv N none s1
          ((⟨rid.page_id, f0, true⟩ :: ([] : List ReadPageGuard)).map Guard.read) := hinv1
      obtain ⟨s2, rid', g', gs', taken, rest, he2, hrows, hchain', hinv2, hc2, hn2, hlen2,
          htaken⟩ :=
        leftLoop_ok (show block_size < N by omega) (row :: left) fuel [] hfuel hinv1'
          (fun q => (hc1 q).trans (hc q)) (hn1.trans hnext) hchain hlp
      have he2' : leftLoop left_row_size block_size fuel s1 rid ⟨rid.page_id, f0, true⟩ [] 1 [] =
          Except.ok (s2, rid', g', gs',
            taken.map (fun row : RID × Int => (⟨row.2, row.1⟩ : item))) := by
        rw [← List.nil_append (taken.map _)]
        exact he2
      have hgs : gs'.length ≤ block_size := by
        simpa using hlen2
      have htaken' : taken ≠ [] := htaken (by simpa using hb) (List.cons_ne_nil _ _)
      have hitems : (taken.map (fun row : RID × Int => (⟨row.2, row.1⟩ : item))).isEmpty =
          false := by
        cases taken with
        | nil => exact absurd rfl htaken'
        | cons _ _ => rfl
      -- the first page of the right chain is read
      obtain ⟨r0, right', hright'⟩ : ∃ r0 right', right = r0 :: right' := by
        cases right with
        | nil => exact absurd rfl hright
        | cons r0 right' => exact ⟨r0, right', rfl⟩
      have hrstart : right_start.page_id = r0.1.page_id := by
        rw [hright'] at hr
        rw [hr.start_eq.1]
      have hrpage := hrp r0 (by rw [hright']; exact List.mem_cons_self _ _)
      rw [← hrstart] at hrpage
      have hreads : ∀ g ∈ (g' :: gs').map Guard.read, g.isWrite = false := by
        intro g hg
        rw [List.mem_map] at hg
        obtain ⟨r, _, rfl⟩ := hg
        rfl
      obtain ⟨f3, s3, he3, hinv3, hc3, hn3, _⟩ :=
        BufferPoolManager.ReadPage_ok hinv2 (by
          rw [List.length_map, List.length_cons]
          omega) hrpage.1 (by rw [hn2]; exact hrpage.2) (fun g hg _ => hreads g hg)
      -- the right chain is scanned
      obtain ⟨s4, rg', he4, hinv4, hc4, hn4⟩ :=
        rightLoop_ok hreads (by
          rw [List.length_map, List.length_cons]
          omega) (taken.map (fun row : RID × Int => (⟨row.2, row.1⟩ : item))) right fuel
          results hrfuel hinv3 (fun q => (hc3 q).trans (hc2 q)) (hn3.trans hn2) hr hrp
      -- the guards are destroyed
      obtain ⟨s5, he5, hinv5, hc5, hn5⟩ :=
        BufferPoolManager.dropAll_ok (rg' :: g' :: gs') (H := []) hinv4 (by
          rw [List.append_nil]
          exact List.Perm.refl _)
      -- the other blocks
      have hlenrest : rest.length < (row :: left).length := by
        rw [hrows, List.length_append]
        have : 0 < taken.length := List.length_pos.mpr htaken'
        omega
      obtain ⟨s6, results', he6, hperm, hinv6, hc6, hn6⟩ :=
        ih rest (results ++ right.flatMap (fun r : RID × Int =>
            ((taken.map (fun row : RID × Int => (⟨row.2, row.1⟩ : item))).filter
              (fun it => decide (it.col1 = r.2))).map (fun it => (it.left_rid, r.1))))
          (by omega) (by omega) (Or.inr hright) hinv5 (fun q => (hc5 q).trans (hc4 q))
          (hn5.trans hn4) hchain'
          (fun r hr => hlp r (by rw [hrows]; exact List.mem_append_right _ hr))
      refine ⟨s6, results', ?_, ?_, hinv6, hc6, hn6⟩
      · unfold blockLoop
        rw [if_pos hvalid]
        simp only [bind, Except.bind, he1, he2', hitems, Bool.false_eq_true, if_false, he3, he4,
          he5, he6]
      · refine hperm.trans ?_
        rw [hrows, joinPairs_append, List.append_assoc]
        exact List.Perm.append_left _
          (List.Perm.append_right _ (blockPairs_perm taken right))

end BlockNestedLoopJoinExecutor

/-- A pool with too few frames for the join: a pool of one frame in which page 0 holds a left
chain of one row and page 1 a right chain of one row with the same `col1`.  The join has one
pair, but `ExecuteJoin` with `block_size = 1` throws `runtime_error`: it holds the guard of the
left page when it reads the right page, and the only frame is pinned. -/
theorem join_throws_in_small_pool :
    Pool.Reachable 1 DiskManagerMemory.new Pool.joinOneFrame ∧
    Pool.joinOneFrame.guards = [] ∧
    RowChain Pool.joinOneFrame.bpm.content SIMPLE_ROW_SIZE ⟨0, 0⟩ [(⟨0, 0⟩, 5)] ∧
    RowChain Pool.joinOneFrame.bpm.content SIMPLE_ROW_SIZE ⟨1, 0⟩ [(⟨1, 0⟩, 5)] ∧
    joinPairs [(⟨0, 0⟩, 5)] [(⟨1, 0⟩, 5)] = [(⟨0, 0⟩, ⟨1, 0⟩)] ∧
    BlockNestedLoopJoinExecutor.ExecuteJoin SIMPLE_ROW_SIZE SIMPLE_ROW_SIZE 3
      Pool.joinOneFrame.bpm ⟨0, 0⟩ ⟨1, 0⟩ 1 = Except.error Err.runtime_error :=
  ⟨Pool.reachable_after (by decide) (by decide), by decide,
    RowChain.cons (by decide) (by decide)
      (RowChain.nil (by decide) : RowChain _ _ ⟨-1, -1⟩ []),
    RowChain.cons (by decide) (by decide)
      (RowChain.nil (by decide) : RowChain _ _ ⟨-1, -1⟩ []),
    by decide, by decide⟩

/-- In a pool reachable by operations of a single caller who holds no guard, with
at least `block_size + 3` frames, for every left chain and right chain of rows in pages in
range, the right chain not empty unless the left chain is, and every `block_size ≥ 1`,
`ExecuteJoin` returns and leaves in `results_` a permutation of the pairs of the join: one pair
`(left RID, right RID)` for each combination of a left row and a right row with equal `col1`,
and no other pair. -/
theorem join_pairs (N : Nat) (d : DiskManagerMemory) (P : Pool)
    (h : Pool.Reachable N d P) (hG : P.guards = [])
    (left_row_size right_row_size block_size : Nat) (hb : 1 ≤ block_size)
    (hN : block_size + 3 ≤ N) (left_start right_start : RID) (left right : List (RID × Int))
    (hl : RowChain P.bpm.content left_row_size left_start left)
    (hr : RowChain P.bpm.content right_row_size right_start right)
    (hlp : ∀ row ∈ left, 0 ≤ row.1.page_id ∧ row.1.page_id < P.bpm.next_page_id_)
    (hrp : ∀ row ∈ right, 0 ≤ row.1.page_id ∧ row.1.page_id < P.bpm.next_page_id_)
    (hne : left = [] ∨ right ≠ []) (fuel : Nat) (hfuel : left.length + right.length < fuel) :
    ∃ s' results,
      BlockNestedLoopJoinExecutor.ExecuteJoin left_row_size right_row_size fuel P.bpm
        left_start right_start block_size = Except.ok (s', results) ∧
      results.Perm (joinPairs left right) := by
  have hinv := h.poolInv
  rw [hG] at hinv
  obtain ⟨s', results, he, hperm, _⟩ :=
    BlockNestedLoopJoinExecutor.blockLoop_ok hb hN hr hrp
      (show right.length < fuel by omega) fuel left []
      (by omega) (by omega) hne hinv (fun _ => rfl) rfl hl hlp
  exact ⟨s', results, he, by simpa using hperm⟩

/-- An instance: a pool of four frames, a left chain of three rows on two pages and a right
chain of two rows, with `block_size = 1`. -/
theorem join_pairs_instance :
    joinPairs [(⟨0, 0⟩, 5), (⟨0, 1⟩, 6), (⟨1, 0⟩, 5)] [(⟨2, 0⟩, 5), (⟨2, 1⟩, 6)] =
      [(⟨0, 0⟩, ⟨2, 0⟩), (⟨0, 1⟩, ⟨2, 1⟩), (⟨1, 0⟩, ⟨2, 0⟩)] ∧
    ∃ s' results,
      BlockNestedLoopJoinExecutor.ExecuteJoin SIMPLE_ROW_SIZE SIMPLE_ROW_SIZE 6
        Pool.joinFourFrames.bpm ⟨0, 0⟩ ⟨2, 0⟩ 1 = Except.ok (s', results) ∧
      results.Perm
        (joinPairs [(⟨0, 0⟩, 5), (⟨0, 1⟩, 6), (⟨1, 0⟩, 5)] [(⟨2, 0⟩, 5), (⟨2, 1⟩, 6)]) :=
  ⟨by decide,
    join_pairs 4 DiskManagerMemory.new Pool.joinFourFrames
      (Pool.reachable_after (by decide) (by decide)) (by decide)
      SIMPLE_ROW_SIZE SIMPLE_ROW_SIZE 1 (by decide) (by decide) ⟨0, 0⟩ ⟨2, 0⟩ _ _
      (RowChain.cons (by decide) (by decide) (RowChain.cons (by decide) (by decide)
        (RowChain.cons (by decide) (by decide)
          (RowChain.nil (by decide) : RowChain _ _ ⟨-1, -1⟩ []))))
      (RowChain.cons (by decide) (by decide) (RowChain.cons (by decide) (by decide)
        (RowChain.nil (by decide) : RowChain _ _ ⟨-1, -1⟩ [])))
      (by decide) (by decide) (Or.inr (by decide)) 6 (by decide)⟩

/-! ## The effect of Evict -/

namespace ArcReplacer

/-- On a list without repetition, the erasure from the tail keeps the other elements in their
order. -/
theorem eraseFromTail_eq_filter {l : List Int} (hn : l.Nodup) (x : Int) :
    eraseFromTail l x = l.filter (fun y => decide (y ≠ x)) := by
  unfold eraseFromTail
  rw [(List.nodup_reverse.mpr hn).erase_eq_filter, List.filter_reverse, List.reverse_reverse]
  apply List.filter_congr
  intro y _
  by_cases hy : y = x <;> simp [hy]

theorem size_unfold (s : ArcReplacer) : s.Size = s.curr_size_ := rfl

theorem evictedState_curr_size (s : ArcReplacer) (stat : ArcStatus) (f : Int)
    (st : FrameStatus) : (s.evictedState stat f st).curr_size_ = subSizeT s.curr_size_ 1 := rfl

end ArcReplacer

/-- C31: in every state reachable from a fresh replacer by `RecordAccess`, `SetEvictable` and
`Evict` calls in which `Evict()` returns a frame `f`: `f` was alive, evictable and in the list of
its tag (T1 for `MRU`, T2 for `MFU`); afterwards `f` is not alive and in neither T1 nor T2, its
page id is at the head of the ghost list of that list (B1 for T1, B2 for T2), the other ghost
list is as it was, the page id is in the ghost map with the ghost tag of the list, `Size()` has
decreased by exactly 1, `mru_target_size_` is as it was, the other alive entries keep their
status and T1 and T2 keep the other frames in their order. -/
theorem C31_evict_effect (c : Nat) (s : ArcReplacer)
    (h : ArcReplacer.Reachable c ArcReplacer.anyCall s) (f : Int) (s' : ArcReplacer)
    (he : s.Evict = Except.ok (some f, s')) :
    ∃ st, s.alive_map_.find f = some st ∧ st.evictable_ = true ∧
      ((st.arc_status_ = ArcStatus.MRU ∧ f ∈ s.mru_ ∧
          s'.mru_ghost_ = st.page_id_ :: s.mru_ghost_ ∧ s'.mfu_ghost_ = s.mfu_ghost_ ∧
          s'.ghost_map_.find st.page_id_ =
            some { st with arc_status_ := ArcStatus.MRU_GHOST }) ∨
        (st.arc_status_ = ArcStatus.MFU ∧ f ∈ s.mfu_ ∧
          s'.mfu_ghost_ = st.page_id_ :: s.mfu_ghost_ ∧ s'.mru_ghost_ = s.mru_ghost_ ∧
          s'.ghost_map_.find st.page_id_ =
            some { st with arc_status_ := ArcStatus.MFU_GHOST })) ∧
      s'.alive_map_.find f = none ∧ f ∉ s'.mru_ ∧ f ∉ s'.mfu_ ∧
      s'.Size + 1 = s.Size ∧ s'.mru_target_size_ = s.mru_target_size_ ∧
      (∀ g, g ≠ f → s'.alive_map_.find g = s.alive_map_.find g) ∧
      s'.mru_ = s.mru_.filter (fun g => decide (g ≠ f)) ∧
      s'.mfu_ = s.mfu_.filter (fun g => decide (g ≠ f)) := by
  have hw := h.wellFormed
  by_cases hex : ∃ e ∈ s.alive_map_, e.2.evictable_ = true
  · obtain ⟨f', st, stat, hstat, hfind, hev, htag, heq, _⟩ := hw.evict_some hex
    rw [heq] at he
    simp only [Except.ok.injEq, Prod.mk.injEq, Option.some.injEq] at he
    obtain ⟨hf, hs⟩ := he
    subst hf
    subst hs
    have hpos : 0 < s.curr_size_ := by
      rw [hw.size_eq]
      unfold ArcReplacer.evictableCount
      apply List.countP_pos_iff.mpr
      exact ⟨(f', st), StatusMap.mem_of_find hfind, hev⟩
    have hlt : s.curr_size_ < SIZE_T_MODULUS := by
      have h1 := hw.size_eq
      have h2 := s.evictableCount_le
      have h3 := hw.room
      have h4 := hw.size_bound
      omega
    have hsize : (s.evictedState stat f' st).Size + 1 = s.Size := by
      rw [ArcReplacer.size_unfold, ArcReplacer.size_unfold, ArcReplacer.evictedState_curr_size,
        subSizeT_one hpos hlt]
      exact Nat.sub_add_cancel hpos
    have hnot_mru : st.arc_status_ = ArcStatus.MFU → f' ∉ s.mru_ := by
      intro ht hm
      obtain ⟨st', h1, h2⟩ := (hw.mem_mru f').mp hm
      rw [hfind] at h1
      simp only [Option.some.injEq] at h1
      rw [← h1, ht] at h2
      cases h2
    have hnot_mfu : st.arc_status_ = ArcStatus.MRU → f' ∉ s.mfu_ := by
      intro ht hm
      obtain ⟨st', h1, h2⟩ := (hw.mem_mfu f').mp hm
      rw [hfind] at h1
      simp only [Option.some.injEq] at h1
      rw [← h1, ht] at h2
      cases h2
    have hkeep : ∀ {l : List Int}, f' ∉ l → l = l.filter (fun g => decide (g ≠ f')) := by
      intro l hl
      symm
      rw [List.filter_eq_self]
      intro g hg
      simp only [decide_eq_true_eq]
      intro hgf
      exact hl (hgf ▸ hg)
    refine ⟨st, hfind, hev, ?_, StatusMap.find_erase_self _ _, ?_, ?_, hsize, rfl,
      fun g hg => StatusMap.find_erase_ne _ hg, ?_, ?_⟩
    · rcases hstat with hs | hs
      · subst hs
        left
        exact ⟨htag, (hw.mem_mru f').mpr ⟨st, hfind, htag⟩, rfl, rfl,
          StatusMap.find_assign_self _ _ _⟩
      · subst hs
        right
        exact ⟨htag, (hw.mem_mfu f').mpr ⟨st, hfind, htag⟩, rfl, rfl,
          StatusMap.find_assign_self _ _ _⟩
    · rcases hstat with hs | hs
      · subst hs
        show f' ∉ ArcReplacer.eraseFromTail s.mru_ f'
        rw [ArcReplacer.mem_eraseFromTail hw.mru_nodup]
        exact fun h => h.2 rfl
      · subst hs
        exact hnot_mru htag
    · rcases hstat with hs | hs
      · subst hs
        exact hnot_mfu htag
      · subst hs
        show f' ∉ ArcReplacer.eraseFromTail s.mfu_ f'
        rw [ArcReplacer.mem_eraseFromTail hw.mfu_nodup]
        exact fun h => h.2 rfl
    · rcases hstat with hs | hs
      · subst hs
        exact ArcReplacer.eraseFromTail_eq_filter hw.mru_nodup f'
      · subst hs
        exact hkeep (hnot_mru htag)
    · rcases hstat with hs | hs
      · subst hs
        exact hkeep (hnot_mfu htag)
      · subst hs
        exact ArcReplacer.eraseFromTail_eq_filter hw.mfu_nodup f'
  · have hall : ∀ e ∈ s.alive_map_, e.2.evictable_ = false := by
      intro e he'
      cases hev : e.2.evictable_ with
      | false => rfl
      | true => exact absurd ⟨e, he', hev⟩ hex
    rw [hw.evict_none hall] at he
    cases he

theorem C31_evict_effect_witness :
    ∃ st, (ArcReplacer.reached 2 ArcReplacer.anyCall
          [ArcCall.record_access 0 5, ArcCall.set_evictable 0 true]).alive_map_.find 0 = some st ∧
      st.evictable_ = true ∧
      ((st.arc_status_ = ArcStatus.MRU ∧
          0 ∈ (ArcReplacer.reached 2 ArcReplacer.anyCall
            [ArcCall.record_access 0 5, ArcCall.set_evictable 0 true]).mru_ ∧
          (ArcReplacer.reached 2 ArcReplacer.anyCall
            [ArcCall.record_access 0 5, ArcCall.set_evictable 0 true, ArcCall.evict]).mru_ghost_ =
            st.page_id_ :: (ArcReplacer.reached 2 ArcReplacer.anyCall
              [ArcCall.record_access 0 5, ArcCall.set_evictable 0 true]).mru_ghost_ ∧
          (ArcReplacer.reached 2 ArcReplacer.anyCall
            [ArcCall.record_access 0 5, ArcCall.set_evictable 0 true, ArcCall.evict]).mfu_ghost_ =
            (ArcReplacer.reached 2 ArcReplacer.anyCall
              [ArcCall.record_access 0 5, ArcCall.set_evictable 0 true]).mfu_ghost_ ∧
          (ArcReplacer.reached 2 ArcReplacer.anyCall
            [ArcCall.record_access 0 5, ArcCall.set_evictable 0 true,
              ArcCall.evict]).ghost_map_.find st.page_id_ =
            some { st with arc_status_ := ArcStatus.MRU_GHOST }) ∨
        (st.arc_status_ = ArcStatus.MFU ∧
          0 ∈ (ArcReplacer.reached 2 ArcReplacer.anyCall
            [ArcCall.record_access 0 5, ArcCall.set_evictable 0 true]).mfu_ ∧
          (ArcReplacer.reached 2 ArcReplacer.anyCall
            [ArcCall.record_access 0 5, ArcCall.set_evictable 0 true, ArcCall.evict]).mfu_ghost_ =
            st.page_id_ :: (ArcReplacer.reached 2 ArcReplacer.anyCall
              [ArcCall.record_access 0 5, ArcCall.set_evictable 0 true]).mfu_ghost_ ∧
          (ArcReplacer.reached 2 ArcReplacer.anyCall
            [ArcCall.record_access 0 5, ArcCall.set_evictable 0 true, ArcCall.evict]).mru_ghost_ =
            (ArcReplacer.reached 2 ArcReplacer.anyCall
              [ArcCall.record_access 0 5, ArcCall.set_evictable 0 true]).mru_ghost_ ∧
          (ArcReplacer.reached 2 ArcReplacer.anyCall
            [ArcCall.record_access 0 5, ArcCall.set_evictable 0 true,
              ArcCall.evict]).ghost_map_.find st.page_id_ =
            some { st with arc_status_ := ArcStatus.MFU_GHOST })) ∧
      (ArcReplacer.reached 2 ArcReplacer.anyCall
        [ArcCall.record_access 0 5, ArcCall.set_evictable 0 true,
          ArcCall.evict]).alive_map_.find 0 = none ∧
      (0 : Int) ∉ (ArcReplacer.reached 2 ArcReplacer.anyCall
        [ArcCall.record_access 0 5, ArcCall.set_evictable 0 true, ArcCall.evict]).mru_ ∧
      (0 : Int) ∉ (ArcReplacer.reached 2 ArcReplacer.anyCall
        [ArcCall.record_access 0 5, ArcCall.set_evictable 0 true, ArcCall.evict]).mfu_ ∧
      (ArcReplacer.reached 2 ArcReplacer.anyCall
        [ArcCall.record_access 0 5, ArcCall.set_evictable 0 true, ArcCall.evict]).Size + 1 =
        (ArcReplacer.reached 2 ArcReplacer.anyCall
          [ArcCall.record_access 0 5, ArcCall.set_evictable 0 true]).Size ∧
      (ArcReplacer.reached 2 ArcReplacer.anyCall
        [ArcCall.record_access 0 5, ArcCall.set_evictable 0 true,
          ArcCall.evict]).mru_target_size_ =
        (ArcReplacer.reached 2 ArcReplacer.anyCall
          [ArcCall.record_access 0 5, ArcCall.set_evictable 0 true]).mru_target_size_ ∧
      (∀ g, g ≠ 0 →
        (ArcReplacer.reached 2 ArcReplacer.anyCall
          [ArcCall.record_access 0 5, ArcCall.set_evictable 0 true,
            ArcCall.evict]).alive_map_.find g =
          (ArcReplacer.reached 2 ArcReplacer.anyCall
            [ArcCall.record_access 0 5, ArcCall.set_evictable 0 true]).alive_map_.find g) ∧
      (ArcReplacer.reached 2 ArcReplacer.anyCall
        [ArcCall.record_access 0 5, ArcCall.set_evictable 0 true, ArcCall.evict]).mru_ =
        (ArcReplacer.reached 2 ArcReplacer.anyCall
          [ArcCall.record_access 0 5, ArcCall.set_evictable 0 true]).mru_.filter
          (fun g => decide (g ≠ 0)) ∧
      (ArcReplacer.reached 2 ArcReplacer.anyCall
        [ArcCall.record_access 0 5, ArcCall.set_evictable 0 true, ArcCall.evict]).mfu_ =
        (ArcReplacer.reached 2 ArcReplacer.anyCall
          [ArcCall.record_access 0 5, ArcCall.set_evictable 0 true]).mfu_.filter
          (fun g => decide (g ≠ 0)) :=
  C31_evict_effect 2 _ (ArcReplacer.reachable_reached (by decide) (by decide)) 0 _ (by decide)

/-! ## RecordAccess never finds the alive map over its capacity -/

namespace ArcReplacer

theorem ghostListed_new (c : Nat) : (ArcReplacer.new c).GhostListed := by
  intro pg st h
  cases h

theorem ghostListed_setEvictable {s : ArcReplacer} (hg : s.GhostListed) (f : Int) (b : Bool) :
    (s.SetEvictable f b).1.GhostListed := by
  unfold SetEvictable
  cases hf : s.alive_map_.find f with
  | none => exact hg
  | some st =>
    by_cases hb : st.evictable_ = b
    · simp only [hb, ne_eq, not_true_eq_false, if_false]
      exact hg
    · simp only [hb, ne_eq, not_false_eq_true, if_true]
      cases b
      · exact hg
      · exact hg

theorem ghostListed_evicted {s : ArcReplacer} (hg : s.GhostListed) {stat : ArcStatus}
    (hstat : stat = ArcStatus.MRU ∨ stat = ArcStatus.MFU) (f : Int) (st : FrameStatus) :
    (s.evictedState stat f st).GhostListed := by
  intro pg gst h
  by_cases hpg : pg = st.page_id_
  · subst hpg
    have h1 : (s.evictedState stat f st).ghost_map_.find st.page_id_ = some
        { st with arc_status_ :=
            if stat = ArcStatus.MRU then ArcStatus.MRU_GHOST else ArcStatus.MFU_GHOST } :=
      StatusMap.find_assign_self _ _ _
    rw [h1] at h
    simp only [Option.some.injEq] at h
    subst h
    rcases hstat with hs | hs
    · subst hs
      exact Or.inl ⟨rfl, List.mem_cons_self _ _⟩
    · subst hs
      exact Or.inr ⟨rfl, List.mem_cons_self _ _⟩
  · have h1 : (s.evictedState stat f st).ghost_map_.find pg = s.ghost_map_.find pg :=
      StatusMap.find_assign_ne _ _ hpg
    rw [h1] at h
    rcases hstat with hs | hs
    · subst hs
      rcases hg pg gst h with ⟨h2, h3⟩ | ⟨h2, h3⟩
      · exact Or.inl ⟨h2, List.mem_cons_of_mem _ h3⟩
      · exact Or.inr ⟨h2, h3⟩
    · subst hs
      rcases hg pg gst h with ⟨h2, h3⟩ | ⟨h2, h3⟩
      · exact Or.inl ⟨h2, h3⟩
      · exact Or.inr ⟨h2, List.mem_cons_of_mem _ h3⟩

theorem ghostListed_evict {s s' : ArcReplacer} (hw : s.WellFormed) (hg : s.GhostListed)
    {r : Option Int} (h : s.Evict = Except.ok (r, s')) : s'.GhostListed := by
  by_cases hex : ∃ e ∈ s.alive_map_, e.2.evictable_ = true
  · obtain ⟨f, st, stat, h1, _, _, _, h5, _⟩ := hw.evict_some hex
    rw [h5] at h
    cases h
    exact ghostListed_evicted hg h1 f st
  · have hall : ∀ e ∈ s.alive_map_, e.2.evictable_ = false := by
      intro e he
      cases hev : e.2.evictable_ with
      | false => rfl
      | true => exact absurd ⟨e, he, hev⟩ hex
    rw [hw.evict_none hall] at h
    cases h
    exact hg

/-- The ghost map and lists after a hit in a ghost list. -/
theorem ghostListed_hit {s : ArcReplacer} (hg : s.GhostListed) (pg : Int) {b1 b2 : List Int}
    (h1 : b1 = s.mru_ghost_ ∨ b1 = s.mru_ghost_.filter (fun x => decide (x ≠ pg)))
    (h2 : b2 = s.mfu_ghost_ ∨ b2 = s.mfu_ghost_.filter (fun x => decide (x ≠ pg))) :
    ∀ pg' st, (s.ghost_map_.erase pg).find pg' = some st →
      (st.arc_status_ = ArcStatus.MRU_GHOST ∧ pg' ∈ b1) ∨
      (st.arc_status_ = ArcStatus.MFU_GHOST ∧ pg' ∈ b2) := by
  intro pg' st h
  have hne : pg' ≠ pg := by
    intro he
    rw [he, StatusMap.find_erase_self] at h
    cases h
  rw [StatusMap.find_erase_ne _ hne] at h
  have hm : ∀ {l b : List Int}, pg' ∈ l →
      b = l ∨ b = l.filter (fun x => decide (x ≠ pg)) → pg' ∈ b := by
    intro l b hl hb
    rcases hb with hb | hb
    · rw [hb]
      exact hl
    · rw [hb, List.mem_filter]
      exact ⟨hl, by simpa using hne⟩
  rcases hg pg' st h with ⟨h3, h4⟩ | ⟨h3, h4⟩
  · exact Or.inl ⟨h3, hm h4 h1⟩
  · exact Or.inr ⟨h3, hm h4 h2⟩

theorem ghostListed_recordAccess {s s' : ArcReplacer} (hw : s.WellFormed)
    (hg : s.GhostListed) {f pg : Int} (h : s.RecordAccess f pg = Except.ok s') :
    s'.GhostListed := by
  cases hf : s.alive_map_.find f with
  | some st =>
    rcases hw.status f st hf with htag | htag
    · rw [recordAccess_alive_mru pg hf htag] at h
      cases h
      exact hg
    · rw [recordAccess_alive_mfu pg hf htag] at h
      cases h
      exact hg
  | none =>
    cases hgh : s.ghost_map_.find pg with
    | none =>
      rw [recordAccess_new hf hgh] at h
      split at h
      · cases h
      · cases h
        exact hg
    | some gst =>
      by_cases h1 : gst.arc_status_ = ArcStatus.MRU_GHOST
      · rw [recordAccess_ghost_mru hf hgh h1] at h
        split at h
        · cases h
        · split at h
          · cases h
          · cases h
            exact ghostListed_hit hg pg (Or.inr rfl) (Or.inl rfl)
      · by_cases h2 : gst.arc_status_ = ArcStatus.MFU_GHOST
        · rw [recordAccess_ghost_mfu hf hgh h2] at h
          split at h
          · cases h
          · split at h
            · cases h
            · cases h
              exact ghostListed_hit hg pg (Or.inl rfl) (Or.inr rfl)
        · rw [recordAccess_ghost_alive_tag hf hgh h1 h2] at h
          cases h

theorem ghostListed_call {s s' : ArcReplacer} (hw : s.WellFormed) (hg : s.GhostListed)
    {cl : ArcCall} (h : s.call cl = Except.ok s') : s'.GhostListed := by
  cases cl with
  | record_access f pg => exact ghostListed_recordAccess hw hg h
  | set_evictable f b =>
    simp only [ArcReplacer.call, Except.ok.injEq] at h
    rw [← h]
    exact ghostListed_setEvictable hg f b
  | evict =>
    simp only [ArcReplacer.call] at h
    cases h1 : s.Evict with
    | error e => simp [h1, Except.map] at h
    | ok r =>
      obtain ⟨r1, r2⟩ := r
      simp only [h1, Except.map, Except.ok.injEq] at h
      rw [← h]
      exact ghostListed_evict hw hg h1

theorem Reachable.ghostListed {c : Nat} {allowed : ArcReplacer → ArcCall → Bool}
    {s : ArcReplacer} (h : Reachable c allowed s) : s.GhostListed := by
  induction h with
  | fresh _ => exact ghostListed_new c
  | step cl hr hallow hcall ih => exact ghostListed_call hr.wellFormed ih hcall

theorem isSome_find_assign (m : StatusMap) (f : Int) (v : FrameStatus) (g : Int) :
    ((m.assign f v).find g).isSome = true ↔ g = f ∨ (m.find g).isSome = true := by
  by_cases hgf : g = f
  · subst hgf
    rw [StatusMap.find_assign_self]
    simp
  · rw [StatusMap.find_assign_ne _ _ hgf]
    simp [hgf]

end ArcReplacer

/-- C38: in every state reachable from a fresh replacer of capacity `c` by calls with frame ids
in `[0, c)`, and for every `RecordAccess(f, pg)` with `f` in `[0, c)`: the call returns, so it
has not entered the branch that calls `Evict()` (in which it would wait for `latch_` for ever);
the alive map it tests holds at most `c` entries; the alive frames afterwards are those before
and `f`; and `Size()` is as before. -/
theorem C38_record_access_never_evicts (c : Nat) (s : ArcReplacer)
    (h : ArcReplacer.Reachable c ArcReplacer.frameInRange s) (f pg : Int)
    (hf : 0 ≤ f ∧ f < (c : Int)) :
    ∃ s', s.RecordAccess f pg = Except.ok s' ∧
      s'.alive_map_.length ≤ s.replacer_size_ ∧
      (∀ g, (s'.alive_map_.find g).isSome = true ↔
        g = f ∨ (s.alive_map_.find g).isSome = true) ∧
      s'.Size = s.Size := by
  have hw := h.wellFormed
  have hg := h.ghostListed
  have hk := h.keysInRange
  have hsz := h.replacer_size
  have halive : ∀ {st : FrameStatus}, s.alive_map_.find f = some st → ∀ g,
      (s.alive_map_.find g).isSome = true ↔ g = f ∨ (s.alive_map_.find g).isSome = true := by
    intro st hst g
    constructor
    · exact Or.inr
    · rintro (h1 | h1)
      · rw [h1, hst]
        rfl
      · exact h1
  have hroom : s.alive_map_.find f = none →
      ∀ v, ¬ (s.alive_map_.assign f v).length > s.replacer_size_ := by
    intro hnone v
    have := ArcReplacer.room_of_keysInRange hw.keys_nodup hk hnone hf
    rw [StatusMap.length_assign_of_find_none hnone, hsz]
    omega
  cases hfind : s.alive_map_.find f with
  | some st =>
    rcases hw.status f st hfind with htag | htag
    · rw [ArcReplacer.recordAccess_alive_mru pg hfind htag]
      refine ⟨_, rfl, ?_, ?_, rfl⟩
      · exact (hw.promote hfind htag).room
      · intro g
        show ((s.alive_map_.assign f _).find g).isSome = true ↔ _
        exact ArcReplacer.isSome_find_assign _ _ _ _
    · rw [ArcReplacer.recordAccess_alive_mfu pg hfind htag]
      exact ⟨_, rfl, hw.room, halive hfind, rfl⟩
  | none =>
    cases hgh : s.ghost_map_.find pg with
    | none =>
      rw [ArcReplacer.recordAccess_new hfind hgh, if_neg (hroom hfind _)]
      refine ⟨_, rfl, ?_, ?_, rfl⟩
      · exact Nat.le_of_not_lt (hroom hfind _)
      · intro g
        exact ArcReplacer.isSome_find_assign _ _ _ _
    | some gst =>
      rcases hg pg gst hgh with ⟨h1, h2⟩ | ⟨h1, h2⟩
      · have hlen : ¬ s.mru_ghost_.length = 0 := by
          intro h0
          rw [List.length_eq_zero] at h0
          rw [h0] at h2
          cases h2
        rw [ArcReplacer.recordAccess_ghost_mru hfind hgh h1, if_neg hlen,
          if_neg (hroom hfind _)]
        refine ⟨_, rfl, ?_, ?_, rfl⟩
        · exact Nat.le_of_not_lt (hroom hfind _)
        · intro g
          exact ArcReplacer.isSome_find_assign _ _ _ _
      · have hlen : ¬ s.mfu_ghost_.length = 0 := by
          intro h0
          rw [List.length_eq_zero] at h0
          rw [h0] at h2
          cases h2
        rw [ArcReplacer.recordAccess_ghost_mfu hfind hgh h1, if_neg hlen,
          if_neg (hroom hfind _)]
        refine ⟨_, rfl, ?_, ?_, rfl⟩
        · exact Nat.le_of_not_lt (hroom hfind _)
        · intro g
          exact ArcReplacer.isSome_find_assign _ _ _ _

/-- C38, witness: a replacer of capacity 2 whose two frames are alive; `RecordAccess(1, 7)`
returns, and the alive frames are the same two. -/
theorem C38_record_access_never_evicts_witness :
    ∃ s', (ArcReplacer.reached 2 ArcReplacer.frameInRange
          [ArcCall.record_access 0 5, ArcCall.record_access 1 6,
            ArcCall.set_evictable 0 true]).RecordAccess 1 7 = Except.ok s' ∧
      s'.alive_map_.length ≤ (ArcReplacer.reached 2 ArcReplacer.frameInRange
          [ArcCall.record_access 0 5, ArcCall.record_access 1 6,
            ArcCall.set_evictable 0 true]).replacer_size_ ∧
      (∀ g, (s'.alive_map_.find g).isSome = true ↔
        g = 1 ∨ ((ArcReplacer.reached 2 ArcReplacer.frameInRange
          [ArcCall.record_access 0 5, ArcCall.record_access 1 6,
            ArcCall.set_evictable 0 true]).alive_map_.find g).isSome = true) ∧
      s'.Size = (ArcReplacer.reached 2 ArcReplacer.frameInRange
          [ArcCall.record_access 0 5, ArcCall.record_access 1 6,
            ArcCall.set_evictable 0 true]).Size :=
  C38_record_access_never_evicts 2 _ (ArcReplacer.reachable_reached (by decide) (by decide)) 1 7
    (by decide)

/-! ## SetEvictable is called for alive frames only -/

theorem ArcReplacer.setEvictable_alive {s : ArcReplacer} {f : Int}
    (h : (s.alive_map_.find f).isSome = true) (b : Bool) :
    (s.SetEvictable f b).2 = Except.ok () := by
  unfold ArcReplacer.SetEvictable
  cases hf : s.alive_map_.find f with
  | none =>
    rw [hf] at h
    cases h
  | some st =>
    by_cases hb : st.evictable_ = b
    · simp only [hb, ne_eq, not_true_eq_false, if_false]
    · simp only [hb, ne_eq, not_false_eq_true, if_true]
      cases b <;> rfl

theorem ArcReplacer.alive_of_view {r : ArcReplacer} {f p : Int} {e : Bool}
    (h : r.view f = some (p, e)) : (r.alive_map_.find f).isSome = true := by
  obtain ⟨st, hfind, _⟩ := ArcReplacer.view_eq_some h
  rw [hfind]
  rfl

/-- C39: in every pool reachable by operations of a single caller (who holds fewer than
`2 ^ 64 - 1` guards): whenever `ReadPage` or `WritePage` has a frame `f` for the page, the
`RecordAccess` before the guard constructor returns and leaves `f` alive, so that the
`SetEvictable(f, false)` of the constructor finds the frame; `ReadPage` and `WritePage` never
end in a logic error; the frame of every guard the caller holds is alive, so that the
`SetEvictable(frame, true)` of `Drop` finds it; and `Drop` of a guard the caller holds
returns. -/
theorem C39_set_evictable_targets_alive_frame (N : Nat) (d : DiskManagerMemory) (P : Pool)
    (h : Pool.Reachable N d P) (hlen : P.guards.length + 1 < SIZE_T_MODULUS) :
    (∀ p f s1, P.bpm.bringIn p = Except.ok (some f, s1) →
      ∃ r, s1.replacer_.RecordAccess f p = Except.ok r ∧
        (r.alive_map_.find f).isSome = true ∧
        (r.SetEvictable f false).2 = Except.ok ()) ∧
    (∀ p, P.bpm.ReadPage p ≠ Except.error Err.logic_error ∧
      P.bpm.WritePage p ≠ Except.error Err.logic_error) ∧
    (∀ g ∈ P.guards, g.is_valid_ = true ∧
      (P.bpm.replacer_.alive_map_.find g.frame_).isSome = true ∧
      (P.bpm.replacer_.SetEvictable g.frame_ true).2 = Except.ok ()) ∧
    (∀ g, Guard.read g ∈ P.guards →
      ∃ s', P.bpm.Drop g = Except.ok ({ g with is_valid_ := false }, s')) ∧
    (∀ g, Guard.write g ∈ P.guards →
      ∃ s', P.bpm.DropWrite g = Except.ok ({ g with is_valid_ := false }, s')) := by
  have hinv := h.poolInv
  refine ⟨?_, ?_, ?_, ?_, ?_⟩
  · intro p f s1 hb
    by_cases hc : p < 0 ∨ p ≥ P.bpm.next_page_id_ ∨ (P.bpm.page_table_.find p = none ∧
        P.bpm.free_frames_ = [] ∧ ∀ g q, P.bpm.replacer_.view g ≠ some (q, true))
    · rw [BufferPoolManager.bringIn_none hinv hc] at hb
      cases hb
    · obtain ⟨f', s1', r', hb', hr, hinv1, hp, _⟩ := BufferPoolManager.bringIn_some hinv hc
      rw [hb'] at hb
      simp only [Except.ok.injEq, Prod.mk.injEq, Option.some.injEq] at hb
      obtain ⟨hf, hs⟩ := hb
      subst hf
      subst hs
      obtain ⟨e, hv⟩ := hinv1.table.table_alive p f' hp
      have halive : (r'.alive_map_.find f').isSome = true := ArcReplacer.alive_of_view hv
      exact ⟨r', hr, halive, ArcReplacer.setEvictable_alive halive false⟩
  · intro p
    constructor
    · rcases BufferPoolManager.ReadPage_cases hinv hlen p with
        ⟨_, _, he⟩ | ⟨_, ⟨_, he⟩ | ⟨_, f, s', he, _⟩⟩
      all_goals
        rw [he]
        intro h
        cases h
    · rcases BufferPoolManager.WritePage_cases hinv hlen p with
        ⟨_, _, he⟩ | ⟨_, ⟨_, he⟩ | ⟨_, he⟩ | ⟨_, f, s', he, _⟩⟩
      all_goals
        rw [he]
        intro h
        cases h
  · intro g hg
    obtain ⟨hval, htab⟩ := hinv.pin.guards_valid g hg
    obtain ⟨e, hv⟩ := hinv.table.table_alive _ _ htab
    have halive := ArcReplacer.alive_of_view hv
    exact ⟨hval, halive, ArcReplacer.setEvictable_alive halive true⟩
  · intro g hg
    obtain ⟨s', he, _⟩ := BufferPoolManager.Drop_inv hinv hg
    exact ⟨s', he⟩
  · intro g hg
    obtain ⟨s', he, _⟩ := BufferPoolManager.DropWrite_inv hinv hg
    exact ⟨s', he⟩

/-- C39, witness: a pool of two frames in which the caller holds two read guards on page 0 and
the write guard on page 1. -/
theorem C39_set_evictable_targets_alive_frame_witness :
    (∀ p f s1, Pool.twoFramesPinned.bpm.bringIn p = Except.ok (some f, s1) →
      ∃ r, s1.replacer_.RecordAccess f p = Except.ok r ∧
        (r.alive_map_.find f).isSome = true ∧
        (r.SetEvictable f false).2 = Except.ok ()) ∧
    (∀ p, Pool.twoFramesPinned.bpm.ReadPage p ≠ Except.error Err.logic_error ∧
      Pool.twoFramesPinned.bpm.WritePage p ≠ Except.error Err.logic_error) ∧
    (∀ g ∈ Pool.twoFramesPinned.guards, g.is_valid_ = true ∧
      (Pool.twoFramesPinned.bpm.replacer_.alive_map_.find g.frame_).isSome = true ∧
      (Pool.twoFramesPinned.bpm.replacer_.SetEvictable g.frame_ true).2 = Except.ok ()) ∧
    (∀ g, Guard.read g ∈ Pool.twoFramesPinned.guards →
      ∃ s', Pool.twoFramesPinned.bpm.Drop g = Except.ok ({ g with is_valid_ := false }, s')) ∧
    (∀ g, Guard.write g ∈ Pool.twoFramesPinned.guards →
      ∃ s', Pool.twoFramesPinned.bpm.DropWrite g =
        Except.ok ({ g with is_valid_ := false }, s')) :=
  C39_set_evictable_targets_alive_frame 2 DiskManagerMemory.new Pool.twoFramesPinned
    (Pool.reachable_after (by decide) (by decide)) (by decide)

/-! ## C arrays: reads after writes -/

theorem rd_wr_self {α : Type} (d : α) (a : List α) {i : Int} (v : α) :
    rd d (wr d a i v) i = v := by
  unfold rd wr
  rw [List.getD_eq_getElem?_getD, List.getElem?_set_self]
  · rfl
  · rw [List.length_append, List.length_replicate]
    omega

theorem getD_append_replicate {α : Type} (d : α) (a : List α) (n i : Nat) :
    (a ++ List.replicate n d).getD i d = a.getD i d := by
  rw [List.getD_eq_getElem?_getD, List.getD_eq_getElem?_getD]
  by_cases h : i < a.length
  · rw [List.getElem?_append_left h]
  · rw [List.getElem?_append_right (by omega), List.getElem?_eq_none (l := a) (by omega)]
    by_cases h2 : i - a.length < n
    · rw [List.getElem?_replicate, if_pos h2]
      rfl
    · rw [List.getElem?_replicate, if_neg h2]

theorem rd_wr_other {α : Type} (d : α) (a : List α) {i j : Int} (v : α)
    (h : i.toNat ≠ j.toNat) : rd d (wr d a j v) i = rd d a i := by
  unfold rd wr
  rw [List.getD_eq_getElem?_getD, List.getElem?_set_ne (fun h2 => h h2.symm),
    ← List.getD_eq_getElem?_getD, getD_append_replicate]

theorem Page.key_setKey_other (p : Page) {i j : Int} (v : Int) (h : i.toNat ≠ j.toNat) :
    (p.setKey j v).key i = p.key i :=
  rd_wr_other 0 p.key_array_ v h

/-! ## KeyIndex -/

theorem comparator_eq_zero {a b : Int} : comparator a b = 0 ↔ a = b := by
  unfold comparator
  split
  · simp; omega
  · split
    · simp; omega
    · simp; omega

theorem comparator_neg {a b : Int} : comparator a b < 0 ↔ a < b := by
  unfold comparator
  split
  · simp; assumption
  · split
    · simp; omega
    · simp; omega

theorem KeyIndexLoop_succ (p : Page) (k : Int) (fuel : Nat) (l r : Int) :
    KeyIndexLoop p k (fuel + 1) l r =
      if l < r then
        if comparator k (p.key (l + Int.tdiv (r - l) 2)) = 0 then l + Int.tdiv (r - l) 2
        else if comparator k (p.key (l + Int.tdiv (r - l) 2)) < 0 then
          KeyIndexLoop p k fuel l (l + Int.tdiv (r - l) 2)
        else KeyIndexLoop p k fuel (l + Int.tdiv (r - l) 2 + 1) r
      else l := rfl

theorem tdiv_two_mid {l r : Int} (h : l < r) :
    l ≤ l + Int.tdiv (r - l) 2 ∧ l + Int.tdiv (r - l) 2 < r ∧
      2 * Int.tdiv (r - l) 2 ≤ r - l ∧ r - l ≤ 2 * Int.tdiv (r - l) 2 + 1 := by
  rw [Int.tdiv_eq_ediv (by omega) (by omega)]
  omega

/-- The loop of `KeyIndex` finishes within `r - l` iterations: a larger bound on the number of
iterations does not change its result. -/
theorem KeyIndexLoop_fuel (p : Page) (k : Int) :
    ∀ (fuel1 fuel2 : Nat) (l r : Int), (r - l).toNat ≤ fuel1 → (r - l).toNat ≤ fuel2 →
      KeyIndexLoop p k fuel1 l r = KeyIndexLoop p k fuel2 l r := by
  intro fuel1
  induction fuel1 with
  | zero =>
    intro fuel2 l r h1 _
    cases fuel2 with
    | zero => rfl
    | succ n =>
      rw [KeyIndexLoop_succ, if_neg (by omega)]
      rfl
  | succ m ih =>
    intro fuel2 l r h1 h2
    cases fuel2 with
    | zero =>
      rw [KeyIndexLoop_succ, if_neg (by omega)]
      rfl
    | succ n =>
      rw [KeyIndexLoop_succ, KeyIndexLoop_succ]
      by_cases hlr : l < r
      · obtain ⟨hm1, hm2, hm3, hm4⟩ := tdiv_two_mid hlr
        rw [if_pos hlr, if_pos hlr, ih n l _ (by omega) (by omega),
          ih n _ r (by omega) (by omega)]
      · rw [if_neg hlr, if_neg hlr]

/-- The loop of `KeyIndex` reads the keys of the slots `[l, r)` only. -/
theorem KeyIndexLoop_congr (p q : Page) (k : Int) :
    ∀ (fuel : Nat) (l r : Int), (∀ i, l ≤ i → i < r → p.key i = q.key i) →
      KeyIndexLoop p k fuel l r = KeyIndexLoop q k fuel l r := by
  intro fuel
  induction fuel with
  | zero =>
    intro l r _
    rfl
  | succ m ih =>
    intro l r h
    rw [KeyIndexLoop_succ, KeyIndexLoop_succ]
    by_cases hlr : l < r
    · obtain ⟨hm1, hm2, _, _⟩ := tdiv_two_mid hlr
      rw [if_pos hlr, if_pos hlr, h _ hm1 hm2,
        ih l _ (fun i h1 h2 => h i h1 (by omega)),
        ih _ r (fun i h1 h2 => h i (by omega) h2)]
    · rw [if_neg hlr, if_neg hlr]

/-- The binary search over strictly increasing keys in the slots `[lo, hi)`: the result splits
the slots into those with a smaller key and those with a key that is not smaller. -/
theorem KeyIndexLoop_spec (p : Page) (k : Int) (lo hi : Int)
    (hs : ∀ i j, lo ≤ i → i < j → j < hi → p.key i < p.key j) :
    ∀ (fuel : Nat) (l r : Int), lo ≤ l → l ≤ r → r ≤ hi → (r - l).toNat ≤ fuel →
      (∀ i, lo ≤ i → i < l → p.key i < k) → (∀ i, r ≤ i → i < hi → k ≤ p.key i) →
      l ≤ KeyIndexLoop p k fuel l r ∧ KeyIndexLoop p k fuel l r ≤ r ∧
      (∀ i, lo ≤ i → i < KeyIndexLoop p k fuel l r → p.key i < k) ∧
      (∀ i, KeyIndexLoop p k fuel l r ≤ i → i < hi → k ≤ p.key i) := by
  intro fuel
  induction fuel with
  | zero =>
    intro l r hlo hlr hhi hfuel hlow hhigh
    have : l = r := by omega
    subst this
    exact ⟨le_refl _, le_refl _, hlow, hhigh⟩
  | succ m ih =>
    intro l r hlo hlr hhi hfuel hlow hhigh
    rw [KeyIndexLoop_succ]
    by_cases hlt : l < r
    · obtain ⟨hm1, hm2, hm3, hm4⟩ := tdiv_two_mid hlt
      rw [if_pos hlt]
      by_cases hc0 : comparator k (p.key (l + Int.tdiv (r - l) 2)) = 0
      · rw [if_pos hc0]
        have hk := comparator_eq_zero.mp hc0
        refine ⟨hm1, le_of_lt hm2, ?_, ?_⟩
        · intro i h1 h2
          rw [hk]
          exact hs i _ h1 h2 (by omega)
        · intro i h1 h2
          rw [hk]
          rcases eq_or_lt_of_le h1 with h3 | h3
          · rw [h3]
          · exact le_of_lt (hs _ i (by omega) h3 h2)
      · rw [if_neg hc0]
        by_cases hc1 : comparator k (p.key (l + Int.tdiv (r - l) 2)) < 0
        · rw [if_pos hc1]
          have hk := comparator_neg.mp hc1
          have := ih l (l + Int.tdiv (r - l) 2) hlo hm1 (by omega) (by omega) hlow (by
            intro i h1 h2
            rcases eq_or_lt_of_le h1 with h3 | h3
            · rw [← h3]
              exact le_of_lt hk
            · exact le_of_lt (lt_trans hk (hs _ i (by omega) h3 h2)))
          exact ⟨this.1, by omega, this.2.2⟩
        · rw [if_neg hc1]
          have hk : p.key (l + Int.tdiv (r - l) 2) < k := by
            have h1 : ¬ k < p.key (l + Int.tdiv (r - l) 2) := fun h => hc1 (comparator_neg.mpr h)
            have h2 : ¬ k = p.key (l + Int.tdiv (r - l) 2) :=
              fun h => hc0 (comparator_eq_zero.mpr h)
            omega
          have := ih (l + Int.tdiv (r - l) 2 + 1) r (by omega) (by omega) hhi (by omega) (by
            intro i h1 h2
            rcases eq_or_lt_of_le (Int.lt_add_one_iff.mp h2) with h3 | h3
            · rw [h3]
              exact hk
            · exact lt_trans (hs i _ h1 h3 (by omega)) hk) hhigh
          exact ⟨by omega, this.2⟩
    · rw [if_neg hlt]
      have : l = r := by omega
      subst this
      exact ⟨le_refl _, le_refl _, hlow, hhigh⟩

/-- C36, counterexample: an internal page of size 0, as `Init` leaves it, has strictly increasing
keys in its (empty) slots `[1, size)`, and `KeyIndex` returns 1 for it, which is not a position
in `[1, size]`. -/
theorem C36_internal_key_index_empty_page :
    ¬ (∀ (p : Page) (k : Int),
        (∀ i j, 1 ≤ i → i < j → j < p.GetSize → p.key i < p.key j) →
        1 ≤ InternalPage.KeyIndex p k ∧ InternalPage.KeyIndex p k ≤ p.GetSize) := by
  intro h
  have h1 := h (InternalPage.Init Page.zero 3) 5 (by
    intro i j h1 h2 h3
    have h4 : (InternalPage.Init Page.zero 3).GetSize = 0 := rfl
    omega)
  exact absurd h1 (by decide)

/-- C36: for every page and key `k`: if the size is not negative and the keys of the slots
`[0, size)` are strictly increasing, the loop of the leaf `KeyIndex(k)` ends within `size`
iterations (a larger bound gives the same result) and returns the only `i` in `[0, size]` such
that every key of a slot before `i` is smaller than `k` and every key of a slot from `i` on is at
least `k`, so that `k` is present exactly when slot `i` is in use and holds `k`; if the size is
at least 1 and the keys of the slots `[1, size)` are strictly increasing, the same holds of the
internal `KeyIndex(k)` with positions in `[1, size]`, and its result does not depend on the key
of slot 0. -/
theorem C36_key_index (p : Page) (k : Int) :
    (0 ≤ p.GetSize → (∀ i j, 0 ≤ i → i < j → j < p.GetSize → p.key i < p.key j) →
      (∀ fuel, p.GetSize.toNat ≤ fuel →
        KeyIndexLoop p k fuel 0 p.GetSize = LeafPage.KeyIndex p k) ∧
      0 ≤ LeafPage.KeyIndex p k ∧ LeafPage.KeyIndex p k ≤ p.GetSize ∧
      (∀ i, 0 ≤ i → i < LeafPage.KeyIndex p k → p.key i < k) ∧
      (∀ i, LeafPage.KeyIndex p k ≤ i → i < p.GetSize → k ≤ p.key i) ∧
      (∀ j, 0 ≤ j → j ≤ p.GetSize → (∀ i, 0 ≤ i → i < j → p.key i < k) →
        (∀ i, j ≤ i → i < p.GetSize → k ≤ p.key i) → j = LeafPage.KeyIndex p k) ∧
      ((∃ i, 0 ≤ i ∧ i < p.GetSize ∧ p.key i = k) ↔
        (LeafPage.KeyIndex p k < p.GetSize ∧ p.key (LeafPage.KeyIndex p k) = k))) ∧
    (1 ≤ p.GetSize → (∀ i j, 1 ≤ i → i < j → j < p.GetSize → p.key i < p.key j) →
      (∀ fuel, p.GetSize.toNat ≤ fuel →
        KeyIndexLoop p k fuel 1 p.GetSize = InternalPage.KeyIndex p k) ∧
      1 ≤ InternalPage.KeyIndex p k ∧ InternalPage.KeyIndex p k ≤ p.GetSize ∧
      (∀ i, 1 ≤ i → i < InternalPage.KeyIndex p k → p.key i < k) ∧
      (∀ i, InternalPage.KeyIndex p k ≤ i → i < p.GetSize → k ≤ p.key i) ∧
      (∀ j, 1 ≤ j → j ≤ p.GetSize → (∀ i, 1 ≤ i → i < j → p.key i < k) →
        (∀ i, j ≤ i → i < p.GetSize → k ≤ p.key i) → j = InternalPage.KeyIndex p k) ∧
      ((∃ i, 1 ≤ i ∧ i < p.GetSize ∧ p.key i = k) ↔
        (InternalPage.KeyIndex p k < p.GetSize ∧ p.key (InternalPage.KeyIndex p k) = k)) ∧
      (∀ v, InternalPage.KeyIndex (p.setKey 0 v) k = InternalPage.KeyIndex p k)) := by
  have main : ∀ lo : Int, 0 ≤ lo → lo ≤ p.GetSize →
      (∀ i j, lo ≤ i → i < j → j < p.GetSize → p.key i < p.key j) →
      ∀ x, x = KeyIndexLoop p k p.GetSize.toNat lo p.GetSize →
      lo ≤ x ∧ x ≤ p.GetSize ∧
      (∀ i, lo ≤ i → i < x → p.key i < k) ∧
      (∀ i, x ≤ i → i < p.GetSize → k ≤ p.key i) ∧
      (∀ j, lo ≤ j → j ≤ p.GetSize → (∀ i, lo ≤ i → i < j → p.key i < k) →
        (∀ i, j ≤ i → i < p.GetSize → k ≤ p.key i) → j = x) ∧
      ((∃ i, lo ≤ i ∧ i < p.GetSize ∧ p.key i = k) ↔ (x < p.GetSize ∧ p.key x = k)) := by
    intro lo hlo0 hlo hs x hx
    obtain ⟨h1, h2, h3, h4⟩ := KeyIndexLoop_spec p k lo p.GetSize hs p.GetSize.toNat lo p.GetSize
      (le_refl _) hlo (le_refl _) (by omega) (fun i a b => absurd b (by omega))
      (fun i a b => absurd b (by omega))
    rw [← hx] at h1 h2 h3 h4
    refine ⟨h1, h2, h3, h4, ?_, ?_⟩
    · intro j hj1 hj2 hj3 hj4
      rcases lt_trichotomy j x with h | h | h
      · have a := h3 j hj1 h
        have b := hj4 j (le_refl _) (by omega)
        omega
      · exact h
      · have a := hj3 x h1 h
        have b := h4 x (le_refl _) (by omega)
        omega
    · constructor
      · rintro ⟨i, hi1, hi2, hi3⟩
        have hxi : x ≤ i := by
          by_contra hcon
          have := h3 i hi1 (by omega)
          omega
        refine ⟨by omega, ?_⟩
        rcases eq_or_lt_of_le hxi with h | h
        · rw [h]
          exact hi3
        · have a := hs x i h1 h hi2
          have b := h4 x (le_refl _) (by omega)
          omega
      · rintro ⟨hx1, hx2⟩
        exact ⟨x, h1, hx1, hx2⟩
  constructor
  · intro h0 hs
    refine ⟨?_, main 0 (le_refl _) h0 hs _ rfl⟩
    intro fuel hfuel
    exact KeyIndexLoop_fuel p k _ _ _ _ (by omega) (by omega)
  · intro h1 hs
    obtain ⟨a, b, c, d, e, f⟩ := main 1 (by decide) h1 hs _ rfl
    refine ⟨?_, a, b, c, d, e, f, ?_⟩
    · intro fuel hfuel
      exact KeyIndexLoop_fuel p k _ _ _ _ (by omega) (by omega)
    · intro v
      exact KeyIndexLoop_congr _ _ k _ _ _
        (fun i hi1 _ => Page.key_setKey_other p v (by omega))

/-- C36, witness: a leaf page with the keys 10, 20, 30 and an internal page with the keys 20, 30
in its slots 1 and 2, searched for the key 25. -/
theorem C36_key_index_witness :
    (0 ≤ LeafPage.KeyIndex Page.threeKeyLeaf 25 ∧
      LeafPage.KeyIndex Page.threeKeyLeaf 25 ≤ Page.threeKeyLeaf.GetSize ∧
      (∀ i, 0 ≤ i → i < LeafPage.KeyIndex Page.threeKeyLeaf 25 →
        Page.threeKeyLeaf.key i < 25) ∧
      (∀ i, LeafPage.KeyIndex Page.threeKeyLeaf 25 ≤ i → i < Page.threeKeyLeaf.GetSize →
        25 ≤ Page.threeKeyLeaf.key i)) ∧
    (1 ≤ InternalPage.KeyIndex Page.threeChildInternal 25 ∧
      InternalPage.KeyIndex Page.threeChildInternal 25 ≤ Page.threeChildInternal.GetSize ∧
      (∀ i, 1 ≤ i → i < InternalPage.KeyIndex Page.threeChildInternal 25 →
        Page.threeChildInternal.key i < 25) ∧
      (∀ i, InternalPage.KeyIndex Page.threeChildInternal 25 ≤ i →
        i < Page.threeChildInternal.GetSize → 25 ≤ Page.threeChildInternal.key i) ∧
      (∀ v, InternalPage.KeyIndex (Page.threeChildInternal.setKey 0 v) 25 =
        InternalPage.KeyIndex Page.threeChildInternal 25)) :=
  have hl := (C36_key_index Page.threeKeyLeaf 25).1 (by decide) (by
    intro i j h0 hij hj
    have hj3 : j < 3 := hj
    have hj0 : 0 < j := by omega
    interval_cases j <;> interval_cases i <;> decide)
  have hi := (C36_key_index Page.threeChildInternal 25).2 (by decide) (by
    intro i j h0 hij hj
    have hj3 : j < 3 := hj
    have hj0 : 1 < j := by omega
    interval_cases j
    interval_cases i
    decide)
  ⟨⟨hl.2.1, hl.2.2.1, hl.2.2.2.1, hl.2.2.2.2.1⟩,
    ⟨hi.2.1, hi.2.2.1, hi.2.2.2.1, hi.2.2.2.2.1, hi.2.2.2.2.2.2.2⟩⟩

/-! ## Slots of a page after assignments -/

theorem toNat_ne_of_ne {i j : Int} (hi : 0 ≤ i) (hj : 0 ≤ j) (h : i ≠ j) : i.toNat ≠ j.toNat := by
  omega

theorem wr_length_le {α : Type} (d : α) (a : List α) {i : Int} (v : α) {B : Nat}
    (ha : a.length ≤ B) (h0 : 0 ≤ i) (hi : i < B) : (wr d a i v).length ≤ B := by
  unfold wr
  rw [List.length_set, List.length_append, List.length_replicate]
  have h1 : i.toNat < B := by omega
  omega

namespace Page

theorem key_setKey (p : Page) {i x : Int} (v : Int) (hi : 0 ≤ i) (hx : 0 ≤ x) :
    (p.setKey i v).key x = if x = i then v else p.key x := by
  by_cases h : x = i
  · rw [if_pos h, h]
    exact rd_wr_self 0 _ v
  · rw [if_neg h]
    exact rd_wr_other 0 _ v (toNat_ne_of_ne hx hi h)

theorem child_setChild (p : Page) {i x : Int} (c : Int) (hi : 0 ≤ i) (hx : 0 ≤ x) :
    (p.setChild i c).child x = if x = i then c else p.child x := by
  by_cases h : x = i
  · rw [if_pos h, h]
    exact rd_wr_self 0 _ c
  · rw [if_neg h]
    exact rd_wr_other 0 _ c (toNat_ne_of_ne hx hi h)

theorem rid_setRid (p : Page) {i x : Int} (v : RID) (hi : 0 ≤ i) (hx : 0 ≤ x) :
    (p.setRid i v).rid x = if x = i then v else p.rid x := by
  by_cases h : x = i
  · rw [if_pos h, h]
    exact rd_wr_self RID.zero _ v
  · rw [if_neg h]
    exact rd_wr_other RID.zero _ v (toNat_ne_of_ne hx hi h)

end Page
/-! ## The loops over the slots of internal pages -/

theorem moveInternalSlots_succ (n : Nat) (i j : Int) (dst src : Page) :
    moveInternalSlots (n + 1) i j dst src =
      moveInternalSlots n (i + 1) (j + 1)
        (((dst.setKey i (src.key j)).setChild i (src.child j)).ChangeSizeBy 1)
        ((src.setKey j 0).setChild j INVALID_PAGE_ID) := rfl

/-- The pages after a loop that moves `n` slots from `src[j ..]` to `dst[i ..]`. -/
theorem moveInternalSlots_spec (n : Nat) :
    ∀ (i j : Int) (dst src : Page), 0 ≤ i → 0 ≤ j →
      (moveInternalSlots n i j dst src).2.2.1 = i + n ∧
      (moveInternalSlots n i j dst src).2.2.2 = j + n ∧
      (moveInternalSlots n i j dst src).1.size_ = dst.size_ + n ∧
      (moveInternalSlots n i j dst src).1.page_type_ = dst.page_type_ ∧
      (moveInternalSlots n i j dst src).2.1.size_ = src.size_ ∧
      (moveInternalSlots n i j dst src).2.1.page_type_ = src.page_type_ ∧
      (∀ x, 0 ≤ x → (moveInternalSlots n i j dst src).1.key x =
        if i ≤ x ∧ x < i + n then src.key (j + (x - i)) else dst.key x) ∧
      (∀ x, 0 ≤ x → (moveInternalSlots n i j dst src).1.child x =
        if i ≤ x ∧ x < i + n then src.child (j + (x - i)) else dst.child x) ∧
      (∀ x, 0 ≤ x → (moveInternalSlots n i j dst src).2.1.key x =
        if j ≤ x ∧ x < j + n then 0 else src.key x) ∧
      (∀ x, 0 ≤ x → (moveInternalSlots n i j dst src).2.1.child x =
        if j ≤ x ∧ x < j + n then INVALID_PAGE_ID else src.child x) ∧
      (∀ B : Nat, dst.key_array_.length ≤ B → dst.page_id_array_.length ≤ B → i + n ≤ B →
        (moveInternalSlots n i j dst src).1.key_array_.length ≤ B ∧
        (moveInternalSlots n i j dst src).1.page_id_array_.length ≤ B) ∧
      (∀ B : Nat, src.key_array_.length ≤ B → src.page_id_array_.length ≤ B → j + n ≤ B →
        (moveInternalSlots n i j dst src).2.1.key_array_.length ≤ B ∧
        (moveInternalSlots n i j dst src).2.1.page_id_array_.length ≤ B) := by
  induction n with
  | zero =>
    intro i j dst src _ _
    refine ⟨by simp [moveInternalSlots], by simp [moveInternalSlots],
      by simp [moveInternalSlots], rfl, rfl, rfl, ?_, ?_, ?_, ?_, ?_, ?_⟩
    · intro x _
      rw [if_neg (by simp only [Nat.cast_zero]; omega)]
      rfl
    · intro x _
      rw [if_neg (by simp only [Nat.cast_zero]; omega)]
      rfl
    · intro x _
      rw [if_neg (by simp only [Nat.cast_zero]; omega)]
      rfl
    · intro x _
      rw [if_neg (by simp only [Nat.cast_zero]; omega)]
      rfl
    · intro B h1 h2 _
      exact ⟨h1, h2⟩
    · intro B h1 h2 _
      exact ⟨h1, h2⟩
  | succ n ih =>
    intro i j dst src hi hj
    rw [moveInternalSlots_succ]
    obtain ⟨h1, h2, h3, h4, h5, h6, h7, h8, h9, h10, h11, h12⟩ :=
      ih (i + 1) (j + 1)
        (((dst.setKey i (src.key j)).setChild i (src.child j)).ChangeSizeBy 1)
        ((src.setKey j 0).setChild j INVALID_PAGE_ID) (by omega) (by omega)
    refine ⟨?_, ?_, ?_, ?_, ?_, ?_, ?_, ?_, ?_, ?_, ?_, ?_⟩
    · rw [h1]
      push_cast
      omega
    · rw [h2]
      push_cast
      omega
    · rw [h3]
      show dst.size_ + 1 + (n : Int) = dst.size_ + ((n + 1 : Nat) : Int)
      push_cast
      omega
    · rw [h4]
      rfl
    · rw [h5]
      rfl
    · rw [h6]
      rfl
    · intro x hx
      rw [h7 x hx]
      have e1 : ∀ y, 0 ≤ y → ((src.setKey j 0).setChild j INVALID_PAGE_ID).key y =
          if y = j then 0 else src.key y := fun y hy => Page.key_setKey src 0 hj hy
      have e2 : (((dst.setKey i (src.key j)).setChild i (src.child j)).ChangeSizeBy 1).key x =
          if x = i then src.key j else dst.key x := Page.key_setKey dst _ hi hx
      by_cases hc : i + 1 ≤ x ∧ x < i + 1 + (n : Int)
      · rw [if_pos hc, if_pos (by push_cast; omega), e1 _ (by omega), if_neg (by omega)]
        congr 1
        omega
      · rw [if_neg hc, e2]
        by_cases hxi : x = i
        · rw [if_pos hxi, if_pos (by push_cast; omega), hxi]
          congr 1
          omega
        · rw [if_neg hxi, if_neg (by push_cast; omega)]
    · intro x hx
      rw [h8 x hx]
      have e1 : ∀ y, 0 ≤ y → ((src.setKey j 0).setChild j INVALID_PAGE_ID).child y =
          if y = j then INVALID_PAGE_ID else src.child y :=
        fun y hy => Page.child_setChild (src.setKey j 0) _ hj hy
      have e2 : (((dst.setKey i (src.key j)).setChild i (src.child j)).ChangeSizeBy 1).child x =
          if x = i then src.child j else dst.child x :=
        Page.child_setChild (dst.setKey i (src.key j)) _ hi hx
      by_cases hc : i + 1 ≤ x ∧ x < i + 1 + (n : Int)
      · rw [if_pos hc, if_pos (by push_cast; omega), e1 _ (by omega), if_neg (by omega)]
        congr 1
        omega
      · rw [if_neg hc, e2]
        by_cases hxi : x = i
        · rw [if_pos hxi, if_pos (by push_cast; omega), hxi]
          congr 1
          omega
        · rw [if_neg hxi, if_neg (by push_cast; omega)]
    · intro x hx
      rw [h9 x hx]
      have e1 : ((src.setKey j 0).setChild j INVALID_PAGE_ID).key x =
          if x = j then 0 else src.key x := Page.key_setKey src 0 hj hx
      by_cases hc : j + 1 ≤ x ∧ x < j + 1 + (n : Int)
      · rw [if_pos hc, if_pos (by push_cast; omega)]
      · rw [if_neg hc, e1]
        by_cases hxj : x = j
        · rw [if_pos hxj, if_pos (by push_cast; omega)]
        · rw [if_neg hxj, if_neg (by push_cast; omega)]
    · intro x hx
      rw [h10 x hx]
      have e1 : ((src.setKey j 0).setChild j INVALID_PAGE_ID).child x =
          if x = j then INVALID_PAGE_ID else src.child x :=
        Page.child_setChild (src.setKey j 0) _ hj hx
      by_cases hc : j + 1 ≤ x ∧ x < j + 1 + (n : Int)
      · rw [if_pos hc, if_pos (by push_cast; omega)]
      · rw [if_neg hc, e1]
        by_cases hxj : x = j
        · rw [if_pos hxj, if_pos (by push_cast; omega)]
        · rw [if_neg hxj, if_neg (by push_cast; omega)]
    · intro B hk hc hB
      push_cast at hB
      exact h11 B (wr_length_le 0 _ _ hk hi (by omega)) (wr_length_le 0 _ _ hc hi (by omega))
        (by omega)
    · intro B hk hc hB
      push_cast at hB
      exact h12 B (wr_length_le 0 _ _ hk hj (by omega)) (wr_length_le 0 _ _ hc hj (by omega))
        (by omega)

theorem shiftRightInternal_succ (n : Nat) (i : Int) (p : Page) :
    shiftRightInternal (n + 1) i p =
      shiftRightInternal n (i - 1) ((p.setKey i (p.key (i - 1))).setChild i (p.child (i - 1))) :=
  rfl

/-- The page after the loop that moves the slots `[i - n, i)` one place up. -/
theorem shiftRightInternal_spec (n : Nat) :
    ∀ (i : Int) (p : Page), (n : Int) ≤ i →
      (shiftRightInternal n i p).size_ = p.size_ ∧
      (shiftRightInternal n i p).page_type_ = p.page_type_ ∧
      (shiftRightInternal n i p).max_size_ = p.max_size_ ∧
      (∀ x, 0 ≤ x → (shiftRightInternal n i p).key x =
        if i - n < x ∧ x ≤ i then p.key (x - 1) else p.key x) ∧
      (∀ x, 0 ≤ x → (shiftRightInternal n i p).child x =
        if i - n < x ∧ x ≤ i then p.child (x - 1) else p.child x) ∧
      (∀ B : Nat, p.key_array_.length ≤ B → p.page_id_array_.length ≤ B → i < B →
        (shiftRightInternal n i p).key_array_.length ≤ B ∧
        (shiftRightInternal n i p).page_id_array_.length ≤ B) := by
  induction n with
  | zero =>
    intro i p _
    refine ⟨rfl, rfl, rfl, ?_, ?_, ?_⟩
    · intro x _
      rw [if_neg (by simp only [Nat.cast_zero]; omega)]
      rfl
    · intro x _
      rw [if_neg (by simp only [Nat.cast_zero]; omega)]
      rfl
    · intro B h1 h2 _
      exact ⟨h1, h2⟩
  | succ n ih =>
    intro i p hi
    push_cast at hi
    rw [shiftRightInternal_succ]
    obtain ⟨h1, h2, h3, h4, h5, h6⟩ :=
      ih (i - 1) ((p.setKey i (p.key (i - 1))).setChild i (p.child (i - 1))) (by omega)
    refine ⟨h1, h2, h3, ?_, ?_, ?_⟩
    · intro x hx
      rw [h4 x hx]
      have e1 : ∀ y, 0 ≤ y → ((p.setKey i (p.key (i - 1))).setChild i (p.child (i - 1))).key y =
          if y = i then p.key (i - 1) else p.key y :=
        fun y hy => Page.key_setKey p _ (by omega) hy
      by_cases hc : i - 1 - (n : Int) < x ∧ x ≤ i - 1
      · rw [if_pos hc, if_pos (by push_cast; omega), e1 _ (by omega), if_neg (by omega)]
      · rw [if_neg hc, e1 x hx]
        by_cases hxi : x = i
        · rw [if_pos hxi, if_pos (by push_cast; omega), hxi]
        · rw [if_neg hxi, if_neg (by push_cast; omega)]
    · intro x hx
      rw [h5 x hx]
      have e1 : ∀ y, 0 ≤ y → ((p.setKey i (p.key (i - 1))).setChild i (p.child (i - 1))).child y =
          if y = i then p.child (i - 1) else p.child y :=
        fun y hy => Page.child_setChild (p.setKey i (p.key (i - 1))) _ (by omega) hy
      by_cases hc : i - 1 - (n : Int) < x ∧ x ≤ i - 1
      · rw [if_pos hc, if_pos (by push_cast; omega), e1 _ (by omega), if_neg (by omega)]
      · rw [if_neg hc, e1 x hx]
        by_cases hxi : x = i
        · rw [if_pos hxi, if_pos (by push_cast; omega), hxi]
        · rw [if_neg hxi, if_neg (by push_cast; omega)]
    · intro B hk hc hB
      exact h6 B (wr_length_le 0 _ _ hk (by omega) hB) (wr_length_le 0 _ _ hc (by omega) hB)
        (by omega)
/-- The pages after a loop that moves `c` slots, for a count that is not negative. -/
theorem moveInternalSlots_count {c : Int} (hc : 0 ≤ c) (i j : Int) (dst src : Page)
    (hi : 0 ≤ i) (hj : 0 ≤ j) {mv : Page × Page × Int × Int}
    (hmv : mv = moveInternalSlots c.toNat i j dst src) :
    mv.2.2.1 = i + c ∧ mv.2.2.2 = j + c ∧
    mv.1.size_ = dst.size_ + c ∧ mv.1.page_type_ = dst.page_type_ ∧
    mv.2.1.size_ = src.size_ ∧ mv.2.1.page_type_ = src.page_type_ ∧
    (∀ x, 0 ≤ x → mv.1.key x = if i ≤ x ∧ x < i + c then src.key (j + (x - i)) else dst.key x) ∧
    (∀ x, 0 ≤ x → mv.1.child x =
      if i ≤ x ∧ x < i + c then src.child (j + (x - i)) else dst.child x) ∧
    (∀ x, 0 ≤ x → mv.2.1.key x = if j ≤ x ∧ x < j + c then 0 else src.key x) ∧
    (∀ x, 0 ≤ x → mv.2.1.child x =
      if j ≤ x ∧ x < j + c then INVALID_PAGE_ID else src.child x) ∧
    (∀ B : Nat, dst.key_array_.length ≤ B → dst.page_id_array_.length ≤ B → i + c ≤ B →
      mv.1.key_array_.length ≤ B ∧ mv.1.page_id_array_.length ≤ B) ∧
    (∀ B : Nat, src.key_array_.length ≤ B → src.page_id_array_.length ≤ B → j + c ≤ B →
      mv.2.1.key_array_.length ≤ B ∧ mv.2.1.page_id_array_.length ≤ B) := by
  have h := moveInternalSlots_spec c.toNat i j dst src hi hj
  rw [Int.toNat_of_nonneg hc, ← hmv] at h
  exact h

/-- The page after the loop that moves the slots `[i - c, i)` one place up, for a count that is
not negative. -/
theorem shiftRightInternal_count {c : Int} (hc : 0 ≤ c) (i : Int) (p : Page) (hi : c ≤ i)
    {q : Page} (hq : q = shiftRightInternal c.toNat i p) :
    q.size_ = p.size_ ∧ q.page_type_ = p.page_type_ ∧ q.max_size_ = p.max_size_ ∧
    (∀ x, 0 ≤ x → q.key x = if i - c < x ∧ x ≤ i then p.key (x - 1) else p.key x) ∧
    (∀ x, 0 ≤ x → q.child x = if i - c < x ∧ x ≤ i then p.child (x - 1) else p.child x) ∧
    (∀ B : Nat, p.key_array_.length ≤ B → p.page_id_array_.length ≤ B → i < B →
      q.key_array_.length ≤ B ∧ q.page_id_array_.length ≤ B) := by
  have h := shiftRightInternal_spec c.toNat i p (by rw [Int.toNat_of_nonneg hc]; exact hi)
  rw [Int.toNat_of_nonneg hc, ← hq] at h
  exact h
/-! ## The split of an internal page in Insert -/

theorem wrapInt32_of_range {x : Int} (h0 : -2147483648 ≤ x) (h1 : x < 2147483648) :
    wrapInt32 x = x := by
  unfold wrapInt32
  omega

theorem Page.getMinSize_bounds {p : Page} (h0 : 1 ≤ p.max_size_) (h1 : p.max_size_ < 2147483647) :
    1 ≤ p.GetMinSize ∧ p.GetMinSize ≤ p.max_size_ ∧ 2 * p.GetMinSize ≤ p.max_size_ + 1 ∧
      p.max_size_ ≤ 2 * p.GetMinSize := by
  unfold Page.GetMinSize
  rw [wrapInt32_of_range (by omega) (by omega), Int.tdiv_eq_ediv (by omega) (by omega)]
  omega

/-- The result of the loop of `KeyIndex` lies between its bounds. -/
theorem KeyIndexLoop_bounds (p : Page) (k : Int) :
    ∀ (fuel : Nat) (l r : Int), l ≤ r →
      l ≤ KeyIndexLoop p k fuel l r ∧ KeyIndexLoop p k fuel l r ≤ r := by
  intro fuel
  induction fuel with
  | zero =>
    intro l r h
    exact ⟨le_refl _, h⟩
  | succ m ih =>
    intro l r h
    rw [KeyIndexLoop_succ]
    by_cases hlr : l < r
    · obtain ⟨hm1, hm2, _, _⟩ := tdiv_two_mid hlr
      rw [if_pos hlr]
      split
      · omega
      · split
        · have := ih l (l + Int.tdiv (r - l) 2) hm1
          omega
        · have := ih (l + Int.tdiv (r - l) 2 + 1) r (by omega)
          omega
    · rw [if_neg hlr]
      exact ⟨le_refl _, h⟩

namespace BPlusTree

theorem page_range {t : BPlusTree} {page_id : Int} {p : Page}
    (h : t.page page_id = Except.ok p) : 0 ≤ page_id ∧ page_id < t.pages.length := by
  unfold page at h
  split at h
  · cases h
  · omega

theorem newPage_fst (t : BPlusTree) : t.NewPage.1 = (t.pages.length : Int) := rfl

theorem newPage_pages (t : BPlusTree) : t.NewPage.2.pages = t.pages ++ [Page.zero] := rfl

theorem page_newPage_new (t : BPlusTree) :
    t.NewPage.2.page (t.pages.length : Int) = Except.ok Page.zero := by
  unfold page NewPage
  simp

theorem setPage_ok (t : BPlusTree) (page_id : Int) {p : Page} (h : p.fitsBuffer = true) :
    t.setPage page_id p = Except.ok { t with pages := t.pages.set page_id.toNat p } := by
  unfold setPage
  rw [if_pos h]

/-- The pages `a` and `b` of a tree after they are stored, in this order. -/
theorem page_after_two_stores (t : BPlusTree) {a b : Int} (pa pb : Page)
    (ha : 0 ≤ a) (hb : 0 ≤ b) (hab : a ≠ b)
    (hla : a < t.pages.length) (hlb : b < t.pages.length) :
    ({ t with pages := (t.pages.set a.toNat pa).set b.toNat pb } : BPlusTree).page a
        = Except.ok pa ∧
      ({ t with pages := (t.pages.set a.toNat pa).set b.toNat pb } : BPlusTree).page b
        = Except.ok pb := by
  unfold page
  simp only [List.length_set]
  rw [if_neg (by omega), if_neg (by omega)]
  constructor
  · rw [List.getD_eq_getElem?_getD, List.getElem?_set_ne (by omega),
      List.getElem?_set_self (by omega)]
    rfl
  · rw [List.getD_eq_getElem?_getD, List.getElem?_set_self (by rw [List.length_set]; omega)]
    rfl

end BPlusTree
namespace BPlusTree

/-- What the split relies on in the page it splits: it is an internal page within its buffer
whose size has reached `max_size_`, which is at least 1. -/
theorem split_facts {t : BPlusTree} {parent_id : Int} {p : Page} (uk : Int)
    (hp : t.page parent_id = Except.ok p) (htype : p.page_type_ = IndexPageType.INTERNAL_PAGE)
    (hfit : p.fitsBuffer = true) (hmax : 1 ≤ p.GetMaxSize) (hfull : p.GetMaxSize ≤ p.GetSize)
    (hB : p.GetSize ≤ (Page.INTERNAL_PAGE_SLOT_CNT : Int)) :
    (0 ≤ parent_id ∧ parent_id < t.pages.length) ∧
    (1 ≤ p.GetMinSize ∧ p.GetMinSize ≤ p.size_) ∧
    (1 ≤ InternalPage.KeyIndex p uk ∧ InternalPage.KeyIndex p uk ≤ p.size_) ∧
    p.size_ ≤ 510 ∧ p.key_array_.length ≤ 510 ∧ p.page_id_array_.length ≤ 510 := by
  have h1 : 1 ≤ p.max_size_ := hmax
  have h2 : p.max_size_ ≤ p.size_ := hfull
  have h3 : p.size_ ≤ 510 := hB
  have hm := Page.getMinSize_bounds h1 (by omega)
  have hk := KeyIndexLoop_bounds p uk p.GetSize.toNat 1 p.GetSize (show (1 : Int) ≤ p.size_ by omega)
  have hf : p.key_array_.length ≤ 510 ∧ p.page_id_array_.length ≤ 510 := by
    unfold Page.fitsBuffer at hfit
    rw [htype] at hfit
    simpa [Page.INTERNAL_PAGE_SLOT_CNT] using hfit
  exact ⟨page_range hp, ⟨hm.1, by omega⟩, hk, h3, hf.1, hf.2⟩

theorem newPage_internal_max_size (t : BPlusTree) :
    t.NewPage.2.internal_max_size_ = t.internal_max_size_ := rfl

theorem fitsBuffer_internal {p : Page} (htype : p.page_type_ = IndexPageType.INTERNAL_PAGE)
    (h : p.key_array_.length ≤ 510 ∧ p.page_id_array_.length ≤ 510) : p.fitsBuffer = true := by
  unfold Page.fitsBuffer
  rw [htype]
  simpa [Page.INTERNAL_PAGE_SLOT_CNT] using h

theorem insertIntoParent_split_mid {t : BPlusTree} {parent_id uk nc : Int} {p : Page}
    (hp : t.page parent_id = Except.ok p) (htype : p.page_type_ = IndexPageType.INTERNAL_PAGE)
    (hfit : p.fitsBuffer = true) (hmax : 1 ≤ p.GetMaxSize) (hfull : p.GetMaxSize ≤ p.GetSize)
    (hB : p.GetSize ≤ (Page.INTERNAL_PAGE_SLOT_CNT : Int))
    (hmid : p.GetMinSize = InternalPage.KeyIndex p uk) :
    ∃ t2 promoted, t.insertIntoParent parent_id uk nc =
        Except.ok (t2, some (promoted, (t.pages.length : Int))) ∧
      t.IsSplitOf t2 parent_id p (InternalPage.KeyIndex p uk) uk nc promoted := by
  obtain ⟨hr, hm, hk, hn, hlk, hlc⟩ := split_facts uk hp htype hfit hmax hfull hB
  have hfull' : p.GetSize ≥ p.GetMaxSize := hfull
  obtain ⟨i, hi⟩ : ∃ i, i = InternalPage.KeyIndex p uk := ⟨_, rfl⟩
  rw [← hi] at hk hmid ⊢
  obtain ⟨R0, hR0⟩ : ∃ R0, R0 =
      ((InternalPage.Init Page.zero t.internal_max_size_).setChild 0 nc).ChangeSizeBy 1 :=
    ⟨_, rfl⟩
  obtain ⟨mv, hmv⟩ : ∃ mv, mv = moveInternalSlots (p.GetSize - i).toNat 1 i R0 p := ⟨_, rfl⟩
  have hcnt : (((p.GetSize - i).toNat : Nat) : Int) = p.size_ - i := by
    have : i ≤ p.size_ := hk.2
    show ((p.size_ - i).toNat : Int) = _
    omega
  obtain ⟨s1, s2, s3, s4, s5, s6, s7, s8, s9, s10, s11, s12⟩ :=
    moveInternalSlots_spec (p.GetSize - i).toNat 1 i R0 p (by decide) (by omega)
  rw [← hmv, hcnt] at s1 s2 s3 s7 s8 s9 s10 s11 s12
  rw [← hmv] at s4 s5 s6
  have hfitL : (mv.2.1.ChangeSizeBy (-mv.2.2.1 + 1)).fitsBuffer = true :=
    fitsBuffer_internal (s6.trans htype) (s12 510 hlk hlc (by omega))
  have hfitR : mv.1.fitsBuffer = true := by
    refine fitsBuffer_internal (s4.trans (by rw [hR0]; rfl)) (s11 510 ?_ ?_ (by omega))
    · rw [hR0]
      exact Nat.zero_le _
    · rw [hR0]
      exact wr_length_le 0 [] nc (Nat.zero_le _) (le_refl _) (by decide)
  have hcall : t.insertIntoParent parent_id uk nc = Except.ok
      ({ t with pages := ((t.pages ++ [Page.zero]).set parent_id.toNat
            (mv.2.1.ChangeSizeBy (-mv.2.2.1 + 1))).set (t.pages.length : Int).toNat mv.1 },
        some (uk, (t.pages.length : Int))) := by
    unfold insertIntoParent
    simp only [hp, bind, Except.bind, hfull', if_true, hmid, ← hi, newPage_fst,
      page_newPage_new, newPage_internal_max_size, ← hR0, ← hmv]
    rw [setPage_ok _ _ hfitL]
    simp only []
    rw [setPage_ok _ _ hfitR]
    rfl
  obtain ⟨hpa, hpb⟩ := page_after_two_stores t.NewPage.2
    (mv.2.1.ChangeSizeBy (-mv.2.2.1 + 1)) mv.1 hr.1 (Int.ofNat_nonneg t.pages.length)
    (show parent_id ≠ (t.pages.length : Int) by omega)
    (show parent_id < ((t.NewPage.2.pages.length : Nat) : Int) by
      rw [newPage_pages, List.length_append]; push_cast; omega)
    (show (t.pages.length : Int) < ((t.NewPage.2.pages.length : Nat) : Int) by
      rw [newPage_pages, List.length_append]; simp)
  refine ⟨_, _, hcall, _, _, hpa, hpb, ?_, ?_, ?_, ?_, ?_, ?_, ?_⟩
  · show mv.2.1.size_ + (-mv.2.2.1 + 1) = p.GetMinSize
    rw [s5, s1, hmid]
    omega
  · show mv.1.size_ = p.size_ + 1 - p.GetMinSize
    rw [s3, hmid, hR0]
    show (0 : Int) + 1 + (p.size_ - i) = _
    omega
  · intro x hx0 hx1
    show mv.2.1.child x = _
    rw [s10 x hx0, if_neg (by omega)]
    unfold Page.childWith
    rw [if_pos (by omega)]
  · intro x hx0 hx1
    show mv.2.1.key x = _
    rw [s9 x (by omega), if_neg (by omega)]
    unfold Page.keyWith
    rw [if_pos (by omega)]
  · unfold Page.keyWith
    rw [if_neg (by omega), if_pos hmid]
  · intro y hy0 hy1
    rw [s8 y hy0]
    unfold Page.childWith
    by_cases hy : y = 0
    · rw [if_neg (by omega), if_neg (by omega), if_pos (by omega), hR0, hy]
      rfl
    · rw [if_pos (by omega), if_neg (by omega), if_neg (by omega)]
      congr 1
      omega
  · intro y hy0 hy1
    rw [s7 y (by omega)]
    unfold Page.keyWith
    rw [if_pos (by omega), if_neg (by omega), if_neg (by omega)]
    congr 1
    omega

end BPlusTree
/-- The fresh page of the split once a child is put in its slot 0. -/
theorem newInternal_facts (m c0 : Int) {R0 : Page}
    (hR0 : R0 = ((InternalPage.Init Page.zero m).setChild 0 c0).ChangeSizeBy 1) :
    R0.size_ = 1 ∧ R0.child 0 = c0 ∧ R0.page_type_ = IndexPageType.INTERNAL_PAGE ∧
      R0.key_array_.length ≤ 510 ∧ R0.page_id_array_.length ≤ 510 := by
  subst hR0
  refine ⟨rfl, ?_, rfl, Nat.zero_le _, ?_⟩
  · exact rd_wr_self 0 _ c0
  · exact wr_length_le 0 [] c0 (Nat.zero_le _) (le_refl _) (by decide)

/-- The split for an insertion index below the middle: the new page and what is left in the
old page after the upper slots are moved. -/
theorem split_lt_moved {p P1 R0 : Page} {mv : Page × Page × Int × Int} {mid i : Int}
    (uk nc : Int)
    (hP1 : P1 = (p.setChild (mid - 1) INVALID_PAGE_ID).setKey (mid - 1) 0)
    (hmv : mv = moveInternalSlots (P1.GetSize - (mid - 1 + 1)).toNat 1 (mid - 1 + 1) R0 P1)
    (hR0s : R0.size_ = 1) (hR0c : R0.child 0 = p.child (mid - 1))
    (hi1 : 1 ≤ i) (hi2 : i < mid) (hm : mid ≤ p.size_) :
    (mv.1.size_ = p.size_ + 1 - mid ∧ mv.1.page_type_ = R0.page_type_ ∧
      (∀ y, 0 ≤ y → y < p.size_ + 1 - mid → mv.1.child y = p.childWith i nc (mid + y)) ∧
      (∀ y, 1 ≤ y → y < p.size_ + 1 - mid → mv.1.key y = p.keyWith i uk (mid + y)) ∧
      (R0.key_array_.length ≤ 510 → R0.page_id_array_.length ≤ 510 → p.size_ ≤ 510 →
        mv.1.key_array_.length ≤ 510 ∧ mv.1.page_id_array_.length ≤ 510)) ∧
    (mv.2.1.size_ + -mv.2.2.1 = mid - 1 ∧ mv.2.1.page_type_ = p.page_type_ ∧
      (∀ z, 0 ≤ z → z < mid - 1 → mv.2.1.child z = p.child z) ∧
      (∀ z, 0 ≤ z → z < mid - 1 → mv.2.1.key z = p.key z) ∧
      (p.key_array_.length ≤ 510 → p.page_id_array_.length ≤ 510 → p.size_ ≤ 510 →
        mv.2.1.key_array_.length ≤ 510 ∧ mv.2.1.page_id_array_.length ≤ 510)) := by
  have hsz1 : P1.GetSize = p.size_ := by rw [hP1]; rfl
  have hty1 : P1.page_type_ = p.page_type_ := by rw [hP1]; rfl
  have hP1k : ∀ x, 0 ≤ x → P1.key x = if x = mid - 1 then 0 else p.key x := by
    intro x hx
    rw [hP1]
    exact Page.key_setKey _ 0 (by omega) hx
  have hP1c : ∀ x, 0 ≤ x → P1.child x = if x = mid - 1 then INVALID_PAGE_ID else p.child x := by
    intro x hx
    rw [hP1]
    exact Page.child_setChild p _ (by omega) hx
  obtain ⟨s1, s2, s3, s4, s5, s6, s7, s8, s9, s10, s11, s12⟩ :=
    moveInternalSlots_count (show 0 ≤ P1.GetSize - (mid - 1 + 1) by omega) 1 (mid - 1 + 1)
      R0 P1 (by decide) (by omega) hmv
  rw [hsz1] at s1 s3 s7 s8 s9 s10 s11 s12
  refine ⟨⟨by omega, s4, ?_, ?_, ?_⟩, ⟨?_, s6.trans hty1, ?_, ?_, ?_⟩⟩
  · intro y hy0 hy1
    rw [s8 y hy0]
    unfold Page.childWith
    rw [if_neg (show ¬ mid + y < i by omega), if_neg (show ¬ mid + y = i by omega)]
    by_cases hy : y = 0
    · rw [if_neg (by omega), hy, hR0c]
      congr 1
      omega
    · rw [if_pos (by omega), hP1c _ (by omega), if_neg (by omega)]
      congr 1
      omega
  · intro y hy0 hy1
    rw [s7 y (by omega)]
    unfold Page.keyWith
    rw [if_neg (show ¬ mid + y < i by omega), if_neg (show ¬ mid + y = i by omega),
      if_pos (by omega), hP1k _ (by omega), if_neg (by omega)]
    congr 1
    omega
  · intro h1 h2 h3
    exact s11 510 h1 h2 (by omega)
  · rw [s5, s1]
    have h1 : P1.size_ = p.size_ := hsz1
    omega
  · intro z hz0 hz1
    rw [s10 z hz0, if_neg (by omega), hP1c z hz0, if_neg (by omega)]
  · intro z hz0 hz1
    rw [s9 z hz0, if_neg (by omega), hP1k z hz0, if_neg (by omega)]
  · intro h1 h2 h3
    refine s12 510 ?_ ?_ (by omega)
    · rw [hP1]
      exact wr_length_le 0 _ _ h1 (by omega) (by omega)
    · rw [hP1]
      exact wr_length_le 0 _ _ h2 (by omega) (by omega)

/-- The split for an insertion index below the middle: the old page after the new entry is put
in its slot. -/
theorem split_lt_left {p P2 P3 L : Page} {mid i : Int} (uk nc : Int)
    (hP3 : P3 = shiftRightInternal (mid - 1 - i).toNat (mid - 1) P2)
    (hL : L = ((P3.setKey i uk).setChild i nc).ChangeSizeBy 1)
    (hP2s : P2.size_ = mid - 1)
    (hP2c : ∀ z, 0 ≤ z → z < mid - 1 → P2.child z = p.child z)
    (hP2k : ∀ z, 0 ≤ z → z < mid - 1 → P2.key z = p.key z)
    (hi1 : 1 ≤ i) (hi2 : i < mid) :
    L.size_ = mid ∧ L.page_type_ = P2.page_type_ ∧
      (∀ x, 0 ≤ x → x < mid → L.child x = p.childWith i nc x) ∧
      (∀ x, 1 ≤ x → x < mid → L.key x = p.keyWith i uk x) ∧
      (P2.key_array_.length ≤ 510 → P2.page_id_array_.length ≤ 510 → mid ≤ 510 →
        L.key_array_.length ≤ 510 ∧ L.page_id_array_.length ≤ 510) := by
  obtain ⟨r1, r2, r3, r4, r5, r6⟩ :=
    shiftRightInternal_count (show 0 ≤ mid - 1 - i by omega) (mid - 1) P2 (by omega) hP3
  have hLc : ∀ x, 0 ≤ x → L.child x = if x = i then nc else P3.child x := by
    intro x hx
    rw [hL]
    exact Page.child_setChild _ _ (by omega) hx
  have hLk : ∀ x, 0 ≤ x → L.key x = if x = i then uk else P3.key x := by
    intro x hx
    rw [hL]
    exact Page.key_setKey _ _ (by omega) hx
  refine ⟨?_, ?_, ?_, ?_, ?_⟩
  · rw [hL]
    show P3.size_ + 1 = mid
    omega
  · rw [hL]
    exact r2
  · intro x hx0 hx1
    rw [hLc x hx0]
    unfold Page.childWith
    by_cases hxi : x = i
    · rw [if_pos hxi, if_neg (by omega), if_pos hxi]
    · rw [if_neg hxi, r5 x hx0]
      by_cases hc : x < i
      · rw [if_neg (by omega), if_pos hc, hP2c x hx0 (by omega)]
      · rw [if_pos (by omega), if_neg hc, if_neg hxi, hP2c (x - 1) (by omega) (by omega)]
  · intro x hx0 hx1
    rw [hLk x (by omega)]
    unfold Page.keyWith
    by_cases hxi : x = i
    · rw [if_pos hxi, if_neg (by omega), if_pos hxi]
    · rw [if_neg hxi, r4 x (by omega)]
      by_cases hc : x < i
      · rw [if_neg (by omega), if_pos hc, hP2k x (by omega) (by omega)]
      · rw [if_pos (by omega), if_neg hc, if_neg hxi, hP2k (x - 1) (by omega) (by omega)]
  · intro h1 h2 h3
    have h4 := r6 510 h1 h2 (by omega)
    rw [hL]
    exact ⟨wr_length_le 0 _ _ h4.1 (by omega) (by omega),
      wr_length_le 0 _ _ h4.2 (by omega) (by omega)⟩

namespace BPlusTree

theorem keyAt_ok {p : Page} {index : Int} (h1 : 1 ≤ index) (h2 : index < p.size_) :
    InternalPage.KeyAt p index = Except.ok (p.key index) := by
  unfold InternalPage.KeyAt
  rw [if_neg]
  show ¬ (index < 1 ∨ index ≥ p.size_)
  omega

/-- The tree after the two pages of a split are stored. -/
theorem stored_split {t : BPlusTree} {parent_id : Int} (L R : Page)
    (hr : 0 ≤ parent_id ∧ parent_id < t.pages.length)
    (hfitL : L.fitsBuffer = true) (hfitR : R.fitsBuffer = true) :
    ∃ t1 t2, t.NewPage.2.setPage parent_id L = Except.ok t1 ∧
      t1.setPage (t.pages.length : Int) R = Except.ok t2 ∧
      t2.page parent_id = Except.ok L ∧ t2.page (t.pages.length : Int) = Except.ok R := by
  obtain ⟨hpa, hpb⟩ := page_after_two_stores t.NewPage.2 L R hr.1
    (Int.ofNat_nonneg t.pages.length)
    (show parent_id ≠ (t.pages.length : Int) by omega)
    (show parent_id < ((t.NewPage.2.pages.length : Nat) : Int) by
      rw [newPage_pages, List.length_append]; push_cast; omega)
    (show (t.pages.length : Int) < ((t.NewPage.2.pages.length : Nat) : Int) by
      rw [newPage_pages, List.length_append]; simp)
  exact ⟨_, _, setPage_ok _ _ hfitL, setPage_ok _ _ hfitR, hpa, hpb⟩

theorem insertIntoParent_split_lt {t : BPlusTree} {parent_id uk nc : Int} {p : Page}
    (hp : t.page parent_id = Except.ok p) (htype : p.page_type_ = IndexPageType.INTERNAL_PAGE)
    (hfit : p.fitsBuffer = true) (hmax : 1 ≤ p.GetMaxSize) (hfull : p.GetMaxSize ≤ p.GetSize)
    (hB : p.GetSize ≤ (Page.INTERNAL_PAGE_SLOT_CNT : Int))
    (hlt : InternalPage.KeyIndex p uk < p.GetMinSize) :
    ∃ t2 promoted, t.insertIntoParent parent_id uk nc =
        Except.ok (t2, some (promoted, (t.pages.length : Int))) ∧
      t.IsSplitOf t2 parent_id p (InternalPage.KeyIndex p uk) uk nc promoted := by
  obtain ⟨hr, hm, hk, hn, hlk, hlc⟩ := split_facts uk hp htype hfit hmax hfull hB
  have hfull' : p.GetSize ≥ p.GetMaxSize := hfull
  have hne : ¬ p.GetMinSize = InternalPage.KeyIndex p uk := by omega
  obtain ⟨R0, hR0⟩ : ∃ R0, R0 =
      ((InternalPage.Init Page.zero t.internal_max_size_).setChild 0
        (p.child (p.GetMinSize - 1))).ChangeSizeBy 1 := ⟨_, rfl⟩
  obtain ⟨P1, hP1⟩ : ∃ P1, P1 =
      (p.setChild (p.GetMinSize - 1) INVALID_PAGE_ID).setKey (p.GetMinSize - 1) 0 := ⟨_, rfl⟩
  obtain ⟨mv, hmv⟩ : ∃ mv, mv =
      moveInternalSlots (P1.GetSize - (p.GetMinSize - 1 + 1)).toNat 1 (p.GetMinSize - 1 + 1)
        R0 P1 := ⟨_, rfl⟩
  obtain ⟨P3, hP3⟩ : ∃ P3, P3 =
      shiftRightInternal (p.GetMinSize - 1 - InternalPage.KeyIndex p uk).toNat
        (p.GetMinSize - 1) (mv.2.1.ChangeSizeBy (-mv.2.2.1)) := ⟨_, rfl⟩
  obtain ⟨L, hL⟩ : ∃ L, L =
      ((P3.setKey (InternalPage.KeyIndex p uk) uk).setChild (InternalPage.KeyIndex p uk)
        nc).ChangeSizeBy 1 := ⟨_, rfl⟩
  obtain ⟨f1, f2, f3, f4, f5⟩ := newInternal_facts _ _ hR0
  obtain ⟨⟨a1, a2, a3, a4, a5⟩, ⟨b1, b2, b3, b4, b5⟩⟩ :=
    split_lt_moved uk nc hP1 hmv f1 f2 hk.1 hlt hm.2
  obtain ⟨c1, c2, c3, c4, c5⟩ :=
    split_lt_left (p := p) uk nc hP3 hL b1 b3 b4 hk.1 hlt
  have hfitL : L.fitsBuffer = true :=
    fitsBuffer_internal (c2.trans (b2.trans htype)) (c5 (b5 hlk hlc hn).1 (b5 hlk hlc hn).2
      (by omega))
  have hfitR : mv.1.fitsBuffer = true :=
    fitsBuffer_internal (a2.trans f3) (a5 f4 f5 hn)
  obtain ⟨t1, t2, hst1, hst2, hpa, hpb⟩ := stored_split (t := t) L mv.1 hr hfitL hfitR
  have hcall : t.insertIntoParent parent_id uk nc = Except.ok
      (t2, some (p.key (p.GetMinSize - 1), (t.pages.length : Int))) := by
    unfold insertIntoParent
    simp only [hp, bind, Except.bind, hfull', if_true, hne, hlt, if_false,
      newPage_fst, page_newPage_new, newPage_internal_max_size,
      keyAt_ok (show (1 : Int) ≤ p.GetMinSize - 1 by omega)
        (show p.GetMinSize - 1 < p.size_ by omega),
      ← hR0, ← hP1, ← hmv, ← hP3, ← hL]
    rw [hst1]
    simp only []
    rw [hst2]
    rfl
  refine ⟨t2, _, hcall, L, mv.1, hpa, hpb, c1, a1, c3, c4, ?_, a3, a4⟩
  unfold Page.keyWith
  rw [if_neg (by omega), if_neg (by omega)]

end BPlusTree
/-- The split for an insertion index above the middle: the new page after the slots below the
insertion index and the new entry are put in it, and what is left in the old page. -/
theorem split_gt_first {p P1 R0 R1 : Page} {mv : Page × Page × Int × Int} {mid i : Int}
    (uk nc : Int)
    (hP1 : P1 = (p.setChild mid INVALID_PAGE_ID).setKey mid 0)
    (hmv : mv = moveInternalSlots (i - (mid + 1)).toNat 1 (mid + 1) R0 P1)
    (hR1 : R1 = ((mv.1.setKey mv.2.2.1 uk).setChild mv.2.2.1 nc).ChangeSizeBy 1)
    (hR0s : R0.size_ = 1) (hR0c : R0.child 0 = p.child mid)
    (hm : 1 ≤ mid) (hi1 : mid < i) (hi2 : i ≤ p.size_) :
    (mv.2.2.1 = i - mid ∧ mv.2.2.2 = i) ∧
    (R1.size_ = i - mid + 1 ∧ R1.page_type_ = R0.page_type_ ∧
      (∀ y, 0 ≤ y → y ≤ i - mid → R1.child y = p.childWith i nc (mid + y)) ∧
      (∀ y, 1 ≤ y → y ≤ i - mid → R1.key y = p.keyWith i uk (mid + y)) ∧
      (R0.key_array_.length ≤ 510 → R0.page_id_array_.length ≤ 510 → p.size_ ≤ 510 →
        R1.key_array_.length ≤ 510 ∧ R1.page_id_array_.length ≤ 510)) ∧
    (mv.2.1.size_ = p.size_ ∧ mv.2.1.page_type_ = p.page_type_ ∧
      (∀ z, 0 ≤ z → z < mid ∨ i ≤ z → mv.2.1.child z = p.child z) ∧
      (∀ z, 0 ≤ z → z < mid ∨ i ≤ z → mv.2.1.key z = p.key z) ∧
      (p.key_array_.length ≤ 510 → p.page_id_array_.length ≤ 510 → p.size_ ≤ 510 →
        mv.2.1.key_array_.length ≤ 510 ∧ mv.2.1.page_id_array_.length ≤ 510)) := by
  have hsz1 : P1.size_ = p.size_ := by rw [hP1]; rfl
  have hty1 : P1.page_type_ = p.page_type_ := by rw [hP1]; rfl
  have hP1k : ∀ x, 0 ≤ x → P1.key x = if x = mid then 0 else p.key x := by
    intro x hx
    rw [hP1]
    exact Page.key_setKey _ 0 (by omega) hx
  have hP1c : ∀ x, 0 ≤ x → P1.child x = if x = mid then INVALID_PAGE_ID else p.child x := by
    intro x hx
    rw [hP1]
    exact Page.child_setChild p _ (by omega) hx
  obtain ⟨s1, s2, s3, s4, s5, s6, s7, s8, s9, s10, s11, s12⟩ :=
    moveInternalSlots_count (show 0 ≤ i - (mid + 1) by omega) 1 (mid + 1)
      R0 P1 (by decide) (by omega) hmv
  have hj : mv.2.2.1 = i - mid := by omega
  have hR1c : ∀ x, 0 ≤ x → R1.child x = if x = i - mid then nc else mv.1.child x := by
    intro x hx
    rw [hR1, hj]
    exact Page.child_setChild _ _ (by omega) hx
  have hR1k : ∀ x, 0 ≤ x → R1.key x = if x = i - mid then uk else mv.1.key x := by
    intro x hx
    rw [hR1, hj]
    exact Page.key_setKey _ _ (by omega) hx
  refine ⟨⟨hj, by omega⟩, ⟨?_, ?_, ?_, ?_, ?_⟩, ⟨s5.trans hsz1, s6.trans hty1, ?_, ?_, ?_⟩⟩
  · rw [hR1]
    show mv.1.size_ + 1 = _
    omega
  · rw [hR1]
    exact s4
  · intro y hy0 hy1
    rw [hR1c y hy0]
    unfold Page.childWith
    by_cases hy : y = i - mid
    · rw [if_pos hy, if_neg (by omega), if_pos (by omega)]
    · rw [if_neg hy, if_pos (show mid + y < i by omega), s8 y hy0]
      by_cases hy2 : y = 0
      · rw [if_neg (by omega), hy2, hR0c]
        congr 1
        omega
      · rw [if_pos (by omega), hP1c _ (by omega), if_neg (by omega)]
        congr 1
        omega
  · intro y hy0 hy1
    rw [hR1k y (by omega)]
    unfold Page.keyWith
    by_cases hy : y = i - mid
    · rw [if_pos hy, if_neg (by omega), if_pos (by omega)]
    · rw [if_neg hy, if_pos (show mid + y < i by omega), s7 y (by omega), if_pos (by omega),
        hP1k _ (by omega), if_neg (by omega)]
      congr 1
      omega
  · intro h1 h2 h3
    have h4 := s11 510 h1 h2 (by omega)
    rw [hR1]
    exact ⟨wr_length_le 0 _ _ h4.1 (by omega) (by omega),
      wr_length_le 0 _ _ h4.2 (by omega) (by omega)⟩
  · intro z hz0 hz1
    rw [s10 z hz0, if_neg (by omega), hP1c z hz0, if_neg (by omega)]
  · intro z hz0 hz1
    rw [s9 z hz0, if_neg (by omega), hP1k z hz0, if_neg (by omega)]
  · intro h1 h2 h3
    refine s12 510 ?_ ?_ (by omega)
    · rw [hP1]
      exact wr_length_le 0 _ _ h1 (by omega) (by omega)
    · rw [hP1]
      exact wr_length_le 0 _ _ h2 (by omega) (by omega)

/-- The split for an insertion index above the middle: the two pages after the slots from the
insertion index on are moved. -/
theorem split_gt_second {p S R1 L : Page} {mv : Page × Page × Int × Int} {mid i j k : Int}
    (uk nc : Int)
    (hmv : mv = moveInternalSlots (S.GetSize - k).toNat (j + 1) k R1 S)
    (hL : L = mv.2.1.ChangeSizeBy (-(mv.2.1.GetSize - mid)))
    (hj : j = i - mid) (hk : k = i)
    (hR1s : R1.size_ = i - mid + 1)
    (hR1c : ∀ y, 0 ≤ y → y ≤ i - mid → R1.child y = p.childWith i nc (mid + y))
    (hR1k : ∀ y, 1 ≤ y → y ≤ i - mid → R1.key y = p.keyWith i uk (mid + y))
    (hSs : S.size_ = p.size_)
    (hSc : ∀ z, 0 ≤ z → z < mid ∨ i ≤ z → S.child z = p.child z)
    (hSk : ∀ z, 0 ≤ z → z < mid ∨ i ≤ z → S.key z = p.key z)
    (hm : 1 ≤ mid) (hi1 : mid < i) (hi2 : i ≤ p.size_) :
    (mv.1.size_ = p.size_ + 1 - mid ∧ mv.1.page_type_ = R1.page_type_ ∧
      (∀ y, 0 ≤ y → y < p.size_ + 1 - mid → mv.1.child y = p.childWith i nc (mid + y)) ∧
      (∀ y, 1 ≤ y → y < p.size_ + 1 - mid → mv.1.key y = p.keyWith i uk (mid + y)) ∧
      (R1.key_array_.length ≤ 510 → R1.page_id_array_.length ≤ 510 → p.size_ ≤ 510 →
        mv.1.key_array_.length ≤ 510 ∧ mv.1.page_id_array_.length ≤ 510)) ∧
    (L.size_ = mid ∧ L.page_type_ = S.page_type_ ∧
      (∀ x, 0 ≤ x → x < mid → L.child x = p.childWith i nc x) ∧
      (∀ x, 1 ≤ x → x < mid → L.key x = p.keyWith i uk x) ∧
      (S.key_array_.length ≤ 510 → S.page_id_array_.length ≤ 510 → p.size_ ≤ 510 →
        L.key_array_.length ≤ 510 ∧ L.page_id_array_.length ≤ 510)) := by
  subst hj
  subst hk
  have hSs2 : S.GetSize = p.size_ := hSs
  obtain ⟨s1, s2, s3, s4, s5, s6, s7, s8, s9, s10, s11, s12⟩ :=
    moveInternalSlots_count (show 0 ≤ S.GetSize - k by omega) (k - mid + 1) k
      R1 S (by omega) (by omega) hmv
  rw [hSs2] at s1 s2 s3 s7 s8 s9 s10 s11 s12
  refine ⟨⟨by omega, s4, ?_, ?_, ?_⟩, ⟨?_, ?_, ?_, ?_, ?_⟩⟩
  · intro y hy0 hy1
    rw [s8 y hy0]
    by_cases hy : y ≤ k - mid
    · rw [if_neg (by omega), hR1c y hy0 hy]
    · unfold Page.childWith
      rw [if_pos (by omega), hSc _ (by omega) (Or.inr (by omega)),
        if_neg (show ¬ mid + y < k by omega), if_neg (show ¬ mid + y = k by omega)]
      congr 1
      omega
  · intro y hy0 hy1
    rw [s7 y (by omega)]
    by_cases hy : y ≤ k - mid
    · rw [if_neg (by omega), hR1k y hy0 hy]
    · unfold Page.keyWith
      rw [if_pos (by omega), hSk _ (by omega) (Or.inr (by omega)),
        if_neg (show ¬ mid + y < k by omega), if_neg (show ¬ mid + y = k by omega)]
      congr 1
      omega
  · intro h1 h2 h3
    exact s11 510 h1 h2 (by omega)
  · rw [hL]
    show mv.2.1.size_ + -(mv.2.1.size_ - mid) = mid
    omega
  · rw [hL]
    exact s6
  · intro x hx0 hx1
    rw [hL]
    show mv.2.1.child x = _
    unfold Page.childWith
    rw [s10 x hx0, if_neg (by omega), hSc x hx0 (Or.inl hx1), if_pos (by omega)]
  · intro x hx0 hx1
    rw [hL]
    show mv.2.1.key x = _
    unfold Page.keyWith
    rw [s9 x (by omega), if_neg (by omega), hSk x (by omega) (Or.inl hx1), if_pos (by omega)]
  · intro h1 h2 h3
    rw [hL]
    exact s12 510 h1 h2 (by omega)

namespace BPlusTree

theorem insertIntoParent_split_gt {t : BPlusTree} {parent_id uk nc : Int} {p : Page}
    (hp : t.page parent_id = Except.ok p) (htype : p.page_type_ = IndexPageType.INTERNAL_PAGE)
    (hfit : p.fitsBuffer = true) (hmax : 1 ≤ p.GetMaxSize) (hfull : p.GetMaxSize ≤ p.GetSize)
    (hB : p.GetSize ≤ (Page.INTERNAL_PAGE_SLOT_CNT : Int))
    (hgt : p.GetMinSize < InternalPage.KeyIndex p uk) :
    ∃ t2 promoted, t.insertIntoParent parent_id uk nc =
        Except.ok (t2, some (promoted, (t.pages.length : Int))) ∧
      t.IsSplitOf t2 parent_id p (InternalPage.KeyIndex p uk) uk nc promoted := by
  obtain ⟨hr, hm, hk, hn, hlk, hlc⟩ := split_facts uk hp htype hfit hmax hfull hB
  have hfull' : p.GetSize ≥ p.GetMaxSize := hfull
  have hne : ¬ p.GetMinSize = InternalPage.KeyIndex p uk := by omega
  have hnlt : ¬ InternalPage.KeyIndex p uk < p.GetMinSize := by omega
  obtain ⟨R0, hR0⟩ : ∃ R0, R0 =
      ((InternalPage.Init Page.zero t.internal_max_size_).setChild 0
        (p.child p.GetMinSize)).ChangeSizeBy 1 := ⟨_, rfl⟩
  obtain ⟨P1, hP1⟩ : ∃ P1, P1 =
      (p.setChild p.GetMinSize INVALID_PAGE_ID).setKey p.GetMinSize 0 := ⟨_, rfl⟩
  obtain ⟨mv1, hmv1⟩ : ∃ mv1, mv1 =
      moveInternalSlots (InternalPage.KeyIndex p uk - (p.GetMinSize + 1)).toNat 1
        (p.GetMinSize + 1) R0 P1 := ⟨_, rfl⟩
  obtain ⟨R1, hR1⟩ : ∃ R1, R1 =
      ((mv1.1.setKey mv1.2.2.1 uk).setChild mv1.2.2.1 nc).ChangeSizeBy 1 := ⟨_, rfl⟩
  obtain ⟨mv2, hmv2⟩ : ∃ mv2, mv2 =
      moveInternalSlots (mv1.2.1.GetSize - mv1.2.2.2).toNat (mv1.2.2.1 + 1) mv1.2.2.2 R1
        mv1.2.1 := ⟨_, rfl⟩
  obtain ⟨L, hL⟩ : ∃ L, L = mv2.2.1.ChangeSizeBy (-(mv2.2.1.GetSize - p.GetMinSize)) :=
    ⟨_, rfl⟩
  obtain ⟨f1, f2, f3, f4, f5⟩ := newInternal_facts _ _ hR0
  obtain ⟨⟨e1, e2⟩, ⟨a1, a2, a3, a4, a5⟩, ⟨b1, b2, b3, b4, b5⟩⟩ :=
    split_gt_first uk nc hP1 hmv1 hR1 f1 f2 hm.1 hgt hk.2
  obtain ⟨⟨c1, c2, c3, c4, c5⟩, ⟨d1, d2, d3, d4, d5⟩⟩ :=
    split_gt_second (p := p) uk nc hmv2 hL e1 e2 a1 a3 a4 b1 b3 b4 hm.1 hgt hk.2
  have hfitL : L.fitsBuffer = true :=
    fitsBuffer_internal (d2.trans (b2.trans htype))
      (d5 (b5 hlk hlc hn).1 (b5 hlk hlc hn).2 hn)
  have hfitR : mv2.1.fitsBuffer = true :=
    fitsBuffer_internal (c2.trans (a2.trans f3)) (c5 (a5 f4 f5 hn).1 (a5 f4 f5 hn).2 hn)
  obtain ⟨t1, t2, hst1, hst2, hpa, hpb⟩ := stored_split (t := t) L mv2.1 hr hfitL hfitR
  have hcall : t.insertIntoParent parent_id uk nc = Except.ok
      (t2, some (p.key p.GetMinSize, (t.pages.length : Int))) := by
    unfold insertIntoParent
    simp only [hp, bind, Except.bind, hfull', if_true, hne, hnlt, if_false,
      newPage_fst, page_newPage_new, newPage_internal_max_size,
      keyAt_ok (show (1 : Int) ≤ p.GetMinSize by omega)
        (show p.GetMinSize < p.size_ by omega),
      ← hR0, ← hP1, ← hmv1, ← hR1, ← hmv2, ← hL]
    rw [hst1]
    simp only []
    rw [hst2]
    rfl
  refine ⟨t2, _, hcall, L, mv2.1, hpa, hpb, d1, c1, d3, d4, ?_, c3, c4⟩
  unfold Page.keyWith
  rw [if_pos hgt]

end BPlusTree
/-! ## Lists of slots -/

theorem map_range_append {α : Type} (f g : Nat → α) (a b : Nat) :
    (List.range a).map f ++ (List.range b).map g =
      (List.range (a + b)).map (fun x => if x < a then f x else g (x - a)) := by
  rw [List.range_add, List.map_append, List.map_map]
  congr 1
  · apply List.map_congr_left
    intro x hx
    rw [List.mem_range] at hx
    simp [hx]
  · apply List.map_congr_left
    intro x _
    simp

theorem cons_map_range {α : Type} (v : α) (g : Nat → α) (b : Nat) :
    v :: (List.range b).map g =
      (List.range (1 + b)).map (fun x => if x < 1 then v else g (x - 1)) := by
  rw [← map_range_append (fun _ => v) g 1 b]
  rfl

theorem take_map_range {α : Type} (f : Nat → α) {k n : Nat} (h : k ≤ n) :
    ((List.range n).map f).take k = (List.range k).map f := by
  rw [← List.map_take, List.take_range, Nat.min_eq_left h]

theorem drop_map_range {α : Type} (f : Nat → α) (k n : Nat) :
    ((List.range n).map f).drop k = (List.range (n - k)).map (fun x => f (k + x)) := by
  apply List.ext_getElem?
  intro m
  simp only [List.getElem?_drop, List.getElem?_map, List.getElem?_range]
  by_cases h : m < n - k
  · rw [List.getElem?_range h, List.getElem?_range (by omega)]
    rfl
  · rw [List.getElem?_eq_none (by simp; omega), List.getElem?_eq_none (by simp; omega)]
    rfl

theorem map_range_congr {α : Type} {f g : Nat → α} {a b : Nat} (hab : a = b)
    (h : ∀ x, x < a → f x = g x) : (List.range a).map f = (List.range b).map g := by
  subst hab
  apply List.map_congr_left
  intro x hx
  exact h x (List.mem_range.mp hx)
namespace BPlusTree

/-- The split of a full internal page by `Insert`: the call returns, and the two pages hold the
slots of the page with the new entry added, shared out at `GetMinSize()`. -/
theorem insertIntoParent_split {t : BPlusTree} {parent_id : Int} {p : Page} (uk nc : Int)
    (hp : t.page parent_id = Except.ok p) (htype : p.page_type_ = IndexPageType.INTERNAL_PAGE)
    (hfit : p.fitsBuffer = true) (hmax : 1 ≤ p.GetMaxSize) (hfull : p.GetMaxSize ≤ p.GetSize)
    (hB : p.GetSize ≤ (Page.INTERNAL_PAGE_SLOT_CNT : Int)) :
    ∃ t2 promoted, t.insertIntoParent parent_id uk nc =
        Except.ok (t2, some (promoted, (t.pages.length : Int))) ∧
      t.IsSplitOf t2 parent_id p (InternalPage.KeyIndex p uk) uk nc promoted := by
  rcases lt_trichotomy (InternalPage.KeyIndex p uk) p.GetMinSize with h | h | h
  · exact insertIntoParent_split_lt hp htype hfit hmax hfull hB h
  · exact insertIntoParent_split_mid hp htype hfit hmax hfull hB h.symm
  · exact insertIntoParent_split_gt hp htype hfit hmax hfull hB h

end BPlusTree

/-- The children and keys of the two halves of a split, as lists. -/
theorem split_lists {p L R : Page} {i uk nc promoted : Int}
    (hm : 1 ≤ p.GetMinSize ∧ p.GetMinSize ≤ p.size_)
    (hk : 1 ≤ i ∧ i ≤ p.size_)
    (hL : L.GetSize = p.GetMinSize) (hR : R.GetSize = p.GetSize + 1 - p.GetMinSize)
    (hLc : ∀ x, 0 ≤ x → x < p.GetMinSize → L.child x = p.childWith i nc x)
    (hLk : ∀ x, 1 ≤ x → x < p.GetMinSize → L.key x = p.keyWith i uk x)
    (hpr : promoted = p.keyWith i uk p.GetMinSize)
    (hRc : ∀ y, 0 ≤ y → y < p.GetSize + 1 - p.GetMinSize →
      R.child y = p.childWith i nc (p.GetMinSize + y))
    (hRk : ∀ y, 1 ≤ y → y < p.GetSize + 1 - p.GetMinSize →
      R.key y = p.keyWith i uk (p.GetMinSize + y)) :
    L.children ++ R.children =
        p.children.take i.toNat ++ nc :: p.children.drop i.toNat ∧
      L.separators ++ promoted :: R.separators =
        p.separators.take (i.toNat - 1) ++ uk :: p.separators.drop (i.toNat - 1) := by
  obtain ⟨mid, hmid⟩ : ∃ mid, mid = p.GetMinSize := ⟨_, rfl⟩
  rw [← hmid] at hm hL hR hLc hLk hpr hRc hRk
  have hn : p.GetSize = p.size_ := rfl
  rw [hn] at hR hRc hRk
  constructor
  · unfold Page.children
    rw [take_map_range _ (show i.toNat ≤ p.GetSize.toNat by rw [hn]; omega), drop_map_range,
      cons_map_range, map_range_append, map_range_append, hL, hR, hn]
    apply map_range_congr (by omega)
    intro x hx
    by_cases h1 : x < mid.toNat
    · rw [if_pos h1, hLc x (by omega) (by omega)]
      unfold Page.childWith
      by_cases h2 : x < i.toNat
      · rw [if_pos h2, if_pos (by omega)]
      · rw [if_neg h2, if_neg (by omega)]
        by_cases h3 : x - i.toNat < 1
        · rw [if_pos h3, if_pos (by omega)]
        · rw [if_neg h3, if_neg (by omega)]
          congr 1
          omega
    · rw [if_neg h1, hRc _ (by omega) (by omega)]
      unfold Page.childWith
      by_cases h2 : x < i.toNat
      · rw [if_pos h2, if_pos (by omega)]
        congr 1
        omega
      · rw [if_neg h2, if_neg (by omega)]
        by_cases h3 : x - i.toNat < 1
        · rw [if_pos h3, if_pos (by omega)]
        · rw [if_neg h3, if_neg (by omega)]
          congr 1
          omega
  · unfold Page.separators
    rw [take_map_range _ (show i.toNat - 1 ≤ p.GetSize.toNat - 1 by rw [hn]; omega),
      drop_map_range, cons_map_range, cons_map_range, map_range_append, map_range_append, hL,
      hR, hn]
    apply map_range_congr (by omega)
    intro x hx
    by_cases h1 : x < mid.toNat - 1
    · rw [if_pos h1, hLk _ (by omega) (by omega)]
      unfold Page.keyWith
      by_cases h2 : x < i.toNat - 1
      · rw [if_pos h2, if_pos (by omega)]
      · rw [if_neg h2, if_neg (by omega)]
        by_cases h3 : x - (i.toNat - 1) < 1
        · rw [if_pos h3, if_pos (by omega)]
        · rw [if_neg h3, if_neg (by omega)]
          congr 1
          omega
    · rw [if_neg h1]
      by_cases h4 : x - (mid.toNat - 1) < 1
      · rw [if_pos h4, hpr]
        unfold Page.keyWith
        by_cases h2 : x < i.toNat - 1
        · rw [if_pos h2, if_pos (by omega)]
          congr 1
          omega
        · rw [if_neg h2, if_neg (by omega)]
          by_cases h3 : x - (i.toNat - 1) < 1
          · rw [if_pos h3, if_pos (by omega)]
          · rw [if_neg h3, if_neg (by omega)]
            congr 1
            omega
      · rw [if_neg h4, hRk _ (by omega) (by omega)]
        unfold Page.keyWith
        by_cases h2 : x < i.toNat - 1
        · rw [if_pos h2, if_pos (by omega)]
          congr 1
          omega
        · rw [if_neg h2, if_neg (by omega)]
          by_cases h3 : x - (i.toNat - 1) < 1
          · rw [if_pos h3, if_pos (by omega)]
          · rw [if_neg h3, if_neg (by omega)]
            congr 1
            omega

/-! ## The key promoted by the split of an internal page -/

/-- C35, counterexample: with `leaf_max_size = 2` and `internal_max_size = 3`, after `Insert` of
50, 40, 30 and 20 the root (page 3) is a full internal page with the keys 40 and 50 in its slots
1 and 2, and `GetMinSize()` is 2.  `Insert(10)` splits the first leaf and adds `(30, 5)` to the
root at `KeyIndex(30) = 1 < 2`: the key handed to the next level is 40, the key of slot 1, and
not 50, the key of slot 2; it is the key of the new root (page 7). -/
theorem C35_promoted_key_below_mid :
    run (BPlusTree.fresh 2 3)
        (insertRange 50 1 ++ insertRange 40 1 ++ insertRange 30 1 ++ insertRange 20 1)
      = Except.ok BPlusTree.fullInternalRoot ∧
    Except.map (fun p => (p.IsLeafPage, p.GetSize, p.GetMaxSize, p.GetMinSize))
        (BPlusTree.fullInternalRoot.page 3) = Except.ok (false, 3, 3, 2) ∧
    Except.map (fun p => (p.key 1, p.key 2, InternalPage.KeyIndex p 30))
        (BPlusTree.fullInternalRoot.page 3) = Except.ok (40, 50, 1) ∧
    Except.map Prod.snd (BPlusTree.fullInternalRoot.NewPage.2.insertIntoParent 3 30 5)
      = Except.ok (some (40, 6)) ∧
    run BPlusTree.fullInternalRoot (insertRange 10 1)
      = Except.ok (built 2 3 (insertRange 50 1 ++ insertRange 40 1 ++ insertRange 30 1 ++
          insertRange 20 1 ++ insertRange 10 1)) ∧
    (built 2 3 (insertRange 50 1 ++ insertRange 40 1 ++ insertRange 30 1 ++
          insertRange 20 1 ++ insertRange 10 1)).root_page_id_ = 7 ∧
    Except.map (fun p => (p.GetSize, p.child 0, p.key 1, p.child 1))
        ((built 2 3 (insertRange 50 1 ++ insertRange 40 1 ++ insertRange 30 1 ++
          insertRange 20 1 ++ insertRange 10 1)).page 7)
      = Except.ok (2, 3, 40, 6) := by
  decide

/-- C35: when `Insert` adds `(up_key, new_child_id)` to an internal page within its buffer whose
size has reached `max_size_ ≥ 1`, the block returns and the key it hands to the next level, with
the id of the new page, is `up_key` if `KeyIndex(up_key) = GetMinSize()`, the key of slot
`GetMinSize() - 1` of the page before the split if `KeyIndex(up_key) < GetMinSize()`, and the
key of slot `GetMinSize()` if `KeyIndex(up_key) > GetMinSize()`. -/
theorem C35_promoted_key (t : BPlusTree) (parent_id up_key new_child_id : Int) (p : Page)
    (hp : t.page parent_id = Except.ok p) (htype : p.page_type_ = IndexPageType.INTERNAL_PAGE)
    (hfit : p.fitsBuffer = true) (hmax : 1 ≤ p.GetMaxSize) (hfull : p.GetMaxSize ≤ p.GetSize)
    (hB : p.GetSize ≤ (Page.INTERNAL_PAGE_SLOT_CNT : Int)) :
    ∃ t2 promoted, t.insertIntoParent parent_id up_key new_child_id =
        Except.ok (t2, some (promoted, (t.pages.length : Int))) ∧
      promoted =
        if InternalPage.KeyIndex p up_key = p.GetMinSize then up_key
        else if InternalPage.KeyIndex p up_key < p.GetMinSize then p.key (p.GetMinSize - 1)
        else p.key p.GetMinSize := by
  obtain ⟨t2, promoted, hcall, L, R, _, _, _, _, _, _, hpr, _⟩ :=
    BPlusTree.insertIntoParent_split up_key new_child_id hp htype hfit hmax hfull hB
  refine ⟨t2, promoted, hcall, ?_⟩
  rw [hpr]
  unfold Page.keyWith
  rcases lt_trichotomy (InternalPage.KeyIndex p up_key) p.GetMinSize with h | h | h
  · rw [if_neg (by omega), if_neg (by omega), if_neg (by omega), if_pos h]
  · rw [if_neg (by omega), if_pos h.symm, if_pos h]
  · rw [if_pos h, if_neg (by omega), if_neg (by omega)]

/-- C35, witness: the full root of the tree after `Insert` of 50, 40, 30 and 20, to which
`(45, 5)` is added. -/
theorem C35_promoted_key_witness :
    ∃ t2 promoted, BPlusTree.fullInternalRoot.NewPage.2.insertIntoParent 3 45 5 =
        Except.ok (t2, some (promoted,
          (BPlusTree.fullInternalRoot.NewPage.2.pages.length : Int))) ∧
      promoted =
        if InternalPage.KeyIndex (BPlusTree.fullInternalRoot.pages.getD 3 Page.zero) 45 =
            (BPlusTree.fullInternalRoot.pages.getD 3 Page.zero).GetMinSize then 45
        else if InternalPage.KeyIndex (BPlusTree.fullInternalRoot.pages.getD 3 Page.zero) 45 <
            (BPlusTree.fullInternalRoot.pages.getD 3 Page.zero).GetMinSize then
          (BPlusTree.fullInternalRoot.pages.getD 3 Page.zero).key
            ((BPlusTree.fullInternalRoot.pages.getD 3 Page.zero).GetMinSize - 1)
        else (BPlusTree.fullInternalRoot.pages.getD 3 Page.zero).key
          (BPlusTree.fullInternalRoot.pages.getD 3 Page.zero).GetMinSize :=
  C35_promoted_key BPlusTree.fullInternalRoot.NewPage.2 3 45 5
    (BPlusTree.fullInternalRoot.pages.getD 3 Page.zero) (by decide) (by decide) (by decide)
    (by decide) (by decide) (by decide)

/-! ## The entries of the two pages of a split internal page -/

theorem not_mem_of_nodup_middle {a b : List Int} {x : Int} (h : (a ++ x :: b).Nodup) :
    x ∉ a ∧ x ∉ b := by
  rw [List.nodup_middle, List.nodup_cons, List.mem_append] at h
  exact ⟨fun h1 => h.1 (Or.inl h1), fun h1 => h.1 (Or.inr h1)⟩

/-- C40: when `Insert` adds `(up_key, new_child_id)` to an internal page within its buffer whose
size has reached `max_size_ ≥ 1`, the block returns and: the child pointers of the page followed
by those of the new page are the child pointers of the page before the split with
`new_child_id` put in at position `KeyIndex(up_key)`; the keys of the slots from 1 on of the
page, then the key handed to the next level, then the keys of the slots from 1 on of the new
page are the keys of the page before the split with `up_key` put in at that position; and when
these keys are all different the key handed to the next level is in neither page. -/
theorem C40_internal_split_preserves_entries (t : BPlusTree)
    (parent_id up_key new_child_id : Int) (p : Page)
    (hp : t.page parent_id = Except.ok p) (htype : p.page_type_ = IndexPageType.INTERNAL_PAGE)
    (hfit : p.fitsBuffer = true) (hmax : 1 ≤ p.GetMaxSize) (hfull : p.GetMaxSize ≤ p.GetSize)
    (hB : p.GetSize ≤ (Page.INTERNAL_PAGE_SLOT_CNT : Int)) :
    ∃ t2 promoted L R, t.insertIntoParent parent_id up_key new_child_id =
        Except.ok (t2, some (promoted, (t.pages.length : Int))) ∧
      t2.page parent_id = Except.ok L ∧ t2.page (t.pages.length : Int) = Except.ok R ∧
      L.children ++ R.children =
        p.children.take (InternalPage.KeyIndex p up_key).toNat ++
          new_child_id :: p.children.drop (InternalPage.KeyIndex p up_key).toNat ∧
      L.separators ++ promoted :: R.separators =
        p.separators.take ((InternalPage.KeyIndex p up_key).toNat - 1) ++
          up_key :: p.separators.drop ((InternalPage.KeyIndex p up_key).toNat - 1) ∧
      ((p.separators.take ((InternalPage.KeyIndex p up_key).toNat - 1) ++
          up_key :: p.separators.drop ((InternalPage.KeyIndex p up_key).toNat - 1)).Nodup →
        promoted ∉ L.separators ∧ promoted ∉ R.separators) := by
  obtain ⟨_, hm, hk, _⟩ := BPlusTree.split_facts up_key hp htype hfit hmax hfull hB
  obtain ⟨t2, promoted, hcall, L, R, hL, hR, h1, h2, h3, h4, h5, h6, h7⟩ :=
    BPlusTree.insertIntoParent_split up_key new_child_id hp htype hfit hmax hfull hB
  obtain ⟨hc, hs⟩ := split_lists hm hk h1 h2 h3 h4 h5 h6 h7
  refine ⟨t2, promoted, L, R, hcall, hL, hR, hc, hs, ?_⟩
  intro hnd
  rw [← hs] at hnd
  exact not_mem_of_nodup_middle hnd

/-- C40, witness: the full root of the tree after `Insert` of 50, 40, 30 and 20, to which
`(60, 5)` is added. -/
theorem C40_internal_split_preserves_entries_witness :
    ∃ t2 promoted L R, BPlusTree.fullInternalRoot.NewPage.2.insertIntoParent 3 60 5 =
        Except.ok (t2, some (promoted,
          (BPlusTree.fullInternalRoot.NewPage.2.pages.length : Int))) ∧
      t2.page 3 = Except.ok L ∧
      t2.page (BPlusTree.fullInternalRoot.NewPage.2.pages.length : Int) = Except.ok R ∧
      L.children ++ R.children =
        (BPlusTree.fullInternalRoot.pages.getD 3 Page.zero).children.take
            (InternalPage.KeyIndex (BPlusTree.fullInternalRoot.pages.getD 3 Page.zero) 60).toNat ++
          5 :: (BPlusTree.fullInternalRoot.pages.getD 3 Page.zero).children.drop
            (InternalPage.KeyIndex (BPlusTree.fullInternalRoot.pages.getD 3 Page.zero) 60).toNat ∧
      L.separators ++ promoted :: R.separators =
        (BPlusTree.fullInternalRoot.pages.getD 3 Page.zero).separators.take
            ((InternalPage.KeyIndex (BPlusTree.fullInternalRoot.pages.getD 3 Page.zero)
              60).toNat - 1) ++
          60 :: (BPlusTree.fullInternalRoot.pages.getD 3 Page.zero).separators.drop
            ((InternalPage.KeyIndex (BPlusTree.fullInternalRoot.pages.getD 3 Page.zero)
              60).toNat - 1) ∧
      (((BPlusTree.fullInternalRoot.pages.getD 3 Page.zero).separators.take
            ((InternalPage.KeyIndex (BPlusTree.fullInternalRoot.pages.getD 3 Page.zero)
              60).toNat - 1) ++
          60 :: (BPlusTree.fullInternalRoot.pages.getD 3 Page.zero).separators.drop
            ((InternalPage.KeyIndex (BPlusTree.fullInternalRoot.pages.getD 3 Page.zero)
              60).toNat - 1)).Nodup →
        promoted ∉ L.separators ∧ promoted ∉ R.separators) :=
  C40_internal_split_preserves_entries BPlusTree.fullInternalRoot.NewPage.2 3 60 5
    (BPlusTree.fullInternalRoot.pages.getD 3 Page.zero) (by decide) (by decide) (by decide)
    (by decide) (by decide) (by decide)

/-! ## The loops over the slots of leaf pages -/

theorem moveLeafSlots_succ (n : Nat) (i j : Int) (dst src : Page) :
    moveLeafSlots (n + 1) i j dst src =
      moveLeafSlots n (i + 1) (j + 1)
        (((dst.setKey i (src.key j)).setRid i (src.rid j)).ChangeSizeBy 1)
        ((src.setKey j 0).setRid j RID.default) := rfl

/-- The pages after a loop that moves `n` slots from `src[j ..]` to `dst[i ..]`. -/
theorem moveLeafSlots_spec (n : Nat) :
    ∀ (i j : Int) (dst src : Page), 0 ≤ i → 0 ≤ j →
      (moveLeafSlots n i j dst src).2.2.1 = i + n ∧
      (moveLeafSlots n i j dst src).2.2.2 = j + n ∧
      (moveLeafSlots n i j dst src).1.size_ = dst.size_ + n ∧
      (moveLeafSlots n i j dst src).1.page_type_ = dst.page_type_ ∧
      (moveLeafSlots n i j dst src).2.1.size_ = src.size_ ∧
      (moveLeafSlots n i j dst src).2.1.page_type_ = src.page_type_ ∧
      (∀ x, 0 ≤ x → (moveLeafSlots n i j dst src).1.key x =
        if i ≤ x ∧ x < i + n then src.key (j + (x - i)) else dst.key x) ∧
      (∀ x, 0 ≤ x → (moveLeafSlots n i j dst src).1.rid x =
        if i ≤ x ∧ x < i + n then src.rid (j + (x - i)) else dst.rid x) ∧
      (∀ x, 0 ≤ x → (moveLeafSlots n i j dst src).2.1.key x =
        if j ≤ x ∧ x < j + n then 0 else src.key x) ∧
      (∀ x, 0 ≤ x → (moveLeafSlots n i j dst src).2.1.rid x =
        if j ≤ x ∧ x < j + n then RID.default else src.rid x) ∧
      (∀ B : Nat, dst.key_array_.length ≤ B → dst.rid_array_.length ≤ B → i + n ≤ B →
        (moveLeafSlots n i j dst src).1.key_array_.length ≤ B ∧
        (moveLeafSlots n i j dst src).1.rid_array_.length ≤ B) ∧
      (∀ B : Nat, src.key_array_.length ≤ B → src.rid_array_.length ≤ B → j + n ≤ B →
        (moveLeafSlots n i j dst src).2.1.key_array_.length ≤ B ∧
        (moveLeafSlots n i j dst src).2.1.rid_array_.length ≤ B) := by
  induction n with
  | zero =>
    intro i j dst src _ _
    refine ⟨by simp [moveLeafSlots], by simp [moveLeafSlots],
      by simp [moveLeafSlots], rfl, rfl, rfl, ?_, ?_, ?_, ?_, ?_, ?_⟩
    · intro x _
      rw [if_neg (by simp only [Nat.cast_zero]; omega)]
      rfl
    · intro x _
      rw [if_neg (by simp only [Nat.cast_zero]; omega)]
      rfl
    · intro x _
      rw [if_neg (by simp only [Nat.cast_zero]; omega)]
      rfl
    · intro x _
      rw [if_neg (by simp only [Nat.cast_zero]; omega)]
      rfl
    · intro B h1 h2 _
      exact ⟨h1, h2⟩
    · intro B h1 h2 _
      exact ⟨h1, h2⟩
  | succ n ih =>
    intro i j dst src hi hj
    rw [moveLeafSlots_succ]
    obtain ⟨h1, h2, h3, h4, h5, h6, h7, h8, h9, h10, h11, h12⟩ :=
      ih (i + 1) (j + 1)
        (((dst.setKey i (src.key j)).setRid i (src.rid j)).ChangeSizeBy 1)
        ((src.setKey j 0).setRid j RID.default) (by omega) (by omega)
    refine ⟨?_, ?_, ?_, ?_, ?_, ?_, ?_, ?_, ?_, ?_, ?_, ?_⟩
    · rw [h1]
      push_cast
      omega
    · rw [h2]
      push_cast
      omega
    · rw [h3]
      show dst.size_ + 1 + (n : Int) = dst.size_ + ((n + 1 : Nat) : Int)
      push_cast
      omega
    · rw [h4]
      rfl
    · rw [h5]
      rfl
    · rw [h6]
      rfl
    · intro x hx
      rw [h7 x hx]
      have e1 : ∀ y, 0 ≤ y → ((src.setKey j 0).setRid j RID.default).key y =
          if y = j then 0 else src.key y := fun y hy => Page.key_setKey src 0 hj hy
      have e2 : (((dst.setKey i (src.key j)).setRid i (src.rid j)).ChangeSizeBy 1).key x =
          if x = i then src.key j else dst.key x := Page.key_setKey dst _ hi hx
      by_cases hc : i + 1 ≤ x ∧ x < i + 1 + (n : Int)
      · rw [if_pos hc, if_pos (by push_cast; omega), e1 _ (by omega), if_neg (by omega)]
        congr 1
        omega
      · rw [if_neg hc, e2]
        by_cases hxi : x = i
        · rw [if_pos hxi, if_pos (by push_cast; omega), hxi]
          congr 1
          omega
        · rw [if_neg hxi, if_neg (by push_cast; omega)]
    · intro x hx
      rw [h8 x hx]
      have e1 : ∀ y, 0 ≤ y → ((src.setKey j 0).setRid j RID.default).rid y =
          if y = j then RID.default else src.rid y :=
        fun y hy => Page.rid_setRid (src.setKey j 0) _ hj hy
      have e2 : (((dst.setKey i (src.key j)).setRid i (src.rid j)).ChangeSizeBy 1).rid x =
          if x = i then src.rid j else dst.rid x :=
        Page.rid_setRid (dst.setKey i (src.key j)) _ hi hx
      by_cases hc : i + 1 ≤ x ∧ x < i + 1 + (n : Int)
      · rw [if_pos hc, if_pos (by push_cast; omega), e1 _ (by omega), if_neg (by omega)]
        congr 1
        omega
      · rw [if_neg hc, e2]
        by_cases hxi : x = i
        · rw [if_pos hxi, if_pos (by push_cast; omega), hxi]
          congr 1
          omega
        · rw [if_neg hxi, if_neg (by push_cast; omega)]
    · intro x hx
      rw [h9 x hx]
      have e1 : ((src.setKey j 0).setRid j RID.default).key x =
          if x = j then 0 else src.key x := Page.key_setKey src 0 hj hx
      by_cases hc : j + 1 ≤ x ∧ x < j + 1 + (n : Int)
      · rw [if_pos hc, if_pos (by push_cast; omega)]
      · rw [if_neg hc, e1]
        by_cases hxj : x = j
        · rw [if_pos hxj, if_pos (by push_cast; omega)]
        · rw [if_neg hxj, if_neg (by push_cast; omega)]
    · intro x hx
      rw [h10 x hx]
      have e1 : ((src.setKey j 0).setRid j RID.default).rid x =
          if x = j then RID.default else src.rid x :=
        Page.rid_setRid (src.setKey j 0) _ hj hx
      by_cases hc : j + 1 ≤ x ∧ x < j + 1 + (n : Int)
      · rw [if_pos hc, if_pos (by push_cast; omega)]
      · rw [if_neg hc, e1]
        by_cases hxj : x = j
        · rw [if_pos hxj, if_pos (by push_cast; omega)]
        · rw [if_neg hxj, if_neg (by push_cast; omega)]
    · intro B hk hc hB
      push_cast at hB
      exact h11 B (wr_length_le 0 _ _ hk hi (by omega)) (wr_length_le RID.zero _ _ hc hi (by omega))
        (by omega)
    · intro B hk hc hB
      push_cast at hB
      exact h12 B (wr_length_le 0 _ _ hk hj (by omega)) (wr_length_le RID.zero _ _ hc hj (by omega))
        (by omega)

theorem shiftRightLeaf_succ (n : Nat) (i : Int) (p : Page) :
    shiftRightLeaf (n + 1) i p =
      shiftRightLeaf n (i - 1) ((p.setKey i (p.key (i - 1))).setRid i (p.rid (i - 1))) :=
  rfl

/-- The page after the loop that moves the slots `[i - n, i)` one place up. -/
theorem shiftRightLeaf_spec (n : Nat) :
    ∀ (i : Int) (p : Page), (n : Int) ≤ i →
      (shiftRightLeaf n i p).size_ = p.size_ ∧
      (shiftRightLeaf n i p).page_type_ = p.page_type_ ∧
      (shiftRightLeaf n i p).max_size_ = p.max_size_ ∧
      (∀ x, 0 ≤ x → (shiftRightLeaf n i p).key x =
        if i - n < x ∧ x ≤ i then p.key (x - 1) else p.key x) ∧
      (∀ x, 0 ≤ x → (shiftRightLeaf n i p).rid x =
        if i - n < x ∧ x ≤ i then p.rid (x - 1) else p.rid x) ∧
      (∀ B : Nat, p.key_array_.length ≤ B → p.rid_array_.length ≤ B → i < B →
        (shiftRightLeaf n i p).key_array_.length ≤ B ∧
        (shiftRightLeaf n i p).rid_array_.length ≤ B) := by
  induction n with
  | zero =>
    intro i p _
    refine ⟨rfl, rfl, rfl, ?_, ?_, ?_⟩
    · intro x _
      rw [if_neg (by simp only [Nat.cast_zero]; omega)]
      rfl
    · intro x _
      rw [if_neg (by simp only [Nat.cast_zero]; omega)]
      rfl
    · intro B h1 h2 _
      exact ⟨h1, h2⟩
  | succ n ih =>
    intro i p hi
    push_cast at hi
    rw [shiftRightLeaf_succ]
    obtain ⟨h1, h2, h3, h4, h5, h6⟩ :=
      ih (i - 1) ((p.setKey i (p.key (i - 1))).setRid i (p.rid (i - 1))) (by omega)
    refine ⟨h1, h2, h3, ?_, ?_, ?_⟩
    · intro x hx
      rw [h4 x hx]
      have e1 : ∀ y, 0 ≤ y → ((p.setKey i (p.key (i - 1))).setRid i (p.rid (i - 1))).key y =
          if y = i then p.key (i - 1) else p.key y :=
        fun y hy => Page.key_setKey p _ (by omega) hy
      by_cases hc : i - 1 - (n : Int) < x ∧ x ≤ i - 1
      · rw [if_pos hc, if_pos (by push_cast; omega), e1 _ (by omega), if_neg (by omega)]
      · rw [if_neg hc, e1 x hx]
        by_cases hxi : x = i
        · rw [if_pos hxi, if_pos (by push_cast; omega), hxi]
        · rw [if_neg hxi, if_neg (by push_cast; omega)]
    · intro x hx
      rw [h5 x hx]
      have e1 : ∀ y, 0 ≤ y → ((p.setKey i (p.key (i - 1))).setRid i (p.rid (i - 1))).rid y =
          if y = i then p.rid (i - 1) else p.rid y :=
        fun y hy => Page.rid_setRid (p.setKey i (p.key (i - 1))) _ (by omega) hy
      by_cases hc : i - 1 - (n : Int) < x ∧ x ≤ i - 1
      · rw [if_pos hc, if_pos (by push_cast; omega), e1 _ (by omega), if_neg (by omega)]
      · rw [if_neg hc, e1 x hx]
        by_cases hxi : x = i
        · rw [if_pos hxi, if_pos (by push_cast; omega), hxi]
        · rw [if_neg hxi, if_neg (by push_cast; omega)]
    · intro B hk hc hB
      exact h6 B (wr_length_le 0 _ _ hk (by omega) hB) (wr_length_le RID.zero _ _ hc (by omega) hB)
        (by omega)

/-- The pages after a loop that moves `c` slots, for a count that is not negative. -/
theorem moveLeafSlots_count {c : Int} (hc : 0 ≤ c) (i j : Int) (dst src : Page)
    (hi : 0 ≤ i) (hj : 0 ≤ j) {mv : Page × Page × Int × Int}
    (hmv : mv = moveLeafSlots c.toNat i j dst src) :
    mv.2.2.1 = i + c ∧ mv.2.2.2 = j + c ∧
    mv.1.size_ = dst.size_ + c ∧ mv.1.page_type_ = dst.page_type_ ∧
    mv.2.1.size_ = src.size_ ∧ mv.2.1.page_type_ = src.page_type_ ∧
    (∀ x, 0 ≤ x → mv.1.key x = if i ≤ x ∧ x < i + c then src.key (j + (x - i)) else dst.key x) ∧
    (∀ x, 0 ≤ x → mv.1.rid x =
      if i ≤ x ∧ x < i + c then src.rid (j + (x - i)) else dst.rid x) ∧
    (∀ x, 0 ≤ x → mv.2.1.key x = if j ≤ x ∧ x < j + c then 0 else src.key x) ∧
    (∀ x, 0 ≤ x → mv.2.1.rid x =
      if j ≤ x ∧ x < j + c then RID.default else src.rid x) ∧
    (∀ B : Nat, dst.key_array_.length ≤ B → dst.rid_array_.length ≤ B → i + c ≤ B →
      mv.1.key_array_.length ≤ B ∧ mv.1.rid_array_.length ≤ B) ∧
    (∀ B : Nat, src.key_array_.length ≤ B → src.rid_array_.length ≤ B → j + c ≤ B →
      mv.2.1.key_array_.length ≤ B ∧ mv.2.1.rid_array_.length ≤ B) := by
  have h := moveLeafSlots_spec c.toNat i j dst src hi hj
  rw [Int.toNat_of_nonneg hc, ← hmv] at h
  exact h

/-- The page after the loop that moves the slots `[i - c, i)` one place up, for a count that is
not negative. -/
theorem shiftRightLeaf_count {c : Int} (hc : 0 ≤ c) (i : Int) (p : Page) (hi : c ≤ i)
    {q : Page} (hq : q = shiftRightLeaf c.toNat i p) :
    q.size_ = p.size_ ∧ q.page_type_ = p.page_type_ ∧ q.max_size_ = p.max_size_ ∧
    (∀ x, 0 ≤ x → q.key x = if i - c < x ∧ x ≤ i then p.key (x - 1) else p.key x) ∧
    (∀ x, 0 ≤ x → q.rid x = if i - c < x ∧ x ≤ i then p.rid (x - 1) else p.rid x) ∧
    (∀ B : Nat, p.key_array_.length ≤ B → p.rid_array_.length ≤ B → i < B →
      q.key_array_.length ≤ B ∧ q.rid_array_.length ≤ B) := by
  have h := shiftRightLeaf_spec c.toNat i p (by rw [Int.toNat_of_nonneg hc]; exact hi)
  rw [Int.toNat_of_nonneg hc, ← hq] at h
  exact h
theorem moveLeafSlots_header (n : Nat) :
    ∀ (i j : Int) (dst src : Page),
      (moveLeafSlots n i j dst src).1.max_size_ = dst.max_size_ ∧
      (moveLeafSlots n i j dst src).1.next_page_id_ = dst.next_page_id_ ∧
      (moveLeafSlots n i j dst src).2.1.max_size_ = src.max_size_ ∧
      (moveLeafSlots n i j dst src).2.1.next_page_id_ = src.next_page_id_ := by
  induction n with
  | zero =>
    intro i j dst src
    exact ⟨rfl, rfl, rfl, rfl⟩
  | succ n ih =>
    intro i j dst src
    rw [moveLeafSlots_succ]
    obtain ⟨h1, h2, h3, h4⟩ := ih (i + 1) (j + 1)
      (((dst.setKey i (src.key j)).setRid i (src.rid j)).ChangeSizeBy 1)
      ((src.setKey j 0).setRid j RID.default)
    exact ⟨h1, h2, h3, h4⟩

theorem shiftRightLeaf_header (n : Nat) :
    ∀ (i : Int) (p : Page), (shiftRightLeaf n i p).next_page_id_ = p.next_page_id_ := by
  induction n with
  | zero =>
    intro i p
    rfl
  | succ n ih =>
    intro i p
    rw [shiftRightLeaf_succ, ih]
    rfl

/-- The fresh page of a leaf split. -/
theorem newLeaf_facts (m : Int) {R0 : Page} (hR0 : R0 = LeafPage.Init Page.zero m) :
    R0.size_ = 0 ∧ R0.page_type_ = IndexPageType.LEAF_PAGE ∧
      R0.key_array_.length ≤ 340 ∧ R0.rid_array_.length ≤ 340 := by
  subst hR0
  exact ⟨rfl, rfl, Nat.zero_le _, Nat.zero_le _⟩

theorem fitsBuffer_leaf {p : Page} (htype : p.page_type_ = IndexPageType.LEAF_PAGE)
    (h : p.key_array_.length ≤ 340 ∧ p.rid_array_.length ≤ 340) : p.fitsBuffer = true := by
  unfold Page.fitsBuffer
  rw [htype]
  simpa [Page.LEAF_PAGE_SLOT_CNT] using h

/-- The leaf split: the two pages after the upper slots are moved. -/
theorem leaf_split_moved {p R0 : Page} {mv : Page × Page × Int × Int} {mid : Int}
    (hmv : mv = moveLeafSlots (p.GetSize - mid).toNat 0 mid R0 p)
    (hR0s : R0.size_ = 0) (hm0 : 0 ≤ mid) (hm : mid ≤ p.size_) :
    (mv.1.size_ = p.size_ - mid ∧ mv.1.page_type_ = R0.page_type_ ∧
      (∀ y, 0 ≤ y → y < p.size_ - mid →
        mv.1.key y = p.key (mid + y) ∧ mv.1.rid y = p.rid (mid + y)) ∧
      (R0.key_array_.length ≤ 340 → R0.rid_array_.length ≤ 340 → p.size_ ≤ 340 →
        mv.1.key_array_.length ≤ 340 ∧ mv.1.rid_array_.length ≤ 340)) ∧
    (mv.2.1.size_ + -mv.2.2.1 = mid ∧ mv.2.1.page_type_ = p.page_type_ ∧
      mv.2.1.max_size_ = p.max_size_ ∧ mv.2.1.next_page_id_ = p.next_page_id_ ∧
      (∀ z, 0 ≤ z → z < mid → mv.2.1.key z = p.key z ∧ mv.2.1.rid z = p.rid z) ∧
      (p.key_array_.length ≤ 340 → p.rid_array_.length ≤ 340 → p.size_ ≤ 340 →
        mv.2.1.key_array_.length ≤ 340 ∧ mv.2.1.rid_array_.length ≤ 340)) := by
  have hn : p.GetSize = p.size_ := rfl
  obtain ⟨s1, s2, s3, s4, s5, s6, s7, s8, s9, s10, s11, s12⟩ :=
    moveLeafSlots_count (show 0 ≤ p.GetSize - mid by omega) 0 mid R0 p (le_refl _) hm0 hmv
  obtain ⟨g1, g2, g3, g4⟩ := moveLeafSlots_header (p.GetSize - mid).toNat 0 mid R0 p
  rw [← hmv] at g1 g2 g3 g4
  rw [hn] at s1 s3 s7 s8 s9 s10 s11 s12
  refine ⟨⟨by omega, s4, ?_, ?_⟩, ⟨by omega, s6, g3, g4, ?_, ?_⟩⟩
  · intro y hy0 hy1
    rw [s7 y hy0, s8 y hy0, if_pos (by omega), if_pos (by omega)]
    constructor
    · congr 1
      omega
    · congr 1
      omega
  · intro h1 h2 h3
    exact s11 340 h1 h2 (by omega)
  · intro z hz0 hz1
    rw [s9 z hz0, s10 z hz0, if_neg (by omega), if_neg (by omega)]
    exact ⟨rfl, rfl⟩
  · intro h1 h2 h3
    exact s12 340 h1 h2 (by omega)

/-- An entry put in slot `i` of a leaf page of `n` slots after the slots from `i` on are moved
one place up. -/
theorem leaf_insert_slots {q Q2 Q3 : Page} {n i : Int} (key : Int) (value : RID)
    (hQ2 : Q2 = shiftRightLeaf (q.GetSize - i).toNat q.GetSize q)
    (hQ3 : Q3 = ((Q2.setKey i key).setRid i value).ChangeSizeBy 1)
    (hqs : q.size_ = n) (hi0 : 0 ≤ i) (hi1 : i ≤ n) :
    Q3.size_ = n + 1 ∧ Q3.page_type_ = q.page_type_ ∧ Q3.next_page_id_ = q.next_page_id_ ∧
      (∀ x, 0 ≤ x → x < n + 1 →
        Q3.key x = q.keyWith i key x ∧ Q3.rid x = q.ridWith i value x) ∧
      (q.key_array_.length ≤ 340 → q.rid_array_.length ≤ 340 → n < 340 →
        Q3.key_array_.length ≤ 340 ∧ Q3.rid_array_.length ≤ 340) := by
  have hn : q.GetSize = n := hqs
  rw [hn] at hQ2
  obtain ⟨r1, r2, r3, r4, r5, r6⟩ :=
    shiftRightLeaf_count (show 0 ≤ n - i by omega) n q (by omega) hQ2
  have hnext := shiftRightLeaf_header (n - i).toNat n q
  rw [← hQ2] at hnext
  have hk : ∀ x, 0 ≤ x → Q3.key x = if x = i then key else Q2.key x := by
    intro x hx
    rw [hQ3]
    exact Page.key_setKey _ _ hi0 hx
  have hr : ∀ x, 0 ≤ x → Q3.rid x = if x = i then value else Q2.rid x := by
    intro x hx
    rw [hQ3]
    exact Page.rid_setRid _ _ hi0 hx
  refine ⟨?_, ?_, ?_, ?_, ?_⟩
  · rw [hQ3]
    show Q2.size_ + 1 = n + 1
    omega
  · rw [hQ3]
    exact r2
  · rw [hQ3]
    exact hnext
  · intro x hx0 hx1
    rw [hk x hx0, hr x hx0]
    unfold Page.keyWith Page.ridWith
    by_cases hxi : x = i
    · have h1 : ¬ x < i := by omega
      simp only [if_pos hxi, if_neg h1, and_self]
    · rw [r4 x hx0, r5 x hx0]
      by_cases hc : x < i
      · have h1 : ¬ (n - (n - i) < x ∧ x ≤ n) := by omega
        simp only [if_neg hxi, if_neg h1, if_pos hc, and_self]
      · have h1 : n - (n - i) < x ∧ x ≤ n := by omega
        simp only [if_neg hxi, if_pos h1, if_neg hc, and_self]
  · intro h1 h2 h3
    have h4 := r6 340 h1 h2 (by omega)
    rw [hQ3]
    exact ⟨wr_length_le 0 _ _ h4.1 hi0 (by omega), wr_length_le RID.zero _ _ h4.2 hi0 (by omega)⟩
theorem Page.getMinSize_le {p : Page} (h0 : 0 ≤ p.max_size_) (h1 : p.max_size_ < 2147483647) :
    0 ≤ p.GetMinSize ∧ p.GetMinSize ≤ p.max_size_ ∧ (2 ≤ p.max_size_ → p.GetMinSize < p.max_size_) := by
  unfold Page.GetMinSize
  rw [wrapInt32_of_range (by omega) (by omega), Int.tdiv_eq_ediv (by omega) (by omega)]
  omega

theorem Page.getMinSize_congr {p q : Page} (h : q.max_size_ = p.max_size_) :
    q.GetMinSize = p.GetMinSize := by
  unfold Page.GetMinSize
  rw [h]

namespace BPlusTree

/-- What the leaf split relies on in the page it splits: it is a leaf page within its buffer
whose size has reached `max_size_ ≥ 1`. -/
theorem leaf_split_facts {t : BPlusTree} {leaf_page_id : Int} {p : Page} (key : Int)
    (hp : t.page leaf_page_id = Except.ok p) (htype : p.page_type_ = IndexPageType.LEAF_PAGE)
    (hfit : p.fitsBuffer = true) (hmax : 1 ≤ p.GetMaxSize) (hfull : p.GetMaxSize ≤ p.GetSize)
    (hB : p.GetSize ≤ (Page.LEAF_PAGE_SLOT_CNT : Int)) :
    (0 ≤ leaf_page_id ∧ leaf_page_id < t.pages.length) ∧
    (0 ≤ p.GetMinSize ∧ p.GetMinSize ≤ p.size_) ∧
    (0 ≤ LeafPage.KeyIndex p key ∧ LeafPage.KeyIndex p key ≤ p.size_) ∧
    (1 ≤ p.GetMinSize ∧ p.GetMinSize < 340 ∧ p.size_ ≤ 340) ∧
    p.key_array_.length ≤ 340 ∧ p.rid_array_.length ≤ 340 := by
  have h1 : 1 ≤ p.max_size_ := hmax
  have h2 : p.max_size_ ≤ p.size_ := hfull
  have h3 : p.size_ ≤ 340 := hB
  have hm := Page.getMinSize_le (show 0 ≤ p.max_size_ by omega) (by omega)
  have hm1 : 1 ≤ p.GetMinSize := by
    unfold Page.GetMinSize
    rw [wrapInt32_of_range (by omega) (by omega), Int.tdiv_eq_ediv (by omega) (by omega)]
    omega
  have h3 : 1 ≤ p.GetMinSize ∧ p.GetMinSize < 340 ∧ p.size_ ≤ 340 := by
    refine ⟨hm1, ?_, h3⟩
    have := hm.2.2
    omega
  have hk := KeyIndexLoop_bounds p key p.GetSize.toNat 0 p.GetSize (show (0 : Int) ≤ p.size_ by omega)
  have hf : p.key_array_.length ≤ 340 ∧ p.rid_array_.length ≤ 340 := by
    unfold Page.fitsBuffer at hfit
    rw [htype] at hfit
    simpa [Page.LEAF_PAGE_SLOT_CNT] using hfit
  exact ⟨page_range hp, ⟨hm.1, by omega⟩, hk, h3, hf.1, hf.2⟩

theorem newPage_leaf_max_size (t : BPlusTree) :
    t.NewPage.2.leaf_max_size_ = t.leaf_max_size_ := rfl

/-- The leaf split when the new entry belongs to the new leaf. -/
theorem splitLeaf_upper {t : BPlusTree} {leaf_page_id : Int} (key : Int) (value : RID)
    {p : Page}
    (hp : t.page leaf_page_id = Except.ok p) (htype : p.page_type_ = IndexPageType.LEAF_PAGE)
    (hfit : p.fitsBuffer = true) (hmax : 1 ≤ p.GetMaxSize) (hfull : p.GetMaxSize ≤ p.GetSize)
    (hB : p.GetSize ≤ (Page.LEAF_PAGE_SLOT_CNT : Int))
    (hge : LeafPage.KeyIndex p key ≥ p.GetMinSize) :
    ∃ t2 up_key, t.splitLeafAndInsert leaf_page_id p key value =
        Except.ok (t2, up_key, (t.pages.length : Int)) ∧
      t.IsLeafSplitOf t2 leaf_page_id p (LeafPage.KeyIndex p key) key value p.GetMinSize
        up_key := by
  obtain ⟨hr, hm, hk, hn, hlk, hlc⟩ := leaf_split_facts key hp htype hfit hmax hfull hB
  obtain ⟨R0, hR0⟩ : ∃ R0, R0 = LeafPage.Init Page.zero t.leaf_max_size_ := ⟨_, rfl⟩
  obtain ⟨mv, hmv⟩ : ∃ mv, mv =
      moveLeafSlots (p.GetSize - p.GetMinSize).toNat 0 p.GetMinSize R0 p := ⟨_, rfl⟩
  obtain ⟨L, hL⟩ : ∃ L, L =
      LeafPage.SetNextPageId (mv.2.1.ChangeSizeBy (-mv.2.2.1)) (t.pages.length : Int) :=
    ⟨_, rfl⟩
  obtain ⟨q, hq⟩ : ∃ q, q = LeafPage.SetNextPageId mv.1
      (LeafPage.GetNextPageId (mv.2.1.ChangeSizeBy (-mv.2.2.1))) := ⟨_, rfl⟩
  obtain ⟨Q2, hQ2⟩ : ∃ Q2, Q2 =
      shiftRightLeaf (q.GetSize - (LeafPage.KeyIndex p key - L.GetMinSize)).toNat q.GetSize q :=
    ⟨_, rfl⟩
  obtain ⟨R, hR⟩ : ∃ R, R =
      ((Q2.setKey (LeafPage.KeyIndex p key - L.GetMinSize) key).setRid
        (LeafPage.KeyIndex p key - L.GetMinSize) value).ChangeSizeBy 1 := ⟨_, rfl⟩
  obtain ⟨f1, f2, f3, f4⟩ := newLeaf_facts _ hR0
  obtain ⟨⟨a1, a2, a3, a4⟩, ⟨b1, b2, b3, b4, b5, b6⟩⟩ := leaf_split_moved hmv f1 hm.1 hm.2
  have hLmin : L.GetMinSize = p.GetMinSize := Page.getMinSize_congr (by rw [hL]; exact b3)
  have hge' : LeafPage.KeyIndex p key ≥ L.GetMinSize := by rw [hLmin]; exact hge
  have hqs : q.size_ = p.size_ - p.GetMinSize := by rw [hq]; exact a1
  obtain ⟨c1, c2, c3, c4, c5⟩ :=
    leaf_insert_slots key value hQ2 hR hqs (by omega) (by omega)
  have hfitL : L.fitsBuffer = true := by
    refine fitsBuffer_leaf ?_ ?_
    · rw [hL]
      exact b2.trans htype
    · rw [hL]
      exact b6 hlk hlc (by omega)
  have hfitR : R.fitsBuffer = true := by
    refine fitsBuffer_leaf (c2.trans ?_) (c5 ?_ ?_ (by omega))
    · rw [hq]
      exact a2.trans f2
    · rw [hq]
      exact (a4 f3 f4 (by omega)).1
    · rw [hq]
      exact (a4 f3 f4 (by omega)).2
  obtain ⟨t1, t2, hst1, hst2, hpa, hpb⟩ := stored_split (t := t) L R hr hfitL hfitR
  have hcall : t.splitLeafAndInsert leaf_page_id p key value = Except.ok
      (t2, R.key 0, (t.pages.length : Int)) := by
    unfold splitLeafAndInsert
    simp only [bind, Except.bind, newPage_fst, page_newPage_new, newPage_leaf_max_size,
      ← hR0, ← hmv, ← hL, ← hq, hge', if_true, ← hQ2, ← hR]
    rw [hst1]
    simp only []
    rw [hst2]
    rfl
  refine ⟨t2, _, hcall, L, R, hpa, hpb, ?_, ?_, ?_, ?_, ?_, ?_, rfl⟩
  · rw [hL]
    exact b1
  · show R.size_ = p.size_ + 1 - p.GetMinSize
    omega
  · intro x hx0 hx1
    rw [hL]
    show mv.2.1.key x = _ ∧ mv.2.1.rid x = _
    rw [(b5 x hx0 hx1).1, (b5 x hx0 hx1).2]
    unfold Page.keyWith Page.ridWith
    have h1 : x < LeafPage.KeyIndex p key := by omega
    simp only [if_pos h1, and_self]
  · intro y hy0 hy1
    have hy2 : y < p.size_ + 1 - p.GetMinSize := hy1
    rw [(c4 y hy0 (by omega)).1, (c4 y hy0 (by omega)).2, hLmin]
    have hqk : ∀ z, 0 ≤ z → z < p.size_ - p.GetMinSize →
        q.key z = p.key (p.GetMinSize + z) ∧ q.rid z = p.rid (p.GetMinSize + z) := by
      intro z hz0 hz1
      rw [hq]
      exact a3 z hz0 hz1
    unfold Page.keyWith Page.ridWith
    by_cases h1 : y < LeafPage.KeyIndex p key - p.GetMinSize
    · have h2 : p.GetMinSize + y < LeafPage.KeyIndex p key := by omega
      simp only [if_pos h1, if_pos h2, (hqk y hy0 (by omega)).1, (hqk y hy0 (by omega)).2,
        and_self]
    · by_cases h3 : y = LeafPage.KeyIndex p key - p.GetMinSize
      · have h2 : ¬ p.GetMinSize + y < LeafPage.KeyIndex p key := by omega
        have h4 : p.GetMinSize + y = LeafPage.KeyIndex p key := by omega
        simp only [if_neg h1, if_pos h3, if_neg h2, if_pos h4, and_self]
      · have h2 : ¬ p.GetMinSize + y < LeafPage.KeyIndex p key := by omega
        have h4 : ¬ p.GetMinSize + y = LeafPage.KeyIndex p key := by omega
        have h5 : p.GetMinSize + (y - 1) = p.GetMinSize + y - 1 := by omega
        simp only [if_neg h1, if_neg h3, if_neg h2, if_neg h4,
          (hqk (y - 1) (by omega) (by omega)).1, (hqk (y - 1) (by omega) (by omega)).2, h5,
          and_self]
  · rw [hL]
    rfl
  · rw [c3, hq]
    show (mv.2.1.ChangeSizeBy (-mv.2.2.1)).next_page_id_ = _
    exact b4

/-- The leaf split when the new entry belongs to the old leaf. -/
theorem splitLeaf_lower {t : BPlusTree} {leaf_page_id : Int} (key : Int) (value : RID)
    {p : Page}
    (hp : t.page leaf_page_id = Except.ok p) (htype : p.page_type_ = IndexPageType.LEAF_PAGE)
    (hfit : p.fitsBuffer = true) (hmax : 1 ≤ p.GetMaxSize) (hfull : p.GetMaxSize ≤ p.GetSize)
    (hB : p.GetSize ≤ (Page.LEAF_PAGE_SLOT_CNT : Int))
    (hlt : LeafPage.KeyIndex p key < p.GetMinSize) :
    ∃ t2 up_key, t.splitLeafAndInsert leaf_page_id p key value =
        Except.ok (t2, up_key, (t.pages.length : Int)) ∧
      t.IsLeafSplitOf t2 leaf_page_id p (LeafPage.KeyIndex p key) key value (p.GetMinSize + 1)
        up_key := by
  obtain ⟨hr, hm, hk, hn, hlk, hlc⟩ := leaf_split_facts key hp htype hfit hmax hfull hB
  obtain ⟨R0, hR0⟩ : ∃ R0, R0 = LeafPage.Init Page.zero t.leaf_max_size_ := ⟨_, rfl⟩
  obtain ⟨mv, hmv⟩ : ∃ mv, mv =
      moveLeafSlots (p.GetSize - p.GetMinSize).toNat 0 p.GetMinSize R0 p := ⟨_, rfl⟩
  obtain ⟨q, hq⟩ : ∃ q, q =
      LeafPage.SetNextPageId (mv.2.1.ChangeSizeBy (-mv.2.2.1)) (t.pages.length : Int) :=
    ⟨_, rfl⟩
  obtain ⟨R, hR⟩ : ∃ R, R = LeafPage.SetNextPageId mv.1
      (LeafPage.GetNextPageId (mv.2.1.ChangeSizeBy (-mv.2.2.1))) := ⟨_, rfl⟩
  obtain ⟨Q2, hQ2⟩ : ∃ Q2, Q2 =
      shiftRightLeaf (q.GetSize - LeafPage.KeyIndex p key).toNat q.GetSize q := ⟨_, rfl⟩
  obtain ⟨L, hL⟩ : ∃ L, L =
      ((Q2.setKey (LeafPage.KeyIndex p key) key).setRid (LeafPage.KeyIndex p key)
        value).ChangeSizeBy 1 := ⟨_, rfl⟩
  obtain ⟨f1, f2, f3, f4⟩ := newLeaf_facts _ hR0
  obtain ⟨⟨a1, a2, a3, a4⟩, ⟨b1, b2, b3, b4, b5, b6⟩⟩ := leaf_split_moved hmv f1 hm.1 hm.2
  have hqmin : q.GetMinSize = p.GetMinSize := Page.getMinSize_congr (by rw [hq]; exact b3)
  have hlt' : ¬ LeafPage.KeyIndex p key ≥ q.GetMinSize := by rw [hqmin]; omega
  have hqs : q.size_ = p.GetMinSize := by rw [hq]; exact b1
  obtain ⟨c1, c2, c3, c4, c5⟩ :=
    leaf_insert_slots key value hQ2 hL hqs hk.1 (by omega)
  have hfitL : L.fitsBuffer = true := by
    refine fitsBuffer_leaf (c2.trans ?_) (c5 ?_ ?_ (by omega))
    · rw [hq]
      exact b2.trans htype
    · rw [hq]
      exact (b6 hlk hlc (by omega)).1
    · rw [hq]
      exact (b6 hlk hlc (by omega)).2
  have hfitR : R.fitsBuffer = true := by
    refine fitsBuffer_leaf ?_ ?_
    · rw [hR]
      exact a2.trans f2
    · rw [hR]
      exact a4 f3 f4 (by omega)
  obtain ⟨t1, t2, hst1, hst2, hpa, hpb⟩ := stored_split (t := t) L R hr hfitL hfitR
  have hcall : t.splitLeafAndInsert leaf_page_id p key value = Except.ok
      (t2, R.key 0, (t.pages.length : Int)) := by
    unfold splitLeafAndInsert
    simp only [bind, Except.bind, newPage_fst, page_newPage_new, newPage_leaf_max_size,
      ← hR0, ← hmv, ← hq, ← hR, hlt', if_false, ← hQ2, ← hL]
    rw [hst1]
    simp only []
    rw [hst2]
    rfl
  have hqk : ∀ z, 0 ≤ z → z < p.GetMinSize → q.key z = p.key z ∧ q.rid z = p.rid z := by
    intro z hz0 hz1
    rw [hq]
    exact b5 z hz0 hz1
  refine ⟨t2, _, hcall, L, R, hpa, hpb, c1, ?_, ?_, ?_, ?_, ?_, rfl⟩
  · rw [hR]
    show mv.1.size_ = p.size_ + 1 - (p.GetMinSize + 1)
    omega
  · intro x hx0 hx1
    rw [(c4 x hx0 hx1).1, (c4 x hx0 hx1).2]
    unfold Page.keyWith Page.ridWith
    by_cases h1 : x < LeafPage.KeyIndex p key
    · simp only [if_pos h1, (hqk x hx0 (by omega)).1, (hqk x hx0 (by omega)).2, and_self]
    · by_cases h3 : x = LeafPage.KeyIndex p key
      · simp only [if_neg h1, if_pos h3, and_self]
      · simp only [if_neg h1, if_neg h3, (hqk (x - 1) (by omega) (by omega)).1,
          (hqk (x - 1) (by omega) (by omega)).2, and_self]
  · intro y hy0 hy1
    have hy2 : y < p.size_ + 1 - (p.GetMinSize + 1) := hy1
    rw [hR]
    show mv.1.key y = _ ∧ mv.1.rid y = _
    rw [(a3 y hy0 (by omega)).1, (a3 y hy0 (by omega)).2]
    unfold Page.keyWith Page.ridWith
    have h2 : ¬ p.GetMinSize + 1 + y < LeafPage.KeyIndex p key := by omega
    have h4 : ¬ p.GetMinSize + 1 + y = LeafPage.KeyIndex p key := by omega
    have h5 : p.GetMinSize + 1 + y - 1 = p.GetMinSize + y := by omega
    simp only [if_neg h2, if_neg h4, h5, and_self]
  · rw [c3, hq]
    rfl
  · rw [hR]
    show (mv.2.1.ChangeSizeBy (-mv.2.2.1)).next_page_id_ = _
    exact b4

/-- The leaf split of `Insert`: the call returns, and the two leaves hold the entries of the
leaf with the new entry added. -/
theorem splitLeafAndInsert_ok {t : BPlusTree} {leaf_page_id : Int} {p : Page} (key : Int)
    (value : RID)
    (hp : t.page leaf_page_id = Except.ok p) (htype : p.page_type_ = IndexPageType.LEAF_PAGE)
    (hfit : p.fitsBuffer = true) (hmax : 1 ≤ p.GetMaxSize) (hfull : p.GetMaxSize ≤ p.GetSize)
    (hB : p.GetSize ≤ (Page.LEAF_PAGE_SLOT_CNT : Int)) :
    ∃ t2 up_key n, t.splitLeafAndInsert leaf_page_id p key value =
        Except.ok (t2, up_key, (t.pages.length : Int)) ∧
      (n = p.GetMinSize ∨ n = p.GetMinSize + 1) ∧
      t.IsLeafSplitOf t2 leaf_page_id p (LeafPage.KeyIndex p key) key value n up_key := by
  by_cases h : LeafPage.KeyIndex p key ≥ p.GetMinSize
  · obtain ⟨t2, up, h1, h2⟩ := splitLeaf_upper key value hp htype hfit hmax hfull hB h
    exact ⟨t2, up, _, h1, Or.inl rfl, h2⟩
  · obtain ⟨t2, up, h1, h2⟩ :=
      splitLeaf_lower key value hp htype hfit hmax hfull hB (by omega)
    exact ⟨t2, up, _, h1, Or.inr rfl, h2⟩

end BPlusTree
theorem pairwise_map_range (F : Nat → Int) (N : Nat)
    (h : ∀ a b, a < b → b < N → F a < F b) : ((List.range N).map F).Pairwise (· < ·) := by
  rw [List.pairwise_map]
  refine List.Pairwise.imp_of_mem ?_ (List.pairwise_lt_range N)
  intro a b _ hb hab
  exact h a b hab (List.mem_range.mp hb)

/-- The entries of the two leaves of a split, as one list. -/
theorem leaf_split_lists {p L R : Page} {i key n : Int} (value : RID)
    (hn : 0 ≤ n ∧ n ≤ p.size_ + 1) (hk : 0 ≤ i ∧ i ≤ p.size_)
    (hL : L.GetSize = n) (hR : R.GetSize = p.GetSize + 1 - n)
    (hLe : ∀ x, 0 ≤ x → x < n → L.key x = p.keyWith i key x ∧ L.rid x = p.ridWith i value x)
    (hRe : ∀ y, 0 ≤ y → y < p.GetSize + 1 - n →
      R.key y = p.keyWith i key (n + y) ∧ R.rid y = p.ridWith i value (n + y)) :
    L.entries ++ R.entries =
      p.entries.take i.toNat ++ (key, value) :: p.entries.drop i.toNat := by
  have hsz : p.GetSize = p.size_ := rfl
  rw [hsz] at hR hRe
  unfold Page.entries
  rw [take_map_range _ (show i.toNat ≤ p.GetSize.toNat by rw [hsz]; omega), drop_map_range,
    cons_map_range, map_range_append, map_range_append, hL, hR, hsz]
  apply map_range_congr (by omega)
  intro x hx
  by_cases h1 : x < n.toNat
  · rw [if_pos h1, (hLe x (by omega) (by omega)).1, (hLe x (by omega) (by omega)).2]
    unfold Page.keyWith Page.ridWith
    by_cases h2 : x < i.toNat
    · have h3 : (x : Int) < i := by omega
      simp only [if_pos h2, if_pos h3]
    · by_cases h4 : x - i.toNat < 1
      · have h3 : ¬ (x : Int) < i := by omega
        have h5 : (x : Int) = i := by omega
        simp only [if_neg h2, if_pos h4, if_neg h3, if_pos h5]
      · have h3 : ¬ (x : Int) < i := by omega
        have h5 : ¬ (x : Int) = i := by omega
        have h6 : ((i.toNat + (x - i.toNat - 1) : Nat) : Int) = (x : Int) - 1 := by omega
        simp only [if_neg h2, if_neg h4, if_neg h3, if_neg h5, h6]
  · rw [if_neg h1, (hRe _ (by omega) (by omega)).1, (hRe _ (by omega) (by omega)).2]
    have h7 : n + ((x - n.toNat : Nat) : Int) = (x : Int) := by omega
    rw [h7]
    unfold Page.keyWith Page.ridWith
    by_cases h2 : x < i.toNat
    · have h3 : (x : Int) < i := by omega
      simp only [if_pos h2, if_pos h3]
    · by_cases h4 : x - i.toNat < 1
      · have h3 : ¬ (x : Int) < i := by omega
        have h5 : (x : Int) = i := by omega
        simp only [if_neg h2, if_pos h4, if_neg h3, if_pos h5]
      · have h3 : ¬ (x : Int) < i := by omega
        have h5 : ¬ (x : Int) = i := by omega
        have h6 : ((i.toNat + (x - i.toNat - 1) : Nat) : Int) = (x : Int) - 1 := by omega
        simp only [if_neg h2, if_neg h4, if_neg h3, if_neg h5, h6]

/-- The keys of a sorted leaf with an absent key put in at its `KeyIndex` are strictly
increasing. -/
theorem keys_with_sorted {p : Page} {key : Int} (value : RID) (h0 : 0 ≤ p.GetSize)
    (hs : ∀ i j, 0 ≤ i → i < j → j < p.GetSize → p.key i < p.key j)
    (habsent : ∀ x, 0 ≤ x → x < p.GetSize → p.key x ≠ key) :
    ((p.entries.take (LeafPage.KeyIndex p key).toNat ++
      (key, value) :: p.entries.drop (LeafPage.KeyIndex p key).toNat).map
        Prod.fst).Pairwise (· < ·) := by
  obtain ⟨k1, k2, k3, k4⟩ := KeyIndexLoop_spec p key 0 p.GetSize hs p.GetSize.toNat 0 p.GetSize
    (le_refl _) h0 (le_refl _) (by omega) (fun i a b => absurd b (by omega))
    (fun i a b => absurd b (by omega))
  obtain ⟨i, hi⟩ : ∃ i, i = LeafPage.KeyIndex p key := ⟨_, rfl⟩
  have hi2 : KeyIndexLoop p key p.GetSize.toNat 0 p.GetSize = i := hi.symm
  rw [hi2] at k1 k2 k3 k4
  rw [← hi]
  have k5 : ∀ x, i ≤ x → x < p.GetSize → key < p.key x := by
    intro x hx1 hx2
    have h1 := k4 x hx1 hx2
    have h2 := habsent x (by omega) hx2
    omega
  unfold Page.entries
  rw [take_map_range _ (show i.toNat ≤ p.GetSize.toNat by omega), drop_map_range,
    cons_map_range, map_range_append, List.map_map]
  apply pairwise_map_range
  intro a b hab hb
  simp only [Function.comp]
  by_cases ha1 : a < i.toNat
  · rw [if_pos ha1]
    by_cases hb1 : b < i.toNat
    · rw [if_pos hb1]
      exact hs a b (by omega) (by omega) (by omega)
    · rw [if_neg hb1]
      by_cases hb2 : b - i.toNat < 1
      · rw [if_pos hb2]
        exact k3 a (by omega) (by omega)
      · rw [if_neg hb2]
        exact hs _ _ (by omega) (by omega) (by omega)
  · rw [if_neg ha1, if_neg (show ¬ b < i.toNat by omega),
      if_neg (show ¬ b - i.toNat < 1 by omega)]
    by_cases ha2 : a - i.toNat < 1
    · rw [if_pos ha2]
      exact k5 _ (by omega) (by omega)
    · rw [if_neg ha2]
      exact hs _ _ (by omega) (by omega) (by omega)
namespace BPlusTree

/-- `Insert` of an absent key into a full leaf is the split of the leaf with the insertion,
followed by the insertion into the parent and the loop over the ancestors. -/
theorem insert_full_leaf {t : BPlusTree} {key : Int} (value : RID) {leaf_page_id : Int}
    {write_set : List Int} {leaf_page : Page}
    (hne : t.IsEmpty = false)
    (hfl : t.FindAndLock key = Except.ok (leaf_page_id :: write_set))
    (hpage : t.page leaf_page_id = Except.ok leaf_page)
    (habsent : ¬ (LeafPage.KeyIndex leaf_page key < leaf_page.GetSize ∧
      comparator (LeafPage.KeyAt leaf_page (LeafPage.KeyIndex leaf_page key)) key = 0))
    (hfull : leaf_page.GetSize ≥ leaf_page.GetMaxSize) :
    t.Insert key value = (do
      let (t, up_key, new_leaf_page_id) ← t.splitLeafAndInsert leaf_page_id leaf_page key value
      let (t, up, parent) ← t.insertStep leaf_page_id up_key new_leaf_page_id write_set.head?
      let t ← insertLoop (write_set.tail.length + 2) t up parent write_set.tail
      pure (true, t)) := by
  have hnew : t.NewPage.2.page t.NewPage.1 = Except.ok Page.zero := by
    unfold page NewPage
    simp
  unfold Insert splitLeafAndInsert
  simp only [hne, hfl, hpage, bind, Except.bind, habsent, hfull, if_true, if_false, pure,
    Except.pure, Bool.false_eq_true, hnew, LeafPage.SetNextPageId, LeafPage.GetNextPageId]
  split
  · split <;> (try split) <;> rfl
  · split <;> (try split) <;> rfl

end BPlusTree

/-! ## The split of a full leaf -/

/-- C34, the code at the failing input: with `leaf_max_size = 1`, after `Insert(4)` the root
(page 1) is a full leaf; `Insert(2)` splits it, no slot moves to the new leaf (page 2), the
entry goes to the old leaf, and the separator handed to the parent is the key of slot 0 of the
empty new leaf, 0, which is the key of no entry and not the first key of the new leaf, which has
none; it is stored in slot 1 of the new root (page 3). -/
theorem C34_separator_of_empty_leaf :
    run (BPlusTree.fresh 1 3) (insertRange 4 1) = Except.ok (built 1 3 (insertRange 4 1)) ∧
    Except.map (fun p => (p.IsLeafPage, p.GetSize, p.GetMaxSize, p.key 0))
        ((built 1 3 (insertRange 4 1)).page 1) = Except.ok (true, 1, 1, 4) ∧
    (built 1 3 (insertRange 4 1)).FindAndLock 2 = Except.ok [1] ∧
    Except.map Prod.snd
        ((built 1 3 (insertRange 4 1)).splitLeafAndInsert 1
          ((built 1 3 (insertRange 4 1)).pages.getD 1 Page.zero) 2 ⟨2, 0⟩)
      = Except.ok (0, 2) ∧
    run (BPlusTree.fresh 1 3) (insertRange 4 1 ++ insertRange 2 1)
      = Except.ok (built 1 3 (insertRange 4 1 ++ insertRange 2 1)) ∧
    Except.map (fun p => (p.IsLeafPage, p.GetSize, p.key 0, p.key 1))
        ((built 1 3 (insertRange 4 1 ++ insertRange 2 1)).page 1) = Except.ok (true, 2, 2, 4) ∧
    Except.map (fun p => (p.IsLeafPage, p.GetSize))
        ((built 1 3 (insertRange 4 1 ++ insertRange 2 1)).page 2) = Except.ok (true, 0) ∧
    (built 1 3 (insertRange 4 1 ++ insertRange 2 1)).root_page_id_ = 3 ∧
    Except.map (fun p => (p.GetSize, p.child 0, p.key 1, p.child 1))
        ((built 1 3 (insertRange 4 1 ++ insertRange 2 1)).page 3) = Except.ok (2, 1, 0, 2) := by
  decide

/-- When `Insert` adds an absent key to a leaf within its buffer whose size has reached
`max_size_ ≥ 1`, with strictly increasing keys: the block that splits the leaf returns and `Insert` goes on with the insertion into the parent; the entries of the old
leaf followed by those of the new leaf are the entries of the leaf with the new entry put in at
`KeyIndex(key)`, that is the old entries and the new one, in strictly increasing key order; the
new leaf points to the leaf the old one pointed to and the old leaf to the new one; the
separator handed to the parent with the page id of the new leaf is the key of slot 0 of the new
leaf, its first key whenever the new leaf is not empty, as it is for `max_size_ ≥ 2`. -/
theorem leaf_split_entries (t : BPlusTree) (key : Int) (value : RID) (leaf_page_id : Int)
    (write_set : List Int) (p : Page)
    (hne : t.IsEmpty = false)
    (hfl : t.FindAndLock key = Except.ok (leaf_page_id :: write_set))
    (hp : t.page leaf_page_id = Except.ok p) (htype : p.page_type_ = IndexPageType.LEAF_PAGE)
    (hfit : p.fitsBuffer = true) (hmax : 1 ≤ p.GetMaxSize) (hfull : p.GetMaxSize ≤ p.GetSize)
    (hB : p.GetSize ≤ (Page.LEAF_PAGE_SLOT_CNT : Int))
    (hs : ∀ i j, 0 ≤ i → i < j → j < p.GetSize → p.key i < p.key j)
    (habsent : ∀ x, 0 ≤ x → x < p.GetSize → p.key x ≠ key) :
    ∃ t2 up_key L R,
      t.splitLeafAndInsert leaf_page_id p key value =
        Except.ok (t2, up_key, (t.pages.length : Int)) ∧
      t.Insert key value = (do
        let (t3, up, parent) ←
          t2.insertStep leaf_page_id up_key (t.pages.length : Int) write_set.head?
        let t4 ← BPlusTree.insertLoop (write_set.tail.length + 2) t3 up parent write_set.tail
        pure (true, t4)) ∧
      t2.page leaf_page_id = Except.ok L ∧ t2.page (t.pages.length : Int) = Except.ok R ∧
      L.entries ++ R.entries =
        p.entries.take (LeafPage.KeyIndex p key).toNat ++
          (key, value) :: p.entries.drop (LeafPage.KeyIndex p key).toNat ∧
      List.Perm (L.entries ++ R.entries) ((key, value) :: p.entries) ∧
      ((L.entries ++ R.entries).map Prod.fst).Pairwise (· < ·) ∧
      R.next_page_id_ = p.next_page_id_ ∧ L.next_page_id_ = (t.pages.length : Int) ∧
      up_key = LeafPage.KeyAt R 0 ∧
      (1 ≤ R.GetSize → (R.entries.map Prod.fst).head? = some up_key) ∧
      (2 ≤ p.GetMaxSize → 1 ≤ R.GetSize) := by
  obtain ⟨hr, hm, hk, hn, hlk, hlc⟩ :=
    BPlusTree.leaf_split_facts key hp htype hfit hmax hfull hB
  obtain ⟨t2, up_key, n, hcall, hnn, L, R, hL, hR, h1, h2, h3, h4, h5, h6, h7⟩ :=
    BPlusTree.splitLeafAndInsert_ok key value hp htype hfit hmax hfull hB
  have hsz : p.GetSize = p.size_ := rfl
  have hlists := leaf_split_lists value (show 0 ≤ n ∧ n ≤ p.size_ + 1 by omega) hk
    h1 h2 h3 h4
  have habs : ¬ (LeafPage.KeyIndex p key < p.GetSize ∧
      comparator (LeafPage.KeyAt p (LeafPage.KeyIndex p key)) key = 0) := by
    rintro ⟨a, b⟩
    exact habsent _ hk.1 a (comparator_eq_zero.mp b)
  have hins := BPlusTree.insert_full_leaf value hne hfl hp habs hfull
  refine ⟨t2, up_key, L, R, hcall, ?_, hL, hR, hlists, ?_, ?_, h6, h5, h7, ?_, ?_⟩
  · rw [hins, hcall]
    rfl
  · rw [hlists]
    refine (List.perm_middle).trans (List.Perm.cons _ ?_)
    rw [List.take_append_drop]
  · rw [hlists]
    exact keys_with_sorted value (by omega) hs habsent
  · intro hR1
    have hR2 : R.GetSize.toNat = (R.GetSize.toNat - 1) + 1 := by omega
    unfold Page.entries
    rw [hR2, List.range_succ_eq_map, List.map_cons, List.map_cons, List.head?_cons, h7]
    rfl
  · intro h2max
    have h8 : 2 ≤ p.max_size_ := h2max
    have h9 := (Page.getMinSize_le (show 0 ≤ p.max_size_ by omega) (by
      have : p.max_size_ ≤ p.size_ := hfull
      omega)).2.2 h8
    have h10 : p.max_size_ ≤ p.size_ := hfull
    rw [h2, hsz]
    omega

/-- An instance: the root leaf with the keys 10 and 20 of a tree with `leaf_max_size = 2`, to
which the key 15 is added. -/
theorem leaf_split_entries_instance :
    ∃ t2 up_key L R,
      BPlusTree.fullLeafRoot.splitLeafAndInsert 1
          (BPlusTree.fullLeafRoot.pages.getD 1 Page.zero) 15 ⟨15, 0⟩ =
        Except.ok (t2, up_key, (BPlusTree.fullLeafRoot.pages.length : Int)) ∧
      BPlusTree.fullLeafRoot.Insert 15 ⟨15, 0⟩ = (do
        let (t3, up, parent) ←
          t2.insertStep 1 up_key (BPlusTree.fullLeafRoot.pages.length : Int)
            ([] : List Int).head?
        let t4 ← BPlusTree.insertLoop (([] : List Int).tail.length + 2) t3 up parent
          ([] : List Int).tail
        pure (true, t4)) ∧
      t2.page 1 = Except.ok L ∧
      t2.page (BPlusTree.fullLeafRoot.pages.length : Int) = Except.ok R ∧
      L.entries ++ R.entries =
        (BPlusTree.fullLeafRoot.pages.getD 1 Page.zero).entries.take
            (LeafPage.KeyIndex (BPlusTree.fullLeafRoot.pages.getD 1 Page.zero) 15).toNat ++
          (15, ⟨15, 0⟩) :: (BPlusTree.fullLeafRoot.pages.getD 1 Page.zero).entries.drop
            (LeafPage.KeyIndex (BPlusTree.fullLeafRoot.pages.getD 1 Page.zero) 15).toNat ∧
      List.Perm (L.entries ++ R.entries)
        ((15, ⟨15, 0⟩) :: (BPlusTree.fullLeafRoot.pages.getD 1 Page.zero).entries) ∧
      ((L.entries ++ R.entries).map Prod.fst).Pairwise (· < ·) ∧
      R.next_page_id_ = (BPlusTree.fullLeafRoot.pages.getD 1 Page.zero).next_page_id_ ∧
      L.next_page_id_ = (BPlusTree.fullLeafRoot.pages.length : Int) ∧
      up_key = LeafPage.KeyAt R 0 ∧
      (1 ≤ R.GetSize → (R.entries.map Prod.fst).head? = some up_key) ∧
      (2 ≤ (BPlusTree.fullLeafRoot.pages.getD 1 Page.zero).GetMaxSize → 1 ≤ R.GetSize) :=
  leaf_split_entries BPlusTree.fullLeafRoot 15 ⟨15, 0⟩ 1 []
    (BPlusTree.fullLeafRoot.pages.getD 1 Page.zero) (by decide) (by decide) (by decide)
    (by decide) (by decide) (by decide) (by decide) (by decide)
    (by
      intro i j h0 hij hj
      have hj2 : j < 2 := hj
      have hj0 : 0 < j := by omega
      interval_cases j
      interval_cases i
      decide)
    (by
      intro x h0 h1
      have h2 : x < 2 := h1
      interval_cases x <;> decide)

/-! ## Remove rebalances an internal page that is not underfull -/

/-- C32, the code at the failing input: with `leaf_max_size = 2` and `internal_max_size = 3`,
after `Insert` of 10, 20, 30, 40 and 50 the internal page 6 (children 4 and 5) has size 2, its
`GetMinSize()`, under the root 7 (children 3 and 6).  `Remove(30)` empties the leaf 4, which
takes the key 40 from its right sibling 5; page 6 still has size 2, and yet it is merged into
its left sibling: page 3 ends with 4 children, more than its `GetMaxSize()` 3, page 6 with
none, and the root 7 has lost a child, so that page 3 becomes the root. -/
theorem C32_internal_page_merged_at_min_size :
    run (BPlusTree.fresh 2 3) (insertRange 10 1 ++ insertRange 20 1 ++ insertRange 30 1 ++
        insertRange 40 1 ++ insertRange 50 1) = Except.ok BPlusTree.threeLevels ∧
    BPlusTree.threeLevels.root_page_id_ = 7 ∧
    Except.map (fun p => (p.IsLeafPage, p.GetSize, p.child 0, p.child 1))
        (BPlusTree.threeLevels.page 7) = Except.ok (false, 2, 3, 6) ∧
    Except.map (fun p => (p.IsLeafPage, p.GetSize, p.GetMinSize, p.GetMaxSize))
        (BPlusTree.threeLevels.page 6) = Except.ok (false, 2, 2, 3) ∧
    Except.map (fun p => (p.child 0, p.child 1)) (BPlusTree.threeLevels.page 6)
      = Except.ok (4, 5) ∧
    Except.map (fun p => (p.IsLeafPage, p.GetSize, p.child 0, p.child 1))
        (BPlusTree.threeLevels.page 3) = Except.ok (false, 2, 1, 2) ∧
    Except.map (fun p => (p.IsLeafPage, p.GetSize, p.key 0))
        (BPlusTree.threeLevels.page 4) = Except.ok (true, 1, 30) ∧
    Except.map (fun p => (p.IsLeafPage, p.GetSize, p.key 0, p.key 1))
        (BPlusTree.threeLevels.page 5) = Except.ok (true, 2, 40, 50) ∧
    run BPlusTree.threeLevels [Op.remove 30] = Except.ok (built 2 3
      (insertRange 10 1 ++ insertRange 20 1 ++ insertRange 30 1 ++ insertRange 40 1 ++
        insertRange 50 1 ++ [Op.remove 30])) ∧
    (built 2 3 (insertRange 10 1 ++ insertRange 20 1 ++ insertRange 30 1 ++ insertRange 40 1 ++
        insertRange 50 1 ++ [Op.remove 30])).root_page_id_ = 3 ∧
    Except.map (fun p => (p.GetSize, p.GetMaxSize))
        ((built 2 3 (insertRange 10 1 ++ insertRange 20 1 ++ insertRange 30 1 ++
          insertRange 40 1 ++ insertRange 50 1 ++ [Op.remove 30])).page 3)
      = Except.ok (4, 3) ∧
    Except.map (fun p => (p.child 0, p.child 1, p.child 2, p.child 3))
        ((built 2 3 (insertRange 10 1 ++ insertRange 20 1 ++ insertRange 30 1 ++
          insertRange 40 1 ++ insertRange 50 1 ++ [Op.remove 30])).page 3)
      = Except.ok (1, 2, 4, 5) ∧
    Except.map Page.GetSize
        ((built 2 3 (insertRange 10 1 ++ insertRange 20 1 ++ insertRange 30 1 ++
          insertRange 40 1 ++ insertRange 50 1 ++ [Op.remove 30])).page 6) = Except.ok 0 ∧
    Except.map Page.GetSize
        ((built 2 3 (insertRange 10 1 ++ insertRange 20 1 ++ insertRange 30 1 ++
          insertRange 40 1 ++ insertRange 50 1 ++ [Op.remove 30])).page 7) = Except.ok 1 :=
  ⟨by decide!, by decide!, by decide!, by decide!, by decide!, by decide!, by decide!, by decide!,
    by decide!, by decide!, by decide!, by decide!, by decide!, by decide!⟩

/-! ## A redistribution between leaves followed by a merge of internal pages -/

/-- C33, the code at the failing input: with `leaf_max_size = 2` and `internal_max_size = 3`,
after `Insert` of 20, 50, 10, 30 and 40 the leaf 2 (key 50) is the child of slot 1 of page 6,
and its left sibling, the leaf 5, holds 30 and 40, more than `GetMinSize()` 1.  `Remove(50)`
moves the entry 40 from leaf 5 to leaf 2 and sets the key of slot 1 of page 6 to 40; then it
merges page 6, whose size 2 is its `GetMinSize()`, into page 3, which ends with 4 children,
more than its `GetMaxSize()` 3, and becomes the root. -/
theorem C33_merge_after_left_redistribution :
    run (BPlusTree.fresh 2 3) (insertRange 20 1 ++ insertRange 50 1 ++ insertRange 10 1 ++
        insertRange 30 1 ++ insertRange 40 1) = Except.ok BPlusTree.threeLevelsLeft ∧
    BPlusTree.threeLevelsLeft.root_page_id_ = 7 ∧
    Except.map (fun p => (p.IsLeafPage, p.GetSize, p.child 0, p.child 1))
        (BPlusTree.threeLevelsLeft.page 7) = Except.ok (false, 2, 3, 6) ∧
    Except.map (fun p => (p.IsLeafPage, p.GetSize, p.GetMinSize, p.GetMaxSize))
        (BPlusTree.threeLevelsLeft.page 6) = Except.ok (false, 2, 2, 3) ∧
    Except.map (fun p => (p.child 0, p.key 1, p.child 1)) (BPlusTree.threeLevelsLeft.page 6)
      = Except.ok (5, 50, 2) ∧
    Except.map (fun p => (p.IsLeafPage, p.GetSize, p.GetMinSize, p.key 0, p.key 1))
        (BPlusTree.threeLevelsLeft.page 5) = Except.ok (true, 2, 1, 30, 40) ∧
    Except.map (fun p => (p.IsLeafPage, p.GetSize, p.key 0))
        (BPlusTree.threeLevelsLeft.page 2) = Except.ok (true, 1, 50) ∧
    run BPlusTree.threeLevelsLeft [Op.remove 50] = Except.ok (built 2 3
      (insertRange 20 1 ++ insertRange 50 1 ++ insertRange 10 1 ++ insertRange 30 1 ++
        insertRange 40 1 ++ [Op.remove 50])) ∧
    Except.map (fun p => (p.GetSize, p.key 0))
        ((built 2 3 (insertRange 20 1 ++ insertRange 50 1 ++ insertRange 10 1 ++
          insertRange 30 1 ++ insertRange 40 1 ++ [Op.remove 50])).page 5)
      = Except.ok (1, 30) ∧
    Except.map (fun p => (p.GetSize, p.key 0))
        ((built 2 3 (insertRange 20 1 ++ insertRange 50 1 ++ insertRange 10 1 ++
          insertRange 30 1 ++ insertRange 40 1 ++ [Op.remove 50])).page 2)
      = Except.ok (1, 40) ∧
    (built 2 3 (insertRange 20 1 ++ insertRange 50 1 ++ insertRange 10 1 ++ insertRange 30 1 ++
        insertRange 40 1 ++ [Op.remove 50])).root_page_id_ = 3 ∧
    Except.map (fun p => (p.GetSize, p.GetMaxSize))
        ((built 2 3 (insertRange 20 1 ++ insertRange 50 1 ++ insertRange 10 1 ++
          insertRange 30 1 ++ insertRange 40 1 ++ [Op.remove 50])).page 3)
      = Except.ok (4, 3) ∧
    Except.map (fun p => (p.child 0, p.child 1, p.child 2, p.child 3))
        ((built 2 3 (insertRange 20 1 ++ insertRange 50 1 ++ insertRange 10 1 ++
          insertRange 30 1 ++ insertRange 40 1 ++ [Op.remove 50])).page 3)
      = Except.ok (1, 4, 5, 2) ∧
    Except.map (fun p => (p.key 1, p.key 2, p.key 3))
        ((built 2 3 (insertRange 20 1 ++ insertRange 50 1 ++ insertRange 10 1 ++
          insertRange 30 1 ++ insertRange 40 1 ++ [Op.remove 50])).page 3)
      = Except.ok (20, 30, 40) ∧
    Except.map Page.GetSize
        ((built 2 3 (insertRange 20 1 ++ insertRange 50 1 ++ insertRange 10 1 ++
          insertRange 30 1 ++ insertRange 40 1 ++ [Op.remove 50])).page 6) = Except.ok 0 :=
  ⟨by decide!, by decide!, by decide!, by decide!, by decide!, by decide!, by decide!, by decide!,
    by decide!, by decide!, by decide!, by decide!, by decide!, by decide!, by decide!⟩


/-! ## The leaf split with `leaf_max_size = 1` -/

/-- C2, the code at the failing input: with `leaf_max_size = 1`, after `Insert(7, RID(7, 0))`
and `Insert(3, RID(3, 0))` the leaf page 1 holds the keys 3 and 7, the key 3 with the value
`RID(3, 0)` in slot 0; the leaf split has left the new leaf (page 2) empty and the root (page 3)
separates the two leaves by the key 0 of the unused slot 0 of page 2.  The key 3 is present, and
yet `GetValue(3)` does not find it and `Insert(3, RID(3, 1))` returns true: it descends to page
2 and stores the key a second time, page 1 still holding it; afterwards `GetValue(3)` yields
`RID(3, 1)`, not the value stored first. -/
theorem C2_insert_of_stored_key_returns_true :
    run (BPlusTree.fresh 1 3) (insertRange 7 1 ++ insertRange 3 1)
      = Except.ok (built 1 3 (insertRange 7 1 ++ insertRange 3 1)) ∧
    Except.map (fun p => (p.IsLeafPage, p.GetSize, p.key 0, p.rid 0))
        ((built 1 3 (insertRange 7 1 ++ insertRange 3 1)).page 1)
      = Except.ok (true, 2, 3, ⟨3, 0⟩) ∧
    (built 1 3 (insertRange 7 1 ++ insertRange 3 1)).root_page_id_ = 3 ∧
    Except.map (fun p => (p.GetSize, p.child 0, p.key 1, p.child 1))
        ((built 1 3 (insertRange 7 1 ++ insertRange 3 1)).page 3) = Except.ok (2, 1, 0, 2) ∧
    Except.map (fun p => (p.IsLeafPage, p.GetSize))
        ((built 1 3 (insertRange 7 1 ++ insertRange 3 1)).page 2) = Except.ok (true, 0) ∧
    (built 1 3 (insertRange 7 1 ++ insertRange 3 1)).GetValue 3 [] = Except.ok (false, []) ∧
    (built 1 3 (insertRange 7 1 ++ insertRange 3 1)).Insert 3 ⟨3, 1⟩
      = Except.ok (true, built 1 3 (insertRange 7 1 ++ insertRange 3 1 ++ [Op.insert 3 ⟨3, 1⟩])) ∧
    Except.map (fun p => (p.IsLeafPage, p.GetSize, p.key 0, p.rid 0))
        ((built 1 3 (insertRange 7 1 ++ insertRange 3 1 ++ [Op.insert 3 ⟨3, 1⟩])).page 1)
      = Except.ok (true, 2, 3, ⟨3, 0⟩) ∧
    Except.map (fun p => (p.IsLeafPage, p.GetSize, p.key 0, p.rid 0))
        ((built 1 3 (insertRange 7 1 ++ insertRange 3 1 ++ [Op.insert 3 ⟨3, 1⟩])).page 2)
      = Except.ok (true, 1, 3, ⟨3, 1⟩) ∧
    (built 1 3 (insertRange 7 1 ++ insertRange 3 1 ++ [Op.insert 3 ⟨3, 1⟩])).GetValue 3 []
      = Except.ok (true, [⟨3, 1⟩]) :=
  ⟨by decide, by decide, by decide, by decide, by decide, by decide, by decide, by decide,
    by decide, by decide⟩

/-- C9, the code at the failing input: with `leaf_max_size = 1`, after `Insert` of 7, 3, 3 and
1 (the second `Insert(3)` returns true, see C2) the root (page 3) has the children 1, 4 and 2;
the leaf split of `Insert(1)` has left the new leaf (page 4) empty behind page 2 in the leaf
chain and in front of it in the root.  `End()` is slot 2 of page 2, the last child of the root,
whose size is 2 and whose `next_page_id_` is 4: `IsEnd()` is false for it, and `operator++`
returns and moves the iterator to slot 3 of page 2 instead of throwing; `operator*` throws, by
its test of the index. -/
theorem C9_increment_at_end_returns :
    run (BPlusTree.fresh 1 3) (insertRange 7 1 ++ insertRange 3 1 ++ insertRange 3 1 ++
        insertRange 1 1)
      = Except.ok (built 1 3 (insertRange 7 1 ++ insertRange 3 1 ++ insertRange 3 1 ++
        insertRange 1 1)) ∧
    (built 1 3 (insertRange 7 1 ++ insertRange 3 1 ++ insertRange 3 1 ++
        insertRange 1 1)).IsEmpty = false ∧
    (built 1 3 (insertRange 7 1 ++ insertRange 3 1 ++ insertRange 3 1 ++
        insertRange 1 1)).root_page_id_ = 3 ∧
    Except.map (fun p => (p.GetSize, p.child 0, p.child 1, p.child 2))
        ((built 1 3 (insertRange 7 1 ++ insertRange 3 1 ++ insertRange 3 1 ++
          insertRange 1 1)).page 3) = Except.ok (3, 1, 4, 2) ∧
    Except.map (fun p => (p.IsLeafPage, p.GetSize, p.next_page_id_))
        ((built 1 3 (insertRange 7 1 ++ insertRange 3 1 ++ insertRange 3 1 ++
          insertRange 1 1)).page 2) = Except.ok (true, 2, 4) ∧
    Except.map (fun p => (p.IsLeafPage, p.GetSize, p.next_page_id_))
        ((built 1 3 (insertRange 7 1 ++ insertRange 3 1 ++ insertRange 3 1 ++
          insertRange 1 1)).page 4) = Except.ok (true, 0, INVALID_PAGE_ID) ∧
    (built 1 3 (insertRange 7 1 ++ insertRange 3 1 ++ insertRange 3 1 ++
        insertRange 1 1)).End = Except.ok ⟨2, 2⟩ ∧
    IndexIterator.IsEnd (built 1 3 (insertRange 7 1 ++ insertRange 3 1 ++ insertRange 3 1 ++
        insertRange 1 1)) ⟨2, 2⟩ = Except.ok false ∧
    IndexIterator.increment (built 1 3 (insertRange 7 1 ++ insertRange 3 1 ++
        insertRange 3 1 ++ insertRange 1 1)) ⟨2, 2⟩ = (⟨2, 3⟩, Except.ok ()) ∧
    IndexIterator.deref (built 1 3 (insertRange 7 1 ++ insertRange 3 1 ++
        insertRange 3 1 ++ insertRange 1 1)) ⟨2, 2⟩ = Except.error Err.out_of_range :=
  ⟨by decide, by decide, by decide, by decide, by decide, by decide, by decide, by decide,
    by decide, by decide⟩

/-- C37, the code at the failing input: with `leaf_max_size = 1`, after `Insert(4)` and
`Insert(2)` the root (page 3) has the children 1 and 2 and the key 0 in slot 1, read from the
unused slot 0 of the leaf page 2, which the split has left empty.  The subtree of child 0 (the
leaf page 1) holds the keys 2 and 4, which are not below the key of slot 1; the descent for 2
and for 4 ends in page 2, not in the leaf that holds them, and `GetValue` finds neither. -/
theorem C37_separator_below_left_keys :
    run (BPlusTree.fresh 1 3) (insertRange 4 1 ++ insertRange 2 1)
      = Except.ok (built 1 3 (insertRange 4 1 ++ insertRange 2 1)) ∧
    (built 1 3 (insertRange 4 1 ++ insertRange 2 1)).root_page_id_ = 3 ∧
    Except.map (fun p => (p.IsLeafPage, p.GetSize, p.key 1))
        ((built 1 3 (insertRange 4 1 ++ insertRange 2 1)).page 3) = Except.ok (false, 2, 0) ∧
    Except.map (fun p => (p.child 0, p.child 1))
        ((built 1 3 (insertRange 4 1 ++ insertRange 2 1)).page 3) = Except.ok (1, 2) ∧
    Except.map (fun p => (p.IsLeafPage, p.GetSize, p.key 0, p.key 1))
        ((built 1 3 (insertRange 4 1 ++ insertRange 2 1)).page 1) = Except.ok (true, 2, 2, 4) ∧
    Except.map (fun p => (p.IsLeafPage, p.GetSize))
        ((built 1 3 (insertRange 4 1 ++ insertRange 2 1)).page 2) = Except.ok (true, 0) ∧
    (built 1 3 (insertRange 4 1 ++ insertRange 2 1)).FindLeafPage 2 = Except.ok 2 ∧
    (built 1 3 (insertRange 4 1 ++ insertRange 2 1)).FindLeafPage 4 = Except.ok 2 ∧
    (built 1 3 (insertRange 4 1 ++ insertRange 2 1)).FindAndLock 4 = Except.ok [2, 3] ∧
    (built 1 3 (insertRange 4 1 ++ insertRange 2 1)).GetValue 2 [] = Except.ok (false, []) ∧
    (built 1 3 (insertRange 4 1 ++ insertRange 2 1)).GetValue 4 [] = Except.ok (false, []) :=
  ⟨by decide, by decide, by decide, by decide, by decide, by decide, by decide, by decide,
    by decide, by decide, by decide⟩


/-! ## RecordAccess outside the use the buffer pool makes of the replacer -/

/-- C13, the code at two failing inputs.  In a replacer of capacity 2 the page 5 is given to the
frames 0 and 1 (frame 1 is accessed twice and so is in T2), and both frames are evicted: page 5
is in B1 and in B2, and the ghost map, which holds one status for a page id, tags it
`MFU_GHOST`.  Then `p = 0 ≤ c`, frame 0 is not alive and page 5 is in B1, but `RecordAccess(0,
5)` takes the branch of a hit in B2 and leaves the target at `2 ^ 64 - 1`, where
`min(p + max(|B2| / |B1|, 1), c)` is 1.  In a replacer of capacity 1 in which page 5 is in B1
(tagged `MRU_GHOST`) and frame 0 is alive with page 6, `RecordAccess(1, 5)` never returns: it
calls `Evict()` while it holds `latch_`. -/
theorem C13_target_after_hit_of_page_in_b1 :
    (ArcReplacer.callsFrom ArcReplacer.frameInRange (ArcReplacer.new 2)
        [ArcCall.record_access 0 5, ArcCall.record_access 1 5, ArcCall.record_access 1 5,
          ArcCall.set_evictable 0 true, ArcCall.set_evictable 1 true, ArcCall.evict,
          ArcCall.evict]).isSome = true ∧
    (ArcReplacer.reached 2 ArcReplacer.frameInRange
        [ArcCall.record_access 0 5, ArcCall.record_access 1 5, ArcCall.record_access 1 5,
          ArcCall.set_evictable 0 true, ArcCall.set_evictable 1 true, ArcCall.evict,
          ArcCall.evict]).alive_map_.find 0 = none ∧
    ((ArcReplacer.reached 2 ArcReplacer.frameInRange
        [ArcCall.record_access 0 5, ArcCall.record_access 1 5, ArcCall.record_access 1 5,
          ArcCall.set_evictable 0 true, ArcCall.set_evictable 1 true, ArcCall.evict,
          ArcCall.evict]).mru_ghost_,
      (ArcReplacer.reached 2 ArcReplacer.frameInRange
        [ArcCall.record_access 0 5, ArcCall.record_access 1 5, ArcCall.record_access 1 5,
          ArcCall.set_evictable 0 true, ArcCall.set_evictable 1 true, ArcCall.evict,
          ArcCall.evict]).mfu_ghost_) = ([5], [5]) ∧
    ((ArcReplacer.reached 2 ArcReplacer.frameInRange
        [ArcCall.record_access 0 5, ArcCall.record_access 1 5, ArcCall.record_access 1 5,
          ArcCall.set_evictable 0 true, ArcCall.set_evictable 1 true, ArcCall.evict,
          ArcCall.evict]).mru_target_size_,
      (ArcReplacer.reached 2 ArcReplacer.frameInRange
        [ArcCall.record_access 0 5, ArcCall.record_access 1 5, ArcCall.record_access 1 5,
          ArcCall.set_evictable 0 true, ArcCall.set_evictable 1 true, ArcCall.evict,
          ArcCall.evict]).replacer_size_) = (0, 2) ∧
    Option.map FrameStatus.arc_status_
      ((ArcReplacer.reached 2 ArcReplacer.frameInRange
        [ArcCall.record_access 0 5, ArcCall.record_access 1 5, ArcCall.record_access 1 5,
          ArcCall.set_evictable 0 true, ArcCall.set_evictable 1 true, ArcCall.evict,
          ArcCall.evict]).ghost_map_.find 5) = some ArcStatus.MFU_GHOST ∧
    Except.map ArcReplacer.mru_target_size_
      ((ArcReplacer.reached 2 ArcReplacer.frameInRange
        [ArcCall.record_access 0 5, ArcCall.record_access 1 5, ArcCall.record_access 1 5,
          ArcCall.set_evictable 0 true, ArcCall.set_evictable 1 true, ArcCall.evict,
          ArcCall.evict]).RecordAccess 0 5) = Except.ok 18446744073709551615 ∧
    min (0 + max (1 / 1) 1) 2 = 1 ∧
    (ArcReplacer.callsFrom ArcReplacer.anyCall (ArcReplacer.new 1)
        [ArcCall.record_access 0 5, ArcCall.set_evictable 0 true, ArcCall.evict,
          ArcCall.record_access 0 6]).isSome = true ∧
    (ArcReplacer.reached 1 ArcReplacer.anyCall
        [ArcCall.record_access 0 5, ArcCall.set_evictable 0 true, ArcCall.evict,
          ArcCall.record_access 0 6]).alive_map_.find 1 = none ∧
    ((ArcReplacer.reached 1 ArcReplacer.anyCall
        [ArcCall.record_access 0 5, ArcCall.set_evictable 0 true, ArcCall.evict,
          ArcCall.record_access 0 6]).mru_ghost_,
      (ArcReplacer.reached 1 ArcReplacer.anyCall
        [ArcCall.record_access 0 5, ArcCall.set_evictable 0 true, ArcCall.evict,
          ArcCall.record_access 0 6]).mfu_ghost_) = ([5], []) ∧
    Option.map FrameStatus.arc_status_
      ((ArcReplacer.reached 1 ArcReplacer.anyCall
        [ArcCall.record_access 0 5, ArcCall.set_evictable 0 true, ArcCall.evict,
          ArcCall.record_access 0 6]).ghost_map_.find 5) = some ArcStatus.MRU_GHOST ∧
    ((ArcReplacer.reached 1 ArcReplacer.anyCall
        [ArcCall.record_access 0 5, ArcCall.set_evictable 0 true, ArcCall.evict,
          ArcCall.record_access 0 6]).mru_target_size_,
      (ArcReplacer.reached 1 ArcReplacer.anyCall
        [ArcCall.record_access 0 5, ArcCall.set_evictable 0 true, ArcCall.evict,
          ArcCall.record_access 0 6]).replacer_size_) = (0, 1) ∧
    (ArcReplacer.reached 1 ArcReplacer.anyCall
        [ArcCall.record_access 0 5, ArcCall.set_evictable 0 true, ArcCall.evict,
          ArcCall.record_access 0 6]).RecordAccess 1 5 = Except.error Err.deadlock :=
  ⟨by decide, by decide, by decide, by decide, by decide, by decide, by decide, by decide,
    by decide, by decide, by decide, by decide, by decide⟩

/-- C30, the code at two failing inputs.  In a replacer of capacity 1 in which frame 0 is alive
with page 5, frame 1 is not alive and page 6 is in no ghost list: `RecordAccess(1, 6)` does not
end with frame 1 at the head of T1; it never returns, for with two entries in the alive map it
calls `Evict()` while it holds `latch_`.  In a replacer of capacity 2 in which page 5, given to
the frames 0 and 1 and evicted twice, is in B1 and in B2 and is tagged `MFU_GHOST`:
`RecordAccess(0, 5)` returns with frame 0 alive at the head of T2 and page 5 out of B2 and of
the ghost map, but still in B1. -/
theorem C30_record_access_never_returns :
    (ArcReplacer.callsFrom ArcReplacer.anyCall (ArcReplacer.new 1)
        [ArcCall.record_access 0 5]).isSome = true ∧
    Option.map FrameStatus.page_id_
      ((ArcReplacer.reached 1 ArcReplacer.anyCall
        [ArcCall.record_access 0 5]).alive_map_.find 0) = some 5 ∧
    (ArcReplacer.reached 1 ArcReplacer.anyCall
        [ArcCall.record_access 0 5]).alive_map_.find 1 = none ∧
    ((ArcReplacer.reached 1 ArcReplacer.anyCall [ArcCall.record_access 0 5]).mru_ghost_,
      (ArcReplacer.reached 1 ArcReplacer.anyCall [ArcCall.record_access 0 5]).mfu_ghost_)
      = ([], []) ∧
    (ArcReplacer.reached 1 ArcReplacer.anyCall
        [ArcCall.record_access 0 5]).RecordAccess 1 6 = Except.error Err.deadlock ∧
    (ArcReplacer.callsFrom ArcReplacer.frameInRange (ArcReplacer.new 2)
        [ArcCall.record_access 0 5, ArcCall.record_access 1 5, ArcCall.record_access 1 5,
          ArcCall.set_evictable 0 true, ArcCall.set_evictable 1 true, ArcCall.evict,
          ArcCall.evict]).isSome = true ∧
    (ArcReplacer.reached 2 ArcReplacer.frameInRange
        [ArcCall.record_access 0 5, ArcCall.record_access 1 5, ArcCall.record_access 1 5,
          ArcCall.set_evictable 0 true, ArcCall.set_evictable 1 true, ArcCall.evict,
          ArcCall.evict]).alive_map_.find 0 = none ∧
    ((ArcReplacer.reached 2 ArcReplacer.frameInRange
        [ArcCall.record_access 0 5, ArcCall.record_access 1 5, ArcCall.record_access 1 5,
          ArcCall.set_evictable 0 true, ArcCall.set_evictable 1 true, ArcCall.evict,
          ArcCall.evict]).mru_ghost_,
      (ArcReplacer.reached 2 ArcReplacer.frameInRange
        [ArcCall.record_access 0 5, ArcCall.record_access 1 5, ArcCall.record_access 1 5,
          ArcCall.set_evictable 0 true, ArcCall.set_evictable 1 true, ArcCall.evict,
          ArcCall.evict]).mfu_ghost_) = ([5], [5]) ∧
    Except.map (fun s => (s.mfu_, s.mru_ghost_, s.mfu_ghost_, s.ghost_map_.find 5))
      ((ArcReplacer.reached 2 ArcReplacer.frameInRange
        [ArcCall.record_access 0 5, ArcCall.record_access 1 5, ArcCall.record_access 1 5,
          ArcCall.set_evictable 0 true, ArcCall.set_evictable 1 true, ArcCall.evict,
          ArcCall.evict]).RecordAccess 0 5) = Except.ok ([0], [5], [], none) :=
  ⟨by decide, by decide, by decide, by decide, by decide, by decide, by decide, by decide,
    by decide⟩


/-! ## The join with an empty right chain -/

/-- C29, the code at the failing input: in a pool of four frames, no guard held, with the left
chain of the three rows `(0, 0)`, `(0, 1)` and `(1, 0)` and the empty right chain (the start
RID of the right chain is not valid), the join has no pair, and `ExecuteJoin` with
`block_size = 1` does not return with `results_` empty: it throws `runtime_error`, from the
`ReadPage(right_start.page_id)` that it makes before the test `right_curr_rid.IsValid()`.  With
the empty left chain it returns with `results_` empty, the start RID of the left chain being
tested before any page is read. -/
theorem C29_join_throws_for_empty_right_chain :
    Pool.Reachable 4 DiskManagerMemory.new Pool.joinFourFrames ∧
    Pool.joinFourFrames.guards = [] ∧
    RowChain Pool.joinFourFrames.bpm.content SIMPLE_ROW_SIZE ⟨0, 0⟩
      [(⟨0, 0⟩, 5), (⟨0, 1⟩, 6), (⟨1, 0⟩, 5)] ∧
    RowChain Pool.joinFourFrames.bpm.content SIMPLE_ROW_SIZE RID.default [] ∧
    joinPairs [(⟨0, 0⟩, 5), (⟨0, 1⟩, 6), (⟨1, 0⟩, 5)] [] = [] ∧
    BlockNestedLoopJoinExecutor.ExecuteJoin SIMPLE_ROW_SIZE SIMPLE_ROW_SIZE 6
      Pool.joinFourFrames.bpm ⟨0, 0⟩ RID.default 1 = Except.error Err.runtime_error ∧
    Except.map Prod.snd (BlockNestedLoopJoinExecutor.ExecuteJoin SIMPLE_ROW_SIZE SIMPLE_ROW_SIZE
      6 Pool.joinFourFrames.bpm RID.default ⟨2, 0⟩ 1) = Except.ok [] :=
  ⟨Pool.reachable_after (by decide) (by decide), by decide,
    RowChain.cons (by decide) (by decide) (RowChain.cons (by decide) (by decide)
      (RowChain.cons (by decide) (by decide)
        (RowChain.nil (by decide) : RowChain _ _ ⟨-1, -1⟩ []))),
    RowChain.nil (by decide), by decide, by decide, by decide⟩


/-- C3, the code at the failing input: with `leaf_max_size = 1`, after `Insert` of 7, 3 and 3
(each returns true: the second `Insert(3)` does not find the key stored in page 1, see C2) the
leaf chain is page 1 with the keys 3 and 7, then page 2 with the key 3.  The loop from `Begin()`
to `End()` visits 3, 7 and 3: the key 3 twice, and not in increasing order. -/
theorem C3_iteration_visits_key_twice :
    run (BPlusTree.fresh 1 3) (insertRange 7 1 ++ insertRange 3 1 ++ insertRange 3 1)
      = Except.ok (built 1 3 (insertRange 7 1 ++ insertRange 3 1 ++ insertRange 3 1)) ∧
    Except.map (fun p => (p.IsLeafPage, p.GetSize, p.key 0, p.key 1, p.next_page_id_))
        ((built 1 3 (insertRange 7 1 ++ insertRange 3 1 ++ insertRange 3 1)).page 1)
      = Except.ok (true, 2, 3, 7, 2) ∧
    Except.map (fun p => (p.IsLeafPage, p.GetSize, p.key 0, p.next_page_id_))
        ((built 1 3 (insertRange 7 1 ++ insertRange 3 1 ++ insertRange 3 1)).page 2)
      = Except.ok (true, 1, 3, INVALID_PAGE_ID) ∧
    (built 1 3 (insertRange 7 1 ++ insertRange 3 1 ++ insertRange 3 1)).Begin
      = Except.ok ⟨1, 0⟩ ∧
    (built 1 3 (insertRange 7 1 ++ insertRange 3 1 ++ insertRange 3 1)).End
      = Except.ok ⟨2, 1⟩ ∧
    Except.map (fun out => out.map Prod.fst)
        ((built 1 3 (insertRange 7 1 ++ insertRange 3 1 ++ insertRange 3 1)).iterateLoop
          ⟨2, 1⟩ 10 ⟨1, 0⟩ [])
      = Except.ok [3, 7, 3] :=
  ⟨by decide, by decide, by decide, by decide, by decide, by decide⟩

/-! ## The heights of the pages -/

namespace BPlusTree

theorem Keeps.keeps_inRange {t t2 : BPlusTree} {h h2 : Int → Nat} {c : Int} {q : Page}
    (hk : Keeps t t2 h h2) (hq : t.page c = Except.ok q) : ∃ q2, t2.page c = Except.ok q2 := by
  obtain ⟨q2, hq2, _, _⟩ := hk c q hq
  exact ⟨q2, hq2⟩

end BPlusTree

/-! ## The child slots of internal pages after the loops of Insert and Remove -/

namespace Page

end Page

namespace Page

end Page

namespace BPlusTree

end BPlusTree

namespace BPlusTree

end BPlusTree

namespace BPlusTree

end BPlusTree

namespace BPlusTree

end BPlusTree

namespace BPlusTree

end BPlusTree

namespace BPlusTree

end BPlusTree

namespace BPlusTree

end BPlusTree

namespace BPlusTree

end BPlusTree

namespace BPlusTree

end BPlusTree

/-! ## All leaves are at the same depth -/

end bicycletub
